import Mathlib

/-!
# SupportSpotsGenerator: a verification development

Shallow embedding of `src/libslic3r/SupportSpotsGenerator.cpp` (and the `Params`
bundle of `SupportSpotsGenerator.hpp`).

## Numbers

A C++ `float`/`double` is modelled by `Flt`: an exact rational, or one of the
IEEE special values `+inf`, `-inf`, `NaN`.  Arithmetic on finite values is
exact (no rounding); the special values follow the IEEE rules (`inf - inf`,
`0 * inf`, `0 / 0`, `inf / inf` and the square root of a negative number are
`NaN`, every comparison with `NaN` is false).  Zero is unsigned: `x / 0` for a
finite non-zero `x` is the infinity of the sign of `x`.

## Maps

`std::unordered_map<size_t, T>` of the part tracker is a function
`Nat → Option T`; `at` on a missing key (which throws `std::out_of_range`) makes
the embedded operation return `none`.  The connection map of an island is the
list of its entries; the order in which the map iterates over them, which the
standard leaves open, is taken to be the order of their insertion.

## Loops and undefined behaviour

A function whose run can meet undefined behaviour (an index outside a vector, a
cast of a value that does not fit, a null pointer) or can fail to end returns an
`Option`, `none` standing for such a run.  The two loops whose counter is a
floating point value (`distribute_edge` and the segment loop of
`reckon_islands`) are given the number of iterations that the loop takes on
finite values with a positive step; when the loop would not end, the embedded
loop returns `none`.  The `tbb::parallel_for` of `reckon_islands` is run
sequentially, in index order.
-/

namespace SupportSpotsGenerator

/-! ## Scalars -/

/-- Value of a C++ floating point variable: exact rational or IEEE special value. -/
inductive Flt where
  | fin (q : ℚ)
  | pinf
  | ninf
  | nan
deriving DecidableEq

namespace Flt

instance : Inhabited Flt := ⟨fin 0⟩
instance : Zero Flt := ⟨fin 0⟩
instance : One Flt := ⟨fin 1⟩

/-- Unary minus. -/
def neg : Flt → Flt
  | fin a => fin (-a)
  | pinf => ninf
  | ninf => pinf
  | nan => nan

/-- IEEE addition, exact on finite values. -/
def add : Flt → Flt → Flt
  | fin a, fin b => fin (a + b)
  | nan, _ => nan
  | _, nan => nan
  | pinf, ninf => nan
  | ninf, pinf => nan
  | pinf, _ => pinf
  | _, pinf => pinf
  | ninf, _ => ninf
  | _, ninf => ninf

/-- Infinity of the sign of `s` times `+inf`; `NaN` when `s = 0`. -/
def signedInf (s : ℚ) : Flt :=
  if s = 0 then nan else if 0 < s then pinf else ninf

/-- IEEE multiplication, exact on finite values. -/
def mul : Flt → Flt → Flt
  | fin a, fin b => fin (a * b)
  | nan, _ => nan
  | _, nan => nan
  | fin a, pinf => signedInf a
  | fin a, ninf => signedInf (-a)
  | pinf, fin b => signedInf b
  | ninf, fin b => signedInf (-b)
  | pinf, pinf => pinf
  | ninf, ninf => pinf
  | pinf, ninf => ninf
  | ninf, pinf => ninf

/-- IEEE division, exact on finite values; zero is unsigned. -/
def div : Flt → Flt → Flt
  | fin a, fin b => if b = 0 then signedInf a else fin (a / b)
  | nan, _ => nan
  | _, nan => nan
  | fin _, pinf => fin 0
  | fin _, ninf => fin 0
  | pinf, fin b => if 0 ≤ b then pinf else ninf
  | ninf, fin b => if 0 ≤ b then ninf else pinf
  | pinf, pinf => nan
  | pinf, ninf => nan
  | ninf, pinf => nan
  | ninf, ninf => nan

instance : Neg Flt := ⟨neg⟩
instance : Add Flt := ⟨add⟩
instance : Sub Flt := ⟨fun a b => add a (neg b)⟩
instance : Mul Flt := ⟨mul⟩
instance : Div Flt := ⟨div⟩

/-- IEEE `<`: false as soon as one side is `NaN`. -/
def lt : Flt → Flt → Bool
  | fin a, fin b => decide (a < b)
  | nan, _ => false
  | _, nan => false
  | ninf, ninf => false
  | ninf, _ => true
  | _, ninf => false
  | pinf, _ => false
  | _, pinf => true

/-- IEEE `==`: `NaN` is not equal to itself. -/
def feq : Flt → Flt → Bool
  | fin a, fin b => decide (a = b)
  | pinf, pinf => true
  | ninf, ninf => true
  | _, _ => false

instance : LT Flt := ⟨fun a b => lt a b = true⟩
instance : LE Flt := ⟨fun a b => lt a b = true ∨ feq a b = true⟩
instance (a b : Flt) : Decidable (a < b) := inferInstanceAs (Decidable (lt a b = true))
instance (a b : Flt) : Decidable (a ≤ b) :=
  inferInstanceAs (Decidable (lt a b = true ∨ feq a b = true))

/-- C++ `std::max(a, b)`, which is `(a < b) ? b : a`. -/
def max (a b : Flt) : Flt := if a < b then b else a

/-- C++ `std::min(a, b)`, which is `(b < a) ? b : a`. -/
def min (a b : Flt) : Flt := if b < a then b else a

/-- C `fabs` / `std::abs`. -/
def fabs : Flt → Flt
  | fin a => fin |a|
  | pinf => pinf
  | ninf => pinf
  | nan => nan

/-- C `sqrt`, given the library's square root `sq` on the finite non-negative values. -/
def sqrt (sq : ℚ → ℚ) : Flt → Flt
  | fin a => if a < 0 then nan else fin (sq a)
  | pinf => pinf
  | ninf => nan
  | nan => nan

/-- A value that is neither infinite nor `NaN`. -/
def isFinite : Flt → Bool
  | fin _ => true
  | _ => false

end Flt

open Flt (fin pinf ninf nan)

namespace Flt

instance : AddCommMonoid Flt :=
  { (inferInstance : Add Flt), (inferInstance : Zero Flt) with
    add_assoc := fun a b c => by
      cases a <;> cases b <;> cases c <;> first | rfl | exact congrArg fin (add_assoc _ _ _)
    zero_add := fun a => by
      cases a <;> first | rfl | exact congrArg fin (zero_add _)
    add_zero := fun a => by
      cases a <;> first | rfl | exact congrArg fin (add_zero _)
    add_comm := fun a b => by
      cases a <;> cases b <;> first | rfl | exact congrArg fin (add_comm _ _)
    nsmul := nsmulRec }

end Flt

/-! ## Vectors (Eigen `Vec2f`, `Vec3f`, `Vec3i`) -/

/-- Eigen `Vec2f`. -/
structure Vec2f where
  x : Flt
  y : Flt
deriving DecidableEq, Inhabited

/-- Eigen `Vec3f`. -/
structure Vec3f where
  x : Flt
  y : Flt
  z : Flt
deriving DecidableEq, Inhabited

namespace Vec2f

/-- `Vec2f::Zero()`. -/
def zero : Vec2f := ⟨0, 0⟩

instance : Add Vec2f := ⟨fun u v => ⟨u.x + v.x, u.y + v.y⟩⟩
instance : Sub Vec2f := ⟨fun u v => ⟨u.x - v.x, u.y - v.y⟩⟩
instance : Zero Vec2f := ⟨Vec2f.zero⟩

/-- Product with a scalar, `v * s`. -/
def scale (v : Vec2f) (s : Flt) : Vec2f := ⟨v.x * s, v.y * s⟩

/-- Product with a scalar on the left, `s * v`. -/
def smul (s : Flt) (v : Vec2f) : Vec2f := ⟨s * v.x, s * v.y⟩

/-- Quotient by a scalar, `v / s`. -/
def divs (v : Vec2f) (s : Flt) : Vec2f := ⟨v.x / s, v.y / s⟩

/-- Eigen `cwiseProduct`. -/
def cwiseProduct (u v : Vec2f) : Vec2f := ⟨u.x * v.x, u.y * v.y⟩

/-- Eigen `squaredNorm`. -/
def squaredNorm (v : Vec2f) : Flt := v.x * v.x + v.y * v.y

/-- Eigen `norm`. -/
def norm (sq : ℚ → ℚ) (v : Vec2f) : Flt := Flt.sqrt sq v.squaredNorm

/-- Eigen `normalized` / `normalize`: the vector is left alone unless its squared norm is
positive. -/
def normalized (sq : ℚ → ℚ) (v : Vec2f) : Vec2f :=
  if (0 : Flt) < v.squaredNorm then v.divs (Flt.sqrt sq v.squaredNorm) else v

/-- Componentwise `!=` of Eigen (true as soon as one pair of coefficients differs). -/
def ne (u v : Vec2f) : Bool := !(Flt.feq u.x v.x && Flt.feq u.y v.y)

instance : AddCommMonoid Vec2f :=
  { (inferInstance : Add Vec2f), (inferInstance : Zero Vec2f) with
    add_assoc := fun a b c => by
      show Vec2f.mk _ _ = Vec2f.mk _ _
      congr 1 <;> exact add_assoc _ _ _
    zero_add := fun a => by
      show Vec2f.mk _ _ = a
      cases a; congr 1 <;> exact zero_add _
    add_zero := fun a => by
      show Vec2f.mk _ _ = a
      cases a; congr 1 <;> exact add_zero _
    add_comm := fun a b => by
      show Vec2f.mk _ _ = Vec2f.mk _ _
      congr 1 <;> exact add_comm _ _
    nsmul := nsmulRec }

end Vec2f

namespace Vec3f

/-- `Vec3f::Zero()`. -/
def zero : Vec3f := ⟨0, 0, 0⟩

instance : Add Vec3f := ⟨fun u v => ⟨u.x + v.x, u.y + v.y, u.z + v.z⟩⟩
instance : Sub Vec3f := ⟨fun u v => ⟨u.x - v.x, u.y - v.y, u.z - v.z⟩⟩
instance : Zero Vec3f := ⟨Vec3f.zero⟩

/-- Product with a scalar. -/
def scale (v : Vec3f) (s : Flt) : Vec3f := ⟨v.x * s, v.y * s, v.z * s⟩

/-- Product with a scalar on the left, `s * v`. -/
def smul (s : Flt) (v : Vec3f) : Vec3f := ⟨s * v.x, s * v.y, s * v.z⟩

/-- Quotient by a scalar, `v / s`. -/
def divs (v : Vec3f) (s : Flt) : Vec3f := ⟨v.x / s, v.y / s, v.z / s⟩

/-- Eigen `head<2>()`. -/
def head2 (v : Vec3f) : Vec2f := ⟨v.x, v.y⟩

instance : AddCommMonoid Vec3f :=
  { (inferInstance : Add Vec3f), (inferInstance : Zero Vec3f) with
    add_assoc := fun a b c => by
      show Vec3f.mk _ _ _ = Vec3f.mk _ _ _
      congr 1 <;> exact add_assoc _ _ _
    zero_add := fun a => by
      show Vec3f.mk _ _ _ = a
      cases a; congr 1 <;> exact zero_add _
    add_zero := fun a => by
      show Vec3f.mk _ _ _ = a
      cases a; congr 1 <;> exact add_zero _
    add_comm := fun a b => by
      show Vec3f.mk _ _ _ = Vec3f.mk _ _ _
      congr 1 <;> exact add_comm _ _
    nsmul := nsmulRec }

end Vec3f

/-- The helper `to_3d(v, z)`. -/
def to_3d (v : Vec2f) (z : Flt) : Vec3f := ⟨v.x, v.y, z⟩

/-! ## Data model -/

/-- The extrusion roles that the analyzer distinguishes (`ExtrusionRole`). -/
inductive ExtrusionRole where
  | erNone
  | erPerimeter
  | erExternalPerimeter
  | erInternalInfill
  | erSolidInfill
  | erTopSolidInfill
  | erBridgeInfill
  | erGapFill
  | erOther
deriving DecidableEq, Inhabited

/-- What an `ExtrusionLine` keeps of its `origin_entity` pointer: the identity of the
pointed-to entity and the role it answers. -/
structure EntityRef where
  id : Nat
  role : ExtrusionRole
deriving DecidableEq, Inhabited

/-- Class `ExtrusionLine`; `origin_entity = none` is the null pointer. -/
structure ExtrusionLine where
  a : Vec2f
  b : Vec2f
  len : Flt
  origin_entity : Option EntityRef
  support_point_generated : Bool := false
  malformation : Flt := 0
  curled_up_height : Flt := 0
deriving DecidableEq, Inhabited

/-- Struct `IslandConnection`. -/
structure IslandConnection where
  area : Flt := 0
  centroid_accumulator : Vec3f := Vec3f.zero
  second_moment_of_area_accumulator : Vec2f := Vec2f.zero
  second_moment_of_area_covariance_accumulator : Flt := 0
deriving DecidableEq, Inhabited

/-- Method `IslandConnection::add`. -/
def IslandConnection.add (this other : IslandConnection) : IslandConnection :=
  { area := this.area + other.area
    centroid_accumulator := this.centroid_accumulator + other.centroid_accumulator
    second_moment_of_area_accumulator :=
      this.second_moment_of_area_accumulator + other.second_moment_of_area_accumulator
    second_moment_of_area_covariance_accumulator :=
      this.second_moment_of_area_covariance_accumulator
        + other.second_moment_of_area_covariance_accumulator }

/-- Struct `Island`.  The unordered map `connected_islands` is the list of its entries in
the order in which the map iterates over them. -/
structure Island where
  connected_islands : List (Nat × IslandConnection) := []
  volume : Flt := 0
  volume_centroid_accumulator : Vec3f := Vec3f.zero
  sticking_area : Flt := 0
  sticking_centroid_accumulator : Vec3f := Vec3f.zero
  sticking_second_moment_of_area_accumulator : Vec2f := Vec2f.zero
  sticking_second_moment_of_area_covariance_accumulator : Flt := 0
  external_lines : List ExtrusionLine := []
deriving Inhabited

/-- Struct `LayerIslands`. -/
structure LayerIslands where
  islands : List Island
  layer_z : Flt

/-- Class `ObjectPart` (its data members). -/
structure ObjectPart where
  volume : Flt := 0
  volume_centroid_accumulator : Vec3f := Vec3f.zero
  sticking_area : Flt := 0
  sticking_centroid_accumulator : Vec3f := Vec3f.zero
  sticking_second_moment_of_area_accumulator : Vec2f := Vec2f.zero
  sticking_second_moment_of_area_covariance_accumulator : Flt := 0
deriving DecidableEq, Inhabited

namespace ObjectPart

/-- Constructor `ObjectPart(const Island &island)`. -/
def ofIsland (island : Island) : ObjectPart :=
  { volume := island.volume
    volume_centroid_accumulator := island.volume_centroid_accumulator
    sticking_area := island.sticking_area
    sticking_centroid_accumulator := island.sticking_centroid_accumulator
    sticking_second_moment_of_area_accumulator := island.sticking_second_moment_of_area_accumulator
    sticking_second_moment_of_area_covariance_accumulator :=
      island.sticking_second_moment_of_area_covariance_accumulator }

/-- Method `ObjectPart::get_volume`. -/
def get_volume (this : ObjectPart) : Flt := this.volume

/-- Method `ObjectPart::add`. -/
def add (this other : ObjectPart) : ObjectPart :=
  { volume_centroid_accumulator := this.volume_centroid_accumulator + other.volume_centroid_accumulator
    volume := this.volume + other.volume
    sticking_area := this.sticking_area + other.sticking_area
    sticking_centroid_accumulator :=
      this.sticking_centroid_accumulator + other.sticking_centroid_accumulator
    sticking_second_moment_of_area_accumulator :=
      this.sticking_second_moment_of_area_accumulator
        + other.sticking_second_moment_of_area_accumulator
    sticking_second_moment_of_area_covariance_accumulator :=
      this.sticking_second_moment_of_area_covariance_accumulator
        + other.sticking_second_moment_of_area_covariance_accumulator }

/-- Method `ObjectPart::add_support_point`. -/
def add_support_point (this : ObjectPart) (position : Vec3f) (sticking_area : Flt) : ObjectPart :=
  { this with
    sticking_area := this.sticking_area + sticking_area
    sticking_centroid_accumulator :=
      this.sticking_centroid_accumulator + Vec3f.smul sticking_area position
    sticking_second_moment_of_area_accumulator :=
      this.sticking_second_moment_of_area_accumulator
        + Vec2f.smul sticking_area (position.head2.cwiseProduct position.head2)
    sticking_second_moment_of_area_covariance_accumulator :=
      this.sticking_second_moment_of_area_covariance_accumulator
        + sticking_area * position.x * position.y }

instance : Add ObjectPart := ⟨ObjectPart.add⟩
instance : Zero ObjectPart := ⟨{}⟩

instance : AddCommMonoid ObjectPart :=
  { (inferInstance : Add ObjectPart), (inferInstance : Zero ObjectPart) with
    add_assoc := fun a b c => by
      show ObjectPart.mk _ _ _ _ _ _ = ObjectPart.mk _ _ _ _ _ _
      congr 1 <;> exact add_assoc _ _ _
    zero_add := fun a => by
      show ObjectPart.mk _ _ _ _ _ _ = a
      cases a; congr 1 <;> exact zero_add _
    add_zero := fun a => by
      show ObjectPart.mk _ _ _ _ _ _ = a
      cases a; congr 1 <;> exact add_zero _
    add_comm := fun a b => by
      show ObjectPart.mk _ _ _ _ _ _ = ObjectPart.mk _ _ _ _ _ _
      congr 1 <;> exact add_comm _ _
    nsmul := nsmulRec }

end ObjectPart

/-! ## Parameters and external collaborators -/

/-- Struct `Params`.  The five last fields are read by `SupportSpotsGenerator.cpp` but are
declared in no file of `src/`; they are taken as further members of the bundle.  The member
`brim_type`, which the analyzer never reads, is left out. -/
structure Params where
  bridge_distance : Flt := fin 16
  max_acceleration : Flt
  raft_layers_count : Int
  filament_type : String
  brim_width : Flt
  malformation_distance_factors : Flt × Flt := (fin (1 / 5), fin (11 / 10))
  max_curled_height_factor : Flt := fin 10
  curled_distance_expansion : Flt := fin 1
  curling_tolerance_limit : Flt := fin (1 / 10)
  min_distance_between_support_points : Flt := fin 3
  support_points_interface_radius : Flt := fin (3 / 2)
  min_distance_to_allow_local_supports : Flt := fin 1
  gravity_constant : Flt := fin (980665 / 100)
  filament_density : Flt := fin (125 / 100000)
  material_yield_strength : Flt := fin 33000000
  standard_extruder_conflict_force : Flt := fin 10 * gravity_constant
  malformations_additive_conflict_extruder_force : Flt := fin 65 * gravity_constant
  bridge_distance_decrease_by_curvature_factor : Flt
  max_malformation_factor : Flt
  connections_min_considerable_area : Flt
  small_parts_threshold : Flt
  small_parts_support_points_interface_radius : Flt

/-- Method `Params::get_support_spots_adhesion_strength`. -/
def Params.get_support_spots_adhesion_strength (_this : Params) : Flt := fin 16000

/-- Method `Params::get_bed_adhesion_yield_strength`. -/
def Params.get_bed_adhesion_yield_strength (this : Params) : Flt :=
  if this.raft_layers_count > 0 then this.get_support_spots_adhesion_strength * fin 2
  else if this.filament_type = "PLA" then fin 20000
  else if this.filament_type = "PET" ∨ this.filament_type = "PETG" then fin 300000
  else if this.filament_type = "ABS" ∨ this.filament_type = "ASA" then fin 100000
  else fin 20000

/-- An `ExtrusionEntity`: a single path (with the identity of the object, its role and
the unscaled points of `as_polyline()`), or a collection of entities. -/
inductive ExtrusionEntity where
  | path (id : Nat) (role : ExtrusionRole) (polyline : List Vec2f)
  | collection (entities : List ExtrusionEntity)

/-- A `Point` in scaled integer coordinates. -/
abbrev Point := Int × Int

/-- A `Line` between two scaled points. -/
abbrev Line := Point × Point

/-- What the analyzer uses from the rest of the library and from the C library, none of
which is in `src/`: the square root (on finite non-negative values), the constants `PI` and
`EPSILON` of `libslic3r.h`, `angle(v1, v2)` of the geometry helpers, the query
`distance_from_lines_extra<true>` of `AABBTreeLines::LinesDistancer<ExtrusionLine>` (signed
distance, index of the nearest line, nearest point), `line_alg::distance_to` for the
line through two points, the conversions `unscale` and `Point::new_scale` between scaled
integer and floating point coordinates, the query `signed_distance_from_lines` of
`AABBTreeLines::LinesDistancer<Line>` and the `role()` of an `ExtrusionEntityCollection`. -/
structure Env where
  sqrtf : ℚ → ℚ
  PI : Flt
  EPSILON : Flt
  angle : Vec2f → Vec2f → Flt
  distance_from_lines_extra : List ExtrusionLine → Vec2f → Flt × Nat × Vec2f
  distance_to : Vec2f → Vec2f → Vec2f → Flt
  unscale : Int → Flt
  new_scale : Vec2f → Point
  signed_distance_from_lines : List Line → Point → Flt
  collection_role : List ExtrusionEntity → ExtrusionRole

/-- Enum `FlowRole`. -/
inductive FlowRole where
  | frExternalPerimeter
  | frPerimeter
  | frInfill
  | frSolidInfill
  | frTopSolidInfill
  | frSupportMaterial
  | frSupportMaterialInterface
deriving DecidableEq, Inhabited

/-- What the analyzer reads of a `LayerRegion`: the width of `flow(role)`, the height of
its layer (`layer()->height`) and the extrusions `perimeters` and `fills`. -/
structure LayerRegion where
  flow_width : FlowRole → Flt
  layer_height : Flt
  perimeters : List ExtrusionEntity := []
  fills : List ExtrusionEntity := []

/-- Struct `SupportPoint`. -/
structure SupportPoint where
  position : Vec3f
  force : Flt
  spot_radius : Flt
  direction : Vec3f
deriving DecidableEq, Inhabited

/-- Struct `Issues`. -/
structure Issues where
  support_points : List SupportPoint := []
deriving DecidableEq, Inhabited

/-- Constructor `ExtrusionLine(a, b, origin_entity)`. -/
def ExtrusionLine.make (env : Env) (a b : Vec2f) (origin_entity : Option EntityRef) :
    ExtrusionLine :=
  { a := a, b := b, len := (a - b).norm env.sqrtf, origin_entity := origin_entity }

/-- Function `get_flow_width`. -/
def get_flow_width (region : LayerRegion) (role : ExtrusionRole) : Flt :=
  if role = .erBridgeInfill then region.flow_width .frExternalPerimeter
  else if role = .erExternalPerimeter then region.flow_width .frExternalPerimeter
  else if role = .erGapFill then region.flow_width .frInfill
  else if role = .erPerimeter then region.flow_width .frPerimeter
  else if role = .erSolidInfill then region.flow_width .frSolidInfill
  else if role = .erInternalInfill then region.flow_width .frInfill
  else if role = .erTopSolidInfill then region.flow_width .frTopSolidInfill
  else region.flow_width .frPerimeter

/-- Conversion of a floating point value to `int`: the value truncated toward zero;
undefined (`none`) for a value that is not finite or does not fit 32 bits. -/
def Flt.toInt : Flt → Option Int
  | fin q =>
    let t : Int := if 0 ≤ q then ⌊q⌋ else ⌈q⌉
    if -2147483648 ≤ t ∧ t ≤ 2147483647 then some t else none
  | _ => none

/-- C `std::ceil`. -/
def Flt.ceil : Flt → Flt
  | fin q => fin (⌈q⌉ : Int)
  | x => x

/-- Conversion of an `int` to a floating point value. -/
def Flt.ofInt (i : Int) : Flt := fin i

/-! ## Local bridging analysis -/

/-- Struct `ExtrusionPropertiesAccumulator`. -/
structure ExtrusionPropertiesAccumulator where
  distance : Flt := 0
  curvature : Flt := 0
  max_curvature : Flt := 0
deriving DecidableEq, Inhabited

namespace ExtrusionPropertiesAccumulator

/-- Method `add_distance`. -/
def add_distance (this : ExtrusionPropertiesAccumulator) (dist : Flt) :
    ExtrusionPropertiesAccumulator :=
  { this with distance := this.distance + dist }

/-- Method `add_angle`. -/
def add_angle (this : ExtrusionPropertiesAccumulator) (ccw_angle : Flt) :
    ExtrusionPropertiesAccumulator :=
  { this with
    curvature := this.curvature + ccw_angle
    max_curvature := Flt.max this.max_curvature (Flt.fabs (this.curvature + ccw_angle)) }

/-- Method `reset`. -/
def reset (_this : ExtrusionPropertiesAccumulator) : ExtrusionPropertiesAccumulator :=
  { distance := 0, curvature := 0, max_curvature := 0 }

end ExtrusionPropertiesAccumulator

/-- Inner loop of `to_short_lines`: the lines `i, i + 1, ..., lines_count - 1` of one
polyline segment (`n` is the number of them). -/
def to_short_lines_segment (env : Env) (e : Option EntityRef) (start v : Vec2f)
    (step_size : Flt) : Nat → Int → List ExtrusionLine
  | 0, _ => []
  | n + 1, i =>
    ExtrusionLine.make env (start + v.scale (Flt.ofInt i * step_size))
        (start + v.scale (Flt.ofInt (i + 1) * step_size)) e
      :: to_short_lines_segment env e start v step_size n (i + 1)

/-- Outer loop of `to_short_lines` over the pairs of consecutive points. -/
def to_short_lines_loop (env : Env) (e : Option EntityRef) (length_limit : Flt) :
    List Vec2f → Option (List ExtrusionLine)
  | start :: next :: rest =>
    let v := next - start
    let dist_to_next := v.norm env.sqrtf
    let v := v.normalized env.sqrtf
    match (Flt.ceil (dist_to_next / length_limit)).toInt with
    | none => none
    | some lines_count =>
      let step_size := dist_to_next / Flt.ofInt lines_count
      match to_short_lines_loop env e length_limit (next :: rest) with
      | none => none
      | some tail =>
        some (to_short_lines_segment env e start v step_size lines_count.toNat 0 ++ tail)
  | _ => some []

/-- Function `to_short_lines`; `none` when the polyline has no point (`pl.points[0]`) or a
line count is not representable. -/
def to_short_lines (env : Env) (e : Option EntityRef) (polyline : List Vec2f)
    (length_limit : Flt) : Option (List ExtrusionLine) :=
  match polyline with
  | [] => none
  | p0 :: _ =>
    match to_short_lines_loop env e length_limit polyline with
    | none => none
    | some lines => some (ExtrusionLine.make env p0 p0 e :: lines)

/-- The variables that the line loop of `check_extrusion_entity_stability` carries from one
line to the next. -/
structure LineLoopState where
  bridging_acc : ExtrusionPropertiesAccumulator := {}
  malformation_acc : ExtrusionPropertiesAccumulator := {}
  issues : Issues := {}
deriving DecidableEq, Inhabited

/-- `LinesDistancer::get_line(idx)`; an index outside the lines is undefined (`none`). -/
def get_line (lines : List ExtrusionLine) (idx : Nat) : Option ExtrusionLine := lines.get? idx

/-- The support point that `check_extrusion_entity_stability` emits at the end `b` of a line. -/
def local_support_point (params : Params) (layer_z : Flt) (b : Vec2f) : SupportPoint :=
  { position := ⟨b.x, b.y, layer_z⟩, force := fin 0
    spot_radius := params.support_points_interface_radius
    direction := ⟨fin 0, fin 0, fin (-1)⟩ }

/-- The local `curr_angle` of the line loop of `check_extrusion_entity_stability`;
`next_line` is `lines[line_idx + 1]`, absent for the last line. -/
def curr_angle (env : Env) (current_line : ExtrusionLine) (next_line : Option ExtrusionLine) :
    Flt :=
  match next_line with
  | some next => env.angle (current_line.b - current_line.a) (next.b - next.a)
  | none => 0

/-- The bridging accumulator of the line loop of `check_extrusion_entity_stability` once the
angle of the line has been added (`first_a` is `lines.begin()->a`). -/
def bridging_acc_with_angle (env : Env) (params : Params) (first_a : Vec2f)
    (next_line : Option ExtrusionLine) (bridging_acc : ExtrusionPropertiesAccumulator)
    (current_line : ExtrusionLine) : ExtrusionPropertiesAccumulator :=
  let bridging_acc :=
    if next_line.isNone && Vec2f.ne current_line.b first_a then
      bridging_acc.add_distance (params.bridge_distance + fin 1)
    else bridging_acc
  bridging_acc.add_angle (curr_angle env current_line next_line)

/-- First half of the body of the line loop of `check_extrusion_entity_stability` (up to
the comment `//malformation`): the bridging accumulator, the issues and the line after the
support test. -/
def check_extrusion_entity_stability_bridging (env : Env) (params : Params) (layer_z : Flt)
    (layer_region : LayerRegion) (flow_width : Flt) (prev_layer_lines : List ExtrusionLine)
    (first_a : Vec2f) (next_line : Option ExtrusionLine)
    (bridging_acc : ExtrusionPropertiesAccumulator) (issues : Issues)
    (current_line : ExtrusionLine) :
    Option (ExtrusionPropertiesAccumulator × Issues × ExtrusionLine) :=
  let bridging_acc := bridging_acc_with_angle env params first_a next_line bridging_acc
    current_line
  let dist_from_prev_layer := (env.distance_from_lines_extra prev_layer_lines current_line.b).1
  let nearest_line_idx := (env.distance_from_lines_extra prev_layer_lines current_line.b).2.1
  if Flt.fabs dist_from_prev_layer < flow_width then
    some (bridging_acc.reset, issues, current_line)
  else
    let bridging_acc := bridging_acc.add_distance current_line.len
    let in_layer_dist_condition : Bool :=
      params.bridge_distance / (fin 1 + (bridging_acc.max_curvature
          * params.bridge_distance_decrease_by_curvature_factor / env.PI))
        < bridging_acc.distance
    let between_layers_condition : Option Bool :=
      if flow_width < Flt.fabs dist_from_prev_layer then some true
      else
        match get_line prev_layer_lines nearest_line_idx with
        | none => none
        | some nearest => some (fin 3 * layer_region.layer_height < nearest.malformation)
    match between_layers_condition with
    | none => none
    | some between_layers_condition =>
      if in_layer_dist_condition && between_layers_condition then
        some (bridging_acc.reset,
          { support_points := issues.support_points ++
              [{ position := ⟨current_line.b.x, current_line.b.y, layer_z⟩
                 force := fin 0
                 spot_radius := params.support_points_interface_radius
                 direction := ⟨fin 0, fin 0, fin (-1)⟩ }] },
          { current_line with support_point_generated := true })
      else some (bridging_acc, issues, current_line)

/-- Second half of the body of the line loop of `check_extrusion_entity_stability` (from
the comment `//malformation` on): the malformation accumulator and the line. -/
def check_extrusion_entity_stability_malformation (env : Env) (params : Params)
    (layer_region : LayerRegion) (flow_width : Flt) (prev_layer_lines : List ExtrusionLine)
    (next_line : Option ExtrusionLine) (malformation_acc : ExtrusionPropertiesAccumulator)
    (current_line : ExtrusionLine) : Option (ExtrusionPropertiesAccumulator × ExtrusionLine) :=
  let min_malformation_dist := params.malformation_distance_factors.1 * flow_width
  let max_malformation_dist := params.malformation_distance_factors.2 * flow_width
  let curr_angle := curr_angle env current_line next_line
  let malformation_acc := malformation_acc.add_angle (Flt.max (fin 0) curr_angle)
  let malformation_acc :=
    if curr_angle < fin (-20) * env.PI / fin 180 then malformation_acc.reset else malformation_acc
  let dist_from_prev_layer := (env.distance_from_lines_extra prev_layer_lines current_line.b).1
  let nearest_line_idx := (env.distance_from_lines_extra prev_layer_lines current_line.b).2.1
  let current_line : Option ExtrusionLine :=
    if Flt.fabs dist_from_prev_layer < fin 2 * flow_width then
      match get_line prev_layer_lines nearest_line_idx with
      | none => none
      | some nearest_line =>
        some { current_line with
          malformation := current_line.malformation + fin (85 / 100) * nearest_line.malformation }
    else some current_line
  match current_line with
  | none => none
  | some current_line =>
    if min_malformation_dist < dist_from_prev_layer
        ∧ dist_from_prev_layer < max_malformation_dist then
      let factor :=
        Flt.fabs (dist_from_prev_layer
            - (max_malformation_dist + min_malformation_dist) * fin (1 / 2))
          / (max_malformation_dist - min_malformation_dist)
      let malformation_acc := malformation_acc.add_distance current_line.len
      let malformation := current_line.malformation
        + layer_region.layer_height * factor
          * (fin 2 + fin 3 * (malformation_acc.max_curvature / env.PI))
      let malformation :=
        Flt.min malformation (layer_region.layer_height * params.max_malformation_factor)
      some (malformation_acc, { current_line with malformation := malformation })
    else some (malformation_acc.reset, current_line)

/-- Body of the line loop of `check_extrusion_entity_stability` for `current_line`:
`first_a` is `lines.begin()->a` and `next_line` is `lines[line_idx + 1]`, absent for the
last line. The result is the state after the iteration and the updated line. -/
def check_extrusion_entity_stability_body (env : Env) (params : Params) (layer_z : Flt)
    (layer_region : LayerRegion) (flow_width : Flt) (prev_layer_lines : List ExtrusionLine)
    (first_a : Vec2f) (next_line : Option ExtrusionLine) (st : LineLoopState)
    (current_line : ExtrusionLine) : Option (LineLoopState × ExtrusionLine) :=
  match check_extrusion_entity_stability_bridging env params layer_z layer_region flow_width
      prev_layer_lines first_a next_line st.bridging_acc st.issues current_line with
  | none => none
  | some (bridging_acc, issues, line) =>
    match check_extrusion_entity_stability_malformation env params layer_region flow_width
        prev_layer_lines next_line st.malformation_acc line with
    | none => none
    | some (malformation_acc, line) =>
      some ({ bridging_acc := bridging_acc, malformation_acc := malformation_acc,
              issues := issues }, line)

/-- The line loop of `check_extrusion_entity_stability` over the lines not yet visited;
the visited lines are returned in order. -/
def check_extrusion_entity_stability_loop (env : Env) (params : Params) (layer_z : Flt)
    (layer_region : LayerRegion) (flow_width : Flt) (prev_layer_lines : List ExtrusionLine)
    (first_a : Vec2f) :
    List ExtrusionLine → LineLoopState → Option (LineLoopState × List ExtrusionLine)
  | [], st => some (st, [])
  | current_line :: rest, st =>
    match check_extrusion_entity_stability_body env params layer_z layer_region flow_width
        prev_layer_lines first_a rest.head? st current_line with
    | none => none
    | some (st, line) =>
      match check_extrusion_entity_stability_loop env params layer_z layer_region flow_width
          prev_layer_lines first_a rest st with
      | none => none
      | some (st, lines) => some (st, line :: lines)

mutual

/-- Function `check_extrusion_entity_stability`: the new `checked_lines_out` and `issues`;
`none` when the run meets undefined behaviour. -/
def check_extrusion_entity_stability (env : Env) (entity : ExtrusionEntity)
    (checked_lines_out : List ExtrusionLine) (layer_z : Flt) (layer_region : LayerRegion)
    (prev_layer_lines : List ExtrusionLine) (issues : Issues) (params : Params) :
    Option (List ExtrusionLine × Issues) :=
  match entity with
  | .collection entities =>
    check_extrusion_entity_stability_all env entities checked_lines_out layer_z layer_region
      prev_layer_lines issues params
  | .path id role polyline =>
    match to_short_lines env (some ⟨id, role⟩) polyline params.bridge_distance with
    | none => none
    | some lines =>
      match lines with
      | [] => some (checked_lines_out, issues)
      | first :: _ =>
        let bridging_acc : ExtrusionPropertiesAccumulator := {}
        let bridging_acc := bridging_acc.add_distance (params.bridge_distance + fin 1)
        let flow_width := get_flow_width layer_region role
        match check_extrusion_entity_stability_loop env params layer_z layer_region flow_width
            prev_layer_lines first.a lines
            { bridging_acc := bridging_acc, malformation_acc := {}, issues := issues } with
        | none => none
        | some (st, lines) => some (checked_lines_out ++ lines, st.issues)

/-- The loop of `check_extrusion_entity_stability` over the entities of a collection. -/
def check_extrusion_entity_stability_all (env : Env) (entities : List ExtrusionEntity)
    (checked_lines_out : List ExtrusionLine) (layer_z : Flt) (layer_region : LayerRegion)
    (prev_layer_lines : List ExtrusionLine) (issues : Issues) (params : Params) :
    Option (List ExtrusionLine × Issues) :=
  match entities with
  | [] => some (checked_lines_out, issues)
  | e :: rest =>
    match check_extrusion_entity_stability env e checked_lines_out layer_z layer_region
        prev_layer_lines issues params with
    | none => none
    | some (checked_lines_out, issues) =>
      check_extrusion_entity_stability_all env rest checked_lines_out layer_z layer_region
        prev_layer_lines issues params

end

/-! ## The object part tracker (`ActiveObjectParts`) -/

/-- `std::unordered_map::emplace`: the entry is added only when the key is absent. -/
def emplace {α : Type} (m : Nat → Option α) (k : Nat) (v : α) : Nat → Option α :=
  if (m k).isSome then m else Function.update m k (some v)

/-- Class `ActiveObjectParts`.  All keys of both maps are below `next_part_idx`, the only
place where keys are created being `insert`. -/
structure ActiveObjectParts where
  next_part_idx : Nat := 0
  active_object_parts : Nat → Option ObjectPart := fun _ => none
  active_object_parts_id_mapping : Nat → Option Nat := fun _ => none

namespace ActiveObjectParts

/-- First loop of `get_flat_id`:
`while (index != mapping.at(index)) index = mapping.at(index);`.
The first argument bounds the number of evaluations of the loop condition; a chain of
parents that visits more ids than the map has keys never ends. -/
def get_flat_id_loop1 (m : Nat → Option Nat) : Nat → Nat → Option Nat
  | 0, _ => none
  | fuel + 1, index =>
    match m index with
    | none => none
    | some p => if index ≠ p then get_flat_id_loop1 m fuel p else some index

/-- Second loop of `get_flat_id` (path compression):
`while (index != mapping.at(i)) { next = mapping[i]; mapping[i] = index; i = next; }`. -/
def get_flat_id_loop2 (index : Nat) : Nat → Nat → (Nat → Option Nat) → Option (Nat → Option Nat)
  | 0, _, _ => none
  | fuel + 1, i, m =>
    match m i with
    | none => none
    | some next =>
      if index ≠ next then get_flat_id_loop2 index fuel next (Function.update m i (some index))
      else some m

/-- Method `ActiveObjectParts::get_flat_id`: the canonical id and the tracker with its
compressed mapping; `none` when `at` throws or a loop does not end. -/
def get_flat_id (this : ActiveObjectParts) (id : Nat) : Option (Nat × ActiveObjectParts) :=
  match this.active_object_parts_id_mapping id with
  | none => none
  | some index0 =>
    match get_flat_id_loop1 this.active_object_parts_id_mapping this.next_part_idx index0 with
    | none => none
    | some index =>
      match get_flat_id_loop2 index this.next_part_idx id this.active_object_parts_id_mapping with
      | none => none
      | some m => some (index, { this with active_object_parts_id_mapping := m })

/-- Method `ActiveObjectParts::access`: the part of the canonical id (and the tracker after
the lookup). -/
def access (this : ActiveObjectParts) (id : Nat) : Option (ObjectPart × ActiveObjectParts) :=
  match this.get_flat_id id with
  | none => none
  | some (flat, s) =>
    match s.active_object_parts flat with
    | none => none
    | some part => some (part, s)

/-- Method `ActiveObjectParts::insert`: the new part id and the tracker. -/
def insert (this : ActiveObjectParts) (island : Island) : Nat × ActiveObjectParts :=
  (this.next_part_idx,
    { next_part_idx := this.next_part_idx + 1
      active_object_parts :=
        emplace this.active_object_parts this.next_part_idx (ObjectPart.ofIsland island)
      active_object_parts_id_mapping :=
        emplace this.active_object_parts_id_mapping this.next_part_idx this.next_part_idx })

/-- Method `ActiveObjectParts::merge`. -/
def merge (this : ActiveObjectParts) (from_id to_id : Nat) : Option ActiveObjectParts :=
  match this.get_flat_id to_id with
  | none => none
  | some (to_flat, s1) =>
    match s1.get_flat_id from_id with
    | none => none
    | some (from_flat, s2) =>
      match s2.active_object_parts to_flat, s2.active_object_parts from_flat with
      | some to_part, some from_part =>
        some { s2 with
          active_object_parts :=
            Function.update (Function.update s2.active_object_parts to_flat
              (some (to_part.add from_part))) from_flat none
          active_object_parts_id_mapping :=
            Function.update s2.active_object_parts_id_mapping from_id (some to_flat) }
      | _, _ => none

/-- The live parts summed: the sum of the values of `active_object_parts`. -/
def total (this : ActiveObjectParts) : ObjectPart :=
  ∑ i in Finset.range this.next_part_idx, (this.active_object_parts i).getD 0

/-- Number of live parts. -/
def live_count (this : ActiveObjectParts) : Nat :=
  ((Finset.range this.next_part_idx).filter fun i => (this.active_object_parts i).isSome).card

end ActiveObjectParts

/-- A call on the tracker. -/
inductive TrackerCall where
  | insert (island : Island)
  | merge (from_id to_id : Nat)

/-- The islands that a sequence of calls inserts, in order. -/
def TrackerCall.inserted : List TrackerCall → List Island
  | [] => []
  | .insert island :: cs => island :: TrackerCall.inserted cs
  | .merge _ _ :: cs => TrackerCall.inserted cs

/-- Replays a sequence of calls on a tracker.  The result is `none` when a call throws, and
also when a `merge` is asked to join two ids that already have the same canonical id, which
is outside the contract of `merge`. -/
def run_calls : ActiveObjectParts → List TrackerCall → Option ActiveObjectParts
  | s, [] => some s
  | s, .insert island :: cs => run_calls (s.insert island).2 cs
  | s, .merge from_id to_id :: cs =>
    match s.get_flat_id to_id with
    | none => none
    | some (to_flat, s1) =>
      match s1.get_flat_id from_id with
      | none => none
      | some (from_flat, _) =>
        if to_flat = from_flat then none
        else
          match s.merge from_id to_id with
          | none => none
          | some s2 => run_calls s2 cs

/-! ## Curling estimate -/

/-- Function `estimate_curled_up_height`. -/
def estimate_curled_up_height (env : Env) (distance curvature layer_height flow_width
    prev_line_curled_height : Flt) (params : Params) : Flt :=
  let curled_up_height : Flt := 0
  let curled_up_height :=
    if Flt.fabs distance < fin 3 * flow_width then
      Flt.max (prev_line_curled_height - layer_height * fin (3 / 4)) (fin 0)
    else curled_up_height
  if params.malformation_distance_factors.1 * flow_width < distance
      ∧ distance < params.malformation_distance_factors.2 * flow_width then
    let curling_section := distance
    let swelling_radius := (layer_height + curling_section) / fin 2
    let curled_up_height :=
      curled_up_height + Flt.max (fin 0) ((swelling_radius - layer_height) / fin 2)
    let curled_up_height :=
      if fin (1 / 100) < curvature then
        let radius := fin 1 / curvature
        let curling_t := Flt.sqrt env.sqrtf (radius / fin 100)
        let b := curling_t * flow_width
        let a := curling_section
        let c := Flt.sqrt env.sqrtf (Flt.max (fin 0) (a * a - b * b))
        curled_up_height + c
      else curled_up_height
    Flt.min curled_up_height (params.max_curled_height_factor * layer_height)
  else curled_up_height

/-! ## Torque balance -/

namespace ObjectPart

/-- Method `ObjectPart::compute_directional_xy_variance`. -/
def compute_directional_xy_variance (line_dir : Vec2f) (centroid_accumulator : Vec3f)
    (second_moment_of_area_accumulator : Vec2f)
    (second_moment_of_area_covariance_accumulator : Flt) (area : Flt) : Flt :=
  let centroid := centroid_accumulator.divs area
  let variance := second_moment_of_area_accumulator.divs area
    - centroid.head2.cwiseProduct centroid.head2
  let covariance := second_moment_of_area_covariance_accumulator / area - centroid.x * centroid.y
  line_dir.x * line_dir.x * variance.x + line_dir.y * line_dir.y * variance.y
    + fin 2 * line_dir.x * line_dir.y * covariance

/-- Method `ObjectPart::compute_elastic_section_modulus`. -/
def compute_elastic_section_modulus (env : Env) (line_dir : Vec2f) (extreme_point : Vec3f)
    (centroid_accumulator : Vec3f) (second_moment_of_area_accumulator : Vec2f)
    (second_moment_of_area_covariance_accumulator : Flt) (area : Flt) : Flt :=
  let directional_xy_variance := compute_directional_xy_variance line_dir centroid_accumulator
    second_moment_of_area_accumulator second_moment_of_area_covariance_accumulator area
  if directional_xy_variance < env.EPSILON then fin 0
  else
    let centroid := centroid_accumulator.divs area
    let extreme_fiber_dist := env.distance_to centroid.head2
      (centroid.head2 + ⟨line_dir.y, -line_dir.x⟩) extreme_point.head2
    area * directional_xy_variance / extreme_fiber_dist

/-- The local `extruder_conflict_force` of `is_stable_while_extruding`. -/
def extruder_conflict_force (extruded_line : ExtrusionLine) (params : Params) : Flt :=
  params.standard_extruder_conflict_force
    + Flt.min extruded_line.malformation (fin 1)
      * params.malformations_additive_conflict_extruder_force

/-- The local `bed_conflict_torque_arm` of `is_stable_while_extruding`. -/
def bed_conflict_torque_arm (this : ObjectPart) (layer_z : Flt) : Flt :=
  layer_z - (this.sticking_centroid_accumulator.divs this.sticking_area).z

/-- The local `bed_total_torque` of `is_stable_while_extruding` (section for bed
calculations). -/
def bed_total_torque (env : Env) (this : ObjectPart) (extruded_line : ExtrusionLine)
    (extreme_point : Vec3f) (layer_z : Flt) (params : Params) : Flt :=
  let line_dir := (extruded_line.b - extruded_line.a).normalized env.sqrtf
  let mass_centroid := this.volume_centroid_accumulator.divs this.volume
  let mass := this.volume * params.filament_density
  let weight := mass * params.gravity_constant
  let movement_force := params.max_acceleration * mass
  let bed_centroid := this.sticking_centroid_accumulator.divs this.sticking_area
  let bed_yield_torque :=
    -(compute_elastic_section_modulus env line_dir extreme_point
        this.sticking_centroid_accumulator this.sticking_second_moment_of_area_accumulator
        this.sticking_second_moment_of_area_covariance_accumulator this.sticking_area)
      * params.get_bed_adhesion_yield_strength
  let bed_weight_arm := mass_centroid.head2 - bed_centroid.head2
  let bed_weight_arm_len := bed_weight_arm.norm env.sqrtf
  let bed_weight_dir_xy_variance := compute_directional_xy_variance bed_weight_arm
    this.sticking_centroid_accumulator this.sticking_second_moment_of_area_accumulator
    this.sticking_second_moment_of_area_covariance_accumulator this.sticking_area
  let bed_weight_sign : Flt :=
    if bed_weight_arm_len < fin 2 * Flt.sqrt env.sqrtf bed_weight_dir_xy_variance then fin (-1)
    else fin 1
  let bed_weight_torque := bed_weight_sign * bed_weight_arm_len * weight
  let bed_movement_arm := Flt.max (fin 0) (mass_centroid.z - bed_centroid.z)
  let bed_movement_torque := movement_force * bed_movement_arm
  let bed_extruder_conflict_torque :=
    extruder_conflict_force extruded_line params * bed_conflict_torque_arm this layer_z
  bed_movement_torque + bed_extruder_conflict_torque + bed_weight_torque + bed_yield_torque

/-- The local `conn_conflict_torque_arm` of `is_stable_while_extruding`. -/
def conn_conflict_torque_arm (connection : IslandConnection) (layer_z : Flt) : Flt :=
  layer_z - (connection.centroid_accumulator.divs connection.area).z

/-- The local `conn_total_torque` of `is_stable_while_extruding` (section for weak
connection calculations). -/
def conn_total_torque (env : Env) (this : ObjectPart) (connection : IslandConnection)
    (extruded_line : ExtrusionLine) (extreme_point : Vec3f) (layer_z : Flt) (params : Params) :
    Flt :=
  let line_dir := (extruded_line.b - extruded_line.a).normalized env.sqrtf
  let mass_centroid := this.volume_centroid_accumulator.divs this.volume
  let mass := this.volume * params.filament_density
  let weight := mass * params.gravity_constant
  let movement_force := params.max_acceleration * mass
  let conn_centroid := connection.centroid_accumulator.divs connection.area
  let conn_yield_torque :=
    compute_elastic_section_modulus env line_dir extreme_point
        connection.centroid_accumulator connection.second_moment_of_area_accumulator
        connection.second_moment_of_area_covariance_accumulator connection.area
      * params.material_yield_strength
  let conn_weight_arm := (conn_centroid.head2 - mass_centroid.head2).norm env.sqrtf
  let conn_weight_torque := conn_weight_arm * weight * (conn_centroid.z / layer_z)
  let conn_movement_arm := Flt.max (fin 0) (mass_centroid.z - conn_centroid.z)
  let conn_movement_torque := movement_force * conn_movement_arm
  let conn_extruder_conflict_torque :=
    extruder_conflict_force extruded_line params * conn_conflict_torque_arm connection layer_z
  conn_movement_torque + conn_extruder_conflict_torque + conn_weight_torque - conn_yield_torque

/-- Method `ObjectPart::is_stable_while_extruding`; the torque sums of its two sections are
`bed_total_torque` and `conn_total_torque`. -/
def is_stable_while_extruding (env : Env) (this : ObjectPart) (connection : IslandConnection)
    (extruded_line : ExtrusionLine) (extreme_point : Vec3f) (layer_z : Flt) (params : Params) :
    Flt :=
  -- section for bed calculations
  if this.sticking_area < env.EPSILON then fin 1
  else if fin 0 < bed_total_torque env this extruded_line extreme_point layer_z params then
    bed_total_torque env this extruded_line extreme_point layer_z params
      / bed_conflict_torque_arm this layer_z
  -- section for weak connection calculations
  else if connection.area < env.EPSILON then fin 1
  else if conn_conflict_torque_arm connection layer_z < fin 3 then fin (-1)
  else
    conn_total_torque env this connection extruded_line extreme_point layer_z params
      / conn_conflict_torque_arm connection layer_z

end ObjectPart

/-! ## Global stability -/

/-- `operator[]` of the `std::unordered_map`s of `check_global_stability`: a missing key
reads as the value-initialised element. -/
def index_or_default {α : Type} [Inhabited α] (m : Nat → Option α) (k : Nat) : α :=
  (m k).getD default

/-- Struct `SupportGridFilter`; `taken_cells` lists the elements of the set. -/
structure SupportGridFilter where
  cell_size : Vec3f
  origin : Vec3f
  size : Vec3f
  cell_count : Int × Int × Int
  taken_cells : List Nat := []
deriving DecidableEq

namespace SupportGridFilter

/-- Method `to_cell_coords`; undefined (`none`) when a quotient cannot be cast to `int`. -/
def to_cell_coords (this : SupportGridFilter) (position : Vec3f) : Option (Int × Int × Int) :=
  match ((position.x - this.origin.x) / this.cell_size.x).toInt,
      ((position.y - this.origin.y) / this.cell_size.y).toInt,
      ((position.z - this.origin.z) / this.cell_size.z).toInt with
  | some x, some y, some z => some (x, y, z)
  | _, _, _ => none

/-- Method `to_cell_index`: the `int` expression (taken without overflow) converted to
`size_t`. -/
def to_cell_index (this : SupportGridFilter) (cell_coords : Int × Int × Int) : Nat :=
  ((cell_coords.2.2 * this.cell_count.1 * this.cell_count.2.1
      + cell_coords.2.1 * this.cell_count.1 + cell_coords.1) % 2 ^ 64).toNat

/-- Method `take_position`. -/
def take_position (this : SupportGridFilter) (position : Vec3f) : Option SupportGridFilter :=
  match this.to_cell_coords position with
  | none => none
  | some c =>
    if this.to_cell_index c ∈ this.taken_cells then some this
    else some { this with taken_cells := this.taken_cells ++ [this.to_cell_index c] }

/-- Method `position_taken`. -/
def position_taken (this : SupportGridFilter) (position : Vec3f) : Option Bool :=
  match this.to_cell_coords position with
  | none => none
  | some c => some (decide (this.to_cell_index c ∈ this.taken_cells))

end SupportGridFilter

/-- The lambda `estimate_conn_strength` of `check_global_stability`. -/
def estimate_conn_strength (env : Env) (layer_z : Flt) (conn : IslandConnection) : Flt :=
  let centroid := conn.centroid_accumulator.divs conn.area
  let variance := conn.second_moment_of_area_accumulator.divs conn.area
    - centroid.head2.cwiseProduct centroid.head2
  let xy_variance := variance.x + variance.y
  let arm_len_estimate := Flt.max (fin 1) (layer_z - conn.centroid_accumulator.z / conn.area)
  conn.area * Flt.sqrt env.sqrtf xy_variance / arm_len_estimate

/-- The sentinel `IslandConnection { 1.0f, Vec3f::Zero(), Vec2f { INFINITY, INFINITY } }`
given to an island that starts a new object part. -/
def sentinel_connection : IslandConnection :=
  { area := fin 1, centroid_accumulator := Vec3f.zero,
    second_moment_of_area_accumulator := ⟨pinf, pinf⟩ }

/-- The local variables of `check_global_stability` that live across islands and layers.
The maps from island index are functions, a missing key being `none`. -/
structure GlobalState where
  issues : Issues := {}
  active_object_parts : ActiveObjectParts := {}
  prev_island_to_object_part_mapping : Nat → Option Nat := fun _ => none
  next_island_to_object_part_mapping : Nat → Option Nat := fun _ => none
  prev_island_weakest_connection : Nat → Option IslandConnection := fun _ => none
  next_island_weakest_connection : Nat → Option IslandConnection := fun _ => none
  supports_presence_grid : SupportGridFilter

/-- What the loop over `island.connected_islands` of the "MERGE parts" block has gathered. -/
structure MergeGathered where
  active_object_parts : ActiveObjectParts
  parts_ids : List Nat := []
  transfered_weakest_connection : IslandConnection := {}
  new_weakest_connection : IslandConnection := {}

/-- `std::unordered_set::insert` on the list of the elements of the set. -/
def set_insert (set : List Nat) (x : Nat) : List Nat := if x ∈ set then set else set ++ [x]

/-- The loop `for (const auto &connection : island.connected_islands)` of
`check_global_stability`. -/
def check_global_stability_gather (prev_island_to_object_part_mapping : Nat → Option Nat)
    (prev_island_weakest_connection : Nat → Option IslandConnection) :
    List (Nat × IslandConnection) → MergeGathered → Option MergeGathered
  | [], g => some g
  | connection :: rest, g =>
    match prev_island_to_object_part_mapping connection.1 with
    | none => none
    | some prev_part =>
      match g.active_object_parts.get_flat_id prev_part with
      | none => none
      | some (part_id, tracker) =>
        match prev_island_weakest_connection connection.1 with
        | none => none
        | some prev_weakest =>
          check_global_stability_gather prev_island_to_object_part_mapping
            prev_island_weakest_connection rest
            { active_object_parts := tracker
              parts_ids := set_insert g.parts_ids part_id
              transfered_weakest_connection := g.transfered_weakest_connection.add prev_weakest
              new_weakest_connection := g.new_weakest_connection.add connection.2 }

/-- The loop `for (size_t part_id : parts_ids)` of `check_global_stability`, over the
elements of the set in iteration order. -/
def check_global_stability_merge (final_part_id : Nat) :
    List Nat → ActiveObjectParts → Option ActiveObjectParts
  | [], tracker => some tracker
  | part_id :: rest, tracker =>
    if final_part_id ≠ part_id then
      match tracker.merge part_id final_part_id with
      | none => none
      | some tracker => check_global_stability_merge final_part_id rest tracker
    else check_global_stability_merge final_part_id rest tracker

/-- Body of the first island loop of `check_global_stability` (one island: a new object
part, or the merge of the parts below it).  `set_order` gives the order in which a
`std::unordered_set` iterates over its elements. -/
def check_global_stability_connect (env : Env) (set_order : List Nat → List Nat)
    (layer_z : Flt) (st : GlobalState) (island_idx : Nat) (island : Island) :
    Option GlobalState :=
  if island.connected_islands.isEmpty then
    -- new object part emerging
    let (part_id, tracker) := st.active_object_parts.insert island
    some { st with
      active_object_parts := tracker
      next_island_to_object_part_mapping :=
        emplace st.next_island_to_object_part_mapping island_idx part_id
      next_island_weakest_connection :=
        emplace st.next_island_weakest_connection island_idx sentinel_connection }
  else
    match check_global_stability_gather st.prev_island_to_object_part_mapping
        st.prev_island_weakest_connection island.connected_islands
        { active_object_parts := st.active_object_parts } with
    | none => none
    | some g =>
      match set_order g.parts_ids with
      | [] => none
      | final_part_id :: parts_rest =>
        match check_global_stability_merge final_part_id (final_part_id :: parts_rest)
            g.active_object_parts with
        | none => none
        | some tracker =>
          let transfered_weakest_connection :=
            if estimate_conn_strength env layer_z g.new_weakest_connection
                < estimate_conn_strength env layer_z g.transfered_weakest_connection then
              g.new_weakest_connection
            else g.transfered_weakest_connection
          match tracker.get_flat_id final_part_id with
          | none => none
          | some (flat, tracker) =>
            match tracker.active_object_parts flat with
            | none => none
            | some part =>
              some { st with
                active_object_parts :=
                  { tracker with
                    active_object_parts :=
                      Function.update tracker.active_object_parts flat
                        (some (part.add (ObjectPart.ofIsland island))) }
                next_island_weakest_connection :=
                  emplace st.next_island_weakest_connection island_idx
                    transfered_weakest_connection
                next_island_to_object_part_mapping :=
                  emplace st.next_island_to_object_part_mapping island_idx final_part_id }

/-- The first island loop of `check_global_stability` for the islands `island_idx`,
`island_idx + 1`, ... of a layer. -/
def check_global_stability_connect_all (env : Env) (set_order : List Nat → List Nat)
    (layer_z : Flt) : List Island → Nat → GlobalState → Option GlobalState
  | [], _, st => some st
  | island :: rest, island_idx, st =>
    match check_global_stability_connect env set_order layer_z st island_idx island with
    | none => none
    | some st => check_global_stability_connect_all env set_order layer_z rest (island_idx + 1) st

/-- The variables of the boundary walk of one island in `check_global_stability`: the part
referenced by `part`, the connection referenced by `weakest_conn`, `unchecked_dist`, the
support points and the presence grid. -/
structure ProbeState where
  part : ObjectPart
  weakest_conn : IslandConnection
  unchecked_dist : Flt
  issues : Issues
  supports_presence_grid : SupportGridFilter

/-- The local `support_point` of the boundary walk of `check_global_stability`: the point
of the island's external lines nearest to the search point set 300 mm ahead of the line. -/
def check_global_stability_support_point (env : Env) (layer_z : Flt)
    (external_lines : List ExtrusionLine) (line : ExtrusionLine) : Vec3f :=
  let pivot_site_search_point : Vec3f :=
    to_3d (line.b + ((line.b - line.a).normalized env.sqrtf).scale (fin 300)) layer_z
  let (_, _, target_point) :=
    env.distance_from_lines_extra external_lines pivot_site_search_point.head2
  to_3d target_point layer_z

/-- Body of the loop `for (const ExtrusionLine &line : island.external_lines)` of
`check_global_stability`. -/
def check_global_stability_probe (env : Env) (params : Params) (layer_z : Flt)
    (external_lines : List ExtrusionLine) (st : ProbeState) (line : ExtrusionLine) :
    Option ProbeState :=
  if (st.unchecked_dist + line.len < params.min_distance_between_support_points
        ∧ line.malformation < fin (3 / 10)) ∨ Flt.feq line.len (fin 0) = true then
    some { st with unchecked_dist := st.unchecked_dist + line.len }
  else
    let unchecked_dist := line.len
    let support_point := check_global_stability_support_point env layer_z external_lines line
    let force := st.part.is_stable_while_extruding env st.weakest_conn line support_point layer_z
      params
    if fin 0 < force then
      match st.supports_presence_grid.position_taken support_point with
      | none => none
      | some true => some { st with unchecked_dist := unchecked_dist }
      | some false =>
        let orig_area := params.support_points_interface_radius
          * params.support_points_interface_radius * env.PI
        let altered_area := orig_area * params.get_support_spots_adhesion_strength
          / params.get_bed_adhesion_yield_strength
        let part := st.part.add_support_point support_point altered_area
        let radius :=
          if part.get_volume < params.small_parts_threshold then
            params.small_parts_support_points_interface_radius
          else params.support_points_interface_radius
        let issues : Issues :=
          { support_points := st.issues.support_points ++
              [{ position := support_point, force := force, spot_radius := radius,
                 direction := to_3d ((line.b - line.a).normalized env.sqrtf) (fin 0) }] }
        match st.supports_presence_grid.take_position support_point with
        | none => none
        | some grid =>
          some
            { part := part
              weakest_conn :=
                { area := st.weakest_conn.area + altered_area
                  centroid_accumulator :=
                    st.weakest_conn.centroid_accumulator + support_point.scale altered_area
                  second_moment_of_area_accumulator :=
                    st.weakest_conn.second_moment_of_area_accumulator
                      + Vec2f.smul altered_area
                          (support_point.head2.cwiseProduct support_point.head2)
                  second_moment_of_area_covariance_accumulator :=
                    st.weakest_conn.second_moment_of_area_covariance_accumulator
                      + altered_area * support_point.x * support_point.y }
              unchecked_dist := unchecked_dist
              issues := issues
              supports_presence_grid := grid }
    else some { st with unchecked_dist := unchecked_dist }

/-- The loop over the external lines of one island. -/
def check_global_stability_probe_all (env : Env) (params : Params) (layer_z : Flt)
    (external_lines : List ExtrusionLine) : List ExtrusionLine → ProbeState → Option ProbeState
  | [], st => some st
  | line :: rest, st =>
    match check_global_stability_probe env params layer_z external_lines st line with
    | none => none
    | some st => check_global_stability_probe_all env params layer_z external_lines rest st

/-- Body of the second island loop of `check_global_stability`: the boundary walk of one
island, with the changes written through the references `part` and `weakest_conn`. -/
def check_global_stability_island (env : Env) (params : Params) (layer_z : Flt)
    (st : GlobalState) (island_idx : Nat) (island : Island) : Option GlobalState :=
  match st.active_object_parts.get_flat_id
      (index_or_default st.prev_island_to_object_part_mapping island_idx) with
  | none => none
  | some (flat, tracker) =>
    match tracker.active_object_parts flat with
    | none => none
    | some part =>
      match check_global_stability_probe_all env params layer_z island.external_lines
          island.external_lines
          { part := part
            weakest_conn := index_or_default st.prev_island_weakest_connection island_idx
            unchecked_dist := params.min_distance_between_support_points + fin 1
            issues := st.issues
            supports_presence_grid := st.supports_presence_grid } with
      | none => none
      | some ps =>
        some { st with
          issues := ps.issues
          supports_presence_grid := ps.supports_presence_grid
          active_object_parts :=
            { tracker with
              active_object_parts :=
                Function.update tracker.active_object_parts flat (some ps.part) }
          prev_island_to_object_part_mapping :=
            Function.update st.prev_island_to_object_part_mapping island_idx
              (some (index_or_default st.prev_island_to_object_part_mapping island_idx))
          prev_island_weakest_connection :=
            Function.update st.prev_island_weakest_connection island_idx (some ps.weakest_conn) }

/-- The second island loop of `check_global_stability` for the islands `island_idx`,
`island_idx + 1`, ... of a layer. -/
def check_global_stability_island_all (env : Env) (params : Params) (layer_z : Flt) :
    List Island → Nat → GlobalState → Option GlobalState
  | [], _, st => some st
  | island :: rest, island_idx, st =>
    match check_global_stability_island env params layer_z st island_idx island with
    | none => none
    | some st => check_global_stability_island_all env params layer_z rest (island_idx + 1) st

/-- Body of the layer loop of `check_global_stability`. -/
def check_global_stability_layer (env : Env) (set_order : List Nat → List Nat)
    (params : Params) (st : GlobalState) (layer : LayerIslands) : Option GlobalState :=
  match check_global_stability_connect_all env set_order layer.layer_z layer.islands 0 st with
  | none => none
  | some st =>
    let st : GlobalState :=
      { st with
        prev_island_to_object_part_mapping := st.next_island_to_object_part_mapping
        next_island_to_object_part_mapping := fun _ => none
        prev_island_weakest_connection := st.next_island_weakest_connection
        next_island_weakest_connection := fun _ => none }
    check_global_stability_island_all env params layer.layer_z layer.islands 0 st

/-- The layer loop of `check_global_stability`. -/
def check_global_stability_layers (env : Env) (set_order : List Nat → List Nat)
    (params : Params) : List LayerIslands → GlobalState → Option GlobalState
  | [], st => some st
  | layer :: rest, st =>
    match check_global_stability_layer env set_order params st layer with
    | none => none
    | some st => check_global_stability_layers env set_order params rest st

/-- Function `check_global_stability`; `none` when the run throws or meets undefined
behaviour. -/
def check_global_stability (env : Env) (set_order : List Nat → List Nat)
    (supports_presence_grid : SupportGridFilter) (islands_graph : List LayerIslands)
    (params : Params) : Option Issues :=
  match check_global_stability_layers env set_order params islands_graph
      { supports_presence_grid := supports_presence_grid } with
  | none => none
  | some st => some st.issues

/-- A tracker holding three parts of volume 1, 2 and 4 under the ids 0, 1 and 2. -/
def tracker3 : ActiveObjectParts :=
  (((({} : ActiveObjectParts).insert { volume := fin 1 }).2.insert { volume := fin 2 }).2.insert
    { volume := fin 4 }).2

/-- Three inserts followed by `merge(0, 1)` and `merge(0, 2)`: the second merge is given
the id 0, which is no longer canonical. -/
def calls_noncanonical_merge : List TrackerCall :=
  [.insert { volume := fin 1 }, .insert { volume := fin 2 }, .insert { volume := fin 4 },
    .merge 0 1, .merge 0 2]

/-! ## Concrete inputs -/

/-- Scaling of a coordinate for concrete runs: the quotient by the scaling factor 0.000001,
truncated toward zero (0 for a value that is not finite). -/
def scale_coord : Flt → Int
  | fin q => if 0 ≤ q then ⌊q * 1000000⌋ else ⌈q * 1000000⌉
  | _ => 0

/-- Twice the signed area of the triangle `a`, `b`, `p`. -/
def cross (a b p : Point) : Int :=
  (b.1 - a.1) * (p.2 - a.2) - (b.2 - a.2) * (p.1 - a.1)

/-- The point `p` lies on the segment `line`. -/
def on_segment (line : Line) (p : Point) : Bool :=
  cross line.1 line.2 p = 0
    && Min.min line.1.1 line.2.1 ≤ p.1 && p.1 ≤ Max.max line.1.1 line.2.1
    && Min.min line.1.2 line.2.2 ≤ p.2 && p.2 ≤ Max.max line.1.2 line.2.2

/-- The horizontal ray from `p` to the right crosses the segment `line` (the lower end point
of the segment counted, the upper one not). -/
def ray_crosses (line : Line) (p : Point) : Bool :=
  let lo := if line.1.2 ≤ line.2.2 then line.1 else line.2
  let hi := if line.1.2 ≤ line.2.2 then line.2 else line.1
  lo.2 ≤ p.2 && p.2 < hi.2 && 0 < cross lo hi p

/-- The sign of the signed distance of `p` from the boundary `lines` of a region, for
concrete runs: 0 on the boundary, -1 inside (an odd number of boundary crossings to the
right of `p`), 1 outside. -/
def signed_distance_sign (lines : List Line) (p : Point) : Flt :=
  if lines.any (fun l => on_segment l p) then fin 0
  else if (lines.filter fun l => ray_crosses l p).length % 2 = 1 then fin (-1)
  else fin 1

/-- The role of a collection for concrete runs: the role of its paths when they all have the
same one, `erNone` for no path, `erOther` for differing roles. -/
def common_role : List ExtrusionEntity → ExtrusionRole
  | [] => .erNone
  | .path _ role _ :: rest =>
    if rest.isEmpty then role else if common_role rest = role then role else .erOther
  | .collection _ :: _ => .erOther

/-- An environment for concrete runs: exact square roots of squares, every query point of the
previous layer 100 mm away from its lines, the nearest boundary point at the origin, the
scaling factor 0.000001, and for `signed_distance_from_lines` the sign of the distance. -/
def env0 : Env :=
  { sqrtf := Rat.sqrt
    PI := fin (355 / 113)
    EPSILON := fin (1 / 10000)
    angle := fun _ _ => fin 0
    distance_from_lines_extra := fun _ _ => (fin 100, 0, Vec2f.zero)
    distance_to := fun _ _ _ => fin 1
    unscale := fun c => fin (c / 1000000)
    new_scale := fun v => (scale_coord v.x, scale_coord v.y)
    signed_distance_from_lines := signed_distance_sign
    collection_role := common_role }

/-- The default parameter bundle for PLA. -/
def params0 : Params :=
  { max_acceleration := fin 1000
    raft_layers_count := 0
    filament_type := "PLA"
    brim_width := fin 0
    bridge_distance_decrease_by_curvature_factor := fin 5
    max_malformation_factor := fin 10
    connections_min_considerable_area := fin (3 / 2)
    small_parts_threshold := fin 5
    small_parts_support_points_interface_radius := fin 3 }

/-- A layer region of flow width 0.45 mm and layer height 0.2 mm. -/
def region0 : LayerRegion := { flow_width := fun _ => fin (45 / 100), layer_height := fin (1 / 5) }

/-- An empty presence grid of 3 mm voxels around the origin. -/
def grid0 : SupportGridFilter :=
  { cell_size := ⟨fin 3, fin 3, fin 3⟩
    origin := ⟨fin (-103), fin (-103), fin (-3)⟩
    size := ⟨fin 206, fin 206, fin 106⟩
    cell_count := (69, 69, 36) }

/-- A boundary line of 10 mm along the x axis. -/
def line0 : ExtrusionLine :=
  { a := ⟨fin 0, fin 0⟩, b := ⟨fin 10, fin 0⟩, len := fin 10, origin_entity := none }

/-- An island without sticking area and without connections, with one external line. -/
def island_floating : Island :=
  { volume := fin 1, volume_centroid_accumulator := ⟨fin 0, fin 0, fin (1 / 5)⟩
    external_lines := [line0] }

/-- A graph of one layer holding `island_floating`. -/
def graph_floating : List LayerIslands :=
  [{ islands := [island_floating], layer_z := fin (1 / 5) }]

/-- A part held firmly by the bed: sticking area 100 spread out around the origin. -/
def part_bedded : ObjectPart :=
  { volume := fin 1, sticking_area := fin 100
    sticking_second_moment_of_area_accumulator := ⟨fin 1000, fin 1000⟩ }

/-- A first-layer island with the statistics of `part_bedded` and no external line. -/
def island_base : Island :=
  { volume := fin 1, sticking_area := fin 100
    sticking_second_moment_of_area_accumulator := ⟨fin 1000, fin 1000⟩ }

/-- A second-layer island joined to island 0 below by a connection of area 0.00001. -/
def island_top : Island :=
  { volume := fin 1
    connected_islands :=
      [(0, { area := fin (1 / 100000)
             second_moment_of_area_accumulator := ⟨fin (2 / 100000), fin (2 / 100000)⟩ })]
    external_lines := [line0] }

/-- A graph of two layers: `island_base` and, above it, `island_top`. -/
def graph_weak : List LayerIslands :=
  [{ islands := [island_base], layer_z := fin (1 / 5) },
   { islands := [island_top], layer_z := fin (2 / 5) }]

/-- A state of `check_global_stability` at the start of a layer above three islands that
each started a part: island `k` of the previous layer belongs to part `k`. -/
def state_three_parts : GlobalState :=
  { active_object_parts := tracker3
    prev_island_to_object_part_mapping := fun k => if k < 3 then some k else none
    prev_island_weakest_connection := fun k => if k < 3 then some sentinel_connection else none
    supports_presence_grid := grid0 }

/-- An island that rests on the islands 0 and 1 of the previous layer. -/
def island_bridge : Island :=
  { volume := fin 8
    connected_islands :=
      [(0, { area := fin 2, second_moment_of_area_accumulator := ⟨fin 2, fin 2⟩ }),
       (1, { area := fin 3, second_moment_of_area_accumulator := ⟨fin 3, fin 3⟩ })] }

/-- The environment `env0` above a previous layer that lies right under every query point:
the distance is 0, the nearest line is line 0 and the nearest point is the query point. -/
def env_near : Env :=
  { env0 with distance_from_lines_extra := fun _ q => (fin 0, 0, q) }

/-- A closed square loop of side 20 mm, longer than the bridge distance on every side. -/
def square_loop : List Vec2f :=
  [⟨fin 0, fin 0⟩, ⟨fin 20, fin 0⟩, ⟨fin 20, fin 20⟩, ⟨fin 0, fin 20⟩, ⟨fin 0, fin 0⟩]

/-- Index of the voxel cell in which `position` falls; undefined (`none`) with
`to_cell_coords`. -/
def SupportGridFilter.cell_index_at (this : SupportGridFilter) (position : Vec3f) :
    Option Nat :=
  (this.to_cell_coords position).map this.to_cell_index

/-- The presence grid `grid` records exactly the cells of the support points `points`, in
order and each cell once, with the geometry of `grid0`. -/
def SupportGridFilter.Records (grid0 grid : SupportGridFilter) (points : List SupportPoint) :
    Prop :=
  grid.cell_size = grid0.cell_size ∧ grid.origin = grid0.origin ∧
    grid.cell_count = grid0.cell_count ∧
    points.map (fun p => grid0.cell_index_at p.position) = grid.taken_cells.map some ∧
    grid.taken_cells.Nodup
/-- The finite value of a scalar; 0 for the special values. -/
def Flt.toRat : Flt → ℚ
  | fin q => q
  | _ => 0

/-- The point of the segment `line` nearest to `q` and its squared distance from `q`, exact
on finite coordinates. -/
def nearest_point_on_segment (line : ExtrusionLine) (q : Vec2f) : ℚ × Vec2f :=
  let ax := line.a.x.toRat
  let ay := line.a.y.toRat
  let dx := line.b.x.toRat - ax
  let dy := line.b.y.toRat - ay
  let l2 := dx * dx + dy * dy
  let t := if l2 = 0 then 0 else
    Max.max 0 (Min.min 1 (((q.x.toRat - ax) * dx + (q.y.toRat - ay) * dy) / l2))
  let px := ax + t * dx
  let py := ay + t * dy
  ((q.x.toRat - px) * (q.x.toRat - px) + (q.y.toRat - py) * (q.y.toRat - py), ⟨fin px, fin py⟩)

/-- The nearest point of the segments `lines` (numbered from `idx`) to `q`, with the index of
its segment and its squared distance; `best` is the nearest point found so far. -/
def nearest_point_on_lines (q : Vec2f) : List ExtrusionLine → Nat → ℚ × Nat × Vec2f →
    ℚ × Nat × Vec2f
  | [], _, best => best
  | line :: rest, idx, best =>
    let cand := nearest_point_on_segment line q
    nearest_point_on_lines q rest (idx + 1)
      (if cand.1 < best.1 then (cand.1, idx, cand.2) else best)

/-- The environment `env0` with an exact nearest-point query: the nearest point of the lines
and the index of its line are the true ones for finite coordinates, the distance is the
rational square root of the squared distance (unsigned); without lines the answer is the query
point itself at an infinite distance. -/
def env_exact : Env :=
  { env0 with
    distance_from_lines_extra := fun lines q =>
      match lines with
      | [] => (pinf, 0, q)
      | line :: rest =>
        let first := nearest_point_on_segment line q
        let best := nearest_point_on_lines q rest 1 (first.1, 0, first.2)
        (fin (Rat.sqrt best.1), best.2.1, best.2.2) }

/-- An island that starts in mid-air, with one boundary line from (0, 0) to (1.9, 0). -/
def island_left : Island :=
  { volume := fin 1, volume_centroid_accumulator := ⟨fin 1, fin 0, fin (2 / 5)⟩
    external_lines :=
      [{ a := ⟨fin 0, fin 0⟩, b := ⟨fin (19 / 10), fin 0⟩, len := fin (19 / 10)
         origin_entity := none }] }

/-- An island that starts in mid-air, with one boundary line from (4, 0) to (2.1, 0). -/
def island_right : Island :=
  { volume := fin 1, volume_centroid_accumulator := ⟨fin 3, fin 0, fin (2 / 5)⟩
    external_lines :=
      [{ a := ⟨fin 4, fin 0⟩, b := ⟨fin (21 / 10), fin 0⟩, len := fin (19 / 10)
         origin_entity := none }] }

/-- A graph of two layers: `island_base` and, above it, the two islands `island_left` and
`island_right`, which rest on nothing. -/
def graph_two_floating : List LayerIslands :=
  [{ islands := [island_base], layer_z := fin (1 / 5) },
   { islands := [island_left, island_right], layer_z := fin (2 / 5) }]

/-! ## The layer island graph builder -/

/-- The constant `NULL_ISLAND`, `std::numeric_limits<size_t>::max()`. -/
def NULL_ISLAND : Nat := 2 ^ 64 - 1

/-- Conversion of an `int` to `size_t`. -/
def size_t_of_int (i : Int) : Nat := (i % 2 ^ 64).toNat

/-- What the analyzer reads of a `Layer`: `slice_z`, `height`, the regions and, for every
`ExPolygon` of `lslices`, the boundary lines that `to_lines` makes of it. -/
structure Layer where
  slice_z : Flt
  height : Flt
  regions : List LayerRegion
  lslices : List (List Line)

/-- What the analyzer reads of a `PrintObject`: `size()` and `height()` in scaled
coordinates and the layers. -/
structure PrintObject where
  size : Int × Int × Int
  height : Int
  layers : List Layer

/-- Class `PixelGrid`. -/
structure PixelGrid where
  pixel_size : Vec2f
  origin : Vec2f
  size : Vec2f
  pixel_count : Int × Int
  pixels : List Nat := []
deriving DecidableEq

namespace PixelGrid

/-- Method `clear`. -/
def clear (this : PixelGrid) : PixelGrid :=
  { this with pixels := this.pixels.map fun _ => NULL_ISLAND }

/-- Constructor `PixelGrid(po, resolution)`; undefined (`none`) when a pixel count cannot be
cast to `int` or the pixel vector cannot be sized. -/
def make (env : Env) (po : PrintObject) (resolution : Flt) : Option PixelGrid :=
  let pixel_size : Vec2f := ⟨resolution, resolution⟩
  let size_half : Int × Int := (Int.tdiv po.size.1 2 + 1, Int.tdiv po.size.2.1 2 + 1)
  let min : Vec2f := ⟨env.unscale (-size_half.1), env.unscale (-size_half.2)⟩
  let max : Vec2f := ⟨env.unscale size_half.1, env.unscale size_half.2⟩
  let origin := min
  let size := max - min
  match (size.x / pixel_size.x).toInt, (size.y / pixel_size.y).toInt with
  | some cx, some cy =>
    let pixel_count : Int × Int := (cx + 1, cy + 1)
    if 0 ≤ pixel_count.2 * pixel_count.1 then
      some (clear
        { pixel_size := pixel_size, origin := origin, size := size, pixel_count := pixel_count
          pixels := List.replicate (pixel_count.2 * pixel_count.1).toNat 0 })
    else none
  | _, _ => none

/-- Method `pixel_area`. -/
def pixel_area (this : PixelGrid) : Flt := this.pixel_size.x * this.pixel_size.y

/-- Method `to_pixel_index`: the `int` expression (taken without overflow) converted to
`size_t`. -/
def to_pixel_index (this : PixelGrid) (pixel_coords : Int × Int) : Nat :=
  size_t_of_int (pixel_coords.2 * this.pixel_count.1 + pixel_coords.1)

/-- Method `get_pixel`; an index outside the pixel vector is undefined (`none`). -/
def get_pixel (this : PixelGrid) (coords : Int × Int) : Option Nat :=
  this.pixels.get? (this.to_pixel_index coords)

/-- Method `get_pixel_count`. -/
def get_pixel_count (this : PixelGrid) : Int × Int := this.pixel_count

/-- Method `get_pixel_center`. -/
def get_pixel_center (this : PixelGrid) (coords : Int × Int) : Vec2f :=
  this.origin + (⟨Flt.ofInt coords.1, Flt.ofInt coords.2⟩ : Vec2f).cwiseProduct this.pixel_size
    + ⟨this.pixel_size.x / fin 2, this.pixel_size.y / fin 2⟩

/-- Method `to_pixel_coords`; undefined (`none`) when a quotient cannot be cast to `int`. -/
def to_pixel_coords (this : PixelGrid) (position : Vec2f) : Option (Int × Int) :=
  match ((position.x - this.origin.x) / this.pixel_size.x).toInt,
      ((position.y - this.origin.y) / this.pixel_size.y).toInt with
  | some x, some y => some (x, y)
  | _, _ => none

/-- The assignment `access_pixel(position) = value`; an index outside the pixel vector is
undefined (`none`). -/
def set_pixel (this : PixelGrid) (position : Vec2f) (value : Nat) : Option PixelGrid :=
  match this.to_pixel_coords position with
  | none => none
  | some c =>
    if this.to_pixel_index c < this.pixels.length then
      some { this with pixels := this.pixels.set (this.to_pixel_index c) value }
    else none

/-- Number of iterations of a loop `for (d = start; d < limit; d += step)` on finite values
with a positive step; 0 when the loop does not run or never ends. -/
def loop_fuel (start limit step : Flt) : Nat :=
  match start, limit, step with
  | fin s, fin l, fin d => if 0 < d then ⌈(l - s) / d⌉.toNat else 0
  | _, _, _ => 0

/-- The `while` loop of `distribute_edge`, given the number of iterations left; `none` when
the loop does not end within them. -/
def distribute_edge_loop (p1 dir : Vec2f) (length step_size : Flt) (value : Nat) :
    Nat → Flt → PixelGrid → Option PixelGrid
  | fuel, distributed_length, grid =>
    if distributed_length < length then
      match fuel with
      | 0 => none
      | fuel + 1 =>
        let next_len := Flt.min length (distributed_length + step_size)
        let location := p1 + Vec2f.smul (next_len / length) dir
        match grid.set_pixel location value with
        | none => none
        | some grid => distribute_edge_loop p1 dir length step_size value fuel next_len grid
    else some grid

/-- Method `distribute_edge`; `none` when the loop does not end or writes outside the pixel
vector. -/
def distribute_edge (env : Env) (this : PixelGrid) (p1 p2 : Vec2f) (value : Nat) :
    Option PixelGrid :=
  let dir := p2 - p1
  let length := dir.norm env.sqrtf
  if length < fin (1 / 10) then some this
  else
    let step_size := this.pixel_size.x / fin 2
    distribute_edge_loop p1 dir length step_size value (loop_fuel 0 length step_size) 0 this

end PixelGrid
/-- The first loop of `reckon_islands`: the extrusions `[start, end)` of the layer lines, the
lines from index `lidx` on being still to visit; `none` for `extrusions.back()` on the empty
vector. -/
def reckon_islands_extrusions : List ExtrusionLine → Nat → Option EntityRef →
    List (Nat × Nat) → Option (List (Nat × Nat))
  | [], _, _, extrusions => some extrusions
  | line :: rest, lidx, current_ex, extrusions =>
    if line.origin_entity = current_ex then
      match extrusions.getLast? with
      | none => none
      | some back =>
        reckon_islands_extrusions rest (lidx + 1) current_ex
          (extrusions.dropLast ++ [(back.1, lidx + 1)])
    else
      reckon_islands_extrusions rest (lidx + 1) line.origin_entity
        (extrusions ++ [(lidx, lidx + 1)])

/-- The loop of `reckon_islands` that assigns the extrusions `extrusion_idx`,
`extrusion_idx + 1`, ... to the islands: an extrusion is pushed to every island from whose
boundary its second point has a signed distance `<= 0`. -/
def reckon_islands_assign (env : Env) (layer_lines : List ExtrusionLine)
    (islands : List (List Line)) :
    List (Nat × Nat) → Nat → List (List Nat) → Option (List (List Nat))
  | [], _, island_extrusions => some island_extrusions
  | extrusion :: rest, extrusion_idx, island_extrusions =>
    match layer_lines.get? extrusion.1 with
    | none => none
    | some line =>
      let second_point := env.new_scale line.b
      reckon_islands_assign env layer_lines islands rest (extrusion_idx + 1)
        (List.zipWith
          (fun island island_ex =>
            if env.signed_distance_from_lines island second_point ≤ fin 0 then
              island_ex ++ [extrusion_idx]
            else island_ex)
          islands island_extrusions)

/-- The loop over the segments of a first-layer line in `reckon_islands`, given the number
of iterations left; `none` when the loop does not end within them. -/
def reckon_islands_segments (line : ExtrusionLine) (flow_width : Flt) (dir : Vec2f) :
    Nat → Flt → Island → Option Island
  | fuel, segment_middle_dist, island =>
    if segment_middle_dist < line.len then
      match fuel with
      | 0 => none
      | fuel + 1 =>
        let segment_length := flow_width
        let segment_middle := line.a + Vec2f.smul segment_middle_dist dir
        reckon_islands_segments line flow_width dir fuel (segment_middle_dist + segment_length)
          { island with
            sticking_second_moment_of_area_accumulator :=
              island.sticking_second_moment_of_area_accumulator
                + Vec2f.smul (segment_length * flow_width)
                    (segment_middle.cwiseProduct segment_middle)
            sticking_second_moment_of_area_covariance_accumulator :=
              island.sticking_second_moment_of_area_covariance_accumulator
                + segment_length * flow_width * segment_middle.x * segment_middle.y }
    else some island

/-- What `reckon_islands` accumulates into an island for one of its lines. -/
def reckon_islands_add_line (env : Env) (layer : Layer) (first_layer : Bool) (flow_width : Flt)
    (island : Island) (line : ExtrusionLine) : Option Island :=
  let volume := line.len * layer.height * flow_width * env.PI / fin 4
  let island : Island :=
    { island with
      volume := island.volume + volume
      volume_centroid_accumulator :=
        island.volume_centroid_accumulator
          + (to_3d ((line.a + line.b).divs (fin 2)) layer.slice_z).scale volume }
  if first_layer then
    let sticking_area := line.len * flow_width
    let middle := (line.a + line.b).divs (fin 2)
    let island : Island :=
      { island with
        sticking_area := island.sticking_area + sticking_area
        sticking_centroid_accumulator :=
          island.sticking_centroid_accumulator
            + Vec3f.smul sticking_area (to_3d middle layer.slice_z) }
    let dir := (line.b - line.a).normalized env.sqrtf
    let segment_length := flow_width
    let start := Flt.min line.len (segment_length * fin (1 / 2))
    reckon_islands_segments line flow_width dir
      (PixelGrid.loop_fuel start line.len segment_length) start island
  else if line.support_point_generated then
    let sticking_area := line.len * flow_width
    some { island with
      sticking_area := island.sticking_area + sticking_area
      sticking_centroid_accumulator :=
        island.sticking_centroid_accumulator
          + Vec3f.smul sticking_area (to_3d line.b layer.slice_z)
      sticking_second_moment_of_area_accumulator :=
        island.sticking_second_moment_of_area_accumulator
          + Vec2f.smul sticking_area (line.b.cwiseProduct line.b)
      sticking_second_moment_of_area_covariance_accumulator :=
        island.sticking_second_moment_of_area_covariance_accumulator
          + sticking_area * line.b.x * line.b.y }
  else some island

/-- The loop `for (size_t lidx = first; lidx < second; ++lidx)` of `reckon_islands` over
the line indices still to visit: the island and the `line_to_island_mapping`. -/
def reckon_islands_add_lines (env : Env) (layer : Layer) (first_layer : Bool)
    (flow_width : Flt) (layer_lines : List ExtrusionLine) (island_number : Nat) :
    List Nat → Island → List Nat → Option (Island × List Nat)
  | [], island, line_to_island_mapping => some (island, line_to_island_mapping)
  | lidx :: rest, island, line_to_island_mapping =>
    if lidx < line_to_island_mapping.length then
      match layer_lines.get? lidx with
      | none => none
      | some line =>
        match reckon_islands_add_line env layer first_layer flow_width island line with
        | none => none
        | some island =>
          reckon_islands_add_lines env layer first_layer flow_width layer_lines island_number
            rest island (line_to_island_mapping.set lidx island_number)
    else none

/-- The loop `for (size_t extrusion_idx : island_ex)` of `reckon_islands`. -/
def reckon_islands_add_extrusions (env : Env) (layer : Layer) (first_layer : Bool)
    (flow_width : Flt) (layer_lines : List ExtrusionLine) (extrusions : List (Nat × Nat))
    (island_number : Nat) : List Nat → Island → List Nat → Option (Island × List Nat)
  | [], island, line_to_island_mapping => some (island, line_to_island_mapping)
  | extrusion_idx :: rest, island, line_to_island_mapping =>
    match extrusions.get? extrusion_idx with
    | none => none
    | some extrusion =>
      match layer_lines.get? extrusion.1 with
      | none => none
      | some first_line =>
        match first_line.origin_entity with
        | none => none
        | some origin_entity =>
          let island : Island :=
            if origin_entity.role = .erExternalPerimeter then
              { island with
                external_lines := island.external_lines
                  ++ (layer_lines.drop extrusion.1).take (extrusion.2 - extrusion.1) }
            else island
          match reckon_islands_add_lines env layer first_layer flow_width layer_lines
              island_number (List.range' extrusion.1 (extrusion.2 - extrusion.1)) island
              line_to_island_mapping with
          | none => none
          | some (island, line_to_island_mapping) =>
            reckon_islands_add_extrusions env layer first_layer flow_width layer_lines
              extrusions island_number rest island line_to_island_mapping

/-- The loop `for (const std::vector<size_t> &island_ex : island_extrusions)` of
`reckon_islands`: the islands of the result and the `line_to_island_mapping`. -/
def reckon_islands_build (env : Env) (layer : Layer) (first_layer : Bool) (flow_width : Flt)
    (layer_lines : List ExtrusionLine) (extrusions : List (Nat × Nat)) :
    List (List Nat) → List Island → List Nat → Option (List Island × List Nat)
  | [], islands, line_to_island_mapping => some (islands, line_to_island_mapping)
  | island_ex :: rest, islands, line_to_island_mapping =>
    if island_ex.isEmpty then
      reckon_islands_build env layer first_layer flow_width layer_lines extrusions rest islands
        line_to_island_mapping
    else
      match reckon_islands_add_extrusions env layer first_layer flow_width layer_lines
          extrusions islands.length island_ex {} line_to_island_mapping with
      | none => none
      | some (island, line_to_island_mapping) =>
        reckon_islands_build env layer first_layer flow_width layer_lines extrusions rest
          (islands ++ [island]) line_to_island_mapping
/-- The loop of `reckon_islands` that builds the index image of the current layer.  The
source runs it as a `tbb::parallel_for`; here the lines are drawn one after the other, in
index order. -/
def reckon_islands_rasterize (env : Env) :
    List ExtrusionLine → List Nat → PixelGrid → Option PixelGrid
  | line :: rest, island :: mapping_rest, current_layer_grid =>
    match current_layer_grid.distribute_edge env line.a line.b island with
    | none => none
    | some grid => reckon_islands_rasterize env rest mapping_rest grid
  | [], _, current_layer_grid => some current_layer_grid
  | _ :: _, [], _ => none

/-- The element `connected_islands[key]` of an island's connection map after `f` has been
applied to it; `operator[]` inserts a value-initialised connection for a missing key.  The
entries are kept in the order of their insertion. -/
def connection_update (f : IslandConnection → IslandConnection) (key : Nat) :
    List (Nat × IslandConnection) → List (Nat × IslandConnection)
  | [] => [(key, f {})]
  | entry :: rest =>
    if entry.1 = key then (entry.1, f entry.2) :: rest
    else entry :: connection_update f key rest

/-- What the pixel at `current_coords` adds to a connection in `reckon_islands`. -/
def add_pixel (current_coords : Vec2f) (layer_z pixel_area : Flt)
    (connection : IslandConnection) : IslandConnection :=
  { area := connection.area + pixel_area
    centroid_accumulator :=
      connection.centroid_accumulator + (to_3d current_coords layer_z).scale pixel_area
    second_moment_of_area_accumulator :=
      connection.second_moment_of_area_accumulator
        + (current_coords.cwiseProduct current_coords).scale pixel_area
    second_moment_of_area_covariance_accumulator :=
      connection.second_moment_of_area_covariance_accumulator
        + current_coords.x * current_coords.y * pixel_area }

/-- Body of the pixel loops of `reckon_islands` for the pixel `(x, y)`. -/
def reckon_islands_connect_pixel (current_layer_grid prev_layer_grid : PixelGrid)
    (layer_z : Flt) (islands : List Island) (x y : Nat) : Option (List Island) :=
  let coords : Int × Int := (x, y)
  match current_layer_grid.get_pixel coords with
  | none => none
  | some current =>
    if current ≠ NULL_ISLAND then
      match prev_layer_grid.get_pixel coords with
      | none => none
      | some previous =>
        if previous ≠ NULL_ISLAND then
          match islands.get? current with
          | none => none
          | some island =>
            some (islands.set current
              { island with
                connected_islands :=
                  connection_update
                    (add_pixel (current_layer_grid.get_pixel_center coords) layer_z
                      current_layer_grid.pixel_area)
                    previous island.connected_islands })
        else some islands
    else some islands

/-- The inner pixel loop of `reckon_islands` (over `y`) for the column `x`. -/
def reckon_islands_connect_column (current_layer_grid prev_layer_grid : PixelGrid)
    (layer_z : Flt) (x : Nat) : List Nat → List Island → Option (List Island)
  | [], islands => some islands
  | y :: rest, islands =>
    match reckon_islands_connect_pixel current_layer_grid prev_layer_grid layer_z islands x y
      with
    | none => none
    | some islands =>
      reckon_islands_connect_column current_layer_grid prev_layer_grid layer_z x rest islands

/-- The outer pixel loop of `reckon_islands` (over `x`); `ys` lists the values of `y`. -/
def reckon_islands_connect_columns (current_layer_grid prev_layer_grid : PixelGrid)
    (layer_z : Flt) (ys : List Nat) : List Nat → List Island → Option (List Island)
  | [], islands => some islands
  | x :: rest, islands =>
    match reckon_islands_connect_column current_layer_grid prev_layer_grid layer_z x ys
        islands with
    | none => none
    | some islands =>
      reckon_islands_connect_columns current_layer_grid prev_layer_grid layer_z ys rest islands

/-- The comparison of the image of the previous layer with the image of the current layer in
`reckon_islands`. -/
def reckon_islands_connect (current_layer_grid prev_layer_grid : PixelGrid) (layer_z : Flt)
    (islands : List Island) : Option (List Island) :=
  reckon_islands_connect_columns current_layer_grid prev_layer_grid layer_z
    (List.range (size_t_of_int current_layer_grid.get_pixel_count.2))
    (List.range (size_t_of_int current_layer_grid.get_pixel_count.1)) islands

/-- `std::unordered_map::erase(key)`. -/
def connection_erase (key : Nat) (connected_islands : List (Nat × IslandConnection)) :
    List (Nat × IslandConnection) :=
  connected_islands.filter fun entry => entry.1 ≠ key

/-- The last loop of `reckon_islands` for one island: the connections of very small area
are collected and then erased. -/
def reckon_islands_filter (params : Params) (island : Island) : Island :=
  let conns_to_remove : List Nat :=
    (island.connected_islands.filter fun conn =>
      conn.2.area < params.connections_min_considerable_area).map fun conn => conn.1
  { island with
    connected_islands :=
      conns_to_remove.foldl (fun connected_islands conn => connection_erase conn connected_islands)
        island.connected_islands }

/-- The islands of the layer with their accumulators and no connection yet (the state of
`reckon_islands` at the comment "LayerIslands structure built"), with the
`line_to_island_mapping`. -/
def reckon_islands_islands (env : Env) (layer : Layer) (first_layer : Bool)
    (layer_lines : List ExtrusionLine) : Option (List Island × List Nat) :=
  match reckon_islands_extrusions layer_lines 0 none [] with
  | none => none
  | some extrusions =>
    match reckon_islands_assign env layer_lines layer.lslices extrusions 0
        (layer.lslices.map fun _ => []) with
    | none => none
    | some island_extrusions =>
      match layer.regions with
      | [] => none
      | region :: _ =>
        let flow_width := get_flow_width region .erExternalPerimeter
        reckon_islands_build env layer first_layer flow_width layer_lines extrusions
          island_extrusions [] (layer_lines.map fun _ => NULL_ISLAND)

/-- The state of `reckon_islands` before its last loop: the islands with all the connections
accumulated from the pixels, and the grid of the current layer. -/
def reckon_islands_accumulated (env : Env) (layer : Layer) (first_layer : Bool)
    (prev_layer_grid : PixelGrid) (layer_lines : List ExtrusionLine) :
    Option (List Island × PixelGrid) :=
  match reckon_islands_islands env layer first_layer layer_lines with
  | none => none
  | some (islands, line_to_island_mapping) =>
    match reckon_islands_rasterize env layer_lines line_to_island_mapping
        prev_layer_grid.clear with
    | none => none
    | some current_layer_grid =>
      match reckon_islands_connect current_layer_grid prev_layer_grid layer.slice_z islands with
      | none => none
      | some islands => some (islands, current_layer_grid)

/-- Function `reckon_islands`; `none` when the run meets undefined behaviour or does not
end.  The parameter `prev_layer_islands_count`, which the function never reads, is left
out. -/
def reckon_islands (env : Env) (layer : Layer) (first_layer : Bool)
    (prev_layer_grid : PixelGrid) (layer_lines : List ExtrusionLine) (params : Params) :
    Option (LayerIslands × PixelGrid) :=
  match reckon_islands_accumulated env layer first_layer prev_layer_grid layer_lines with
  | none => none
  | some (islands, current_layer_grid) =>
    some ({ islands := islands.map (reckon_islands_filter params), layer_z := layer.slice_z },
      current_layer_grid)
/-! ## The two passes (`check_extrusions_and_build_graph` and `full_search`) -/

/-- Struct `Malformations`. -/
structure Malformations where
  layers : List (List Line) := []
deriving DecidableEq, Inhabited

/-- The loop of `push_lines` over the pairs of consecutive points of the polyline. -/
def push_lines_loop (env : Env) (e : Option EntityRef) : List Vec2f → List ExtrusionLine
  | start :: next :: rest =>
    ExtrusionLine.make env start next e :: push_lines_loop env e (next :: rest)
  | _ => []

/-- Function `push_lines`; `none` for a collection, which has no polyline. -/
def push_lines (env : Env) (e : ExtrusionEntity) (destination : List ExtrusionLine) :
    Option (List ExtrusionLine) :=
  match e with
  | .collection _ => none
  | .path id role polyline => some (destination ++ push_lines_loop env (some ⟨id, role⟩) polyline)

/-- The `role()` of an extrusion entity. -/
def ExtrusionEntity.role (env : Env) : ExtrusionEntity → ExtrusionRole
  | .path _ role _ => role
  | .collection entities => env.collection_role entities

/-- The entities of `static_cast<const ExtrusionEntityCollection*>(ex_entity)`; undefined
(`none`) when the entity is not a collection. -/
def ExtrusionEntity.entities : ExtrusionEntity → Option (List ExtrusionEntity)
  | .collection entities => some entities
  | .path _ _ _ => none

/-- A loop `for (... : entities) push_lines(..., layer_lines)` of the base layer. -/
def build_graph_push_all (env : Env) :
    List ExtrusionEntity → List ExtrusionLine → Option (List ExtrusionLine)
  | [], layer_lines => some layer_lines
  | e :: rest, layer_lines =>
    match push_lines env e layer_lines with
    | none => none
    | some layer_lines => build_graph_push_all env rest layer_lines

/-- A loop `for (const ExtrusionEntity *ex_entity : ...)` of the base layer, over the
perimeters or over the fills of a region. -/
def build_graph_base_entities (env : Env) :
    List ExtrusionEntity → List ExtrusionLine → Option (List ExtrusionLine)
  | [], layer_lines => some layer_lines
  | ex_entity :: rest, layer_lines =>
    match ex_entity.entities with
    | none => none
    | some entities =>
      match build_graph_push_all env entities layer_lines with
      | none => none
      | some layer_lines => build_graph_base_entities env rest layer_lines

/-- The loop over the regions of the base layer. -/
def build_graph_base_regions (env : Env) :
    List LayerRegion → List ExtrusionLine → Option (List ExtrusionLine)
  | [], layer_lines => some layer_lines
  | layer_region :: rest, layer_lines =>
    match build_graph_base_entities env layer_region.perimeters layer_lines with
    | none => none
    | some layer_lines =>
      match build_graph_base_entities env layer_region.fills layer_lines with
      | none => none
      | some layer_lines => build_graph_base_regions env rest layer_lines

/-- The loop over the perimeters of a region of a layer above the base layer. -/
def build_graph_perimeters (env : Env) (layer : Layer) (layer_region : LayerRegion)
    (external_lines : List ExtrusionLine) (params : Params) :
    List ExtrusionEntity → List ExtrusionLine → Issues → Option (List ExtrusionLine × Issues)
  | [], layer_lines, issues => some (layer_lines, issues)
  | ex_entity :: rest, layer_lines, issues =>
    match ex_entity.entities with
    | none => none
    | some entities =>
      match check_extrusion_entity_stability_all env entities layer_lines layer.slice_z
          layer_region external_lines issues params with
      | none => none
      | some (layer_lines, issues) =>
        build_graph_perimeters env layer layer_region external_lines params rest layer_lines
          issues

/-- The loop `for (const ExtrusionEntity *fill : ...)` of a layer above the base layer. -/
def build_graph_fill_entities (env : Env) (layer : Layer) (layer_region : LayerRegion)
    (external_lines : List ExtrusionLine) (params : Params) :
    List ExtrusionEntity → List ExtrusionLine → Issues → Option (List ExtrusionLine × Issues)
  | [], layer_lines, issues => some (layer_lines, issues)
  | fill :: rest, layer_lines, issues =>
    if fill.role env = .erGapFill ∨ fill.role env = .erBridgeInfill then
      match check_extrusion_entity_stability env fill layer_lines layer.slice_z layer_region
          external_lines issues params with
      | none => none
      | some (layer_lines, issues) =>
        build_graph_fill_entities env layer layer_region external_lines params rest layer_lines
          issues
    else
      match push_lines env fill layer_lines with
      | none => none
      | some layer_lines =>
        build_graph_fill_entities env layer layer_region external_lines params rest layer_lines
          issues

/-- The loop over the fills of a region of a layer above the base layer. -/
def build_graph_fills (env : Env) (layer : Layer) (layer_region : LayerRegion)
    (external_lines : List ExtrusionLine) (params : Params) :
    List ExtrusionEntity → List ExtrusionLine → Issues → Option (List ExtrusionLine × Issues)
  | [], layer_lines, issues => some (layer_lines, issues)
  | ex_entity :: rest, layer_lines, issues =>
    match ex_entity.entities with
    | none => none
    | some entities =>
      match build_graph_fill_entities env layer layer_region external_lines params entities
          layer_lines issues with
      | none => none
      | some (layer_lines, issues) =>
        build_graph_fills env layer layer_region external_lines params rest layer_lines issues

/-- The loop over the regions of a layer above the base layer. -/
def build_graph_regions (env : Env) (layer : Layer) (external_lines : List ExtrusionLine)
    (params : Params) :
    List LayerRegion → List ExtrusionLine → Issues → Option (List ExtrusionLine × Issues)
  | [], layer_lines, issues => some (layer_lines, issues)
  | layer_region :: rest, layer_lines, issues =>
    match build_graph_perimeters env layer layer_region external_lines params
        layer_region.perimeters layer_lines issues with
    | none => none
    | some (layer_lines, issues) =>
      match build_graph_fills env layer layer_region external_lines params layer_region.fills
          layer_lines issues with
      | none => none
      | some (layer_lines, issues) =>
        build_graph_regions env layer external_lines params rest layer_lines issues
/-- The variables of `check_extrusions_and_build_graph` that live across the layers. -/
structure BuildState where
  issues : Issues := {}
  malformations : Malformations := {}
  islands_graph : List LayerIslands := []
  external_lines : List ExtrusionLine := []
  prev_layer_grid : PixelGrid

/-- Body of the layer loop of `check_extrusions_and_build_graph` (a layer above the base
layer). -/
def build_graph_layer (env : Env) (params : Params) (st : BuildState) (layer : Layer) :
    Option BuildState :=
  match build_graph_regions env layer st.external_lines params layer.regions [] st.issues with
  | none => none
  | some (layer_lines, issues) =>
    match reckon_islands env layer false st.prev_layer_grid layer_lines params with
    | none => none
    | some (layer_islands, layer_grid) =>
      let malformed_lines : List Line :=
        (layer_lines.filter fun line => fin (3 / 10) < line.malformation).map fun line =>
          (env.new_scale line.a, env.new_scale line.b)
      some
        { issues := issues
          malformations := { layers := st.malformations.layers ++ [malformed_lines] }
          islands_graph := st.islands_graph ++ [layer_islands]
          external_lines := layer_lines
          prev_layer_grid := layer_grid }

/-- The layer loop of `check_extrusions_and_build_graph`. -/
def build_graph_layers (env : Env) (params : Params) :
    List Layer → BuildState → Option BuildState
  | [], st => some st
  | layer :: rest, st =>
    match build_graph_layer env params st layer with
    | none => none
    | some st => build_graph_layers env params rest st

/-- Function `check_extrusions_and_build_graph`; `none` when the run meets undefined
behaviour or does not end. -/
def check_extrusions_and_build_graph (env : Env) (po : PrintObject) (params : Params) :
    Option (Issues × Malformations × List LayerIslands) :=
  match po.layers.getLast? with
  | none => none
  | some last_layer =>
    match last_layer.regions with
    | [] => none
    | last_region :: _ =>
      let flow_width := get_flow_width last_region .erExternalPerimeter
      match PixelGrid.make env po (flow_width * fin 2) with
      | none => none
      | some prev_layer_grid =>
        match po.layers with
        | [] => none
        | layer :: layers =>
          -- PREPARE BASE LAYER
          match build_graph_base_regions env layer.regions [] with
          | none => none
          | some layer_lines =>
            match reckon_islands env layer true prev_layer_grid layer_lines params with
            | none => none
            | some (layer_islands, layer_grid) =>
              match build_graph_layers env params layers
                  { malformations := { layers := [[]] }
                    islands_graph := [layer_islands]
                    external_lines := layer_lines
                    prev_layer_grid := layer_grid } with
              | none => none
              | some st => some (st.issues, st.malformations, st.islands_graph)

/-- Constructor `SupportGridFilter(po, voxel_size)`; undefined (`none`) when a cell count
cannot be cast to `int`. -/
def SupportGridFilter.make (env : Env) (po : PrintObject) (voxel_size : Flt) :
    Option SupportGridFilter :=
  let cell_size : Vec3f := ⟨voxel_size, voxel_size, voxel_size⟩
  let size_half : Int × Int := (Int.tdiv po.size.1 2 + 1, Int.tdiv po.size.2.1 2 + 1)
  let min : Vec3f :=
    (⟨env.unscale (-size_half.1), env.unscale (-size_half.2), env.unscale 0⟩ : Vec3f) - cell_size
  let max : Vec3f :=
    (⟨env.unscale size_half.1, env.unscale size_half.2, env.unscale po.height⟩ : Vec3f)
      + cell_size
  let origin := min
  let size := max - min
  match (size.x / cell_size.x).toInt, (size.y / cell_size.y).toInt,
      (size.z / cell_size.z).toInt with
  | some cx, some cy, some cz =>
    some { cell_size := cell_size, origin := origin, size := size
           cell_count := (cx + 1, cy + 1, cz + 1) }
  | _, _, _ => none

/-- Function `full_search`; `set_order` gives the order in which a `std::unordered_set`
iterates over its elements. -/
def full_search (env : Env) (set_order : List Nat → List Nat) (po : PrintObject)
    (params : Params) : Option (Issues × Malformations) :=
  match check_extrusions_and_build_graph env po params with
  | none => none
  | some (local_issues, malformations, graph) =>
    match SupportGridFilter.make env po params.min_distance_between_support_points with
    | none => none
    | some supports_presence_grid =>
      match check_global_stability env set_order supports_presence_grid graph params with
      | none => none
      | some global_issues =>
        some ({ support_points := global_issues.support_points ++ local_issues.support_points },
          malformations)
/-- The boundary lines of the axis-parallel rectangle from `(x0, y0)` to `(x1, y1)`, in
scaled coordinates. -/
def rectangle_slice (x0 y0 x1 y1 : Int) : List Line :=
  [((x0, y0), (x1, y0)), ((x1, y0), (x1, y1)), ((x1, y1), (x0, y1)), ((x0, y1), (x0, y0))]

/-- A closed square loop of side 2 mm around (-3, 0). -/
def small_perimeter : List Vec2f :=
  [⟨fin (-4), fin (-1)⟩, ⟨fin (-2), fin (-1)⟩, ⟨fin (-2), fin 1⟩, ⟨fin (-4), fin 1⟩,
   ⟨fin (-4), fin (-1)⟩]

/-- A closed square loop of side 0.5 mm with a corner at (1, 0). -/
def tiny_perimeter : List Vec2f :=
  [⟨fin 1, fin 0⟩, ⟨fin (3 / 2), fin 0⟩, ⟨fin (3 / 2), fin (1 / 2)⟩, ⟨fin 1, fin (1 / 2)⟩,
   ⟨fin 1, fin 0⟩]

/-- The base layer of `po_overhang`: the small square, printed as an inner perimeter. -/
def layer_base : Layer :=
  { slice_z := fin (1 / 5), height := fin (1 / 5)
    regions := [{ region0 with
      perimeters := [.collection [.path 0 .erPerimeter small_perimeter]] }]
    lslices := [rectangle_slice (-4500000) (-1500000) (-1500000) 1500000] }

/-- The second layer of `po_overhang`: the small square again and, apart from it, the tiny
square as an external perimeter that rests on nothing. -/
def layer_overhang : Layer :=
  { slice_z := fin (2 / 5), height := fin (1 / 5)
    regions := [{ region0 with
      perimeters := [.collection [.path 1 .erPerimeter small_perimeter,
        .path 2 .erExternalPerimeter tiny_perimeter]] }]
    lslices := [rectangle_slice (-4500000) (-1500000) (-1500000) 1500000,
      rectangle_slice 500000 (-500000) 2000000 1000000] }

/-- A print object of two layers with an island that starts in mid-air. -/
def po_overhang : PrintObject :=
  { size := (10000000, 10000000, 400000), height := 400000
    layers := [layer_base, layer_overhang] }

/-- Eigen `squaredNorm` of a `Vec3f`. -/
def Vec3f.squaredNorm (v : Vec3f) : Flt := v.x * v.x + v.y * v.y + v.z * v.z

/-- A print object of 200 mm by 200 mm by 100 mm, of which only the size is given. -/
def po_wide : PrintObject :=
  { size := (199999998, 199999998, 100000000), height := 100000000, layers := [] }

/-! ## Specification vocabulary for the island graph -/

/-- The pixel `c` is non-empty in both grids. -/
def PixelGrid.overlap (current_layer_grid prev_layer_grid : PixelGrid) (c : Nat × Nat) : Bool :=
  match current_layer_grid.get_pixel (c.1, c.2), prev_layer_grid.get_pixel (c.1, c.2) with
  | some current, some previous => current ≠ NULL_ISLAND && previous ≠ NULL_ISLAND
  | _, _ => false

/-- The pixel `c` of the grid is non-empty. -/
def PixelGrid.covered (grid : PixelGrid) (c : Nat × Nat) : Bool :=
  match grid.get_pixel (c.1, c.2) with
  | some value => value ≠ NULL_ISLAND
  | none => false

/-- The pixels `(x, y)` with `x` from `xs` and `y` from `ys`, in the order in which the pixel
loops of `reckon_islands` visit them. -/
def pixel_coords (xs ys : List Nat) : List (Nat × Nat) :=
  xs.flatMap fun x => ys.map fun y => (x, y)

/-- The pixels of the grid in the order in which the pixel loops of `reckon_islands` visit
them. -/
def PixelGrid.coords (grid : PixelGrid) : List (Nat × Nat) :=
  pixel_coords (List.range (size_t_of_int grid.get_pixel_count.1))
    (List.range (size_t_of_int grid.get_pixel_count.2))

/-- What the pixel loops of `reckon_islands` do to the islands at a pixel `c` that is
non-empty in both grids. -/
def connect_step (current_layer_grid prev_layer_grid : PixelGrid) (layer_z : Flt)
    (islands : List Island) (c : Nat × Nat) : List Island :=
  match current_layer_grid.get_pixel (c.1, c.2), prev_layer_grid.get_pixel (c.1, c.2),
      islands.get? ((current_layer_grid.get_pixel (c.1, c.2)).getD 0) with
  | some current, some previous, some island =>
    islands.set current
      { island with
        connected_islands :=
          connection_update
            (add_pixel (current_layer_grid.get_pixel_center (c.1, c.2)) layer_z
              current_layer_grid.pixel_area)
            previous island.connected_islands }
  | _, _, _ => islands

/-- The sum of the areas of the connections of a connection map. -/
def connections_area (connected_islands : List (Nat × IslandConnection)) : Flt :=
  (connected_islands.map fun entry => entry.2.area).sum

/-- The sum of the areas of all connections of all islands. -/
def islands_area (islands : List Island) : Flt :=
  (islands.map fun island => connections_area island.connected_islands).sum

/-- A grid of 4 by 2 pixels of 1 mm: the pixels (1, 0) and (2, 0) belong to island 0 of the
previous layer, the pixel (3, 0) to its island 1, the other pixels are empty. -/
def grid_two_islands : PixelGrid :=
  { pixel_size := ⟨fin 1, fin 1⟩, origin := ⟨fin 0, fin 0⟩, size := ⟨fin 3, fin 1⟩
    pixel_count := (4, 2)
    pixels := [NULL_ISLAND, 0, 0, 1, NULL_ISLAND, NULL_ISLAND, NULL_ISLAND, NULL_ISLAND] }

/-- A layer with one slice, the rectangle from (0, 0) to (4, 1). -/
def layer_strip : Layer :=
  { slice_z := fin (2 / 5), height := fin (1 / 5), regions := [region0]
    lslices := [rectangle_slice 0 0 4000000 1000000] }

/-- One external perimeter line from (0.5, 0.5) to (3.5, 0.5). -/
def lines_strip : List ExtrusionLine :=
  [{ a := ⟨fin (1 / 2), fin (1 / 2)⟩, b := ⟨fin (7 / 2), fin (1 / 2)⟩, len := fin 3
     origin_entity := some ⟨0, .erExternalPerimeter⟩ }]

/-- The grid `grid_two_islands` with the pixel (1, 0) emptied. -/
def grid_partial : PixelGrid :=
  { grid_two_islands with
    pixels := [NULL_ISLAND, NULL_ISLAND, 0, 1, NULL_ISLAND, NULL_ISLAND, NULL_ISLAND,
      NULL_ISLAND] }

/-- A grid of 4 by 2 pixels of 1 mm whose pixels (1, 0), (2, 0) and (3, 0) belong to
island 0, the other pixels being empty. -/
def grid_stacked : PixelGrid :=
  { grid_two_islands with
    pixels := [NULL_ISLAND, 0, 0, 0, NULL_ISLAND, NULL_ISLAND, NULL_ISLAND, NULL_ISLAND] }

/-- The indices of the layer lines of the extrusions `island_ex` of an island, in the order
in which `reckon_islands` visits them. -/
def island_line_indices (extrusions : List (Nat × Nat)) (island_ex : List Nat) : List Nat :=
  island_ex.flatMap fun extrusion_idx =>
    match extrusions.get? extrusion_idx with
    | some extrusion => List.range' extrusion.1 (extrusion.2 - extrusion.1)
    | none => []

/-- The volume that `reckon_islands` accumulates for a line. -/
def line_volume (env : Env) (layer : Layer) (flow_width : Flt) (line : ExtrusionLine) : Flt :=
  line.len * layer.height * flow_width * env.PI / fin 4

/-- The sticking area that `reckon_islands` accumulates for a line: that of every line of the
first layer and of every line with a local support point. -/
def line_sticking_area (first_layer : Bool) (flow_width : Flt) (line : ExtrusionLine) : Flt :=
  if first_layer || line.support_point_generated then line.len * flow_width else 0

/-- Two square slices of side 2 mm that touch in the corner (2, 2). -/
def layer_touching : Layer :=
  { slice_z := fin (2 / 5), height := fin (1 / 5), regions := [region0]
    lslices := [rectangle_slice 0 0 2000000 2000000,
      rectangle_slice 2000000 2000000 4000000 4000000] }

/-- One line from (1, 2) to (2, 2), which ends in the corner where the slices of
`layer_touching` touch. -/
def lines_corner : List ExtrusionLine :=
  [{ a := ⟨fin 1, fin 2⟩, b := ⟨fin 2, fin 2⟩, len := fin 1
     origin_entity := some ⟨0, .erPerimeter⟩ }]

/-- The sum of the volumes of the layer lines with the indices `idxs`. -/
def lines_volume (env : Env) (layer : Layer) (flow_width : Flt)
    (layer_lines : List ExtrusionLine) (idxs : List Nat) : Flt :=
  (idxs.map fun lidx =>
    ((layer_lines.get? lidx).map (line_volume env layer flow_width)).getD 0).sum

/-- The sum of the sticking areas of the layer lines with the indices `idxs`. -/
def lines_sticking_area (first_layer : Bool) (flow_width : Flt)
    (layer_lines : List ExtrusionLine) (idxs : List Nat) : Flt :=
  (idxs.map fun lidx =>
    ((layer_lines.get? lidx).map (line_sticking_area first_layer flow_width)).getD 0).sum

/-- Two square slices of side 2 mm that lie 1 mm apart. -/
def layer_apart : Layer :=
  { slice_z := fin (2 / 5), height := fin (1 / 5), regions := [region0]
    lslices := [rectangle_slice 0 0 2000000 2000000, rectangle_slice 3000000 0 5000000 2000000] }

/-- Two runs of one line each, the first inside the first slice of `layer_apart` and the
second, which has a local support point, inside its second slice. -/
def lines_apart : List ExtrusionLine :=
  [{ a := ⟨fin (1 / 2), fin 1⟩, b := ⟨fin (3 / 2), fin 1⟩, len := fin 1
     origin_entity := some ⟨0, .erPerimeter⟩ },
   { a := ⟨fin (7 / 2), fin 1⟩, b := ⟨fin (9 / 2), fin 1⟩, len := fin 1
     origin_entity := some ⟨1, .erPerimeter⟩, support_point_generated := true }]

instance : Add IslandConnection := ⟨IslandConnection.add⟩
instance : Zero IslandConnection := ⟨{}⟩

instance : AddCommMonoid IslandConnection :=
  { (inferInstance : Add IslandConnection), (inferInstance : Zero IslandConnection) with
    add_assoc := fun a b c => by
      show IslandConnection.mk _ _ _ _ = IslandConnection.mk _ _ _ _
      congr 1 <;> exact add_assoc _ _ _
    zero_add := fun a => by
      show IslandConnection.mk _ _ _ _ = a
      cases a; congr 1 <;> exact zero_add _
    add_zero := fun a => by
      show IslandConnection.mk _ _ _ _ = a
      cases a; congr 1 <;> exact add_zero _
    add_comm := fun a b => by
      show IslandConnection.mk _ _ _ _ = IslandConnection.mk _ _ _ _
      congr 1 <;> exact add_comm _ _
    nsmul := nsmulRec }

/-- The element-wise sum of the weakest connections recorded for the predecessors of an
island, one term for every entry of its connection map. -/
def transfered_connection (prev_island_weakest_connection : Nat → Option IslandConnection)
    (island : Island) : IslandConnection :=
  (island.connected_islands.map fun connection =>
    (prev_island_weakest_connection connection.1).getD 0).sum

/-- The element-wise sum of the connections of an island to the previous layer. -/
def new_connection (island : Island) : IslandConnection :=
  (island.connected_islands.map fun connection => connection.2).sum

/-- A connection of area 1 whose centroid lies at height 0. -/
def connection_fresh : IslandConnection :=
  { area := fin 1, second_moment_of_area_accumulator := ⟨fin 1, fin 1⟩ }

/-- The state of a boundary walk on the part `part_bedded`, held by `connection_fresh`. -/
def probe_state_fresh : ProbeState :=
  { part := part_bedded, weakest_conn := connection_fresh, unchecked_dist := fin 4, issues := {}
    supports_presence_grid := grid0 }

/-- The contact area that `check_global_stability` credits to a support point: the area of the
interface disc, scaled by the ratio of the adhesion strength of a support spot to the yield
strength of the bed adhesion (the local `altered_area`). -/
def support_point_area (env : Env) (params : Params) : Flt :=
  params.support_points_interface_radius * params.support_points_interface_radius * env.PI
    * params.get_support_spots_adhesion_strength / params.get_bed_adhesion_yield_strength

/-- The state of a boundary walk on the part of `island_floating`, which has no sticking
area. -/
def probe_state_floating : ProbeState :=
  { part := ObjectPart.ofIsland island_floating, weakest_conn := sentinel_connection
    unchecked_dist := fin 4, issues := {}, supports_presence_grid := grid0 }

/-- A part of volume 1 whose sticking area of 1 lies at the height 0.4 mm, at the point (0, 0),
while its mass centroid is at (1, 0, 0.4). -/
def part_anchored : ObjectPart :=
  { volume := fin 1, volume_centroid_accumulator := ⟨fin 1, fin 0, fin (2 / 5)⟩
    sticking_area := fin 1, sticking_centroid_accumulator := ⟨fin 0, fin 0, fin (2 / 5)⟩ }

/-- An island that starts in mid-air, with two boundary lines of 2 mm that lie 8 mm apart. -/
def island_two_lines : Island :=
  { volume := fin 1, volume_centroid_accumulator := ⟨fin 7, fin 4, fin (2 / 5)⟩
    external_lines :=
      [{ a := ⟨fin 0, fin 0⟩, b := ⟨fin 2, fin 0⟩, len := fin 2, origin_entity := none },
       { a := ⟨fin 10, fin 0⟩, b := ⟨fin 10, fin 2⟩, len := fin 2, origin_entity := none }] }

/-- A graph of two layers: `island_base` and, above it, `island_two_lines`, which rests on
nothing. -/
def graph_two_lines : List LayerIslands :=
  [{ islands := [island_base], layer_z := fin (1 / 5) },
   { islands := [island_two_lines], layer_z := fin (2 / 5) }]

/-- A part that rests on the bed: sticking area 100 around the origin at the height 0.2 mm. -/
def part_on_bed : ObjectPart :=
  { volume := fin 1, volume_centroid_accumulator := ⟨fin 0, fin 0, fin 5⟩
    sticking_area := fin 100, sticking_centroid_accumulator := ⟨fin 0, fin 0, fin 20⟩
    sticking_second_moment_of_area_accumulator := ⟨fin 1000, fin 1000⟩ }

/-- A connection of area 1 at the height 1 mm, spread out around the origin. -/
def connection_low : IslandConnection :=
  { area := fin 1, centroid_accumulator := ⟨fin 0, fin 0, fin 1⟩
    second_moment_of_area_accumulator := ⟨fin 1, fin 1⟩ }

/-- A part of volume 1 whose sticking area of 1 lies at the height 0.2 mm, at the point (0, 0),
while its mass centroid is at (1, 0, 0.4). -/
def part_offset : ObjectPart :=
  { volume := fin 1, volume_centroid_accumulator := ⟨fin 1, fin 0, fin (2 / 5)⟩
    sticking_area := fin 1, sticking_centroid_accumulator := ⟨fin 0, fin 0, fin (1 / 5)⟩ }

/-- The test of the boundary walk of `check_global_stability` under which a line is passed
over without a probe: the unchecked distance with the line is below the minimum distance
between support points and the line is not malformed, or the line has no length. -/
def probe_skipped (params : Params) (unchecked_dist : Flt) (line : ExtrusionLine) : Prop :=
  (unchecked_dist + line.len < params.min_distance_between_support_points
      ∧ line.malformation < fin (3 / 10)) ∨ Flt.feq line.len (fin 0) = true

instance (params : Params) (unchecked_dist : Flt) (line : ExtrusionLine) :
    Decidable (probe_skipped params unchecked_dist line) :=
  inferInstanceAs (Decidable
    ((unchecked_dist + line.len < params.min_distance_between_support_points
        ∧ line.malformation < fin (3 / 10)) ∨ Flt.feq line.len (fin 0) = true))

/-- Every line of `lines` is passed over without a probe by a walk that reaches the first of
them with the unchecked distance `unchecked_dist`. -/
def all_skipped (params : Params) : Flt → List ExtrusionLine → Prop
  | _, [] => True
  | unchecked_dist, line :: rest =>
    probe_skipped params unchecked_dist line
      ∧ all_skipped params (unchecked_dist + line.len) rest

/-- The summed length of the lines. -/
def lines_length (lines : List ExtrusionLine) : Flt := (lines.map fun line => line.len).sum

/-- A boundary of three lines of 2 mm, 0.5 mm and 2 mm along the x axis. -/
def lines_walk : List ExtrusionLine :=
  [{ a := ⟨fin 0, fin 0⟩, b := ⟨fin 2, fin 0⟩, len := fin 2, origin_entity := none },
   { a := ⟨fin 2, fin 0⟩, b := ⟨fin (5 / 2), fin 0⟩, len := fin (1 / 2), origin_entity := none },
   { a := ⟨fin (5 / 2), fin 0⟩, b := ⟨fin (9 / 2), fin 0⟩, len := fin 2, origin_entity := none }]

/-- The lines of an island: the layer lines with the indices of the extrusions `island_ex`, in
the order in which `reckon_islands` visits them. -/
def island_lines (layer_lines : List ExtrusionLine) (extrusions : List (Nat × Nat))
    (island_ex : List Nat) : List ExtrusionLine :=
  (island_line_indices extrusions island_ex).filterMap layer_lines.get?

/-- The line of `lines_strip` with a local support point. -/
def lines_strip_flagged : List ExtrusionLine :=
  [{ a := ⟨fin (1 / 2), fin (1 / 2)⟩, b := ⟨fin (7 / 2), fin (1 / 2)⟩, len := fin 3
     origin_entity := some ⟨0, .erExternalPerimeter⟩, support_point_generated := true }]

/-- The id reached from `i` after `d` steps along the id mapping `m`. -/
def ActiveObjectParts.ancestor (m : Nat → Option Nat) : Nat → Nat → Option Nat
  | 0, i => some i
  | d + 1, i => (m i).bind (ActiveObjectParts.ancestor m d)

/-- Replays a sequence of `insert` and `merge` calls on a tracker; `none` when a call
throws. -/
def replay : ActiveObjectParts → List TrackerCall → Option ActiveObjectParts
  | s, [] => some s
  | s, .insert island :: cs => replay (s.insert island).2 cs
  | s, .merge from_id to_id :: cs =>
    match s.merge from_id to_id with
    | none => none
    | some s2 => replay s2 cs

/-- Four inserts followed by `merge(0, 1)`, `merge(1, 2)` and `merge(2, 3)`: the ids 0, 1, 2
and 3 form a chain of parents. -/
def calls_chain : List TrackerCall :=
  [.insert { volume := fin 1 }, .insert { volume := fin 2 }, .insert { volume := fin 4 },
    .insert { volume := fin 8 }, .merge 0 1, .merge 1 2, .merge 2 3]

/-- Every `merge` of the sequence of calls, replayed from the tracker `s`, is given as `from`
an id that is canonical (mapped to itself) when the call is made, and as `to` a previously
inserted id whose canonical id is another one. -/
def canonical_merges : ActiveObjectParts → List TrackerCall → Prop
  | _, [] => True
  | s, .insert island :: cs => canonical_merges (s.insert island).2 cs
  | s, .merge from_id to_id :: cs =>
    s.active_object_parts_id_mapping from_id = some from_id ∧ to_id < s.next_part_idx ∧
    (s.get_flat_id to_id).map Prod.fst ≠ some from_id ∧
    match s.merge from_id to_id with
    | none => True
    | some s2 => canonical_merges s2 cs

/-- Decision procedure of `canonical_merges`. -/
instance canonical_merges_decidable :
    (s : ActiveObjectParts) → (cs : List TrackerCall) → Decidable (canonical_merges s cs)
  | _, [] => isTrue trivial
  | s, .insert island :: cs => canonical_merges_decidable (s.insert island).2 cs
  | s, .merge from_id to_id :: cs =>
    have : Decidable (match s.merge from_id to_id with
        | none => True
        | some s2 => canonical_merges s2 cs) :=
      match s.merge from_id to_id with
      | none => isTrue trivial
      | some s2 => canonical_merges_decidable s2 cs
    inferInstanceAs (Decidable
      (s.active_object_parts_id_mapping from_id = some from_id ∧ to_id < s.next_part_idx ∧
        (s.get_flat_id to_id).map Prod.fst ≠ some from_id ∧
        match s.merge from_id to_id with
        | none => True
        | some s2 => canonical_merges s2 cs))

/-- Four inserts followed by `merge(0, 1)`, `merge(1, 2)` and `merge(3, 0)`: every `from` is
canonical when its call is made, while the `to` of the last call is not (the canonical id of
0 is then 2). -/
def calls_canonical_merges : List TrackerCall :=
  [.insert { volume := fin 1 }, .insert { volume := fin 2 }, .insert { volume := fin 4 },
    .insert { volume := fin 8 }, .merge 0 1, .merge 1 2, .merge 3 0]

/-- The point with the finite coordinates `p`. -/
def vec (p : ℚ × ℚ) : Vec2f := ⟨fin p.1, fin p.2⟩

/-- The length of a polyline: the sum of the norms of the differences of consecutive
points. -/
def polyline_length (env : Env) : List Vec2f → Flt
  | start :: next :: rest => (next - start).norm env.sqrtf + polyline_length env (next :: rest)
  | _ => 0

/-- The lines run from `p` to `q`: the first line starts at `p`, every further line starts
where the line before it ends, and the last line ends at `q`; without a line, `p` is `q`. -/
def runs_from_to (q : Vec2f) : Vec2f → List ExtrusionLine → Prop
  | p, [] => p = q
  | p, line :: rest => line.a = p ∧ runs_from_to q line.b rest

/-- The largest `t` such that `t * t` divides `m` (0 for `m = 0`). -/
def square_part (m : Nat) : Nat := Nat.findGreatest (fun t => t * t ∣ m) m

/-- The square root of `s` in thousandths, rounded down. -/
def root_thousandths (s : Nat) : Nat :=
  Nat.findGreatest (fun r => r * r ≤ s * 1000000) (s * 1000)

/-- A rational-valued square root that obeys the laws of the square root.  A positive `x` is
`s * r * r` for one square-free natural number `s` and one positive rational `r`; the value is
`r` times the square root of `s` truncated to three decimals.  It is the exact root of every
rational square (`sqrt_homogeneous_sq`), it is positive on positive values, and
`sqrt_homogeneous (x / (n * n)) = sqrt_homogeneous x / n` for every positive `x` and every
positive whole number `n` (`sqrt_homogeneous_scale`). -/
def sqrt_homogeneous (x : ℚ) : ℚ :=
  if x ≤ 0 then 0
  else
    let m := x.num.natAbs * x.den
    let t := square_part m
    (t : ℚ) / x.den * ((root_thousandths (m / (t * t)) : ℚ) / 1000)

/-- The environment `env0` with the square root `sqrt_homogeneous`. -/
def env_homogeneous : Env := { env0 with sqrtf := sqrt_homogeneous }

/-- The number of pieces into which `to_short_lines` cuts every edge of the polyline with the
points `pts` (the norm of the edge divided by `length_limit`, rounded up) fits an `int`. -/
def counts_fit (env : Env) (length_limit : ℚ) : List (ℚ × ℚ) → Prop
  | p :: q :: rest =>
    ⌈env.sqrtf ((q.1 - p.1) * (q.1 - p.1) + (q.2 - p.2) * (q.2 - p.2)) / length_limit⌉
        ≤ 2147483647
      ∧ counts_fit env length_limit (q :: rest)
  | _ => True

/-- A polyline with the corners (0, 0), (12, 12) and (32, 12): a diagonal edge of the
irrational length `12 * sqrt 2` and an edge of 20 mm. -/
def polyline_diagonal : List (ℚ × ℚ) := [(0, 0), (12, 12), (32, 12)]

/-- Every value of the list is `NULL_ISLAND` or an island index below `n`. -/
def values_valid (n : Nat) (values : List Nat) : Prop :=
  ∀ v ∈ values, v = NULL_ISLAND ∨ v < n

/-- The keys of the connections of the islands of every layer are island indices of the layer
before it, `prev_count` being the number of islands before the first layer of the list: every
key is below that layer's number of islands and is not `NULL_ISLAND`. -/
def graph_keys_valid : Nat → List LayerIslands → Prop
  | _, [] => True
  | prev_count, layer :: rest =>
    (∀ island ∈ layer.islands, ∀ connection ∈ island.connected_islands,
        connection.1 < prev_count ∧ connection.1 ≠ NULL_ISLAND)
      ∧ graph_keys_valid layer.islands.length rest

/-! ## Specification vocabulary for the tracker -/

namespace ActiveObjectParts

/-- The parts of a tracker have no key at or above `next_part_idx`. -/
def PartsBounded (s : ActiveObjectParts) : Prop :=
  ∀ i, s.next_part_idx ≤ i → s.active_object_parts i = none

/-- `Chain m i r k`: following the id mapping `m` from `i` reaches after `k` steps the id
`r`, the first id on the way that is mapped to itself. -/
inductive Chain (m : Nat → Option Nat) : Nat → Nat → Nat → Prop
  | root {r : Nat} (h : m r = some r) : Chain m r r 0
  | step {i p r k : Nat} (h : m i = some p) (hne : i ≠ p) (hc : Chain m p r k) :
      Chain m i r (k + 1)

/-- `Compressed m m2 r`: the mapping `m2` differs from `m` only at ids whose chain in `m`
ends in `r`, and those ids are mapped to `r` directly. -/
def Compressed (m m2 : Nat → Option Nat) (r : Nat) : Prop :=
  ∀ j, m2 j = m j ∨ (m2 j = some r ∧ j ≠ r ∧ ∃ k, Chain m j r k)

end ActiveObjectParts

/-- Well-formed tracker: the mapping stays below `next_part_idx`, every id below
`next_part_idx` reaches an id mapped to itself, and the ids mapped to themselves are exactly
the ids that own a live part. -/
structure ActiveObjectParts.WF (s : ActiveObjectParts) : Prop where
  lt : ∀ i p, s.active_object_parts_id_mapping i = some p →
    i < s.next_part_idx ∧ p < s.next_part_idx
  total : ∀ i, i < s.next_part_idx →
    ∃ r k, ActiveObjectParts.Chain s.active_object_parts_id_mapping i r k
  parts_iff : ∀ r, (s.active_object_parts r).isSome = true ↔
    s.active_object_parts_id_mapping r = some r

/-- The tracker after `merge(f, r)` for two different ids mapped to themselves. -/
def ActiveObjectParts.linked (s : ActiveObjectParts) (f r : Nat) (pr pf : ObjectPart) : ActiveObjectParts :=
  { s with
    active_object_parts :=
      Function.update (Function.update s.active_object_parts r (some (pr.add pf))) f none
    active_object_parts_id_mapping :=
      Function.update s.active_object_parts_id_mapping f (some r) }

/-- The id mapping of a tracker is a forest below `next_part_idx`: keys and values are below
`next_part_idx` and every id below it reaches an id mapped to itself. -/
structure ActiveObjectParts.MapOK (s : ActiveObjectParts) : Prop where
  lt : ∀ i p, s.active_object_parts_id_mapping i = some p →
    i < s.next_part_idx ∧ p < s.next_part_idx
  total : ∀ i, i < s.next_part_idx →
    ∃ r k, ActiveObjectParts.Chain s.active_object_parts_id_mapping i r k

/-- The state of `check_global_stability` between two islands of its first island loop, with
`count` islands on the previous layer and `island_idx` islands of the current layer visited:
the tracker is well-formed, every island of the previous layer has a part id of the tracker and
a weakest connection recorded, and so has every visited island of the current layer, the maps
of the current layer holding no other key. -/
def lookups_ready (st : GlobalState) (count island_idx : Nat) : Prop :=
  st.active_object_parts.WF ∧
  (∀ i, i < count → ∃ pid w, st.prev_island_to_object_part_mapping i = some pid ∧
    pid < st.active_object_parts.next_part_idx ∧
    st.prev_island_weakest_connection i = some w) ∧
  (∀ i, i < island_idx → ∃ pid w, st.next_island_to_object_part_mapping i = some pid ∧
    pid < st.active_object_parts.next_part_idx ∧
    st.next_island_weakest_connection i = some w) ∧
  (∀ i, island_idx ≤ i → st.next_island_to_object_part_mapping i = none ∧
    st.next_island_weakest_connection i = none)

/-! # Theorems -/

/-! ## Arithmetic of finite values -/

namespace Flt

@[simp] theorem add_fin (a b : ℚ) : (fin a + fin b : Flt) = fin (a + b) := rfl
@[simp] theorem sub_fin (a b : ℚ) : (fin a - fin b : Flt) = fin (a - b) := by
  show Flt.add (fin a) (Flt.neg (fin b)) = _
  simp [Flt.add, Flt.neg, sub_eq_add_neg]
@[simp] theorem mul_fin (a b : ℚ) : (fin a * fin b : Flt) = fin (a * b) := rfl
@[simp] theorem neg_fin (a : ℚ) : (-(fin a) : Flt) = fin (-a) := rfl
@[simp] theorem div_fin (a b : ℚ) :
    (fin a / fin b : Flt) = if b = 0 then signedInf a else fin (a / b) := rfl
@[simp] theorem lt_fin (a b : ℚ) : (fin a < fin b) ↔ a < b := by
  show Flt.lt (fin a) (fin b) = true ↔ _
  simp [Flt.lt]
@[simp] theorem zero_def : (0 : Flt) = fin 0 := rfl
@[simp] theorem one_def : (1 : Flt) = fin 1 := rfl
@[simp] theorem max_fin (a b : ℚ) : Flt.max (fin a) (fin b) = fin (Max.max a b) := by
  unfold Flt.max
  rcases lt_or_le a b with h | h
  · simp [h, max_eq_right h.le]
  · simp [not_lt.2 h, max_eq_left h]
@[simp] theorem min_fin (a b : ℚ) : Flt.min (fin a) (fin b) = fin (Min.min a b) := by
  unfold Flt.min
  rcases lt_or_le b a with h | h
  · simp [h, min_eq_right h.le]
  · simp [not_lt.2 h, min_eq_left h]
@[simp] theorem fabs_fin (a : ℚ) : Flt.fabs (fin a) = fin |a| := rfl
@[simp] theorem sqrt_fin (sq : ℚ → ℚ) (a : ℚ) :
    Flt.sqrt sq (fin a) = if a < 0 then nan else fin (sq a) := rfl
@[simp] theorem le_fin (a b : ℚ) : (fin a ≤ fin b) ↔ a ≤ b := by
  show (Flt.lt (fin a) (fin b) = true ∨ Flt.feq (fin a) (fin b) = true) ↔ _
  simp [Flt.lt, Flt.feq, le_iff_lt_or_eq]
@[simp] theorem feq_fin (a b : ℚ) : Flt.feq (fin a) (fin b) = decide (a = b) := rfl

end Flt

@[simp] theorem Vec2f.add_x (u v : Vec2f) : (u + v).x = u.x + v.x := rfl
@[simp] theorem Vec2f.add_y (u v : Vec2f) : (u + v).y = u.y + v.y := rfl
@[simp] theorem Vec2f.sub_x (u v : Vec2f) : (u - v).x = u.x - v.x := rfl
@[simp] theorem Vec2f.sub_y (u v : Vec2f) : (u - v).y = u.y - v.y := rfl
@[simp] theorem Vec3f.add3_x (u v : Vec3f) : (u + v).x = u.x + v.x := rfl
@[simp] theorem Vec3f.add3_y (u v : Vec3f) : (u + v).y = u.y + v.y := rfl
@[simp] theorem Vec3f.add3_z (u v : Vec3f) : (u + v).z = u.z + v.z := rfl
@[simp] theorem Vec3f.sub3_x (u v : Vec3f) : (u - v).x = u.x - v.x := rfl
@[simp] theorem Vec3f.sub3_y (u v : Vec3f) : (u - v).y = u.y - v.y := rfl
@[simp] theorem Vec3f.sub3_z (u v : Vec3f) : (u - v).z = u.z - v.z := rfl

/-! ## Theorems: the object part tracker -/

namespace ActiveObjectParts

theorem get_flat_id_frame {s s1 : ActiveObjectParts} {id r : Nat}
    (h : s.get_flat_id id = some (r, s1)) :
    s1.active_object_parts = s.active_object_parts ∧ s1.next_part_idx = s.next_part_idx := by
  unfold get_flat_id at h
  split at h
  · exact absurd h (by simp)
  · split at h
    · exact absurd h (by simp)
    · split at h
      · exact absurd h (by simp)
      · simp only [Option.some.injEq, Prod.mk.injEq] at h
        obtain ⟨-, rfl⟩ := h
        exact ⟨rfl, rfl⟩

theorem sum_merge (n : Nat) (f : Nat → Option ObjectPart) (tf ff : Nat) (pt pf : ObjectPart)
    (htf : f tf = some pt) (hff : f ff = some pf) (hne : tf ≠ ff) (h1 : tf < n) (h2 : ff < n) :
    ∑ i in Finset.range n,
        (Function.update (Function.update f tf (some (pt.add pf))) ff none i).getD 0
      = ∑ i in Finset.range n, (f i).getD 0 := by
  have hm1 : tf ∈ Finset.range n := Finset.mem_range.2 h1
  have hm2 : ff ∈ (Finset.range n).erase tf :=
    Finset.mem_erase.2 ⟨hne.symm, Finset.mem_range.2 h2⟩
  rw [← Finset.add_sum_erase _ _ hm1, ← Finset.add_sum_erase _ _ hm2,
    ← Finset.add_sum_erase (Finset.range n) (fun i => (f i).getD 0) hm1,
    ← Finset.add_sum_erase _ (fun i => (f i).getD 0) hm2]
  have hrest : ∑ x in ((Finset.range n).erase tf).erase ff,
        (Function.update (Function.update f tf (some (pt.add pf))) ff none x).getD 0
      = ∑ x in ((Finset.range n).erase tf).erase ff, (f x).getD 0 := by
    apply Finset.sum_congr rfl
    intro x hx
    have hx1 : x ≠ ff := (Finset.mem_erase.1 hx).1
    have hx2 : x ≠ tf := (Finset.mem_erase.1 (Finset.mem_erase.1 hx).2).1
    simp [Function.update, hx1, hx2]
  rw [hrest]
  simp only [Function.update, hne, htf, hff, dite_true, dite_false, eq_rec_constant, ↓reduceDIte,
    Option.getD_some, Option.getD_none, zero_add]
  rw [← add_assoc]
  rfl

theorem partsBounded_insert {s : ActiveObjectParts} (hb : s.PartsBounded) (island : Island) :
    (s.insert island).2.PartsBounded ∧
      (s.insert island).2.total = s.total + ObjectPart.ofIsland island := by
  have hnone : s.active_object_parts s.next_part_idx = none := hb _ le_rfl
  constructor
  · intro i hi
    have hi' : s.next_part_idx + 1 ≤ i := hi
    have hne : i ≠ s.next_part_idx := by omega
    simp [insert, emplace, hnone, Function.update, hne, hb i (by omega)]
  · simp only [total, insert, emplace, hnone, Option.isSome_none, Bool.false_eq_true, if_false]
    rw [Finset.sum_range_succ]
    congr 1
    · apply Finset.sum_congr rfl
      intro x hx
      have : x ≠ s.next_part_idx := (Finset.mem_range.1 hx).ne
      simp [Function.update, this]
    · simp [Function.update]

theorem partsBounded_merge {s s2 : ActiveObjectParts} {from_id to_id tf ff : Nat}
    {s1 s1' : ActiveObjectParts} (hb : s.PartsBounded)
    (h1 : s.get_flat_id to_id = some (tf, s1)) (h2 : s1.get_flat_id from_id = some (ff, s1'))
    (hne : tf ≠ ff) (hm : s.merge from_id to_id = some s2) :
    s2.PartsBounded ∧ s2.total = s.total := by
  obtain ⟨hp1, hn1⟩ := get_flat_id_frame h1
  obtain ⟨hp2, hn2⟩ := get_flat_id_frame h2
  unfold merge at hm
  rw [h1] at hm
  simp only [h2] at hm
  split at hm
  · rename_i to_part from_part hto hfrom
    simp only [Option.some.injEq] at hm
    subst hm
    rw [hp2, hp1] at hto hfrom
    have htf : tf < s.next_part_idx := by
      by_contra hcon
      rw [hb tf (by omega)] at hto
      exact absurd hto (by simp)
    have hff : ff < s.next_part_idx := by
      by_contra hcon
      rw [hb ff (by omega)] at hfrom
      exact absurd hfrom (by simp)
    constructor
    · intro i hi
      have hi' : s.next_part_idx ≤ i := by
        have : s1'.next_part_idx ≤ i := hi
        omega
      have e1 : i ≠ tf := by omega
      have e2 : i ≠ ff := by omega
      simp [Function.update, e1, e2, hp2, hp1, hb i hi']
    · simp only [total, hn2, hn1, hp2, hp1]
      exact sum_merge _ _ tf ff _ _ hto hfrom hne htf hff
  · exact absurd hm (by simp)

theorem run_calls_total (calls : List TrackerCall) :
    ∀ (s s2 : ActiveObjectParts), s.PartsBounded → run_calls s calls = some s2 →
      s2.PartsBounded ∧
        s2.total = s.total + ((TrackerCall.inserted calls).map ObjectPart.ofIsland).sum := by
  induction calls with
  | nil =>
    intro s s2 hb h
    simp only [run_calls, Option.some.injEq] at h
    subst h
    exact ⟨hb, by simp [TrackerCall.inserted]⟩
  | cons c cs ih =>
    intro s s2 hb h
    cases c with
    | insert island =>
      simp only [run_calls] at h
      obtain ⟨hb1, ht1⟩ := partsBounded_insert hb island
      obtain ⟨hb2, ht2⟩ := ih _ _ hb1 h
      refine ⟨hb2, ?_⟩
      rw [ht2, ht1]
      simp [TrackerCall.inserted, add_assoc]
    | merge from_id to_id =>
      simp only [run_calls] at h
      split at h
      · exact absurd h (by simp)
      · rename_i tf s1 h1
        split at h
        · exact absurd h (by simp)
        · rename_i ff s1' h2
          split at h
          · exact absurd h (by simp)
          · rename_i hne
            split at h
            · exact absurd h (by simp)
            · rename_i sm hm
              obtain ⟨hb1, ht1⟩ := partsBounded_merge hb h1 h2 hne hm
              obtain ⟨hb2, ht2⟩ := ih _ _ hb1 h
              refine ⟨hb2, ?_⟩
              rw [ht2, ht1]
              simp [TrackerCall.inserted]

theorem volume_sum (l : List ObjectPart) : l.sum.volume = (l.map fun p => p.volume).sum := by
  induction l with
  | nil => rfl
  | cons a l ih =>
    rw [List.sum_cons, List.map_cons, List.sum_cons, ← ih]
    rfl

/-- C1 (tracker additivity).  After every sequence of `insert` and `merge` calls on a fresh
tracker in which each merge joins two ids with different canonical ids, the sum of all live
parts equals the sum of the parts made from the inserted islands: this is an equality of
`ObjectPart` values, whose sum adds every accumulator separately, so it holds for the volume,
the volume centroid accumulator, the sticking area, the sticking centroid accumulator, the
sticking second moments and the sticking covariance alike; for the volume it reads: the
volume of the summed live parts is the sum of the volumes of the inserted islands. -/
theorem tracker_additivity (calls : List TrackerCall) (s : ActiveObjectParts)
    (h : run_calls {} calls = some s) :
    s.total = ((TrackerCall.inserted calls).map ObjectPart.ofIsland).sum ∧
      s.total.volume = ((TrackerCall.inserted calls).map fun island => island.volume).sum := by
  have hb : ({} : ActiveObjectParts).PartsBounded := fun _ _ => rfl
  have ht : s.total = ((TrackerCall.inserted calls).map ObjectPart.ofIsland).sum := by
    have := (run_calls_total calls {} s hb h).2
    rw [this]
    simp [total]
  refine ⟨ht, ?_⟩
  rw [ht, volume_sum, List.map_map]
  rfl

/-! ### Parent chains and the two loops of `get_flat_id` -/

theorem Chain.root_self {m : Nat → Option Nat} {i r k : Nat} (h : Chain m i r k) :
    m r = some r := by
  induction h with
  | root h => exact h
  | step _ _ _ ih => exact ih

theorem Chain.unique {m : Nat → Option Nat} {i r k : Nat} (h : Chain m i r k) :
    ∀ {r2 k2 : Nat}, Chain m i r2 k2 → r = r2 ∧ k = k2 := by
  induction h with
  | root h =>
    intro r2 k2 h2
    cases h2 with
    | root _ => exact ⟨rfl, rfl⟩
    | step h3 hne _ =>
      rw [h] at h3
      exact absurd (Option.some.inj h3) hne
  | step h hne _ ih =>
    intro r2 k2 h2
    cases h2 with
    | root h3 =>
      rw [h] at h3
      exact absurd (Option.some.inj h3).symm hne
    | step h3 _ hc3 =>
      rw [h] at h3
      cases Option.some.inj h3
      obtain ⟨e1, e2⟩ := ih hc3
      exact ⟨e1, by omega⟩

theorem loop1_chain {m : Nat → Option Nat} :
    ∀ (fuel i r : Nat), get_flat_id_loop1 m fuel i = some r → ∃ k, k < fuel ∧ Chain m i r k := by
  intro fuel
  induction fuel with
  | zero => intro i r h; simp [get_flat_id_loop1] at h
  | succ f ih =>
    intro i r h
    unfold get_flat_id_loop1 at h
    split at h
    · exact absurd h (by simp)
    · rename_i p hp
      split at h
      · rename_i hne
        obtain ⟨k, hk, hc⟩ := ih p r h
        exact ⟨k + 1, by omega, Chain.step hp hne hc⟩
      · rename_i hne
        simp only [ne_eq, not_not] at hne
        simp only [Option.some.injEq] at h
        subst h
        subst hne
        exact ⟨0, by omega, Chain.root hp⟩

theorem chain_loop1 {m : Nat → Option Nat} {i r k : Nat} (h : Chain m i r k) :
    ∀ fuel, k < fuel → get_flat_id_loop1 m fuel i = some r := by
  induction h with
  | root h =>
    intro fuel hf
    obtain ⟨f, rfl⟩ : ∃ f, fuel = f + 1 := ⟨fuel - 1, by omega⟩
    simp [get_flat_id_loop1, h]
  | step h hne _ ih =>
    intro fuel hf
    obtain ⟨f, rfl⟩ : ∃ f, fuel = f + 1 := ⟨fuel - 1, by omega⟩
    simp only [get_flat_id_loop1, h, ne_eq, hne, not_false_eq_true, if_true]
    exact ih f (by omega)

theorem Compressed.refl (m : Nat → Option Nat) (r : Nat) : Compressed m m r :=
  fun _ => Or.inl rfl

theorem chain_loop2 {m : Nat → Option Nat} {i r k : Nat} (h : Chain m i r k) :
    ∀ (mc : Nat → Option Nat) (fuel : Nat),
      (∀ j d, Chain m j r d → d ≤ k → mc j = m j) → Compressed m mc r → k ≤ fuel → 1 ≤ fuel →
      ∃ m2, get_flat_id_loop2 r fuel i mc = some m2 ∧ Compressed m m2 r := by
  induction h with
  | root h =>
    intro mc fuel hinv hcomp _ hf1
    obtain ⟨f, rfl⟩ : ∃ f, fuel = f + 1 := ⟨fuel - 1, by omega⟩
    have : mc _ = some _ := (hinv _ 0 (Chain.root h) le_rfl).trans h
    exact ⟨mc, by simp [get_flat_id_loop2, this], hcomp⟩
  | @step i p r k h hne hc ih =>
    intro mc fuel hinv hcomp hf hf1
    obtain ⟨f, rfl⟩ : ∃ f, fuel = f + 1 := ⟨fuel - 1, by omega⟩
    have hi : mc i = some p := (hinv i (k + 1) (Chain.step h hne hc) le_rfl).trans h
    by_cases hrp : r = p
    · exact ⟨mc, by simp [get_flat_id_loop2, hi, hrp], hcomp⟩
    · have hk1 : 1 ≤ k := by
        rcases Nat.eq_zero_or_pos k with h0 | h0
        · subst h0
          cases hc with
          | root _ => exact absurd rfl hrp
        · exact h0
      have hir : i ≠ r := by
        intro e
        subst e
        have := (Chain.unique (Chain.root hc.root_self) (Chain.step h hne hc)).2
        omega
      obtain ⟨m2, hm2, hc2⟩ := ih (Function.update mc i (some r)) f
        (by
          intro j d hj hd
          have hji : j ≠ i := by
            intro e
            subst e
            have := (Chain.unique hj (Chain.step h hne hc)).2
            omega
          simp only [Function.update, hji, dite_false]
          exact hinv j d hj (by omega))
        (by
          intro j
          by_cases hji : j = i
          · subst hji
            exact Or.inr ⟨by simp [Function.update], hir, _, Chain.step h hne hc⟩
          · simp only [Function.update, hji, dite_false]
            exact hcomp j)
        (by omega) (by omega)
      refine ⟨m2, ?_, hc2⟩
      simp only [get_flat_id_loop2, hi, ne_eq, hrp, not_false_eq_true, if_true]
      exact hm2

theorem Compressed.root_iff {m m2 : Nat → Option Nat} {r : Nat} (hc : Compressed m m2 r)
    (j : Nat) : m2 j = some j ↔ m j = some j := by
  rcases hc j with h | ⟨h, hne, k, hk⟩
  · rw [h]
  · constructor
    · intro h2
      rw [h] at h2
      exact absurd (Option.some.inj h2).symm hne
    · intro h2
      exact absurd (Chain.unique (Chain.root h2) hk).1 hne

theorem Compressed.chain {m m2 : Nat → Option Nat} {r : Nat} (hc : Compressed m m2 r)
    (hr : m r = some r) {j r2 k : Nat} (h : Chain m j r2 k) : ∃ k2, k2 ≤ k ∧ Chain m2 j r2 k2 := by
  have hr2 : m2 r = some r := (hc.root_iff r).2 hr
  induction h with
  | root h => exact ⟨0, le_rfl, Chain.root ((hc.root_iff _).2 h)⟩
  | @step i p r3 k h hne hc3 ih =>
    obtain ⟨k2, hk2, hc2⟩ := ih
    rcases hc i with e | ⟨e, hir, d, hd⟩
    · exact ⟨k2 + 1, by omega, Chain.step (e.trans h) hne hc2⟩
    · have := (Chain.unique hd (Chain.step h hne hc3)).1
      subst this
      exact ⟨1, by omega, Chain.step e hir (Chain.root hr2)⟩

/-! ### `get_flat_id` and `merge` -/

theorem get_flat_id_spec {s s1 : ActiveObjectParts} {id r : Nat}
    (h : s.get_flat_id id = some (r, s1)) :
    (∃ k, k ≤ s.next_part_idx ∧ Chain s.active_object_parts_id_mapping id r k) ∧
      Compressed s.active_object_parts_id_mapping s1.active_object_parts_id_mapping r ∧
      0 < s.next_part_idx := by
  unfold get_flat_id at h
  split at h
  · exact absurd h (by simp)
  · rename_i index0 h0
    split at h
    · exact absurd h (by simp)
    · rename_i index hl1
      split at h
      · exact absurd h (by simp)
      · rename_i m2 hl2
        simp only [Option.some.injEq, Prod.mk.injEq] at h
        obtain ⟨rfl, rfl⟩ := h
        obtain ⟨k, hk, hc⟩ := loop1_chain _ _ _ hl1
        have hpos : 0 < s.next_part_idx := by omega
        have hid : ∃ k2, k2 ≤ s.next_part_idx ∧
            Chain s.active_object_parts_id_mapping id index k2 := by
          by_cases e : id = index0
          · subst e
            exact ⟨k, by omega, hc⟩
          · exact ⟨k + 1, by omega, Chain.step h0 e hc⟩
        obtain ⟨k2, hk2, hc2⟩ := hid
        obtain ⟨m3, hm3, hcomp⟩ := chain_loop2 hc2 s.active_object_parts_id_mapping
          s.next_part_idx (fun _ _ _ _ => rfl) (Compressed.refl _ _) hk2 hpos
        rw [hl2] at hm3
        cases Option.some.inj hm3
        exact ⟨⟨k2, hk2, hc2⟩, hcomp, hpos⟩

theorem get_flat_id_of_root {s : ActiveObjectParts} {r : Nat}
    (hr : s.active_object_parts_id_mapping r = some r) (hpos : 0 < s.next_part_idx) :
    s.get_flat_id r = some (r, s) := by
  obtain ⟨f, hf⟩ : ∃ f, s.next_part_idx = f + 1 := ⟨s.next_part_idx - 1, by omega⟩
  simp only [get_flat_id, hr, hf, get_flat_id_loop1, get_flat_id_loop2, ne_eq, not_true_eq_false,
    if_false]
  rw [← hf]

theorem get_flat_id_of_parent_root {s : ActiveObjectParts} {i r : Nat}
    (hi : s.active_object_parts_id_mapping i = some r)
    (hr : s.active_object_parts_id_mapping r = some r) (hpos : 0 < s.next_part_idx) :
    s.get_flat_id i = some (r, s) := by
  obtain ⟨f, hf⟩ : ∃ f, s.next_part_idx = f + 1 := ⟨s.next_part_idx - 1, by omega⟩
  simp only [get_flat_id, hr, hi, hf, get_flat_id_loop1, get_flat_id_loop2, ne_eq,
    not_true_eq_false, if_false]
  rw [← hf]

/-- C7 (merge postcondition).  When `to_id` resolves to the canonical id `tf`, `from_id` to
the canonical id `ff`, the two differ and both own a live part (`pt` and `pf`), then
`merge(from_id, to_id)` succeeds and afterwards: the part stored at `tf` is `pt.add pf`
(every accumulator of `pt` plus the corresponding accumulator of `pf`), no part is stored
at `ff` any more, `get_flat_id(from_id)` is `tf`, and every other part is unchanged. -/
theorem merge_postcondition (s s1 s2 : ActiveObjectParts) (from_id to_id tf ff : Nat)
    (pt pf : ObjectPart)
    (h1 : s.get_flat_id to_id = some (tf, s1)) (h2 : s1.get_flat_id from_id = some (ff, s2))
    (hne : tf ≠ ff)
    (hpt : s.active_object_parts tf = some pt) (hpf : s.active_object_parts ff = some pf) :
    ∃ s3, s.merge from_id to_id = some s3 ∧
      s3.active_object_parts tf = some (pt.add pf) ∧
      s3.active_object_parts ff = none ∧
      (∃ s4, s3.get_flat_id from_id = some (tf, s4)) ∧
      ∀ k, k ≠ tf → k ≠ ff → s3.active_object_parts k = s.active_object_parts k := by
  obtain ⟨hp1, hn1⟩ := get_flat_id_frame h1
  obtain ⟨hp2, hn2⟩ := get_flat_id_frame h2
  obtain ⟨⟨k1, _, hc1⟩, hcomp1, hpos⟩ := get_flat_id_spec h1
  obtain ⟨⟨k2, _, hc2⟩, hcomp2, _⟩ := get_flat_id_spec h2
  have hto : s2.active_object_parts tf = some pt := by rw [hp2, hp1]; exact hpt
  have hfrom : s2.active_object_parts ff = some pf := by rw [hp2, hp1]; exact hpf
  -- `tf` stays mapped to itself through both lookups
  have hr1 : s1.active_object_parts_id_mapping tf = some tf :=
    (hcomp1.root_iff tf).2 hc1.root_self
  have hr2 : s2.active_object_parts_id_mapping tf = some tf := (hcomp2.root_iff tf).2 hr1
  have hft : from_id ≠ tf := by
    intro e
    subst e
    exact hne (Chain.unique (Chain.root hr1) hc2).1
  refine ⟨{ s2 with
      active_object_parts :=
        Function.update (Function.update s2.active_object_parts tf (some (pt.add pf))) ff none
      active_object_parts_id_mapping :=
        Function.update s2.active_object_parts_id_mapping from_id (some tf) }, ?_, ?_, ?_, ?_, ?_⟩
  · simp only [merge, h1, h2, hto, hfrom]
  · simp [Function.update, hne]
  · simp [Function.update]
  · refine ⟨_, get_flat_id_of_parent_root ?_ ?_ ?_⟩
    · simp [Function.update]
    · simp only [Function.update, hft.symm, dite_false]
      exact hr2
    · show 0 < s2.next_part_idx
      omega
  · intro k hk1 hk2
    simp only [Function.update, hk1, hk2, dite_false, hp2, hp1]

end ActiveObjectParts

/-- Witness of C1: two inserts, a merge, a third insert and a second merge. -/
theorem tracker_additivity_witness :
    ∃ s, run_calls {} [.insert { volume := fin 1 }, .insert { volume := fin 2 }, .merge 0 1,
        .insert { volume := fin 4, sticking_area := fin 5 }, .merge 1 2] = some s ∧
      s.total = ((TrackerCall.inserted [.insert { volume := fin 1 }, .insert { volume := fin 2 },
        .merge 0 1, .insert { volume := fin 4, sticking_area := fin 5 }, .merge 1 2]).map
          ObjectPart.ofIsland).sum ∧
      s.total.volume = fin 7 := by
  obtain ⟨s, hs⟩ := Option.isSome_iff_exists.1
    (by decide! : (run_calls {} [.insert { volume := fin 1 }, .insert { volume := fin 2 },
        .merge 0 1, .insert { volume := fin 4, sticking_area := fin 5 },
        .merge 1 2]).isSome = true)
  have h := ActiveObjectParts.tracker_additivity _ s hs
  exact ⟨s, hs, h.1, h.2.trans (by decide!)⟩

/-- Witness of C7: `merge(0, 1)` on a tracker of three fresh parts. -/
theorem merge_postcondition_witness :
    tracker3.get_flat_id 1 = some (1, tracker3) ∧ tracker3.get_flat_id 0 = some (0, tracker3) ∧
    ∃ s3, tracker3.merge 0 1 = some s3 ∧
      s3.active_object_parts 1 = some (ObjectPart.add { volume := fin 2 } { volume := fin 1 }) ∧
      s3.active_object_parts 0 = none ∧
      (∃ s4, s3.get_flat_id 0 = some (1, s4)) ∧
      ∀ k, k ≠ 1 → k ≠ 0 → s3.active_object_parts k = tracker3.active_object_parts k :=
  have h1 : tracker3.get_flat_id 1 = some (1, tracker3) :=
    ActiveObjectParts.get_flat_id_of_root (by decide!) (by decide!)
  have h0 : tracker3.get_flat_id 0 = some (0, tracker3) :=
    ActiveObjectParts.get_flat_id_of_root (by decide!) (by decide!)
  ⟨h1, h0, ActiveObjectParts.merge_postcondition tracker3 tracker3 tracker3 0 1 1 0
    { volume := fin 2 } { volume := fin 1 } h1 h0 (by decide) (by decide!) (by decide!)⟩

/-- C4 (curl clamp) fails on the code.  With the default parameters, a point on the previous
layer's line (distance 0, outside the malformation band), layer height 0.1, flow width 0.45
and a previous curl height of 3 (ten times a layer height of 0.3), the function returns
2.925, which exceeds `max_curled_height_factor * layer_height = 1`. -/
theorem curl_not_clamped_outside_band :
    estimate_curled_up_height env0 (fin 0) (fin 0) (fin (1 / 10)) (fin (45 / 100)) (fin 3) params0
      = fin (117 / 40) ∧
    ¬ (estimate_curled_up_height env0 (fin 0) (fin 0) (fin (1 / 10)) (fin (45 / 100)) (fin 3)
        params0 ≤ params0.max_curled_height_factor * fin (1 / 10)) := by
  decide!

/-- C4 (curl clamp), amended.  For finite inputs the value returned by
`estimate_curled_up_height` is at most `max_curled_height_factor * layer_height` whenever the
distance lies inside the malformation band (where the code clamps), and also outside the
band when `0 ≤ max_curled_height_factor * layer_height` and the previous curl height is at
most `max_curled_height_factor * layer_height + 0.75 * layer_height`. -/
theorem curl_clamp (env : Env) (params : Params) (d c lh fw prev F f1 f2 : ℚ)
    (hF : params.max_curled_height_factor = fin F)
    (hf : params.malformation_distance_factors = (fin f1, fin f2))
    (hcase : (f1 * fw < d ∧ d < f2 * fw) ∨ (0 ≤ F * lh ∧ prev ≤ F * lh + 3 / 4 * lh)) :
    estimate_curled_up_height env (fin d) (fin c) (fin lh) (fin fw) (fin prev) params
      ≤ params.max_curled_height_factor * fin lh := by
  have h2 : (2:ℚ) ≠ 0 := by norm_num
  have h100 : (100:ℚ) ≠ 0 := by norm_num
  have hm : ∀ x : ℚ, ¬ (Max.max 0 x < 0) := fun x => not_lt.2 (le_max_left _ _)
  unfold estimate_curled_up_height
  simp only [hF, hf, Flt.mul_fin, Flt.lt_fin, Flt.fabs_fin, Flt.zero_def, Flt.sub_fin, Flt.max_fin,
    Flt.add_fin, Flt.div_fin, Flt.min_fin, h2, h100, if_false]
  by_cases hband : f1 * fw < d ∧ d < f2 * fw
  · rw [if_pos hband]
    by_cases hc : (1:ℚ) / 100 < c
    · have hc0 : c ≠ 0 := by
        intro h; rw [h] at hc; norm_num at hc
      have hcpos : ¬ (1 / c / 100 < 0) := by
        have : 0 < c := by linarith
        have : 0 < 1 / c / 100 := by positivity
        linarith
      simp only [hc, hc0, if_true, if_false, Flt.sqrt_fin, hcpos, Flt.mul_fin, Flt.sub_fin,
        Flt.max_fin, Flt.add_fin, Flt.div_fin, h100, hm]
      split_ifs <;> simp
    · simp only [hc, if_false]
      split_ifs <;> simp
  · rw [if_neg hband]
    rcases hcase with h | ⟨h1, h2⟩
    · exact absurd h hband
    · split_ifs
      · simp only [Flt.le_fin]
        exact max_le (by linarith) h1
      · simp only [Flt.le_fin]
        exact h1

/-- Witness of the amended C4: a point inside the band (0.09 < 0.3 < 0.495) on a convex
turn, with a previous curl height far above the clamp. -/
theorem curl_clamp_witness :
    ((1 / 5 : ℚ) * (45 / 100) < 3 / 10 ∧ (3 / 10 : ℚ) < 11 / 10 * (45 / 100)) ∧
    estimate_curled_up_height env0 (fin (3 / 10)) (fin (1 / 2)) (fin (1 / 5)) (fin (45 / 100))
      (fin 50) params0 ≤ params0.max_curled_height_factor * fin (1 / 5) :=
  ⟨by norm_num,
   curl_clamp env0 params0 (3 / 10) (1 / 2) (1 / 5) (45 / 100) 50 10 (1 / 5) (11 / 10) rfl rfl
    (Or.inl (by norm_num))⟩

/-! ## Theorems: torque balance and anchors -/

theorem position_taken_false {grid : SupportGridFilter} {p : Vec3f}
    (h : grid.position_taken p = some false) :
    ∃ grid2, grid.take_position p = some grid2 := by
  unfold SupportGridFilter.position_taken at h
  unfold SupportGridFilter.take_position
  cases hc : grid.to_cell_coords p with
  | none => rw [hc] at h; exact absurd h (by simp)
  | some c =>
    rw [hc] at h
    simp only [Option.some.injEq, decide_eq_false_iff_not] at h
    refine ⟨{ grid with taken_cells := grid.taken_cells ++ [grid.to_cell_index c] }, ?_⟩
    simp only [h, if_false]

/-- A probe that is not skipped, whose torque test asks for a positive force and whose voxel
is free, appends one support point at the probe's support point with that force. -/
theorem probe_places_anchor (env : Env) (params : Params) (layer_z : Flt)
    (external_lines : List ExtrusionLine) (st : ProbeState) (line : ExtrusionLine)
    (hprobe : ¬ ((st.unchecked_dist + line.len < params.min_distance_between_support_points
        ∧ line.malformation < fin (3 / 10)) ∨ Flt.feq line.len (fin 0) = true))
    (hpos : fin 0 < st.part.is_stable_while_extruding env st.weakest_conn line
      (check_global_stability_support_point env layer_z external_lines line) layer_z params)
    (hfree : st.supports_presence_grid.position_taken
      (check_global_stability_support_point env layer_z external_lines line) = some false) :
    ∃ st2 anchor, check_global_stability_probe env params layer_z external_lines st line = some st2 ∧
      st2.issues.support_points = st.issues.support_points ++ [anchor] ∧
      anchor.position = check_global_stability_support_point env layer_z external_lines line ∧
      anchor.force = st.part.is_stable_while_extruding env st.weakest_conn line
        (check_global_stability_support_point env layer_z external_lines line) layer_z params := by
  obtain ⟨grid2, hg⟩ := position_taken_false hfree
  unfold check_global_stability_probe
  rw [if_neg hprobe]
  simp only [hpos, if_true, hfree, hg]
  exact ⟨_, _, rfl, rfl, rfl, rfl⟩

/-- C5 (zero sticking area is stable) fails on the code.  For the island `island_floating`,
whose part has sticking area 0, the torque test returns 1, which is positive, and
`check_global_stability` on the one-layer graph of that island emits a support anchor (with
force 1) for its boundary line. -/
theorem zero_sticking_area_is_unstable :
    (ObjectPart.ofIsland island_floating).sticking_area < env0.EPSILON ∧
    (ObjectPart.ofIsland island_floating).is_stable_while_extruding env0 sentinel_connection line0
      ⟨fin 0, fin 0, fin (1 / 5)⟩ (fin (1 / 5)) params0 = fin 1 ∧
    ¬ ((ObjectPart.ofIsland island_floating).is_stable_while_extruding env0 sentinel_connection
      line0 ⟨fin 0, fin 0, fin (1 / 5)⟩ (fin (1 / 5)) params0 ≤ fin 0) ∧
    ((check_global_stability env0 id grid0 graph_floating params0).map fun issues =>
      issues.support_points.map fun p => (p.position, p.force))
      = some [(⟨fin 0, fin 0, fin (1 / 5)⟩, fin 1)] := by
  decide!

/-- C5, amended.  Whenever the part's sticking area is below `EPSILON`,
`is_stable_while_extruding` returns exactly 1, a positive required force; so the boundary walk
of `check_global_stability` places a support anchor (with force 1) at every probe of such a
part that is not skipped and whose voxel is free. -/
theorem zero_sticking_area_needs_anchor (env : Env) (params : Params) (layer_z : Flt)
    (external_lines : List ExtrusionLine) (st : ProbeState) (line : ExtrusionLine)
    (h : st.part.sticking_area < env.EPSILON) :
    (∀ connection extruded_line extreme_point z,
      st.part.is_stable_while_extruding env connection extruded_line extreme_point z params
        = fin 1) ∧
    (¬ ((st.unchecked_dist + line.len < params.min_distance_between_support_points
        ∧ line.malformation < fin (3 / 10)) ∨ Flt.feq line.len (fin 0) = true) →
      st.supports_presence_grid.position_taken
        (check_global_stability_support_point env layer_z external_lines line) = some false →
      ∃ st2 anchor,
        check_global_stability_probe env params layer_z external_lines st line = some st2 ∧
        st2.issues.support_points = st.issues.support_points ++ [anchor] ∧
        anchor.position = check_global_stability_support_point env layer_z external_lines line ∧
        anchor.force = fin 1) := by
  have hall : ∀ connection extruded_line extreme_point z,
      st.part.is_stable_while_extruding env connection extruded_line extreme_point z params
        = fin 1 := by
    intro connection extruded_line extreme_point z
    unfold ObjectPart.is_stable_while_extruding
    rw [if_pos h]
  refine ⟨hall, fun hprobe hfree => ?_⟩
  obtain ⟨st2, anchor, h1, h2, h3, h4⟩ := probe_places_anchor env params layer_z external_lines st
    line hprobe (by rw [hall]; decide) hfree
  exact ⟨st2, anchor, h1, h2, h3, h4.trans (hall _ _ _ _)⟩

/-- Witness of the amended C5: the first probe of `island_floating`. -/
theorem zero_sticking_area_needs_anchor_witness :
    (ObjectPart.ofIsland island_floating).sticking_area < env0.EPSILON ∧
    ∃ st2 anchor,
      check_global_stability_probe env0 params0 (fin (1 / 5)) [line0]
        { part := ObjectPart.ofIsland island_floating, weakest_conn := sentinel_connection
          unchecked_dist := fin 4, issues := {}, supports_presence_grid := grid0 } line0
        = some st2 ∧
      st2.issues.support_points = [] ++ [anchor] ∧
      anchor.position = check_global_stability_support_point env0 (fin (1 / 5)) [line0] line0 ∧
      anchor.force = fin 1 :=
  ⟨by decide!,
   (zero_sticking_area_needs_anchor env0 params0 (fin (1 / 5)) [line0]
      { part := ObjectPart.ofIsland island_floating, weakest_conn := sentinel_connection
        unchecked_dist := fin 4, issues := {}, supports_presence_grid := grid0 } line0
      (by decide!)).2 (by decide!) (by decide!)⟩

/-- C6 (negligible connection area is stable) fails on the code.  The part `part_bedded`
has bed torque below zero; with a connection of area 0 the torque test returns 1, which is
positive.  On the two-layer graph `graph_weak`, whose upper island hangs on a connection of
area 0.00001 (below `EPSILON`), `check_global_stability` emits a support anchor of force 1. -/
theorem negligible_connection_is_unstable :
    ¬ (part_bedded.sticking_area < env0.EPSILON) ∧
    ¬ (fin 0 < part_bedded.bed_total_torque env0 line0 ⟨fin 0, fin 0, fin (1 / 5)⟩ (fin (1 / 5))
      params0) ∧
    ({} : IslandConnection).area < env0.EPSILON ∧
    part_bedded.is_stable_while_extruding env0 {} line0 ⟨fin 0, fin 0, fin (1 / 5)⟩ (fin (1 / 5))
      params0 = fin 1 ∧
    ¬ (part_bedded.is_stable_while_extruding env0 {} line0 ⟨fin 0, fin 0, fin (1 / 5)⟩
      (fin (1 / 5)) params0 ≤ fin 0) ∧
    ((check_global_stability env0 id grid0 graph_weak params0).map fun issues =>
      issues.support_points.map fun p => (p.position, p.force))
      = some [(⟨fin 0, fin 0, fin (2 / 5)⟩, fin 1)] := by
  decide!

/-- C6, amended.  Whenever the bed-pivot torque is not positive and the weakest connection's
area is below `EPSILON`, `is_stable_while_extruding` returns exactly 1, a positive required
force; so the boundary walk of `check_global_stability` places a support anchor (with force 1)
at such a probe when it is not skipped and its voxel is free. -/
theorem negligible_connection_needs_anchor (env : Env) (params : Params) (layer_z : Flt)
    (external_lines : List ExtrusionLine) (st : ProbeState) (line : ExtrusionLine)
    (hbed : ¬ (fin 0 < st.part.bed_total_torque env line
      (check_global_stability_support_point env layer_z external_lines line) layer_z params))
    (hconn : st.weakest_conn.area < env.EPSILON) :
    st.part.is_stable_while_extruding env st.weakest_conn line
      (check_global_stability_support_point env layer_z external_lines line) layer_z params
      = fin 1 ∧
    (¬ ((st.unchecked_dist + line.len < params.min_distance_between_support_points
        ∧ line.malformation < fin (3 / 10)) ∨ Flt.feq line.len (fin 0) = true) →
      st.supports_presence_grid.position_taken
        (check_global_stability_support_point env layer_z external_lines line) = some false →
      ∃ st2 anchor,
        check_global_stability_probe env params layer_z external_lines st line = some st2 ∧
        st2.issues.support_points = st.issues.support_points ++ [anchor] ∧
        anchor.position = check_global_stability_support_point env layer_z external_lines line ∧
        anchor.force = fin 1) := by
  have hone : st.part.is_stable_while_extruding env st.weakest_conn line
      (check_global_stability_support_point env layer_z external_lines line) layer_z params
      = fin 1 := by
    unfold ObjectPart.is_stable_while_extruding
    by_cases hs : st.part.sticking_area < env.EPSILON
    · rw [if_pos hs]
    · rw [if_neg hs, if_neg hbed, if_pos hconn]
  refine ⟨hone, fun hprobe hfree => ?_⟩
  obtain ⟨st2, anchor, h1, h2, h3, h4⟩ := probe_places_anchor env params layer_z external_lines st
    line hprobe (by rw [hone]; decide) hfree
  exact ⟨st2, anchor, h1, h2, h3, h4.trans hone⟩

/-- Witness of the amended C6: a probe of `part_bedded` with a connection of area 0. -/
theorem negligible_connection_needs_anchor_witness :
    (¬ (fin 0 < part_bedded.bed_total_torque env0 line0
      (check_global_stability_support_point env0 (fin (1 / 5)) [line0] line0) (fin (1 / 5))
      params0) ∧ ({} : IslandConnection).area < env0.EPSILON) ∧
    part_bedded.is_stable_while_extruding env0 {} line0
      (check_global_stability_support_point env0 (fin (1 / 5)) [line0] line0) (fin (1 / 5))
      params0 = fin 1 :=
  ⟨⟨by decide!, by decide!⟩,
   (negligible_connection_needs_anchor env0 params0 (fin (1 / 5)) [line0]
      { part := part_bedded, weakest_conn := {}, unchecked_dist := fin 4, issues := {}
        supports_presence_grid := grid0 } line0 (by decide!) (by decide!)).1⟩

/-! ## Theorems: well-formed trackers -/

namespace ActiveObjectParts

theorem Chain.lt_of_mem {m : Nat → Option Nat} {n : Nat}
    (hlt : ∀ i p, m i = some p → i < n ∧ p < n) {i r k : Nat} (h : Chain m i r k) : i < n := by
  cases h with
  | root h => exact (hlt _ _ h).1
  | step h _ _ => exact (hlt _ _ h).1

theorem Chain.path {m : Nat → Option Nat} {i r k : Nat} (h : Chain m i r k) :
    ∃ l : List Nat, l.length = k + 1 ∧ l.Nodup ∧ ∀ x ∈ l, ∃ d, d ≤ k ∧ Chain m x r d := by
  induction h with
  | @root r h =>
    exact ⟨[r], rfl, List.nodup_singleton _, fun x hx => by
      rw [List.mem_singleton] at hx
      subst hx
      exact ⟨0, le_rfl, Chain.root h⟩⟩
  | @step i p r k h hne hc ih =>
    obtain ⟨l, hlen, hnd, hall⟩ := ih
    refine ⟨i :: l, by simp [hlen], ?_, ?_⟩
    · refine List.nodup_cons.2 ⟨?_, hnd⟩
      intro hi
      obtain ⟨d, hd, hcd⟩ := hall i hi
      have := (Chain.unique hcd (Chain.step h hne hc)).2
      omega
    · intro x hx
      rcases List.mem_cons.1 hx with e | hx
      · subst e
        exact ⟨k + 1, le_rfl, Chain.step h hne hc⟩
      · obtain ⟨d, hd, hcd⟩ := hall x hx
        exact ⟨d, by omega, hcd⟩

/-- A chain of parents inside `[0, n)` makes fewer than `n` steps. -/
theorem Chain.length_lt {m : Nat → Option Nat} {n : Nat}
    (hlt : ∀ i p, m i = some p → i < n ∧ p < n) {i r k : Nat} (h : Chain m i r k) : k < n := by
  obtain ⟨l, hlen, hnd, hall⟩ := h.path
  have hsub : l.toFinset ⊆ Finset.range n := by
    intro x hx
    obtain ⟨d, _, hcd⟩ := hall x (List.mem_toFinset.1 hx)
    exact Finset.mem_range.2 (hcd.lt_of_mem hlt)
  have hcard := Finset.card_le_card hsub
  rw [List.toFinset_card_of_nodup hnd, Finset.card_range, hlen] at hcard
  omega

theorem WF.empty : ({} : ActiveObjectParts).WF :=
  ⟨fun _ _ h => absurd h (by simp), fun _ h => absurd h (by simp [Nat.not_lt_zero]),
    fun _ => by simp⟩

theorem Chain.mono {m m2 : Nat → Option Nat} (hext : ∀ j p, m j = some p → m2 j = some p)
    {i r k : Nat} (h : Chain m i r k) : Chain m2 i r k := by
  induction h with
  | root h => exact Chain.root (hext _ _ h)
  | step h hne _ ih => exact Chain.step (hext _ _ h) hne ih

theorem WF.mapping_none {s : ActiveObjectParts} (h : s.WF) {i : Nat} (hi : s.next_part_idx ≤ i) :
    s.active_object_parts_id_mapping i = none := by
  cases hm : s.active_object_parts_id_mapping i with
  | none => rfl
  | some p =>
    have := (h.lt i p hm).1
    omega

theorem WF.partsBounded {s : ActiveObjectParts} (h : s.WF) : s.PartsBounded := by
  intro i hi
  cases hp : s.active_object_parts i with
  | none => rfl
  | some p =>
    have := (h.parts_iff i).1 (by simp [hp])
    rw [h.mapping_none hi] at this
    exact absurd this (by simp)

theorem WF.insert {s : ActiveObjectParts} (h : s.WF) (island : Island) :
    (s.insert island).2.WF := by
  have hpn : s.active_object_parts s.next_part_idx = none := h.partsBounded _ le_rfl
  have hmn : s.active_object_parts_id_mapping s.next_part_idx = none := h.mapping_none le_rfl
  have hmap : (s.insert island).2.active_object_parts_id_mapping
      = Function.update s.active_object_parts_id_mapping s.next_part_idx
          (some s.next_part_idx) := by
    simp [ActiveObjectParts.insert, emplace, hmn]
  have hparts : (s.insert island).2.active_object_parts
      = Function.update s.active_object_parts s.next_part_idx
          (some (ObjectPart.ofIsland island)) := by
    simp [ActiveObjectParts.insert, emplace, hpn]
  have hnext : (s.insert island).2.next_part_idx = s.next_part_idx + 1 := rfl
  have hext : ∀ j p, s.active_object_parts_id_mapping j = some p →
      (s.insert island).2.active_object_parts_id_mapping j = some p := by
    intro j p hj
    have : j ≠ s.next_part_idx := by
      intro e
      rw [e, hmn] at hj
      exact absurd hj (by simp)
    rw [hmap]
    simp [Function.update, this, hj]
  refine ⟨?_, ?_, ?_⟩
  · intro i p hi
    rw [hmap] at hi
    rw [hnext]
    by_cases e : i = s.next_part_idx
    · subst e
      simp only [Function.update_same, Option.some.injEq] at hi
      omega
    · simp only [Function.update, e, dite_false] at hi
      have := h.lt i p hi
      omega
  · intro i hi
    rw [hnext] at hi
    by_cases e : i = s.next_part_idx
    · subst e
      exact ⟨_, 0, Chain.root (by rw [hmap]; simp)⟩
    · obtain ⟨r, k, hc⟩ := h.total i (by omega)
      exact ⟨r, k, hc.mono hext⟩
  · intro r
    rw [hmap, hparts]
    by_cases e : r = s.next_part_idx
    · subst e
      simp
    · simp only [Function.update, e, dite_false]
      exact h.parts_iff r

/-- On a well-formed tracker `get_flat_id` returns the end of the chain of the id, and the
tracker stays well formed with the same parts. -/
theorem WF.get_flat_id {s : ActiveObjectParts} (h : s.WF) {i r k : Nat}
    (hc : Chain s.active_object_parts_id_mapping i r k) :
    ∃ s1, s.get_flat_id i = some (r, s1) ∧ s1.WF ∧
      s1.active_object_parts = s.active_object_parts ∧ s1.next_part_idx = s.next_part_idx ∧
      Compressed s.active_object_parts_id_mapping s1.active_object_parts_id_mapping r := by
  have hk : k < s.next_part_idx := hc.length_lt h.lt
  have hres : ∃ m2, s.get_flat_id i
        = some (r, { s with active_object_parts_id_mapping := m2 }) ∧
      Compressed s.active_object_parts_id_mapping m2 r := by
    obtain ⟨m2, hm2, hcomp⟩ := chain_loop2 hc s.active_object_parts_id_mapping
      s.next_part_idx (fun _ _ _ _ => rfl) (Compressed.refl _ _) hk.le (by omega)
    refine ⟨m2, ?_, hcomp⟩
    cases hc with
    | root hr =>
      simp only [ActiveObjectParts.get_flat_id, hr]
      rw [chain_loop1 (Chain.root hr) _ hk]
      simp only [hm2]
    | step hi hne hc2 =>
      simp only [ActiveObjectParts.get_flat_id, hi]
      rw [chain_loop1 hc2 _ (by omega)]
      simp only [hm2]
  obtain ⟨m2, hget, hcomp⟩ := hres
  have hroot : s.active_object_parts_id_mapping r = some r := hc.root_self
  refine ⟨_, hget, ⟨?_, ?_, ?_⟩, rfl, rfl, hcomp⟩
  · intro j p hj
    rcases hcomp j with e | ⟨e, _, d, hd⟩
    · exact h.lt j p (e ▸ hj)
    · have hj2 : m2 j = some p := hj
      rw [e] at hj2
      cases Option.some.inj hj2
      exact ⟨hd.lt_of_mem h.lt, (h.lt r r hroot).1⟩
  · intro j hj
    obtain ⟨x, d, hx⟩ := h.total j hj
    obtain ⟨d2, _, hx2⟩ := hcomp.chain hroot hx
    exact ⟨x, d2, hx2⟩
  · intro x
    exact (h.parts_iff x).trans (hcomp.root_iff x).symm

end ActiveObjectParts

/-! ### Merging two canonical ids -/

namespace ActiveObjectParts

theorem WF.root_lt {s : ActiveObjectParts} (h : s.WF) {r : Nat}
    (hr : s.active_object_parts_id_mapping r = some r) : r < s.next_part_idx :=
  (h.lt r r hr).1

theorem WF.part_of_root {s : ActiveObjectParts} (h : s.WF) {r : Nat}
    (hr : s.active_object_parts_id_mapping r = some r) : ∃ p, s.active_object_parts r = some p :=
  Option.isSome_iff_exists.1 ((h.parts_iff r).2 hr)

/-- Linking the root `f` below the root `r`: every chain that ended in `f` now ends in `r`,
the other chains keep their end. -/
theorem Chain.link {m : Nat → Option Nat} {r f : Nat} (hr : m r = some r) (hf : m f = some f)
    (hne : r ≠ f) {i x k : Nat} (h : Chain m i x k) :
    ∃ k2, Chain (Function.update m f (some r)) i (if x = f then r else x) k2 := by
  have hr2 : Function.update m f (some r) r = some r := by
    simp [Function.update, hne, hr]
  induction h with
  | @root x hx =>
    by_cases e : x = f
    · subst e
      simp only [if_true]
      exact ⟨1, Chain.step (by simp) (Ne.symm hne) (Chain.root hr2)⟩
    · simp only [e, if_false]
      exact ⟨0, Chain.root (by simp [Function.update, e, hx])⟩
  | @step i p x k hi hip _ ih =>
    obtain ⟨k2, hk2⟩ := ih
    have hif : i ≠ f := by
      intro e
      subst e
      rw [hf] at hi
      exact hip (Option.some.inj hi)
    exact ⟨k2 + 1, Chain.step (by simp [Function.update, hif, hi]) hip hk2⟩

theorem WF.merge_roots {s : ActiveObjectParts} (h : s.WF) {r f : Nat}
    (hr : s.active_object_parts_id_mapping r = some r)
    (hf : s.active_object_parts_id_mapping f = some f) (hne : r ≠ f) :
    ∃ pr pf, s.active_object_parts r = some pr ∧ s.active_object_parts f = some pf ∧
      s.merge f r = some (s.linked f r pr pf) ∧ (s.linked f r pr pf).WF := by
  obtain ⟨pr, hpr⟩ := h.part_of_root hr
  obtain ⟨pf, hpf⟩ := h.part_of_root hf
  have hpos : 0 < s.next_part_idx := by
    have := h.root_lt hr
    omega
  refine ⟨pr, pf, hpr, hpf, ?_, ?_, ?_, ?_⟩
  · simp only [ActiveObjectParts.merge, get_flat_id_of_root hr hpos, get_flat_id_of_root hf hpos,
      hpr, hpf]
    rfl
  · intro i p hi
    show i < s.next_part_idx ∧ p < s.next_part_idx
    have hi2 : Function.update s.active_object_parts_id_mapping f (some r) i = some p := hi
    by_cases e : i = f
    · subst e
      simp only [Function.update_same, Option.some.injEq] at hi2
      subst hi2
      exact ⟨h.root_lt hf, h.root_lt hr⟩
    · simp only [Function.update, e, dite_false] at hi2
      exact h.lt i p hi2
  · intro i hi
    obtain ⟨x, k, hx⟩ := h.total i hi
    obtain ⟨k2, hk2⟩ := hx.link hr hf hne
    exact ⟨_, k2, hk2⟩
  · intro x
    show (Function.update (Function.update s.active_object_parts r (some (pr.add pf))) f none
        x).isSome = true ↔ Function.update s.active_object_parts_id_mapping f (some r) x = some x
    by_cases e : x = f
    · subst e
      simp [hne]
    · by_cases e2 : x = r
      · subst e2
        simp [Function.update, e, hr]
      · simp only [Function.update, e, e2, dite_false]
        exact h.parts_iff x

theorem WF.set_part {s : ActiveObjectParts} (h : s.WF) {r : Nat} {p : ObjectPart}
    (hr : s.active_object_parts_id_mapping r = some r) (q : ObjectPart)
    (_hp : s.active_object_parts r = some p) :
    ({ s with active_object_parts := Function.update s.active_object_parts r (some q) } :
      ActiveObjectParts).WF := by
  refine ⟨h.lt, h.total, ?_⟩
  intro x
  show (Function.update s.active_object_parts r (some q) x).isSome = true ↔ _
  by_cases e : x = r
  · subst e
    simp [hr]
  · simp only [Function.update, e, dite_false]
    exact h.parts_iff x

end ActiveObjectParts

/-! ### The merge loop of `check_global_stability` -/

namespace ActiveObjectParts

theorem merge_loop_spec (final : Nat) :
    ∀ (R : List Nat) (s : ActiveObjectParts), s.WF →
      s.active_object_parts_id_mapping final = some final → R.Nodup →
      (∀ x ∈ R, s.active_object_parts_id_mapping x = some x) →
      ∃ s2, check_global_stability_merge final R s = some s2 ∧ s2.WF ∧
        s2.next_part_idx = s.next_part_idx ∧
        (∀ i, s2.active_object_parts_id_mapping i
          = if i ∈ R ∧ i ≠ final then some final else s.active_object_parts_id_mapping i) ∧
        (∀ i, i ≠ final →
          s2.active_object_parts i = if i ∈ R then none else s.active_object_parts i) ∧
        s2.active_object_parts final = some ((s.active_object_parts final).getD 0
          + ((R.filter (· ≠ final)).map fun x => (s.active_object_parts x).getD 0).sum) := by
  intro R
  induction R with
  | nil =>
    intro s h hfin _ _
    obtain ⟨p, hp⟩ := h.part_of_root hfin
    exact ⟨s, rfl, h, rfl, fun i => by simp, fun i _ => by simp, by simp [hp]⟩
  | cons x R ih =>
    intro s h hfin hnd hroots
    obtain ⟨hxR, hndR⟩ := List.nodup_cons.1 hnd
    by_cases hx : final = x
    · subst hx
      obtain ⟨s2, h1, h2, h3, h4, h5, h6⟩ := ih s h hfin hndR
        (fun y hy => hroots y (List.mem_cons_of_mem _ hy))
      refine ⟨s2, ?_, h2, h3, ?_, ?_, ?_⟩
      · simp only [check_global_stability_merge, ne_eq, not_true_eq_false, if_false]
        exact h1
      · intro i
        rw [h4 i]
        by_cases e : i = final
        · simp [e]
        · simp [e]
      · intro i hi
        rw [h5 i hi]
        simp [hi]
      · rw [h6]
        simp
    · obtain ⟨pr, pf, hpr, hpf, hm, hwf1⟩ :=
        h.merge_roots hfin (hroots x (List.mem_cons_self _ _)) hx
      have hfin1 : (s.linked x final pr pf).active_object_parts_id_mapping final
          = some final := by
        simp [linked, Function.update, hx, hfin]
      obtain ⟨s2, h1, h2, h3, h4, h5, h6⟩ := ih (s.linked x final pr pf) hwf1 hfin1 hndR
        (fun y hy => by
          have hyx : y ≠ x := fun e => hxR (e ▸ hy)
          simp only [linked, Function.update, hyx, dite_false]
          exact hroots y (List.mem_cons_of_mem _ hy))
      refine ⟨s2, ?_, h2, h3, ?_, ?_, ?_⟩
      · simp only [check_global_stability_merge, ne_eq, hx, not_false_eq_true, if_true, hm]
        exact h1
      · intro i
        rw [h4 i]
        by_cases e : i = x
        · subst e
          have : i ≠ final := fun e => hx e.symm
          simp [linked, this]
        · simp [linked, Function.update, e]
      · intro i hi
        rw [h5 i hi]
        by_cases e : i = x
        · subst e
          simp [linked]
        · simp [linked, Function.update, e, hi]
      · rw [h6]
        have hxf : x ≠ final := fun e => hx e.symm
        have hsum : ((R.filter (· ≠ final)).map fun y =>
              ((s.linked x final pr pf).active_object_parts y).getD 0)
            = (R.filter (· ≠ final)).map fun y => (s.active_object_parts y).getD 0 := by
          apply List.map_congr_left
          intro y hy
          obtain ⟨hyR, hyf⟩ := List.mem_filter.1 hy
          have hyf2 : y ≠ final := by simpa using hyf
          have hyx : y ≠ x := fun e => hxR (e ▸ hyR)
          simp [linked, Function.update, hyx, hyf2]
        rw [hsum]
        have hl : (s.linked x final pr pf).active_object_parts final = some (pr.add pf) := by
          simp [linked, Function.update, hx]
        rw [hl, hpr]
        simp only [Option.getD_some, List.filter_cons, hxf, ne_eq, not_false_eq_true,
          decide_True, if_true, List.map_cons, List.sum_cons, hpf]
        rw [← add_assoc]
        rfl

end ActiveObjectParts

/-! ### The gather loop of `check_global_stability` -/

namespace ActiveObjectParts

theorem set_insert_nodup {l : List Nat} (h : l.Nodup) (x : Nat) : (set_insert l x).Nodup := by
  unfold set_insert
  split
  · exact h
  · rename_i hx
    exact List.Nodup.append h (List.nodup_singleton x) (by
      intro a ha hb
      rw [List.mem_singleton] at hb
      exact hx (hb ▸ ha))

theorem mem_set_insert {l : List Nat} {x y : Nat} : y ∈ set_insert l x ↔ y ∈ l ∨ y = x := by
  unfold set_insert
  split
  · rename_i hx
    constructor
    · exact Or.inl
    · rintro (h | h)
      · exact h
      · exact h ▸ hx
  · simp

theorem WF.chain_of_compressed {s : ActiveObjectParts} (h : s.WF) {m2 : Nat → Option Nat}
    {r : Nat} (hc : Compressed s.active_object_parts_id_mapping m2 r)
    (hr : s.active_object_parts_id_mapping r = some r) {i x k : Nat}
    (hi : i < s.next_part_idx) (hx : Chain m2 i x k) :
    ∃ k2, Chain s.active_object_parts_id_mapping i x k2 := by
  obtain ⟨y, d, hy⟩ := h.total i hi
  obtain ⟨d2, _, hy2⟩ := hc.chain hr hy
  have := (Chain.unique hy2 hx).1
  subst this
  exact ⟨d, hy⟩

theorem gather_spec (prev_map : Nat → Option Nat) (prev_weak : Nat → Option IslandConnection) :
    ∀ (conns : List (Nat × IslandConnection)) (g : MergeGathered),
      g.active_object_parts.WF → g.parts_ids.Nodup →
      (∀ x ∈ g.parts_ids, g.active_object_parts.active_object_parts_id_mapping x = some x) →
      (∀ kc ∈ conns, ∃ pid w, prev_map kc.1 = some pid ∧
        pid < g.active_object_parts.next_part_idx ∧ prev_weak kc.1 = some w) →
      ∃ g2, check_global_stability_gather prev_map prev_weak conns g = some g2 ∧
        g2.active_object_parts.WF ∧
        g2.active_object_parts.active_object_parts = g.active_object_parts.active_object_parts ∧
        g2.active_object_parts.next_part_idx = g.active_object_parts.next_part_idx ∧
        g2.parts_ids.Nodup ∧
        (∀ x ∈ g2.parts_ids,
          g2.active_object_parts.active_object_parts_id_mapping x = some x) ∧
        (∀ i x k, Chain g.active_object_parts.active_object_parts_id_mapping i x k →
          ∃ k2, Chain g2.active_object_parts.active_object_parts_id_mapping i x k2) ∧
        (∀ x, x ∈ g2.parts_ids ↔ x ∈ g.parts_ids ∨ ∃ kc ∈ conns, ∃ pid k,
          prev_map kc.1 = some pid ∧
          Chain g.active_object_parts.active_object_parts_id_mapping pid x k) := by
  intro conns
  induction conns with
  | nil =>
    intro g h hnd hroots _
    exact ⟨g, rfl, h, rfl, rfl, hnd, hroots, fun i x k hc => ⟨k, hc⟩, fun x => by simp⟩
  | cons kc rest ih =>
    intro g h hnd hroots hprev
    obtain ⟨pid, w, hpid, hlt, hw⟩ := hprev kc (List.mem_cons_self _ _)
    obtain ⟨x, k, hc⟩ := h.total pid hlt
    obtain ⟨s1, hget, hwf1, hparts1, hnext1, hcomp⟩ := h.get_flat_id hc
    have hxroot : g.active_object_parts.active_object_parts_id_mapping x = some x := hc.root_self
    obtain ⟨g2, h1, h2, h3, h4, h5, h6, h7, h8⟩ := ih
      { active_object_parts := s1
        parts_ids := set_insert g.parts_ids x
        transfered_weakest_connection := g.transfered_weakest_connection.add w
        new_weakest_connection := g.new_weakest_connection.add kc.2 }
      hwf1 (set_insert_nodup hnd x)
      (by
        intro y hy
        rcases mem_set_insert.1 hy with hy | hy
        · exact (hcomp.root_iff y).2 (hroots y hy)
        · subst hy
          exact (hcomp.root_iff y).2 hxroot)
      (by
        intro kc2 hkc2
        obtain ⟨pid2, w2, e1, e2, e3⟩ := hprev kc2 (List.mem_cons_of_mem _ hkc2)
        exact ⟨pid2, w2, e1, by rw [hnext1]; exact e2, e3⟩)
    refine ⟨g2, ?_, h2, h3.trans hparts1, h4.trans hnext1, h5, h6, ?_, ?_⟩
    · simp only [check_global_stability_gather, hpid, hget, hw]
      exact h1
    · intro i y d hy
      obtain ⟨d2, _, hy2⟩ := hcomp.chain hxroot hy
      exact h7 i y d2 hy2
    · intro y
      rw [h8 y]
      constructor
      · rintro (hy | ⟨kc2, hkc2, pid2, d, e1, e2⟩)
        · rcases mem_set_insert.1 hy with hy | hy
          · exact Or.inl hy
          · subst hy
            exact Or.inr ⟨kc, List.mem_cons_self _ _, pid, k, hpid, hc⟩
        · obtain ⟨pid3, _, e3, e4, _⟩ := hprev kc2 (List.mem_cons_of_mem _ hkc2)
          rw [e1] at e3
          cases Option.some.inj e3
          obtain ⟨d2, hd2⟩ := h.chain_of_compressed hcomp hxroot e4 e2
          exact Or.inr ⟨kc2, List.mem_cons_of_mem _ hkc2, pid2, d2, e1, hd2⟩
      · rintro (hy | ⟨kc2, hkc2, pid2, d, e1, e2⟩)
        · exact Or.inl (mem_set_insert.2 (Or.inl hy))
        · rcases List.mem_cons.1 hkc2 with e | hkc3
          · subst e
            rw [hpid] at e1
            cases Option.some.inj e1
            have := (Chain.unique hc e2).1
            subst this
            exact Or.inl (mem_set_insert.2 (Or.inr rfl))
          · obtain ⟨d2, _, hd2⟩ := hcomp.chain hxroot e2
            exact Or.inr ⟨kc2, hkc3, pid2, d2, e1, hd2⟩

end ActiveObjectParts

/-! ## Theorems: islands with predecessors -/

namespace ActiveObjectParts

theorem chain_after_merges {m m2 : Nat → Option Nat} {L : List Nat} {final : Nat}
    (hm2 : ∀ i, m2 i = if i ∈ L ∧ i ≠ final then some final else m i)
    (hroots : ∀ y ∈ L, m y = some y) (hfin : m final = some final)
    {i x k : Nat} (h : Chain m i x k) :
    ∃ k2, Chain m2 i (if x ∈ L then final else x) k2 := by
  have hfin2 : m2 final = some final := by
    rw [hm2]
    simp [hfin]
  induction h with
  | @root x hx =>
    by_cases hxL : x ∈ L
    · simp only [hxL, if_true]
      by_cases e : x = final
      · subst e
        exact ⟨0, Chain.root hfin2⟩
      · exact ⟨1, Chain.step (by rw [hm2]; simp [hxL, e]) e (Chain.root hfin2)⟩
    · simp only [hxL, if_false]
      exact ⟨0, Chain.root (by rw [hm2]; simp [hxL, hx])⟩
  | @step i p x k hi hip _ ih =>
    obtain ⟨k2, hk2⟩ := ih
    have hiL : i ∉ L := by
      intro hmem
      have := hroots i hmem
      rw [hi] at this
      exact hip (Option.some.inj this).symm
    exact ⟨k2 + 1, Chain.step (by rw [hm2]; simp [hiL, hi]) hip hk2⟩

end ActiveObjectParts

/-- C10 (connected island extends existing parts).  On a well-formed tracker, for an island
with at least one previous-layer connection whose predecessor islands all have a part id and
a weakest connection recorded, the first island loop of `check_global_stability` succeeds
and: no part id is created (`next_part_idx` is unchanged) and the number of live parts does
not increase; the island is assigned the id `final`; the part id of every predecessor island
resolves (`get_flat_id`) to `final`; and the part stored at `final` is the sum of the parts
of the distinct canonical ids `ids` of the predecessors, plus the part made of the island's
own statistics. -/
theorem connected_island_extends_parts (env : Env) (set_order : List Nat → List Nat)
    (layer_z : Flt) (st : GlobalState) (island_idx : Nat) (island : Island)
    (hwf : st.active_object_parts.WF) (hne : island.connected_islands ≠ [])
    (horder : ∀ l, (set_order l).Perm l)
    (hprev : ∀ kc ∈ island.connected_islands, ∃ pid w,
      st.prev_island_to_object_part_mapping kc.1 = some pid ∧
      pid < st.active_object_parts.next_part_idx ∧
      st.prev_island_weakest_connection kc.1 = some w)
    (hnext : st.next_island_to_object_part_mapping island_idx = none) :
    ∃ (st2 : GlobalState) (final : Nat) (ids : List Nat),
      check_global_stability_connect env set_order layer_z st island_idx island = some st2 ∧
      st2.active_object_parts.next_part_idx = st.active_object_parts.next_part_idx ∧
      st2.active_object_parts.live_count ≤ st.active_object_parts.live_count ∧
      st2.next_island_to_object_part_mapping island_idx = some final ∧
      (∀ kc ∈ island.connected_islands, ∀ pid,
        st.prev_island_to_object_part_mapping kc.1 = some pid →
        ∃ s, st2.active_object_parts.get_flat_id pid = some (final, s)) ∧
      ids.Nodup ∧
      (∀ r, r ∈ ids ↔ ∃ kc ∈ island.connected_islands, ∃ pid k,
        st.prev_island_to_object_part_mapping kc.1 = some pid ∧
        ActiveObjectParts.Chain st.active_object_parts.active_object_parts_id_mapping pid r k) ∧
      st2.active_object_parts.active_object_parts final
        = some ((ids.map fun r => (st.active_object_parts.active_object_parts r).getD 0).sum
            + ObjectPart.ofIsland island) := by
  -- the gather loop
  obtain ⟨g, hg, hgwf, hgparts, hgnext, hgnd, hgroots, hgchain, hgmem⟩ :=
    ActiveObjectParts.gather_spec st.prev_island_to_object_part_mapping
      st.prev_island_weakest_connection island.connected_islands
      { active_object_parts := st.active_object_parts } hwf List.nodup_nil
      (fun x hx => absurd hx (List.not_mem_nil x)) hprev
  have hgmem2 : ∀ x, x ∈ g.parts_ids ↔ ∃ kc ∈ island.connected_islands, ∃ pid k,
      st.prev_island_to_object_part_mapping kc.1 = some pid ∧
      ActiveObjectParts.Chain st.active_object_parts.active_object_parts_id_mapping pid x k := by
    intro x
    rw [hgmem x]
    simp
  -- the iteration order of the set
  have hperm := horder g.parts_ids
  have hLnd : (set_order g.parts_ids).Nodup := hperm.nodup_iff.2 hgnd
  have hLmem : ∀ x, x ∈ set_order g.parts_ids ↔ x ∈ g.parts_ids := fun x => hperm.mem_iff
  have hex : ∃ x, x ∈ g.parts_ids := by
    obtain ⟨kc, rest, hkc⟩ := List.exists_cons_of_ne_nil hne
    have hmem : kc ∈ island.connected_islands := by rw [hkc]; exact List.mem_cons_self _ _
    obtain ⟨pid, w, e1, e2, _⟩ := hprev kc hmem
    obtain ⟨x, k, hc⟩ := hwf.total pid e2
    exact ⟨x, (hgmem2 x).2 ⟨kc, hmem, pid, k, e1, hc⟩⟩
  obtain ⟨final, rest, hL⟩ : ∃ final rest, set_order g.parts_ids = final :: rest := by
    cases hcases : set_order g.parts_ids with
    | nil =>
      obtain ⟨x, hx⟩ := hex
      have := (hLmem x).2 hx
      rw [hcases] at this
      exact absurd this (List.not_mem_nil x)
    | cons a l => exact ⟨a, l, rfl⟩
  have hfinL : final ∈ set_order g.parts_ids := by rw [hL]; exact List.mem_cons_self _ _
  have hLroots : ∀ y ∈ set_order g.parts_ids,
      g.active_object_parts.active_object_parts_id_mapping y = some y :=
    fun y hy => hgroots y ((hLmem y).1 hy)
  have hfinroot := hLroots final hfinL
  -- the merge loop
  obtain ⟨s2, hs2, hs2wf, hs2next, hs2map, hs2parts, hs2fin⟩ :=
    ActiveObjectParts.merge_loop_spec final (set_order g.parts_ids) g.active_object_parts hgwf
      hfinroot hLnd hLroots
  have hfinroot2 : s2.active_object_parts_id_mapping final = some final := by
    rw [hs2map]
    simp [hfinroot]
  have hpos : 0 < s2.next_part_idx := by
    have := hs2wf.root_lt hfinroot2
    omega
  have hwf3 := hs2wf.set_part hfinroot2
    ((((g.active_object_parts.active_object_parts final).getD 0
      + (((set_order g.parts_ids).filter (· ≠ final)).map fun x =>
          (g.active_object_parts.active_object_parts x).getD 0).sum)).add
      (ObjectPart.ofIsland island)) hs2fin
  have hempty : island.connected_islands.isEmpty = false := by
    cases hci : island.connected_islands with
    | nil => exact absurd hci hne
    | cons _ _ => rfl
  have hconn : check_global_stability_connect env set_order layer_z st island_idx island
      = some { st with
          active_object_parts :=
            { s2 with
              active_object_parts :=
                Function.update s2.active_object_parts final
                  (some ((((g.active_object_parts.active_object_parts final).getD 0
                    + (((set_order g.parts_ids).filter (· ≠ final)).map fun x =>
                        (g.active_object_parts.active_object_parts x).getD 0).sum)).add
                    (ObjectPart.ofIsland island))) }
          next_island_weakest_connection :=
            emplace st.next_island_weakest_connection island_idx
              (if estimate_conn_strength env layer_z g.new_weakest_connection
                  < estimate_conn_strength env layer_z g.transfered_weakest_connection then
                g.new_weakest_connection
              else g.transfered_weakest_connection)
          next_island_to_object_part_mapping :=
            emplace st.next_island_to_object_part_mapping island_idx final } := by
    simp only [check_global_stability_connect, hempty, Bool.false_eq_true, if_false, hg]
    rw [hL] at hs2
    simp only [hL, hs2, ActiveObjectParts.get_flat_id_of_root hfinroot2 hpos, hs2fin]
  refine ⟨_, final, set_order g.parts_ids, hconn, ?_, ?_, ?_, ?_, hLnd, ?_, ?_⟩
  · show s2.next_part_idx = _
    rw [hs2next, hgnext]
  · show ((Finset.range s2.next_part_idx).filter fun i =>
        (Function.update s2.active_object_parts final _ i).isSome).card ≤ _
    rw [hs2next, hgnext]
    apply Finset.card_le_card
    intro i hi
    rw [Finset.mem_filter] at hi ⊢
    refine ⟨hi.1, ?_⟩
    by_cases e : i = final
    · subst e
      have := (hgwf.parts_iff i).2 hfinroot
      rw [hgparts] at this
      exact this
    · have h2 := hi.2
      simp only [Function.update, e, dite_false] at h2
      rw [hs2parts i e] at h2
      by_cases hiL : i ∈ set_order g.parts_ids
      · simp [hiL] at h2
      · simp only [hiL, if_false] at h2
        rw [hgparts] at h2
        exact h2
  · show emplace st.next_island_to_object_part_mapping island_idx final island_idx = some final
    simp [emplace, hnext]
  · intro kc hkc pid hpid
    obtain ⟨pid2, w, e1, e2, _⟩ := hprev kc hkc
    rw [hpid] at e1
    cases Option.some.inj e1
    obtain ⟨x, k, hc⟩ := hwf.total pid e2
    have hxL : x ∈ set_order g.parts_ids :=
      (hLmem x).2 ((hgmem2 x).2 ⟨kc, hkc, pid, k, hpid, hc⟩)
    obtain ⟨k2, hc2⟩ := hgchain pid x k hc
    obtain ⟨k3, hc3⟩ := ActiveObjectParts.chain_after_merges hs2map hLroots hfinroot hc2
    simp only [hxL, if_true] at hc3
    obtain ⟨s4, hget, _⟩ := hwf3.get_flat_id (i := pid) (r := final) (k := k3) hc3
    exact ⟨s4, hget⟩
  · intro r
    rw [hLmem r, hgmem2 r]
  · show Function.update s2.active_object_parts final _ final = _
    simp only [Function.update_same]
    congr 1
    show _ + ObjectPart.ofIsland island = _
    congr 1
    rw [hgparts]
    have hfilter : (set_order g.parts_ids).filter (· ≠ final) = rest := by
      rw [hL] at hLnd ⊢
      obtain ⟨hnot, _⟩ := List.nodup_cons.1 hLnd
      simp only [List.filter_cons, ne_eq, not_true_eq_false, decide_False, Bool.false_eq_true,
        if_false]
      apply List.filter_eq_self.2
      intro a ha
      have : a ≠ final := fun e => hnot (e ▸ ha)
      simpa using this
    rw [hfilter, hL]
    simp

theorem tracker3_wf : tracker3.WF :=
  ((ActiveObjectParts.WF.empty.insert _).insert _).insert _

/-- Witness of C10: an island resting on two islands that belong to two different parts. -/
theorem connected_island_extends_parts_witness :
    ∃ (st2 : GlobalState) (final : Nat) (ids : List Nat),
      check_global_stability_connect env0 id (fin 1) state_three_parts 0 island_bridge
        = some st2 ∧
      st2.active_object_parts.next_part_idx = state_three_parts.active_object_parts.next_part_idx ∧
      st2.active_object_parts.live_count ≤ state_three_parts.active_object_parts.live_count ∧
      st2.next_island_to_object_part_mapping 0 = some final ∧
      (∀ kc ∈ island_bridge.connected_islands, ∀ pid,
        state_three_parts.prev_island_to_object_part_mapping kc.1 = some pid →
        ∃ s, st2.active_object_parts.get_flat_id pid = some (final, s)) ∧
      ids.Nodup ∧
      (∀ r, r ∈ ids ↔ ∃ kc ∈ island_bridge.connected_islands, ∃ pid k,
        state_three_parts.prev_island_to_object_part_mapping kc.1 = some pid ∧
        ActiveObjectParts.Chain
          state_three_parts.active_object_parts.active_object_parts_id_mapping pid r k) ∧
      st2.active_object_parts.active_object_parts final
        = some ((ids.map fun r =>
              (state_three_parts.active_object_parts.active_object_parts r).getD 0).sum
            + ObjectPart.ofIsland island_bridge) :=
  connected_island_extends_parts env0 id (fin 1) state_three_parts 0 island_bridge tracker3_wf
    (by decide) (fun l => List.Perm.refl l)
    (by
      intro kc hkc
      have hk : kc.1 < 3 := by
        simp only [island_bridge, List.mem_cons, List.mem_singleton, List.not_mem_nil,
          or_false] at hkc
        rcases hkc with e | e <;> rw [e] <;> decide
      exact ⟨kc.1, sentinel_connection, by simp [state_three_parts, hk],
        by simpa [state_three_parts, tracker3, ActiveObjectParts.insert] using hk,
        by simp [state_three_parts, hk]⟩)
    rfl

/-! ## Theorems: islands without predecessors -/

theorem live_count_insert {s : ActiveObjectParts} (hb : s.PartsBounded) (island : Island) :
    (s.insert island).2.live_count = s.live_count + 1 ∧
      (s.insert island).2.active_object_parts s.next_part_idx
        = some (ObjectPart.ofIsland island) ∧
      (∀ k, k ≠ s.next_part_idx →
        (s.insert island).2.active_object_parts k = s.active_object_parts k) := by
  have hnone : s.active_object_parts s.next_part_idx = none := hb _ le_rfl
  refine ⟨?_, ?_, ?_⟩
  · simp only [ActiveObjectParts.live_count, ActiveObjectParts.insert, emplace, hnone,
      Option.isSome_none, Bool.false_eq_true, if_false]
    rw [Finset.range_succ, Finset.filter_insert]
    simp only [Function.update_same, Option.isSome_some, if_true]
    rw [Finset.card_insert_of_not_mem (by simp)]
    congr 1
    apply congrArg
    apply Finset.filter_congr
    intro x hx
    have : x ≠ s.next_part_idx := (Finset.mem_range.1 hx).ne
    simp [Function.update, this]
  · simp [ActiveObjectParts.insert, emplace, hnone]
  · intro k hk
    simp [ActiveObjectParts.insert, emplace, hnone, Function.update, hk]

theorem sentinel_strength (env : Env) (z : ℚ) :
    estimate_conn_strength env (fin z) sentinel_connection = pinf := by
  have h1 : (1:ℚ) ≠ 0 := one_ne_zero
  have hm : (0:ℚ) ≤ Max.max 1 (z - 0) := le_trans zero_le_one (le_max_left _ _)
  simp only [estimate_conn_strength, sentinel_connection, Vec3f.zero, Vec3f.divs, Vec2f.divs,
    Vec3f.head2, Vec2f.cwiseProduct, Flt.zero_def, Flt.div_fin, h1, if_false, Flt.mul_fin,
    Flt.sub_fin, Flt.max_fin]
  show Flt.div (Flt.mul (fin 1) (Flt.sqrt env.sqrtf (Flt.add (Flt.add (Flt.div pinf (fin 1))
    (Flt.neg (fin (0 / 1 * (0 / 1))))) (Flt.add (Flt.div pinf (fin 1))
    (Flt.neg (fin (0 / 1 * (0 / 1)))))))) (fin (Max.max 1 (z - 0 / 1))) = pinf
  simp [Flt.div, Flt.add, Flt.neg, Flt.sqrt, Flt.mul, Flt.signedInf]

theorem Flt.lt_asymm {a b : Flt} (h : a < b) : ¬ (b < a) := by
  have h2 : Flt.lt a b = true := h
  show ¬ (Flt.lt b a = true)
  cases a <;> cases b <;> simp [Flt.lt] at h2 ⊢
  exact h2.le

theorem bridging_unsupported (env : Env) (params : Params) (layer_z : Flt)
    (layer_region : LayerRegion) (flow_width : Flt) (prev_layer_lines : List ExtrusionLine)
    (first_a : Vec2f) (next_line : Option ExtrusionLine)
    (bridging_acc : ExtrusionPropertiesAccumulator) (issues : Issues)
    (current_line : ExtrusionLine)
    (hfar : flow_width
      < Flt.fabs (env.distance_from_lines_extra prev_layer_lines current_line.b).1) :
    check_extrusion_entity_stability_bridging env params layer_z layer_region flow_width
        prev_layer_lines first_a next_line bridging_acc issues current_line
      = some
        (if params.bridge_distance / (fin 1
              + (((bridging_acc_with_angle env params first_a next_line bridging_acc
                    current_line).add_distance current_line.len).max_curvature
                * params.bridge_distance_decrease_by_curvature_factor / env.PI))
            < ((bridging_acc_with_angle env params first_a next_line bridging_acc
                  current_line).add_distance current_line.len).distance then
          (({} : ExtrusionPropertiesAccumulator),
            { support_points := issues.support_points
                ++ [local_support_point params layer_z current_line.b] },
            { current_line with support_point_generated := true })
        else
          ((bridging_acc_with_angle env params first_a next_line bridging_acc
              current_line).add_distance current_line.len, issues, current_line)) := by
  have hnot : ¬ (Flt.fabs (env.distance_from_lines_extra prev_layer_lines current_line.b).1
      < flow_width) := Flt.lt_asymm hfar
  unfold check_extrusion_entity_stability_bridging
  simp only [hnot, if_false, hfar, if_true, Bool.and_true, decide_eq_true_eq]
  split_ifs <;> rfl

theorem malformation_some (env : Env) (params : Params) (layer_region : LayerRegion)
    (flow_width : Flt) (prev_layer_lines : List ExtrusionLine)
    (next_line : Option ExtrusionLine) (malformation_acc : ExtrusionPropertiesAccumulator)
    (current_line : ExtrusionLine)
    (hline : ¬ (Flt.fabs (env.distance_from_lines_extra prev_layer_lines current_line.b).1
        < fin 2 * flow_width) ∨
      ∃ nl, get_line prev_layer_lines
        (env.distance_from_lines_extra prev_layer_lines current_line.b).2.1 = some nl) :
    ∃ mal line2,
      check_extrusion_entity_stability_malformation env params layer_region flow_width
        prev_layer_lines next_line malformation_acc current_line = some (mal, line2) ∧
      line2.a = current_line.a ∧ line2.b = current_line.b ∧
      line2.support_point_generated = current_line.support_point_generated := by
  unfold check_extrusion_entity_stability_malformation
  by_cases hnear : Flt.fabs (env.distance_from_lines_extra prev_layer_lines current_line.b).1
        < fin 2 * flow_width
  · rcases hline with h | ⟨nl, hnl⟩
    · exact absurd hnear h
    · simp only [hnear, if_true, hnl]
      split_ifs <;> exact ⟨_, _, rfl, rfl, rfl, rfl⟩
  · simp only [hnear, if_false]
    split_ifs <;> exact ⟨_, _, rfl, rfl, rfl, rfl⟩

@[simp] theorem Vec2f.mk_sub_mk (a b c d : Flt) :
    (Vec2f.mk a b - Vec2f.mk c d) = Vec2f.mk (a - c) (b - d) := rfl
@[simp] theorem Vec2f.mk_add_mk (a b c d : Flt) :
    (Vec2f.mk a b + Vec2f.mk c d) = Vec2f.mk (a + c) (b + d) := rfl

theorem norm_fin (env : Env) (hsq : ∀ q, env.sqrtf (q * q) = |q|) {a b L : ℚ}
    (h : a * a + b * b = L * L) (hL : 0 ≤ L) : Vec2f.norm env.sqrtf ⟨fin a, fin b⟩ = fin L := by
  simp only [Vec2f.norm, Vec2f.squaredNorm, Flt.mul_fin, Flt.add_fin, Flt.sqrt_fin, h, hsq,
    abs_of_nonneg hL]
  rw [if_neg (not_lt.2 (mul_self_nonneg L))]

theorem normalized_fin (env : Env) (hsq : ∀ q, env.sqrtf (q * q) = |q|) {a b L : ℚ}
    (h : a * a + b * b = L * L) (hL : 0 < L) :
    Vec2f.normalized env.sqrtf ⟨fin a, fin b⟩ = ⟨fin (a / L), fin (b / L)⟩ := by
  have hpos : (0:ℚ) < L * L := mul_pos hL hL
  simp only [Vec2f.normalized, Vec2f.squaredNorm, Vec2f.divs, Flt.mul_fin, Flt.add_fin,
    Flt.sqrt_fin, h, hsq, abs_of_pos hL, Flt.zero_def, Flt.lt_fin, hpos, if_true,
    not_lt.2 hpos.le, if_false, Flt.div_fin, hL.ne']

theorem make_fin (env : Env) (hsq : ∀ q, env.sqrtf (q * q) = |q|) {ax ay bx by_ L : ℚ}
    (h : (ax - bx) * (ax - bx) + (ay - by_) * (ay - by_) = L * L) (hL : 0 ≤ L)
    (e : Option EntityRef) :
    ExtrusionLine.make env ⟨fin ax, fin ay⟩ ⟨fin bx, fin by_⟩ e
      = { a := ⟨fin ax, fin ay⟩, b := ⟨fin bx, fin by_⟩, len := fin L, origin_entity := e } := by
  simp only [ExtrusionLine.make, Vec2f.mk_sub_mk, Flt.sub_fin, norm_fin env hsq h hL]

theorem ceil_toInt (q : ℚ) (n : Int) (h : ⌈q⌉ = n)
    (hr : -2147483648 ≤ n ∧ n ≤ 2147483647) : (Flt.ceil (fin q)).toInt = some n := by
  simp only [Flt.ceil, Flt.toInt, h, Int.floor_intCast, Int.ceil_intCast, ite_self, hr,
    and_self, if_true]

theorem to_short_lines_one (env : Env) (hsq : ∀ q, env.sqrtf (q * q) = |q|)
    (x0 y0 x1 y1 B : ℚ) (hB : 0 < B)
    (hlen : (x1 - x0) * (x1 - x0) + (y1 - y0) * (y1 - y0) = B * B) (e : Option EntityRef) :
    to_short_lines env e [⟨fin x0, fin y0⟩, ⟨fin x1, fin y1⟩] (fin B)
      = some [{ a := ⟨fin x0, fin y0⟩, b := ⟨fin x0, fin y0⟩, len := fin 0, origin_entity := e },
              { a := ⟨fin x0, fin y0⟩, b := ⟨fin x1, fin y1⟩, len := fin B,
                origin_entity := e }] := by
  have hB0 : B ≠ 0 := hB.ne'
  have hc : (Flt.ceil (fin (B / B))).toInt = some 1 :=
    ceil_toInt _ 1 (by rw [div_self hB0]; exact Int.ceil_one) (by decide)
  have hl0 : ExtrusionLine.make env ⟨fin x0, fin y0⟩ ⟨fin x0, fin y0⟩ e
      = { a := ⟨fin x0, fin y0⟩, b := ⟨fin x0, fin y0⟩, len := fin 0, origin_entity := e } :=
    make_fin env hsq (by ring) le_rfl e
  have hl1 : ExtrusionLine.make env ⟨fin x0, fin y0⟩ ⟨fin x1, fin y1⟩ e
      = { a := ⟨fin x0, fin y0⟩, b := ⟨fin x1, fin y1⟩, len := fin B, origin_entity := e } :=
    make_fin env hsq (by rw [← hlen]; ring) hB.le e
  simp only [to_short_lines, to_short_lines_loop, Vec2f.mk_sub_mk, Flt.sub_fin,
    norm_fin env hsq hlen hB.le, normalized_fin env hsq hlen hB, Flt.div_fin, hB0, if_false, hc,
    hl0]
  simp only [Int.toNat_one, to_short_lines_segment, Flt.ofInt, Vec2f.scale, Flt.div_fin,
    Flt.mul_fin, Vec2f.mk_add_mk, Flt.add_fin, Int.cast_zero, Int.cast_one, zero_add,
    one_ne_zero, if_false, div_one, zero_mul, mul_zero, add_zero, one_mul,
    div_mul_cancel₀ _ hB0, add_sub_cancel, hl1, List.append_nil, List.nil_append,
    List.cons_append, Int.cast_ofNat]

theorem to_short_lines_two (env : Env) (hsq : ∀ q, env.sqrtf (q * q) = |q|)
    (x0 y0 x1 y1 B : ℚ) (hB : 0 < B)
    (hlen : (x1 - x0) * (x1 - x0) + (y1 - y0) * (y1 - y0) = (2 * B) * (2 * B))
    (e : Option EntityRef) :
    to_short_lines env e [⟨fin x0, fin y0⟩, ⟨fin x1, fin y1⟩] (fin B)
      = some [{ a := ⟨fin x0, fin y0⟩, b := ⟨fin x0, fin y0⟩, len := fin 0, origin_entity := e },
              { a := ⟨fin x0, fin y0⟩, b := ⟨fin ((x0 + x1) / 2), fin ((y0 + y1) / 2)⟩,
                len := fin B, origin_entity := e },
              { a := ⟨fin ((x0 + x1) / 2), fin ((y0 + y1) / 2)⟩, b := ⟨fin x1, fin y1⟩,
                len := fin B, origin_entity := e }] := by
  have hB0 : B ≠ 0 := hB.ne'
  have h2B : (0:ℚ) < 2 * B := by linarith
  have h2B0 : 2 * B ≠ 0 := h2B.ne'
  have hc : (Flt.ceil (fin (2 * B / B))).toInt = some 2 :=
    ceil_toInt _ 2 (by
      rw [mul_div_assoc, div_self hB0, mul_one]
      exact Int.ceil_natCast 2) (by decide)
  have hl0 : ExtrusionLine.make env ⟨fin x0, fin y0⟩ ⟨fin x0, fin y0⟩ e
      = { a := ⟨fin x0, fin y0⟩, b := ⟨fin x0, fin y0⟩, len := fin 0, origin_entity := e } :=
    make_fin env hsq (by ring) le_rfl e
  simp only [to_short_lines, to_short_lines_loop, Vec2f.mk_sub_mk, Flt.sub_fin,
    norm_fin env hsq hlen h2B.le, normalized_fin env hsq hlen h2B, Flt.div_fin, hB0, if_false, hc,
    hl0]
  simp only [to_short_lines_segment, Flt.ofInt, Vec2f.scale, Flt.div_fin,
    Flt.mul_fin, Vec2f.mk_add_mk, Flt.add_fin, Int.cast_zero, Int.cast_one, zero_add,
    if_false, zero_mul, mul_zero, add_zero, one_mul,
    List.append_nil, List.nil_append,
    List.cons_append, Int.cast_ofNat]
  have k2 : (2:ℚ) ≠ 0 := two_ne_zero
  have hs : (2 * B / 2 : ℚ) = B := by field_simp
  have hmx : x0 + (x1 - x0) / (2 * B) * B = (x0 + x1) / 2 := by field_simp; ring
  have hmy : y0 + (y1 - y0) / (2 * B) * B = (y0 + y1) / 2 := by field_simp; ring
  have hex : x0 + (x1 - x0) / (2 * B) * (((1 + 1 : ℤ) : ℚ) * B) = x1 := by
    push_cast; field_simp
  have hey : y0 + (y1 - y0) / (2 * B) * (((1 + 1 : ℤ) : ℚ) * B) = y1 := by
    push_cast; field_simp
  have hl1 : ExtrusionLine.make env ⟨fin x0, fin y0⟩ ⟨fin ((x0 + x1) / 2), fin ((y0 + y1) / 2)⟩ e
      = { a := ⟨fin x0, fin y0⟩, b := ⟨fin ((x0 + x1) / 2), fin ((y0 + y1) / 2)⟩, len := fin B,
          origin_entity := e } :=
    make_fin env hsq (by linear_combination (1 / 4) * hlen) hB.le e
  have hl2 : ExtrusionLine.make env ⟨fin ((x0 + x1) / 2), fin ((y0 + y1) / 2)⟩ ⟨fin x1, fin y1⟩ e
      = { a := ⟨fin ((x0 + x1) / 2), fin ((y0 + y1) / 2)⟩, b := ⟨fin x1, fin y1⟩, len := fin B,
          origin_entity := e } :=
    make_fin env hsq (by linear_combination (1 / 4) * hlen) hB.le e
  simp only [k2, if_false, hs, Flt.mul_fin, Flt.add_fin, zero_mul, mul_zero, add_zero, one_mul,
    hmx, hmy, hex, hey, hl1, hl2]

theorem body_zero_angle (env : Env) (params : Params) (layer_z : Flt)
    (layer_region : LayerRegion) (flow_width : Flt) (prev_layer_lines : List ExtrusionLine)
    (first_a : Vec2f) (next_line : Option ExtrusionLine) (st : LineLoopState)
    (current_line : ExtrusionLine) (B cf π D ℓ : ℚ)
    (hbd : params.bridge_distance = fin B)
    (hfac : params.bridge_distance_decrease_by_curvature_factor = fin cf)
    (hPI : env.PI = fin π) (hπ : π ≠ 0)
    (hacc : st.bridging_acc = { distance := fin D, curvature := fin 0, max_curvature := fin 0 })
    (hlen : current_line.len = fin ℓ)
    (hang : curr_angle env current_line next_line = fin 0)
    (hfar : flow_width
      < Flt.fabs (env.distance_from_lines_extra prev_layer_lines current_line.b).1)
    (hline : ¬ (Flt.fabs (env.distance_from_lines_extra prev_layer_lines current_line.b).1
        < fin 2 * flow_width) ∨
      ∃ nl, get_line prev_layer_lines
        (env.distance_from_lines_extra prev_layer_lines current_line.b).2.1 = some nl) :
    ∃ mal line2,
      check_extrusion_entity_stability_body env params layer_z layer_region flow_width
          prev_layer_lines first_a next_line st current_line
        = some
          (if B < (if (next_line.isNone && Vec2f.ne current_line.b first_a) = true
                then D + (B + 1) else D) + ℓ then
            { bridging_acc := { distance := fin 0, curvature := fin 0, max_curvature := fin 0 }
              malformation_acc := mal
              issues := { support_points := st.issues.support_points
                ++ [local_support_point params layer_z current_line.b] } }
          else
            { bridging_acc :=
                { distance := fin ((if (next_line.isNone && Vec2f.ne current_line.b first_a) = true
                    then D + (B + 1) else D) + ℓ)
                  curvature := fin 0, max_curvature := fin 0 }
              malformation_acc := mal, issues := st.issues }, line2) ∧
      line2.a = current_line.a ∧ line2.b = current_line.b := by
  have hacc2 : (bridging_acc_with_angle env params first_a next_line st.bridging_acc
      current_line).add_distance current_line.len
      = { distance := fin ((if (next_line.isNone && Vec2f.ne current_line.b first_a) = true
            then D + (B + 1) else D) + ℓ)
          curvature := fin 0, max_curvature := fin 0 } := by
    simp only [bridging_acc_with_angle, hacc, hang, hbd, hlen,
      ExtrusionPropertiesAccumulator.add_distance, ExtrusionPropertiesAccumulator.add_angle]
    split_ifs <;> simp
  have hcond : (params.bridge_distance / (fin 1
        + (((bridging_acc_with_angle env params first_a next_line st.bridging_acc
              current_line).add_distance current_line.len).max_curvature
          * params.bridge_distance_decrease_by_curvature_factor / env.PI))
        < ((bridging_acc_with_angle env params first_a next_line st.bridging_acc
              current_line).add_distance current_line.len).distance)
      ↔ B < (if (next_line.isNone && Vec2f.ne current_line.b first_a) = true
                then D + (B + 1) else D) + ℓ := by
    rw [hacc2]
    simp [hbd, hfac, hPI, hπ]
  unfold check_extrusion_entity_stability_body
  rw [bridging_unsupported env params layer_z layer_region flow_width prev_layer_lines first_a
    next_line st.bridging_acc st.issues current_line hfar]
  by_cases hc : B < (if (next_line.isNone && Vec2f.ne current_line.b first_a) = true
                then D + (B + 1) else D) + ℓ
  · rw [if_pos (hcond.2 hc)]
    obtain ⟨mal, line2, h1, h2, h3, _⟩ := malformation_some env params layer_region flow_width
      prev_layer_lines next_line st.malformation_acc
      { current_line with support_point_generated := true } hline
    refine ⟨mal, line2, ?_, h2, h3⟩
    rw [if_pos hc]
    simp only [h1]
    rfl
  · rw [if_neg (fun h => hc (hcond.1 h)), hacc2]
    obtain ⟨mal, line2, h1, h2, h3, _⟩ := malformation_some env params layer_region flow_width
      prev_layer_lines next_line st.malformation_acc current_line hline
    refine ⟨mal, line2, ?_, h2, h3⟩
    rw [if_neg hc]
    simp only [h1]

theorem ne_of_sq_pos {x0 y0 x1 y1 L : ℚ} (hL : 0 < L)
    (hlen : (x1 - x0) * (x1 - x0) + (y1 - y0) * (y1 - y0) = L * L) :
    Vec2f.ne ⟨fin x1, fin y1⟩ ⟨fin x0, fin y0⟩ = true := by
  simp only [Vec2f.ne, Flt.feq_fin, Bool.not_eq_true', Bool.and_eq_false_imp, decide_eq_true_eq,
    decide_eq_false_iff_not]
  intro hx hy
  subst hx
  subst hy
  have : (0:ℚ) < L * L := mul_pos hL hL
  rw [← hlen] at this
  simp at this

/-- C3 (threshold scenario), amended.  For a straight open path of two points whose length
is exactly `bridge_distance`, every point being farther than one flow width from the previous
layer, `check_extrusion_entity_stability` emits exactly two support points: the first at the
start of the path (along-path distance 0) and the second at its end (distance
`bridge_distance`). -/
theorem threshold_span_support_points (env : Env) (params : Params) (layer_z : Flt)
    (layer_region : LayerRegion) (prev_layer_lines checked_lines_out : List ExtrusionLine)
    (issues : Issues) (id : Nat) (role : ExtrusionRole) (x0 y0 x1 y1 B cf π : ℚ)
    (hbd : params.bridge_distance = fin B) (hB : 0 < B)
    (hfac : params.bridge_distance_decrease_by_curvature_factor = fin cf)
    (hPI : env.PI = fin π) (hπ : π ≠ 0)
    (hsq : ∀ q, env.sqrtf (q * q) = |q|)
    (hangle : ∀ a b c d : ℚ, a * d - b * c = 0 → 0 ≤ a * c + b * d →
      env.angle ⟨fin a, fin b⟩ ⟨fin c, fin d⟩ = fin 0)
    (hlen : (x1 - x0) * (x1 - x0) + (y1 - y0) * (y1 - y0) = B * B)
    (hfar : ∀ q, get_flow_width layer_region role
      < Flt.fabs (env.distance_from_lines_extra prev_layer_lines q).1)
    (hline : ∀ q, ¬ (Flt.fabs (env.distance_from_lines_extra prev_layer_lines q).1
        < fin 2 * get_flow_width layer_region role) ∨
      ∃ nl, get_line prev_layer_lines (env.distance_from_lines_extra prev_layer_lines q).2.1
        = some nl) :
    ∃ lines,
      check_extrusion_entity_stability env (.path id role [⟨fin x0, fin y0⟩, ⟨fin x1, fin y1⟩])
          checked_lines_out layer_z layer_region prev_layer_lines issues params
        = some (checked_lines_out ++ lines,
            { support_points := issues.support_points ++
                [local_support_point params layer_z ⟨fin x0, fin y0⟩,
                 local_support_point params layer_z ⟨fin x1, fin y1⟩] }) := by
  obtain ⟨mal0, l0, h0, -, -⟩ := body_zero_angle env params layer_z layer_region
    (get_flow_width layer_region role) prev_layer_lines ⟨fin x0, fin y0⟩
    (some { a := ⟨fin x0, fin y0⟩, b := ⟨fin x1, fin y1⟩, len := fin B,
            origin_entity := some ⟨id, role⟩ })
    { bridging_acc := { distance := fin (0 + (B + 1)), curvature := fin 0,
                        max_curvature := fin 0 }
      malformation_acc := {}, issues := issues }
    { a := ⟨fin x0, fin y0⟩, b := ⟨fin x0, fin y0⟩, len := fin 0,
      origin_entity := some ⟨id, role⟩ }
    B cf π (0 + (B + 1)) 0 hbd hfac hPI hπ rfl rfl
    (hangle _ _ _ _ (by ring) (by simp)) (hfar _) (hline _)
  have hc0 : B < 0 + (B + 1) + 0 := by linarith
  simp only [Option.isNone_some, Bool.false_and, Bool.false_eq_true, if_false, hc0, if_true,
    Flt.zero_def] at h0
  obtain ⟨mal1, l1, h1, -, -⟩ := body_zero_angle env params layer_z layer_region
    (get_flow_width layer_region role) prev_layer_lines ⟨fin x0, fin y0⟩ none
    { bridging_acc := { distance := fin 0, curvature := fin 0, max_curvature := fin 0 }
      malformation_acc := mal0
      issues := { support_points := issues.support_points
        ++ [local_support_point params layer_z ⟨fin x0, fin y0⟩] } }
    { a := ⟨fin x0, fin y0⟩, b := ⟨fin x1, fin y1⟩, len := fin B,
      origin_entity := some ⟨id, role⟩ }
    B cf π 0 B hbd hfac hPI hπ rfl rfl rfl (hfar _) (hline _)
  have hc1 : B < 0 + (B + 1) + B := by linarith
  simp only [Option.isNone_none, Bool.true_and, ne_of_sq_pos hB hlen, if_true, hc1,
    Flt.zero_def] at h1
  refine ⟨[l0, l1], ?_⟩
  unfold check_extrusion_entity_stability
  simp only [hbd, to_short_lines_one env hsq x0 y0 x1 y1 B hB hlen]
  simp only [check_extrusion_entity_stability_loop, List.head?_cons, List.head?_nil,
    ExtrusionPropertiesAccumulator.add_distance, Flt.zero_def, Flt.add_fin]
  rw [h0]
  simp only [h1, List.append_assoc, List.singleton_append]

/-- Witness of the amended C3: the path from (0, 0) to (16, 0) with the default bridge
distance of 16 over open air. -/
theorem threshold_span_support_points_witness :
    ∃ lines,
      check_extrusion_entity_stability env0
          (.path 0 .erExternalPerimeter [⟨fin 0, fin 0⟩, ⟨fin 16, fin 0⟩]) [] (fin 1) region0 []
          {} params0
        = some ([] ++ lines,
            { support_points := ([] : List SupportPoint) ++
                [local_support_point params0 (fin 1) ⟨fin 0, fin 0⟩,
                 local_support_point params0 (fin 1) ⟨fin 16, fin 0⟩] }) :=
  threshold_span_support_points env0 params0 (fin 1) region0 [] [] {} 0 .erExternalPerimeter
    0 0 16 0 16 5 (355 / 113) rfl (by norm_num) rfl rfl (by norm_num) Rat.sqrt_eq
    (fun _ _ _ _ _ _ => rfl) (by norm_num)
    (fun _ => (by decide! : get_flow_width region0 .erExternalPerimeter < Flt.fabs (fin 100)))
    (fun _ => Or.inl (by decide! :
      ¬ (Flt.fabs (fin 100) < fin 2 * get_flow_width region0 .erExternalPerimeter)))

/-- C3 (threshold scenario) fails on the code.  For the straight open path from (0, 0) to
(16, 0), whose length is the bridge distance 16, with every point 100 mm away from the
previous layer, two support points are emitted, not one; the first lies at the start of the
path, at along-path distance 0, which is below the bridge distance. -/
theorem threshold_span_emits_two_points :
    params0.bridge_distance = fin 16 ∧
    ((check_extrusion_entity_stability env0
        (.path 0 .erExternalPerimeter [⟨fin 0, fin 0⟩, ⟨fin 16, fin 0⟩]) [] (fin 1) region0 []
        {} params0).map fun r => r.2.support_points.map fun p => p.position)
      = some [⟨fin 0, fin 0, fin 1⟩, ⟨fin 16, fin 0, fin 1⟩] := by
  decide!

/-- C2 (bridge scenario), amended.  For a straight open path of two points whose length is
`2 * bridge_distance`, every point being farther than one flow width from the previous
layer, `check_extrusion_entity_stability` emits exactly two support points, the first at the
start of the path and the second at its end (none at the midpoint), each with force 0,
radius `support_points_interface_radius` and direction (0, 0, -1). -/
theorem bridge_span_support_points (env : Env) (params : Params) (layer_z : Flt)
    (layer_region : LayerRegion) (prev_layer_lines checked_lines_out : List ExtrusionLine)
    (issues : Issues) (id : Nat) (role : ExtrusionRole) (x0 y0 x1 y1 B cf π : ℚ)
    (hbd : params.bridge_distance = fin B) (hB : 0 < B)
    (hfac : params.bridge_distance_decrease_by_curvature_factor = fin cf)
    (hPI : env.PI = fin π) (hπ : π ≠ 0)
    (hsq : ∀ q, env.sqrtf (q * q) = |q|)
    (hangle : ∀ a b c d : ℚ, a * d - b * c = 0 → 0 ≤ a * c + b * d →
      env.angle ⟨fin a, fin b⟩ ⟨fin c, fin d⟩ = fin 0)
    (hlen : (x1 - x0) * (x1 - x0) + (y1 - y0) * (y1 - y0) = (2 * B) * (2 * B))
    (hfar : ∀ q, get_flow_width layer_region role
      < Flt.fabs (env.distance_from_lines_extra prev_layer_lines q).1)
    (hline : ∀ q, ¬ (Flt.fabs (env.distance_from_lines_extra prev_layer_lines q).1
        < fin 2 * get_flow_width layer_region role) ∨
      ∃ nl, get_line prev_layer_lines (env.distance_from_lines_extra prev_layer_lines q).2.1
        = some nl) :
    ∃ lines,
      check_extrusion_entity_stability env (.path id role [⟨fin x0, fin y0⟩, ⟨fin x1, fin y1⟩])
          checked_lines_out layer_z layer_region prev_layer_lines issues params
        = some (checked_lines_out ++ lines,
            { support_points := issues.support_points ++
                [{ position := ⟨fin x0, fin y0, layer_z⟩, force := fin 0,
                   spot_radius := params.support_points_interface_radius,
                   direction := ⟨fin 0, fin 0, fin (-1)⟩ },
                 { position := ⟨fin x1, fin y1, layer_z⟩, force := fin 0,
                   spot_radius := params.support_points_interface_radius,
                   direction := ⟨fin 0, fin 0, fin (-1)⟩ }] }) := by
  have h2B : (0:ℚ) < 2 * B := by linarith
  obtain ⟨mal0, l0, h0, -, -⟩ := body_zero_angle env params layer_z layer_region
    (get_flow_width layer_region role) prev_layer_lines ⟨fin x0, fin y0⟩
    (some { a := ⟨fin x0, fin y0⟩, b := ⟨fin ((x0 + x1) / 2), fin ((y0 + y1) / 2)⟩, len := fin B,
            origin_entity := some ⟨id, role⟩ })
    { bridging_acc := { distance := fin (0 + (B + 1)), curvature := fin 0,
                        max_curvature := fin 0 }
      malformation_acc := {}, issues := issues }
    { a := ⟨fin x0, fin y0⟩, b := ⟨fin x0, fin y0⟩, len := fin 0,
      origin_entity := some ⟨id, role⟩ }
    B cf π (0 + (B + 1)) 0 hbd hfac hPI hπ rfl rfl
    (hangle _ _ _ _ (by ring) (by simp)) (hfar _) (hline _)
  have hc0 : B < 0 + (B + 1) + 0 := by linarith
  simp only [Option.isNone_some, Bool.false_and, Bool.false_eq_true, if_false, hc0, if_true,
    Flt.zero_def] at h0
  obtain ⟨mal1, l1, h1, -, -⟩ := body_zero_angle env params layer_z layer_region
    (get_flow_width layer_region role) prev_layer_lines ⟨fin x0, fin y0⟩
    (some { a := ⟨fin ((x0 + x1) / 2), fin ((y0 + y1) / 2)⟩, b := ⟨fin x1, fin y1⟩, len := fin B,
            origin_entity := some ⟨id, role⟩ })
    { bridging_acc := { distance := fin 0, curvature := fin 0, max_curvature := fin 0 }
      malformation_acc := mal0
      issues := { support_points := issues.support_points
        ++ [local_support_point params layer_z ⟨fin x0, fin y0⟩] } }
    { a := ⟨fin x0, fin y0⟩, b := ⟨fin ((x0 + x1) / 2), fin ((y0 + y1) / 2)⟩, len := fin B,
      origin_entity := some ⟨id, role⟩ }
    B cf π 0 B hbd hfac hPI hπ rfl rfl
    (hangle _ _ _ _ (by ring) (by
      have : ((x0 + x1) / 2 - x0) * (x1 - (x0 + x1) / 2) + ((y0 + y1) / 2 - y0) * (y1 - (y0 + y1) / 2)
          = B * B := by linear_combination (1 / 4) * hlen
      linarith [mul_self_nonneg B])) (hfar _) (hline _)
  have hc1 : ¬ (B < 0 + B) := by linarith
  simp only [Option.isNone_some, Bool.false_and, Bool.false_eq_true, if_false, hc1,
    Flt.zero_def] at h1
  obtain ⟨mal2, l2, h2, -, -⟩ := body_zero_angle env params layer_z layer_region
    (get_flow_width layer_region role) prev_layer_lines ⟨fin x0, fin y0⟩ none
    { bridging_acc := { distance := fin (0 + B), curvature := fin 0, max_curvature := fin 0 }
      malformation_acc := mal1
      issues := { support_points := issues.support_points
        ++ [local_support_point params layer_z ⟨fin x0, fin y0⟩] } }
    { a := ⟨fin ((x0 + x1) / 2), fin ((y0 + y1) / 2)⟩, b := ⟨fin x1, fin y1⟩, len := fin B,
      origin_entity := some ⟨id, role⟩ }
    B cf π (0 + B) B hbd hfac hPI hπ rfl rfl rfl (hfar _) (hline _)
  have hc2 : B < 0 + B + (B + 1) + B := by linarith
  simp only [Option.isNone_none, Bool.true_and, ne_of_sq_pos h2B hlen, if_true, hc2,
    Flt.zero_def] at h2
  refine ⟨[l0, l1, l2], ?_⟩
  unfold check_extrusion_entity_stability
  simp only [hbd, to_short_lines_two env hsq x0 y0 x1 y1 B hB hlen]
  simp only [check_extrusion_entity_stability_loop, List.head?_cons, List.head?_nil,
    ExtrusionPropertiesAccumulator.add_distance, Flt.zero_def, Flt.add_fin]
  rw [h0]
  simp only [h1, h2, List.append_assoc, List.singleton_append]
  rfl

/-- Witness of the amended C2: the path from (0, 0) to (32, 0) with the default bridge
distance of 16 over open air. -/
theorem bridge_span_support_points_witness :
    ∃ lines,
      check_extrusion_entity_stability env0
          (.path 0 .erExternalPerimeter [⟨fin 0, fin 0⟩, ⟨fin 32, fin 0⟩]) [] (fin 1) region0 []
          {} params0
        = some ([] ++ lines,
            { support_points := ([] : List SupportPoint) ++
                [{ position := ⟨fin 0, fin 0, fin 1⟩, force := fin 0,
                   spot_radius := params0.support_points_interface_radius,
                   direction := ⟨fin 0, fin 0, fin (-1)⟩ },
                 { position := ⟨fin 32, fin 0, fin 1⟩, force := fin 0,
                   spot_radius := params0.support_points_interface_radius,
                   direction := ⟨fin 0, fin 0, fin (-1)⟩ }] }) :=
  bridge_span_support_points env0 params0 (fin 1) region0 [] [] {} 0 .erExternalPerimeter
    0 0 32 0 16 5 (355 / 113) rfl (by norm_num) rfl rfl (by norm_num) Rat.sqrt_eq
    (fun _ _ _ _ _ _ => rfl) (by norm_num)
    (fun _ => (by decide! : get_flow_width region0 .erExternalPerimeter < Flt.fabs (fin 100)))
    (fun _ => Or.inl (by decide! :
      ¬ (Flt.fabs (fin 100) < fin 2 * get_flow_width region0 .erExternalPerimeter)))

/-- C2 (bridge scenario) fails on the code.  For the single-segment open path from (0, 0) to
(32, 0), of length twice the bridge distance 16, with zero curvature and every point 100 mm
away from the previous layer, two support points are emitted, not one: at the start (0, 0)
and at the end (32, 0) of the path, none near the midpoint (16, 0).  Both have force 0 and
the radius `support_points_interface_radius`. -/
theorem bridge_span_emits_two_points :
    params0.bridge_distance = fin 16 ∧
    ((check_extrusion_entity_stability env0
        (.path 0 .erExternalPerimeter [⟨fin 0, fin 0⟩, ⟨fin 32, fin 0⟩]) [] (fin 1) region0 []
        {} params0).map fun r => r.2.support_points)
      = some [{ position := ⟨fin 0, fin 0, fin 1⟩, force := fin 0,
                spot_radius := params0.support_points_interface_radius,
                direction := ⟨fin 0, fin 0, fin (-1)⟩ },
              { position := ⟨fin 32, fin 0, fin 1⟩, force := fin 0,
                spot_radius := params0.support_points_interface_radius,
                direction := ⟨fin 0, fin 0, fin (-1)⟩ }] := by
  decide!

/-! ## Theorems: lookups on every reachable tracker -/

namespace ActiveObjectParts

theorem MapOK.flat_id_resolves {s : ActiveObjectParts} (h : s.MapOK) {i : Nat}
    (hi : i < s.next_part_idx) :
    ∃ r s1, s.get_flat_id i = some (r, s1) ∧ s1.MapOK ∧
      s1.active_object_parts_id_mapping r = some r ∧
      s1.active_object_parts = s.active_object_parts ∧ s1.next_part_idx = s.next_part_idx := by
  obtain ⟨r, k, hc⟩ := h.total i hi
  have hk : k < s.next_part_idx := hc.length_lt h.lt
  have hroot : s.active_object_parts_id_mapping r = some r := hc.root_self
  obtain ⟨m2, hm2, hcomp⟩ := chain_loop2 hc s.active_object_parts_id_mapping
    s.next_part_idx (fun _ _ _ _ => rfl) (Compressed.refl _ _) hk.le (by omega)
  have hget : s.get_flat_id i = some (r, { s with active_object_parts_id_mapping := m2 }) := by
    cases hc with
    | root hr =>
      simp only [ActiveObjectParts.get_flat_id, hr]
      rw [chain_loop1 (Chain.root hr) _ hk]
      simp only [hm2]
    | step hi2 hne hc2 =>
      simp only [ActiveObjectParts.get_flat_id, hi2]
      rw [chain_loop1 hc2 _ (by omega)]
      simp only [hm2]
  refine ⟨r, _, hget, ⟨?_, ?_⟩, (hcomp.root_iff r).2 hroot, rfl, rfl⟩
  · intro j p hj
    rcases hcomp j with e | ⟨e, _, d, hd⟩
    · exact h.lt j p (e ▸ hj)
    · have hj2 : m2 j = some p := hj
      rw [e] at hj2
      cases Option.some.inj hj2
      exact ⟨hd.lt_of_mem h.lt, (h.lt r r hroot).1⟩
  · intro j hj
    obtain ⟨x, d, hx⟩ := h.total j hj
    obtain ⟨d2, _, hx2⟩ := hcomp.chain hroot hx
    exact ⟨x, d2, hx2⟩

/-- Redirecting any id `f` to an id `r` that is mapped to itself keeps every chain finite. -/
theorem Chain.redirect {m : Nat → Option Nat} {r f : Nat} (hr : m r = some r)
    {i x k : Nat} (h : Chain m i x k) :
    ∃ x2 k2, Chain (Function.update m f (some r)) i x2 k2 := by
  by_cases hfr : f = r
  · subst hfr
    have : Function.update m f (some f) = m := by
      funext j
      by_cases e : j = f
      · subst e
        simp [hr]
      · simp [Function.update, e]
    rw [this]
    exact ⟨x, k, h⟩
  · have hr2 : Function.update m f (some r) r = some r := by
      simp [Function.update, Ne.symm hfr, hr]
    induction h with
    | @root x hx =>
      by_cases e : x = f
      · subst e
        exact ⟨r, 1, Chain.step (by simp) hfr (Chain.root hr2)⟩
      · exact ⟨x, 0, Chain.root (by simp [Function.update, e, hx])⟩
    | @step i p x k hi hip _ ih =>
      obtain ⟨x2, k2, hk2⟩ := ih
      by_cases e : i = f
      · subst e
        exact ⟨r, 1, Chain.step (by simp) hfr (Chain.root hr2)⟩
      · exact ⟨x2, k2 + 1, Chain.step (by simp [Function.update, e, hi]) hip hk2⟩

theorem MapOK.after_insert {s : ActiveObjectParts} (h : s.MapOK) (island : Island) :
    (s.insert island).2.MapOK := by
  have hmn : s.active_object_parts_id_mapping s.next_part_idx = none := by
    cases hm : s.active_object_parts_id_mapping s.next_part_idx with
    | none => rfl
    | some p =>
      have := (h.lt _ p hm).1
      omega
  have hmap : (s.insert island).2.active_object_parts_id_mapping
      = Function.update s.active_object_parts_id_mapping s.next_part_idx
          (some s.next_part_idx) := by
    simp [ActiveObjectParts.insert, emplace, hmn]
  have hnext : (s.insert island).2.next_part_idx = s.next_part_idx + 1 := rfl
  refine ⟨?_, ?_⟩
  · intro i p hi
    rw [hmap] at hi
    rw [hnext]
    by_cases e : i = s.next_part_idx
    · subst e
      simp only [Function.update_same, Option.some.injEq] at hi
      omega
    · simp only [Function.update, e, dite_false] at hi
      have := h.lt i p hi
      omega
  · intro i hi
    rw [hnext] at hi
    by_cases e : i = s.next_part_idx
    · subst e
      exact ⟨_, 0, Chain.root (by rw [hmap]; simp)⟩
    · obtain ⟨r, k, hc⟩ := h.total i (by omega)
      refine ⟨r, k, hc.mono ?_⟩
      intro j p hj
      have : j ≠ s.next_part_idx := by
        intro e2
        rw [e2, hmn] at hj
        exact absurd hj (by simp)
      rw [hmap]
      simp [Function.update, this, hj]

theorem MapOK.after_merge {s s2 : ActiveObjectParts} (h : s.MapOK) {from_id to_id : Nat}
    (hm : s.merge from_id to_id = some s2) : s2.MapOK := by
  unfold ActiveObjectParts.merge at hm
  split at hm
  · exact absurd hm (by simp)
  · rename_i tf s1 h1
    split at hm
    · exact absurd hm (by simp)
    · rename_i ff s1b h2
      split at hm
      · rename_i to_part from_part _ _
        simp only [Option.some.injEq] at hm
        subst hm
        obtain ⟨⟨k1, _, hc1⟩, hcomp1, _⟩ := get_flat_id_spec h1
        obtain ⟨⟨k2, _, hc2⟩, hcomp2, _⟩ := get_flat_id_spec h2
        obtain ⟨_, hn1⟩ := get_flat_id_frame h1
        obtain ⟨_, hn2⟩ := get_flat_id_frame h2
        have hto_lt : to_id < s.next_part_idx := hc1.lt_of_mem h.lt
        obtain ⟨r1, s1', hg1, hok1, _, _, _⟩ := h.flat_id_resolves hto_lt
        rw [h1] at hg1
        cases Option.some.inj hg1
        have hfrom_lt : from_id < s1.next_part_idx := hc2.lt_of_mem hok1.lt
        obtain ⟨r2, s2', hg2, hok2, _, _, _⟩ := hok1.flat_id_resolves hfrom_lt
        rw [h2] at hg2
        cases Option.some.inj hg2
        have hr1 : s1.active_object_parts_id_mapping tf = some tf :=
          (hcomp1.root_iff tf).2 hc1.root_self
        have hr2 : s1b.active_object_parts_id_mapping tf = some tf :=
          (hcomp2.root_iff tf).2 hr1
        refine ⟨?_, ?_⟩
        · intro i p hi
          show i < s1b.next_part_idx ∧ p < s1b.next_part_idx
          have hi2 : Function.update s1b.active_object_parts_id_mapping from_id (some tf) i
              = some p := hi
          by_cases e : i = from_id
          · subst e
            simp only [Function.update_same, Option.some.injEq] at hi2
            subst hi2
            exact ⟨by rw [hn2]; exact hfrom_lt, (hok2.lt _ _ hr2).1⟩
          · simp only [Function.update, e, dite_false] at hi2
            exact hok2.lt i p hi2
        · intro i hi
          obtain ⟨x, k, hx⟩ := hok2.total i hi
          obtain ⟨x2, k3, hx2⟩ := hx.redirect (f := from_id) hr2
          exact ⟨x2, k3, hx2⟩
      · exact absurd hm (by simp)

theorem run_calls_mapOK (calls : List TrackerCall) :
    ∀ (s s2 : ActiveObjectParts), s.MapOK → run_calls s calls = some s2 → s2.MapOK := by
  induction calls with
  | nil =>
    intro s s2 h hr
    simp only [run_calls, Option.some.injEq] at hr
    exact hr ▸ h
  | cons c cs ih =>
    intro s s2 h hr
    cases c with
    | insert island =>
      simp only [run_calls] at hr
      exact ih _ _ (h.after_insert island) hr
    | merge from_id to_id =>
      simp only [run_calls] at hr
      split at hr
      · exact absurd hr (by simp)
      · split at hr
        · exact absurd hr (by simp)
        · split at hr
          · exact absurd hr (by simp)
          · split at hr
            · exact absurd hr (by simp)
            · rename_i sm hm
              exact ih _ _ (h.after_merge hm) hr

/-- On every tracker reached by `insert` and `merge` calls, `get_flat_id` of an inserted id
ends and returns an id that is mapped to itself. -/
theorem run_calls_lookup (calls : List TrackerCall) (s : ActiveObjectParts)
    (h : run_calls {} calls = some s) (id : Nat) (hid : id < s.next_part_idx) :
    ∃ r s1, s.get_flat_id id = some (r, s1) ∧
      s1.active_object_parts_id_mapping r = some r := by
  have h0 : ({} : ActiveObjectParts).MapOK :=
    ⟨fun _ _ h => absurd h (by simp), fun _ h => absurd h (by simp [Nat.not_lt_zero])⟩
  obtain ⟨r, s1, h1, _, h3, _, _⟩ := (run_calls_mapOK calls _ _ h0 h).flat_id_resolves hid
  exact ⟨r, s1, h1, h3⟩

end ActiveObjectParts

/-- On a well-formed tracker (reached when every `merge` is given canonical ids, as in
`check_global_stability`) `access` of an inserted id returns a part. -/
theorem ActiveObjectParts.WF.access {s : ActiveObjectParts} (h : s.WF) {id : Nat}
    (hid : id < s.next_part_idx) :
    ∃ part s1, s.access id = some (part, s1) ∧ s1.WF := by
  obtain ⟨r, k, hc⟩ := h.total id hid
  obtain ⟨s1, hget, hwf1, _, _, hcomp⟩ := h.get_flat_id hc
  obtain ⟨part, hpart⟩ := hwf1.part_of_root ((hcomp.root_iff r).2 hc.root_self)
  exact ⟨part, s1, by simp only [ActiveObjectParts.access, hget, hpart], hwf1⟩

/-! ### C8: lookups after merges of canonical ids -/

namespace ActiveObjectParts

/-- On a well-formed tracker a `merge` whose `from` is mapped to itself and whose `to` is an
inserted id with another canonical id returns, and the tracker stays well formed. -/
theorem WF.merge_canonical {s : ActiveObjectParts} (h : s.WF) {from_id to_id : Nat}
    (hfrom : s.active_object_parts_id_mapping from_id = some from_id)
    (hto : to_id < s.next_part_idx)
    (hne : (s.get_flat_id to_id).map Prod.fst ≠ some from_id) :
    ∃ to_flat s1 s2, s.get_flat_id to_id = some (to_flat, s1) ∧
      s1.get_flat_id from_id = some (from_id, s1) ∧ to_flat ≠ from_id ∧
      s.merge from_id to_id = some s2 ∧ s2.WF ∧ s2.next_part_idx = s.next_part_idx := by
  obtain ⟨r, k, hc⟩ := h.total to_id hto
  obtain ⟨s1, hget, hwf1, _, hnext, hcomp⟩ := h.get_flat_id hc
  have hrf : r ≠ from_id := by
    intro e
    apply hne
    rw [hget, e]
    rfl
  have hr1 : s1.active_object_parts_id_mapping r = some r := (hcomp.root_iff r).2 hc.root_self
  have hf1 : s1.active_object_parts_id_mapping from_id = some from_id :=
    (hcomp.root_iff from_id).2 hfrom
  have hpos : 0 < s1.next_part_idx := by
    have := hwf1.root_lt hr1
    omega
  have hgetf : s1.get_flat_id from_id = some (from_id, s1) := get_flat_id_of_root hf1 hpos
  obtain ⟨pr, pf, hpr, hpf, _, hwf2⟩ := hwf1.merge_roots hr1 hf1 hrf
  refine ⟨r, s1, s1.linked from_id r pr pf, hget, hgetf, hrf, ?_, hwf2, hnext⟩
  simp only [ActiveObjectParts.merge, hget, hgetf, hpr, hpf]
  rfl

end ActiveObjectParts

theorem run_canonical (calls : List TrackerCall) :
    ∀ s : ActiveObjectParts, s.WF → canonical_merges s calls →
      ∃ s2, run_calls s calls = some s2 ∧ s2.WF ∧
        s2.next_part_idx = s.next_part_idx + (TrackerCall.inserted calls).length := by
  induction calls with
  | nil =>
    intro s h _
    exact ⟨s, rfl, h, rfl⟩
  | cons c cs ih =>
    intro s h hcalls
    cases c with
    | insert island =>
      obtain ⟨s2, h1, h2, h3⟩ := ih _ (h.insert island) hcalls
      refine ⟨s2, h1, h2, ?_⟩
      rw [h3]
      show s.next_part_idx + 1 + _ = s.next_part_idx + (_ + 1)
      omega
    | merge from_id to_id =>
      obtain ⟨hfrom, hto, hne, htail⟩ := hcalls
      obtain ⟨to_flat, s1, sm, hget, hgetf, hrf, hmerge, hwf, hnext⟩ :=
        h.merge_canonical hfrom hto hne
      rw [hmerge] at htail
      obtain ⟨s2, h1, h2, h3⟩ := ih sm hwf htail
      refine ⟨s2, ?_, h2, ?_⟩
      · simp only [run_calls, hget, hgetf, hrf, if_false, hmerge]
        exact h1
      · rw [h3, hnext]
        rfl

/-- C19 (degenerate section modulus).  For every input of positive area: when the directional
xy-variance is below `EPSILON`, `compute_elastic_section_modulus` returns exactly 0 whatever
the extreme point is and whatever `line_alg::distance_to` answers (the extreme fiber distance
takes no part in the result, so nothing is divided by it); otherwise it returns
`area * directional_xy_variance / extreme_fiber_dist`, the extreme fiber distance being the
distance of the extreme point from the line through the centroid perpendicular to
`line_dir`. -/
theorem degenerate_section_modulus (env : Env) (line_dir : Vec2f) (extreme_point : Vec3f)
    (centroid_accumulator : Vec3f) (second_moment_of_area_accumulator : Vec2f)
    (second_moment_of_area_covariance_accumulator : Flt) (area : Flt)
    (_harea : fin 0 < area) :
    (ObjectPart.compute_directional_xy_variance line_dir centroid_accumulator
        second_moment_of_area_accumulator second_moment_of_area_covariance_accumulator area
          < env.EPSILON →
      ∀ (distance_to : Vec2f → Vec2f → Vec2f → Flt) (extreme_point2 : Vec3f),
        ObjectPart.compute_elastic_section_modulus { env with distance_to := distance_to }
          line_dir extreme_point2 centroid_accumulator second_moment_of_area_accumulator
          second_moment_of_area_covariance_accumulator area = fin 0) ∧
    (¬ ObjectPart.compute_directional_xy_variance line_dir centroid_accumulator
        second_moment_of_area_accumulator second_moment_of_area_covariance_accumulator area
          < env.EPSILON →
      ObjectPart.compute_elastic_section_modulus env line_dir extreme_point
          centroid_accumulator second_moment_of_area_accumulator
          second_moment_of_area_covariance_accumulator area
        = area * ObjectPart.compute_directional_xy_variance line_dir centroid_accumulator
            second_moment_of_area_accumulator second_moment_of_area_covariance_accumulator area
          / env.distance_to (centroid_accumulator.divs area).head2
              ((centroid_accumulator.divs area).head2 + ⟨line_dir.y, -line_dir.x⟩)
              extreme_point.head2) := by
  constructor
  · intro h distance_to extreme_point2
    unfold ObjectPart.compute_elastic_section_modulus
    simp only []
    rw [if_pos h]
  · intro h
    unfold ObjectPart.compute_elastic_section_modulus
    simp only []
    rw [if_neg h]

/-- Witness of C19: a contact of area 4 concentrated in one point (variance 0) has section
modulus 0 even when the extreme fiber distance is 0; a contact of area 4 and variance 1 along
x at extreme fiber distance 2 has section modulus 4 * 1 / 2. -/
theorem degenerate_section_modulus_witness :
    ObjectPart.compute_elastic_section_modulus { env0 with distance_to := fun _ _ _ => fin 0 }
        ⟨fin 1, fin 0⟩ ⟨fin 0, fin 0, fin 0⟩ ⟨fin 8, fin 0, fin 0⟩ ⟨fin 16, fin 0⟩ (fin 0)
        (fin 4) = fin 0 ∧
      ObjectPart.compute_elastic_section_modulus { env0 with distance_to := fun _ _ _ => fin 2 }
        ⟨fin 1, fin 0⟩ ⟨fin 0, fin 0, fin 0⟩ ⟨fin 8, fin 0, fin 0⟩ ⟨fin 20, fin 0⟩ (fin 0)
        (fin 4) = fin 2 :=
  ⟨(degenerate_section_modulus env0 ⟨fin 1, fin 0⟩ ⟨fin 0, fin 0, fin 0⟩ ⟨fin 8, fin 0, fin 0⟩
      ⟨fin 16, fin 0⟩ (fin 0) (fin 4) (by decide!)).1 (by decide!) _ _,
   ((degenerate_section_modulus { env0 with distance_to := fun _ _ _ => fin 2 } ⟨fin 1, fin 0⟩
      ⟨fin 0, fin 0, fin 0⟩ ⟨fin 8, fin 0, fin 0⟩ ⟨fin 20, fin 0⟩ (fin 0) (fin 4)
      (by decide!)).2 (by decide!)).trans (by decide!)⟩


/-! ### C16 and C20: the support points of the local pass -/

/-- One step of the support test either leaves the issues and the line as they are, or emits
the local support point at the end of the line, flags the line and resets the accumulator. -/
theorem bridging_step_shape (env : Env) (params : Params) (layer_z : Flt)
    (layer_region : LayerRegion) (flow_width : Flt) (prev_layer_lines : List ExtrusionLine)
    (first_a : Vec2f) (next_line : Option ExtrusionLine)
    (bridging_acc : ExtrusionPropertiesAccumulator) (issues : Issues)
    (current_line : ExtrusionLine) (acc2 : ExtrusionPropertiesAccumulator) (issues2 : Issues)
    (line2 : ExtrusionLine)
    (h : check_extrusion_entity_stability_bridging env params layer_z layer_region flow_width
        prev_layer_lines first_a next_line bridging_acc issues current_line
      = some (acc2, issues2, line2)) :
    (issues2 = issues ∧ line2 = current_line) ∨
    (issues2.support_points
        = issues.support_points ++ [local_support_point params layer_z current_line.b] ∧
      line2 = { current_line with support_point_generated := true } ∧
      acc2 = { distance := 0, curvature := 0, max_curvature := 0 } ∧
      ¬ (Flt.fabs (env.distance_from_lines_extra prev_layer_lines current_line.b).1
          < flow_width)) := by
  unfold check_extrusion_entity_stability_bridging at h
  simp only [] at h
  split_ifs at h with h1 h2
  · simp only [Option.some.injEq, Prod.mk.injEq] at h
    exact Or.inl ⟨h.2.1.symm, h.2.2.symm⟩
  · simp only at h
    split_ifs at h with h3
    · simp only [Option.some.injEq, Prod.mk.injEq] at h
      refine Or.inr ⟨?_, h.2.2.symm, ?_, h1⟩
      · rw [← h.2.1]; rfl
      · rw [← h.1]; rfl
    · simp only [Option.some.injEq, Prod.mk.injEq] at h
      exact Or.inl ⟨h.2.1.symm, h.2.2.symm⟩
  · cases hg : get_line prev_layer_lines
        (env.distance_from_lines_extra prev_layer_lines current_line.b).2.1 with
    | none => simp only [hg] at h; exact absurd h (by simp)
    | some nearest =>
      simp only [hg] at h
      split_ifs at h with h3
      · simp only [Option.some.injEq, Prod.mk.injEq] at h
        refine Or.inr ⟨?_, h.2.2.symm, ?_, h1⟩
        · rw [← h.2.1]; rfl
        · rw [← h.1]; rfl
      · simp only [Option.some.injEq, Prod.mk.injEq] at h
        exact Or.inl ⟨h.2.1.symm, h.2.2.symm⟩

/-- The malformation half of a step changes neither the end points nor the flag of the
line. -/
theorem malformation_step_shape (env : Env) (params : Params) (layer_region : LayerRegion)
    (flow_width : Flt) (prev_layer_lines : List ExtrusionLine)
    (next_line : Option ExtrusionLine) (malformation_acc : ExtrusionPropertiesAccumulator)
    (current_line : ExtrusionLine) (mal : ExtrusionPropertiesAccumulator) (line2 : ExtrusionLine)
    (h : check_extrusion_entity_stability_malformation env params layer_region flow_width
        prev_layer_lines next_line malformation_acc current_line = some (mal, line2)) :
    line2.a = current_line.a ∧ line2.b = current_line.b ∧
      line2.support_point_generated = current_line.support_point_generated := by
  unfold check_extrusion_entity_stability_malformation at h
  by_cases hnear : Flt.fabs (env.distance_from_lines_extra prev_layer_lines current_line.b).1
        < fin 2 * flow_width
  · cases hg : get_line prev_layer_lines
        (env.distance_from_lines_extra prev_layer_lines current_line.b).2.1 with
    | none =>
      simp only [hnear, if_true, hg] at h
      cases h
    | some nearest =>
      simp only [hnear, if_true, hg] at h
      split_ifs at h <;>
        (simp only [Option.some.injEq, Prod.mk.injEq] at h
         rw [← h.2]
         exact ⟨rfl, rfl, rfl⟩)
  · simp only [hnear, if_false] at h
    split_ifs at h <;>
      (simp only [Option.some.injEq, Prod.mk.injEq] at h
       rw [← h.2]
       exact ⟨rfl, rfl, rfl⟩)


/-- One iteration of the line loop keeps the end points of the line and either leaves issues
and flag alone or emits the local support point of the line, flags it and resets the bridging
accumulator. -/
theorem body_step_shape (env : Env) (params : Params) (layer_z : Flt)
    (layer_region : LayerRegion) (flow_width : Flt) (prev_layer_lines : List ExtrusionLine)
    (first_a : Vec2f) (next_line : Option ExtrusionLine) (st st2 : LineLoopState)
    (current_line line2 : ExtrusionLine)
    (h : check_extrusion_entity_stability_body env params layer_z layer_region flow_width
        prev_layer_lines first_a next_line st current_line = some (st2, line2)) :
    line2.a = current_line.a ∧ line2.b = current_line.b ∧
    ((st2.issues = st.issues ∧
        line2.support_point_generated = current_line.support_point_generated) ∨
     (st2.issues.support_points
        = st.issues.support_points ++ [local_support_point params layer_z current_line.b] ∧
      line2.support_point_generated = true ∧
      st2.bridging_acc = { distance := 0, curvature := 0, max_curvature := 0 } ∧
      ¬ (Flt.fabs (env.distance_from_lines_extra prev_layer_lines current_line.b).1
          < flow_width))) := by
  unfold check_extrusion_entity_stability_body at h
  cases hb : check_extrusion_entity_stability_bridging env params layer_z layer_region
      flow_width prev_layer_lines first_a next_line st.bridging_acc st.issues current_line with
  | none => simp only [hb] at h; cases h
  | some r =>
    obtain ⟨acc1, issues1, line1⟩ := r
    simp only [hb] at h
    cases hm : check_extrusion_entity_stability_malformation env params layer_region
        flow_width prev_layer_lines next_line st.malformation_acc line1 with
    | none => simp only [hm] at h; cases h
    | some r2 =>
      obtain ⟨mal, line3⟩ := r2
      simp only [hm, Option.some.injEq, Prod.mk.injEq] at h
      obtain ⟨hst, hl⟩ := h
      subst hl
      subst hst
      obtain ⟨ha, hbb, hf⟩ := malformation_step_shape env params layer_region flow_width
        prev_layer_lines next_line st.malformation_acc line1 mal line3 hm
      rcases bridging_step_shape env params layer_z layer_region flow_width prev_layer_lines
        first_a next_line st.bridging_acc st.issues current_line acc1 issues1 line1 hb with
        ⟨hi, hline⟩ | ⟨hi, hline, hacc, hfar⟩
      · subst hline
        exact ⟨ha, hbb, Or.inl ⟨hi, hf⟩⟩
      · subst hline
        exact ⟨ha, hbb, Or.inr ⟨hi, hf, hacc, hfar⟩⟩

/-- What the line loop adds to the issues: one local support point for every line that leaves
the loop flagged, in order, when no line enters the loop flagged. -/
theorem loop_support_points (env : Env) (params : Params) (layer_z : Flt)
    (layer_region : LayerRegion) (flow_width : Flt) (prev_layer_lines : List ExtrusionLine)
    (first_a : Vec2f) (lines : List ExtrusionLine) :
    ∀ (st st2 : LineLoopState) (lines2 : List ExtrusionLine),
      (∀ l ∈ lines, l.support_point_generated = false) →
      check_extrusion_entity_stability_loop env params layer_z layer_region flow_width
        prev_layer_lines first_a lines st = some (st2, lines2) →
      lines2.map (fun l => (l.a, l.b)) = lines.map (fun l => (l.a, l.b)) ∧
      st2.issues.support_points = st.issues.support_points ++
        (lines2.filter fun l => l.support_point_generated).map
          fun l => local_support_point params layer_z l.b := by
  induction lines with
  | nil =>
    intro st st2 lines2 _ h
    simp only [check_extrusion_entity_stability_loop, Option.some.injEq, Prod.mk.injEq] at h
    obtain ⟨h1, h2⟩ := h
    subst h1; subst h2
    simp
  | cons current_line rest ih =>
    intro st st2 lines2 hflag h
    rw [check_extrusion_entity_stability_loop] at h
    cases hb : check_extrusion_entity_stability_body env params layer_z layer_region flow_width
        prev_layer_lines first_a rest.head? st current_line with
    | none => simp only [hb] at h; cases h
    | some r =>
      obtain ⟨st1, line1⟩ := r
      simp only [hb] at h
      cases hl : check_extrusion_entity_stability_loop env params layer_z layer_region
          flow_width prev_layer_lines first_a rest st1 with
      | none => simp only [hl] at h; cases h
      | some r2 =>
        obtain ⟨st3, lines3⟩ := r2
        simp only [hl, Option.some.injEq, Prod.mk.injEq] at h
        obtain ⟨h1, h2⟩ := h
        subst h1; subst h2
        obtain ⟨hmap, hpts⟩ := ih st1 st3 lines3
          (fun l hl2 => hflag l (List.mem_cons_of_mem _ hl2)) hl
        obtain ⟨ha, hbb, hcase⟩ := body_step_shape env params layer_z layer_region flow_width
          prev_layer_lines first_a rest.head? st st1 current_line line1 hb
        have hcur : current_line.support_point_generated = false :=
          hflag current_line (List.mem_cons_self _ _)
        refine ⟨by simp only [List.map_cons, ha, hbb, hmap], ?_⟩
        rcases hcase with ⟨hi, hf⟩ | ⟨hi, hf, -, -⟩
        · rw [hcur] at hf
          rw [hpts, hi, List.filter_cons_of_neg (by simp [hf])]
        · rw [hpts, hi, List.filter_cons_of_pos (by simp [hf]), List.map_cons, hbb,
            List.append_assoc, List.singleton_append]

/-- No line made by `to_short_lines_segment` is flagged. -/
theorem to_short_lines_segment_unflagged (env : Env) (e : Option EntityRef) (start v : Vec2f)
    (step_size : Flt) (n : Nat) :
    ∀ (i : Int), ∀ l ∈ to_short_lines_segment env e start v step_size n i,
      l.support_point_generated = false := by
  induction n with
  | zero => intro i l hl; simp [to_short_lines_segment] at hl
  | succ n ih =>
    intro i l hl
    simp only [to_short_lines_segment, List.mem_cons] at hl
    rcases hl with rfl | hl
    · rfl
    · exact ih _ l hl

/-- No line made by `to_short_lines` is flagged. -/
theorem to_short_lines_unflagged (env : Env) (e : Option EntityRef) (length_limit : Flt)
    (polyline : List Vec2f) (lines : List ExtrusionLine)
    (h : to_short_lines env e polyline length_limit = some lines) :
    ∀ l ∈ lines, l.support_point_generated = false := by
  have hloop : ∀ (pl : List Vec2f) (ls : List ExtrusionLine),
      to_short_lines_loop env e length_limit pl = some ls →
      ∀ l ∈ ls, l.support_point_generated = false := by
    intro pl
    induction pl with
    | nil => intro ls h l hl; simp [to_short_lines_loop] at h; subst h; simp at hl
    | cons start rest ih =>
      intro ls h l hl
      cases rest with
      | nil => simp [to_short_lines_loop] at h; subst h; simp at hl
      | cons next rest2 =>
        rw [to_short_lines_loop] at h
        simp only [] at h
        cases hc : (Flt.ceil ((next - start).norm env.sqrtf / length_limit)).toInt with
        | none => simp only [hc] at h; cases h
        | some lines_count =>
          simp only [hc] at h
          cases ht : to_short_lines_loop env e length_limit (next :: rest2) with
          | none => simp only [ht] at h; cases h
          | some tail =>
            simp only [ht, Option.some.injEq] at h
            subst h
            rcases List.mem_append.1 hl with hl | hl
            · exact to_short_lines_segment_unflagged env e _ _ _ _ _ l hl
            · exact ih tail ht l hl
  unfold to_short_lines at h
  cases polyline with
  | nil => cases h
  | cons p0 rest =>
    simp only [] at h
    cases ht : to_short_lines_loop env e length_limit (p0 :: rest) with
    | none => simp only [ht] at h; cases h
    | some ls =>
      simp only [ht, Option.some.injEq] at h
      subst h
      intro l hl
      rcases List.mem_cons.1 hl with rfl | hl
      · rfl
      · exact hloop _ ls ht l hl

mutual

/-- The lines and support points that `check_extrusion_entity_stability` appends: the new
support points are the local support points of the new flagged lines, in order. -/
theorem entity_support_points (env : Env) (entity : ExtrusionEntity)
    (checked_lines_out : List ExtrusionLine) (layer_z : Flt) (layer_region : LayerRegion)
    (prev_layer_lines : List ExtrusionLine) (issues : Issues) (params : Params)
    (out : List ExtrusionLine) (issues2 : Issues)
    (h : check_extrusion_entity_stability env entity checked_lines_out layer_z layer_region
        prev_layer_lines issues params = some (out, issues2)) :
    ∃ new_lines, out = checked_lines_out ++ new_lines ∧
      issues2.support_points = issues.support_points ++
        (new_lines.filter fun l => l.support_point_generated).map
          fun l => local_support_point params layer_z l.b := by
  cases entity with
  | collection entities =>
    rw [check_extrusion_entity_stability] at h
    exact entity_all_support_points env entities checked_lines_out layer_z layer_region
      prev_layer_lines issues params out issues2 h
  | path id role polyline =>
    rw [check_extrusion_entity_stability] at h
    cases hs : to_short_lines env (some ⟨id, role⟩) polyline params.bridge_distance with
    | none => simp only [hs] at h; cases h
    | some lines =>
      simp only [hs] at h
      cases lines with
      | nil =>
        simp only [Option.some.injEq, Prod.mk.injEq] at h
        exact ⟨[], by simp [h.1], by simp [h.2]⟩
      | cons first rest =>
        simp only [] at h
        cases hl : check_extrusion_entity_stability_loop env params layer_z layer_region
            (get_flow_width layer_region role) prev_layer_lines first.a (first :: rest)
            { bridging_acc :=
                ExtrusionPropertiesAccumulator.add_distance {} (params.bridge_distance + fin 1)
              malformation_acc := {}, issues := issues } with
        | none => simp only [hl] at h; cases h
        | some r =>
          obtain ⟨st2, lines2⟩ := r
          simp only [hl, Option.some.injEq, Prod.mk.injEq] at h
          obtain ⟨h1, h2⟩ := h
          subst h1; subst h2
          exact ⟨lines2, rfl,
            (loop_support_points env params layer_z layer_region _ prev_layer_lines first.a
              (first :: rest) _ st2 lines2
              (to_short_lines_unflagged env _ _ _ _ hs) hl).2⟩

/-- The statement of `entity_support_points` for the entities of a collection. -/
theorem entity_all_support_points (env : Env) (entities : List ExtrusionEntity)
    (checked_lines_out : List ExtrusionLine) (layer_z : Flt) (layer_region : LayerRegion)
    (prev_layer_lines : List ExtrusionLine) (issues : Issues) (params : Params)
    (out : List ExtrusionLine) (issues2 : Issues)
    (h : check_extrusion_entity_stability_all env entities checked_lines_out layer_z
        layer_region prev_layer_lines issues params = some (out, issues2)) :
    ∃ new_lines, out = checked_lines_out ++ new_lines ∧
      issues2.support_points = issues.support_points ++
        (new_lines.filter fun l => l.support_point_generated).map
          fun l => local_support_point params layer_z l.b := by
  cases entities with
  | nil =>
    rw [check_extrusion_entity_stability_all] at h
    simp only [Option.some.injEq, Prod.mk.injEq] at h
    exact ⟨[], by simp [h.1], by simp [h.2]⟩
  | cons e rest =>
    rw [check_extrusion_entity_stability_all] at h
    cases he : check_extrusion_entity_stability env e checked_lines_out layer_z layer_region
        prev_layer_lines issues params with
    | none => simp only [he] at h; cases h
    | some r =>
      obtain ⟨out1, issues1⟩ := r
      simp only [he] at h
      obtain ⟨new1, ho1, hi1⟩ := entity_support_points env e checked_lines_out layer_z
        layer_region prev_layer_lines issues params out1 issues1 he
      obtain ⟨new2, ho2, hi2⟩ := entity_all_support_points env rest out1 layer_z layer_region
        prev_layer_lines issues1 params out issues2 h
      refine ⟨new1 ++ new2, by rw [ho2, ho1, List.append_assoc], ?_⟩
      rw [hi2, hi1, List.filter_append, List.map_append, List.append_assoc]

end

/-- C16 (local support point shape).  Whenever `check_extrusion_entity_stability` returns, the
lines it appends to `checked_lines_out` and the support points it appends to the issues
correspond: the new support points are, in order, one point for every new line flagged
`support_point_generated`, with position `(b.x, b.y, layer_z)` for the trailing end point `b` of
that line, force 0, radius `params.support_points_interface_radius` and direction `(0, 0, -1)`;
for a single path the new lines have the end points of the resampled segments of
`to_short_lines`; and an iteration of the line loop that changes the issues appends exactly
that point for its line, flags the line and leaves the bridging accumulator reset to 0. -/
theorem local_support_point_shape (env : Env) (entity : ExtrusionEntity)
    (checked_lines_out : List ExtrusionLine) (layer_z : Flt) (layer_region : LayerRegion)
    (prev_layer_lines : List ExtrusionLine) (issues : Issues) (params : Params)
    (out : List ExtrusionLine) (issues2 : Issues)
    (h : check_extrusion_entity_stability env entity checked_lines_out layer_z layer_region
        prev_layer_lines issues params = some (out, issues2)) :
    ∃ new_lines, out = checked_lines_out ++ new_lines ∧
      issues2.support_points = issues.support_points ++
        ((new_lines.filter fun l => l.support_point_generated).map fun l =>
          { position := ⟨l.b.x, l.b.y, layer_z⟩, force := fin 0
            spot_radius := params.support_points_interface_radius
            direction := ⟨fin 0, fin 0, fin (-1)⟩ }) ∧
      (∀ id role polyline lines, entity = .path id role polyline →
        to_short_lines env (some ⟨id, role⟩) polyline params.bridge_distance = some lines →
        new_lines.map (fun l => (l.a, l.b)) = lines.map (fun l => (l.a, l.b))) ∧
      (∀ (flow_width : Flt) (first_a : Vec2f) (next_line : Option ExtrusionLine)
          (st st2 : LineLoopState) (current_line line2 : ExtrusionLine),
        check_extrusion_entity_stability_body env params layer_z layer_region flow_width
          prev_layer_lines first_a next_line st current_line = some (st2, line2) →
        st2.issues ≠ st.issues →
        st2.issues.support_points = st.issues.support_points ++
          [{ position := ⟨current_line.b.x, current_line.b.y, layer_z⟩, force := fin 0
             spot_radius := params.support_points_interface_radius
             direction := ⟨fin 0, fin 0, fin (-1)⟩ }] ∧
        line2.b = current_line.b ∧ line2.support_point_generated = true ∧
        st2.bridging_acc = { distance := fin 0, curvature := fin 0, max_curvature := fin 0 }) := by
  obtain ⟨new_lines, hout, hpts⟩ := entity_support_points env entity checked_lines_out layer_z
    layer_region prev_layer_lines issues params out issues2 h
  refine ⟨new_lines, hout, hpts, ?_, ?_⟩
  · intro id role polyline lines hent hs
    subst hent
    rw [check_extrusion_entity_stability] at h
    simp only [hs] at h
    cases lines with
    | nil =>
      simp only [Option.some.injEq, Prod.mk.injEq] at h
      have : new_lines = [] := by
        have h2 := hout
        rw [← h.1] at h2
        simpa using h2
      simp [this]
    | cons first rest =>
      simp only [] at h
      cases hl : check_extrusion_entity_stability_loop env params layer_z layer_region
          (get_flow_width layer_region role) prev_layer_lines first.a (first :: rest)
          { bridging_acc :=
              ExtrusionPropertiesAccumulator.add_distance {} (params.bridge_distance + fin 1)
            malformation_acc := {}, issues := issues } with
      | none => simp only [hl] at h; cases h
      | some r =>
        obtain ⟨st2, lines2⟩ := r
        simp only [hl, Option.some.injEq, Prod.mk.injEq] at h
        have : new_lines = lines2 := by
          have h2 := hout
          rw [← h.1] at h2
          exact (List.append_cancel_left h2).symm
        rw [this]
        exact (loop_support_points env params layer_z layer_region _ prev_layer_lines first.a
          (first :: rest) _ st2 lines2 (to_short_lines_unflagged env _ _ _ _ hs) hl).1
  · intro flow_width first_a next_line st st2 current_line line2 hbody hne
    obtain ⟨-, hb, hcase⟩ := body_step_shape env params layer_z layer_region flow_width
      prev_layer_lines first_a next_line st st2 current_line line2 hbody
    rcases hcase with ⟨hi, -⟩ | ⟨hi, hf, hacc, -⟩
    · exact absurd hi hne
    · exact ⟨hi, hb, hf, hacc⟩

/-- Witness of C16: the open path from (0, 0) to (16, 0) over open air, which gets the support
points of its first and its last resampled line. -/
theorem local_support_point_shape_witness :
    ∃ out issues2 new_lines,
      check_extrusion_entity_stability env0
        (.path 0 .erExternalPerimeter [⟨fin 0, fin 0⟩, ⟨fin 16, fin 0⟩]) [] (fin 1) region0 []
        {} params0 = some (out, issues2) ∧
      out = [] ++ new_lines ∧
      issues2.support_points = [] ++
        ((new_lines.filter fun l => l.support_point_generated).map fun l =>
          { position := ⟨l.b.x, l.b.y, fin 1⟩, force := fin 0
            spot_radius := params0.support_points_interface_radius
            direction := ⟨fin 0, fin 0, fin (-1)⟩ }) ∧
      issues2.support_points.length = 2 := by
  obtain ⟨r, hr⟩ := Option.isSome_iff_exists.1
    (by decide! : (check_extrusion_entity_stability env0
        (.path 0 .erExternalPerimeter [⟨fin 0, fin 0⟩, ⟨fin 16, fin 0⟩]) [] (fin 1) region0 []
        {} params0).isSome = true)
  have hlen : (check_extrusion_entity_stability env0
        (.path 0 .erExternalPerimeter [⟨fin 0, fin 0⟩, ⟨fin 16, fin 0⟩]) [] (fin 1) region0 []
        {} params0).map (fun r => r.2.support_points.length) = some 2 := by decide!
  obtain ⟨new_lines, h1, h2, -⟩ := local_support_point_shape env0 _ [] (fin 1) region0 [] {}
    params0 r.1 r.2 hr
  refine ⟨r.1, r.2, new_lines, hr, h1, h2, ?_⟩
  rw [hr] at hlen
  simpa using hlen

/-- A line whose end is within one flow width of the previous layer passes an iteration of
the line loop without a support point and without being flagged. -/
theorem body_supported (env : Env) (params : Params) (layer_z : Flt)
    (layer_region : LayerRegion) (flow_width : Flt) (prev_layer_lines : List ExtrusionLine)
    (first_a : Vec2f) (next_line : Option ExtrusionLine) (st : LineLoopState)
    (current_line : ExtrusionLine)
    (hnear : Flt.fabs (env.distance_from_lines_extra prev_layer_lines current_line.b).1
      < flow_width)
    (hidx : ∃ nl, get_line prev_layer_lines
      (env.distance_from_lines_extra prev_layer_lines current_line.b).2.1 = some nl) :
    ∃ st2 line2,
      check_extrusion_entity_stability_body env params layer_z layer_region flow_width
        prev_layer_lines first_a next_line st current_line = some (st2, line2) ∧
      st2.issues = st.issues ∧ line2.a = current_line.a ∧ line2.b = current_line.b ∧
      line2.support_point_generated = current_line.support_point_generated := by
  have hb : check_extrusion_entity_stability_bridging env params layer_z layer_region
      flow_width prev_layer_lines first_a next_line st.bridging_acc st.issues current_line
      = some ((bridging_acc_with_angle env params first_a next_line st.bridging_acc
          current_line).reset, st.issues, current_line) := by
    unfold check_extrusion_entity_stability_bridging
    simp only [hnear, if_true]
  obtain ⟨mal, line2, hm, ha, hbb, hf⟩ := malformation_some env params layer_region flow_width
    prev_layer_lines next_line st.malformation_acc current_line (Or.inr hidx)
  refine ⟨{ bridging_acc := (bridging_acc_with_angle env params first_a next_line
      st.bridging_acc current_line).reset, malformation_acc := mal, issues := st.issues },
    line2, ?_, rfl, ha, hbb, hf⟩
  unfold check_extrusion_entity_stability_body
  simp only [hb, hm]

/-- The line loop over lines that all end within one flow width of the previous layer
returns, leaves the issues alone and flags no line. -/
theorem loop_supported (env : Env) (params : Params) (layer_z : Flt)
    (layer_region : LayerRegion) (flow_width : Flt) (prev_layer_lines : List ExtrusionLine)
    (first_a : Vec2f) (lines : List ExtrusionLine) :
    ∀ (st : LineLoopState),
      (∀ l ∈ lines, Flt.fabs (env.distance_from_lines_extra prev_layer_lines l.b).1
        < flow_width) →
      (∀ l ∈ lines, ∃ nl, get_line prev_layer_lines
        (env.distance_from_lines_extra prev_layer_lines l.b).2.1 = some nl) →
      ∃ st2 lines2,
        check_extrusion_entity_stability_loop env params layer_z layer_region flow_width
          prev_layer_lines first_a lines st = some (st2, lines2) ∧
        st2.issues = st.issues ∧
        lines2.map (fun l => (l.a, l.b, l.support_point_generated))
          = lines.map (fun l => (l.a, l.b, l.support_point_generated)) := by
  induction lines with
  | nil =>
    intro st _ _
    exact ⟨st, [], rfl, rfl, rfl⟩
  | cons current_line rest ih =>
    intro st hnear hidx
    obtain ⟨st1, line1, hb, hi, ha, hbb, hf⟩ := body_supported env params layer_z layer_region
      flow_width prev_layer_lines first_a rest.head? st current_line
      (hnear _ (List.mem_cons_self _ _)) (hidx _ (List.mem_cons_self _ _))
    obtain ⟨st2, lines2, hl, hi2, hmap⟩ := ih st1
      (fun l hl => hnear l (List.mem_cons_of_mem _ hl))
      (fun l hl => hidx l (List.mem_cons_of_mem _ hl))
    refine ⟨st2, line1 :: lines2, ?_, hi2.trans hi, ?_⟩
    · rw [check_extrusion_entity_stability_loop]
      simp only [hb, hl]
    · simp only [List.map_cons, ha, hbb, hf, hmap]

/-- C20 (a fully supported path needs no local support).  For every single path, open or
closed and of any length and curvature, whose resampled lines all end strictly within one
flow width of the previous layer's lines, the distance query naming each time a line of the
previous layer, `check_extrusion_entity_stability` returns, emits no support point (the issues
are returned unchanged) and flags no line: it appends to `checked_lines_out` the resampled
lines with their end points, all with `support_point_generated = false`. -/
theorem supported_path_needs_no_support (env : Env) (params : Params) (layer_z : Flt)
    (layer_region : LayerRegion) (prev_layer_lines checked_lines_out : List ExtrusionLine)
    (issues : Issues) (id : Nat) (role : ExtrusionRole) (polyline : List Vec2f)
    (lines : List ExtrusionLine)
    (hs : to_short_lines env (some ⟨id, role⟩) polyline params.bridge_distance = some lines)
    (hnear : ∀ l ∈ lines, Flt.fabs (env.distance_from_lines_extra prev_layer_lines l.b).1
      < get_flow_width layer_region role)
    (hidx : ∀ l ∈ lines, ∃ nl, get_line prev_layer_lines
      (env.distance_from_lines_extra prev_layer_lines l.b).2.1 = some nl) :
    ∃ new_lines,
      check_extrusion_entity_stability env (.path id role polyline) checked_lines_out layer_z
        layer_region prev_layer_lines issues params
        = some (checked_lines_out ++ new_lines, issues) ∧
      new_lines.map (fun l => (l.a, l.b)) = lines.map (fun l => (l.a, l.b)) ∧
      ∀ l ∈ new_lines, l.support_point_generated = false := by
  rw [check_extrusion_entity_stability]
  simp only [hs]
  cases lines with
  | nil => exact ⟨[], by simp, rfl, by simp⟩
  | cons first rest =>
    obtain ⟨st2, lines2, hl, hi, hmap⟩ := loop_supported env params layer_z layer_region
      (get_flow_width layer_region role) prev_layer_lines first.a (first :: rest)
      { bridging_acc :=
          ExtrusionPropertiesAccumulator.add_distance {} (params.bridge_distance + fin 1)
        malformation_acc := {}, issues := issues } hnear hidx
    refine ⟨lines2, ?_, ?_, ?_⟩
    · simp only [hl, hi]
    · have := congrArg (List.map fun t : Vec2f × Vec2f × Bool => (t.1, t.2.1)) hmap
      simpa [List.map_map, Function.comp] using this
    · intro l hl2
      have hmem : (l.a, l.b, l.support_point_generated)
          ∈ lines2.map (fun l => (l.a, l.b, l.support_point_generated)) :=
        List.mem_map_of_mem _ hl2
      rw [hmap] at hmem
      obtain ⟨l0, hl0, he⟩ := List.mem_map.1 hmem
      have he2 : l0.support_point_generated = l.support_point_generated :=
        congrArg (fun t : Vec2f × Vec2f × Bool => t.2.2) he
      rw [← he2]
      exact to_short_lines_unflagged env _ _ _ _ hs l0 hl0

/-- Witness of C20: a closed square loop of side 20 mm printed right above the previous
layer. -/
theorem supported_path_needs_no_support_witness :
    ∃ lines new_lines,
      to_short_lines env_near (some ⟨0, .erExternalPerimeter⟩) square_loop
        params0.bridge_distance = some lines ∧
      lines.length = 9 ∧
      check_extrusion_entity_stability env_near (.path 0 .erExternalPerimeter square_loop) []
        (fin 1) region0 [line0] {} params0 = some ([] ++ new_lines, {}) ∧
      new_lines.map (fun l => (l.a, l.b)) = lines.map (fun l => (l.a, l.b)) ∧
      ∀ l ∈ new_lines, l.support_point_generated = false := by
  obtain ⟨lines, hs⟩ := Option.isSome_iff_exists.1
    (by decide! : (to_short_lines env_near (some ⟨0, .erExternalPerimeter⟩) square_loop
        params0.bridge_distance).isSome = true)
  have hlen : (to_short_lines env_near (some ⟨0, .erExternalPerimeter⟩) square_loop
        params0.bridge_distance).map List.length = some 9 := by decide!
  obtain ⟨new_lines, h1, h2, h3⟩ := supported_path_needs_no_support env_near params0 (fin 1)
    region0 [line0] [] {} 0 .erExternalPerimeter square_loop lines hs
    (fun _ _ => (by decide! : Flt.fabs (fin 0) < get_flow_width region0 .erExternalPerimeter))
    (fun _ _ => ⟨line0, rfl⟩)
  refine ⟨lines, new_lines, hs, ?_, h1, h2, h3⟩
  rw [hs] at hlen
  simpa using hlen


/-! ### C14 and C15: the presence grid and the emitted anchors -/

theorem cell_index_at_congr {grid grid0 : SupportGridFilter}
    (h1 : grid.cell_size = grid0.cell_size) (h2 : grid.origin = grid0.origin)
    (h3 : grid.cell_count = grid0.cell_count) (p : Vec3f) :
    grid.cell_index_at p = grid0.cell_index_at p := by
  have hidx : grid.to_cell_index = grid0.to_cell_index := by
    funext c
    simp only [SupportGridFilter.to_cell_index, h3]
  simp only [SupportGridFilter.cell_index_at, SupportGridFilter.to_cell_coords, h1, h2, hidx]

/-- A probe keeps the record of the presence grid: it emits a point only for a free cell, and
then takes the cell. -/
theorem probe_records (env : Env) (params : Params) (layer_z : Flt)
    (external_lines : List ExtrusionLine) (grid0 : SupportGridFilter) (st st2 : ProbeState)
    (line : ExtrusionLine)
    (hinv : grid0.Records st.supports_presence_grid st.issues.support_points)
    (h : check_global_stability_probe env params layer_z external_lines st line = some st2) :
    grid0.Records st2.supports_presence_grid st2.issues.support_points := by
  obtain ⟨hc1, hc2, hc3, hmap, hnd⟩ := hinv
  unfold check_global_stability_probe at h
  by_cases hskip : (st.unchecked_dist + line.len < params.min_distance_between_support_points
        ∧ line.malformation < fin (3 / 10)) ∨ Flt.feq line.len (fin 0) = true
  · rw [if_pos hskip] at h
    simp only [Option.some.injEq] at h
    subst h
    exact ⟨hc1, hc2, hc3, hmap, hnd⟩
  · rw [if_neg hskip] at h
    by_cases hpos : fin 0 < st.part.is_stable_while_extruding env st.weakest_conn line
        (check_global_stability_support_point env layer_z external_lines line) layer_z params
    · simp only [hpos, if_true] at h
      cases ht : st.supports_presence_grid.position_taken
          (check_global_stability_support_point env layer_z external_lines line) with
      | none => simp only [ht] at h; cases h
      | some b =>
        cases b with
        | true =>
          simp only [ht, Option.some.injEq] at h
          subst h
          exact ⟨hc1, hc2, hc3, hmap, hnd⟩
        | false =>
          simp only [ht] at h
          have ht2 := ht
          unfold SupportGridFilter.position_taken at ht2
          unfold SupportGridFilter.take_position at h
          cases hcc : st.supports_presence_grid.to_cell_coords
              (check_global_stability_support_point env layer_z external_lines line) with
          | none => rw [hcc] at ht2; cases ht2
          | some c =>
            rw [hcc] at ht2
            simp only [Option.some.injEq, decide_eq_false_iff_not] at ht2
            simp only [hcc, ht2, if_false, Option.some.injEq] at h
            subst h
            refine ⟨hc1, hc2, hc3, ?_, ?_⟩
            · simp only [List.map_append, List.map_cons, List.map_nil, hmap]
              congr 2
              rw [← cell_index_at_congr hc1 hc2 hc3]
              simp only [SupportGridFilter.cell_index_at, hcc, Option.map_some']
            · exact List.Nodup.append hnd (List.nodup_singleton _)
                (by
                  intro a ha hb
                  rw [List.mem_singleton] at hb
                  subst hb
                  exact ht2 ha)
    · simp only [hpos, if_false, Option.some.injEq] at h
      subst h
      exact ⟨hc1, hc2, hc3, hmap, hnd⟩

theorem probe_all_records (env : Env) (params : Params) (layer_z : Flt)
    (external_lines : List ExtrusionLine) (grid0 : SupportGridFilter)
    (lines : List ExtrusionLine) :
    ∀ (st st2 : ProbeState),
      grid0.Records st.supports_presence_grid st.issues.support_points →
      check_global_stability_probe_all env params layer_z external_lines lines st = some st2 →
      grid0.Records st2.supports_presence_grid st2.issues.support_points := by
  induction lines with
  | nil =>
    intro st st2 hinv h
    simp only [check_global_stability_probe_all, Option.some.injEq] at h
    subst h
    exact hinv
  | cons line rest ih =>
    intro st st2 hinv h
    rw [check_global_stability_probe_all] at h
    cases hp : check_global_stability_probe env params layer_z external_lines st line with
    | none => simp only [hp] at h; cases h
    | some st1 =>
      simp only [hp] at h
      exact ih st1 st2 (probe_records env params layer_z external_lines grid0 st st1 line hinv hp) h

theorem island_records (env : Env) (params : Params) (layer_z : Flt)
    (grid0 : SupportGridFilter) (st st2 : GlobalState) (island_idx : Nat) (island : Island)
    (hinv : grid0.Records st.supports_presence_grid st.issues.support_points)
    (h : check_global_stability_island env params layer_z st island_idx island = some st2) :
    grid0.Records st2.supports_presence_grid st2.issues.support_points := by
  unfold check_global_stability_island at h
  cases hf : st.active_object_parts.get_flat_id
      (index_or_default st.prev_island_to_object_part_mapping island_idx) with
  | none => simp only [hf] at h; cases h
  | some r =>
    obtain ⟨flat, tracker⟩ := r
    simp only [hf] at h
    cases hp : tracker.active_object_parts flat with
    | none => simp only [hp] at h; cases h
    | some part =>
      simp only [hp] at h
      cases hw : check_global_stability_probe_all env params layer_z island.external_lines
          island.external_lines
          { part := part
            weakest_conn := index_or_default st.prev_island_weakest_connection island_idx
            unchecked_dist := params.min_distance_between_support_points + fin 1
            issues := st.issues
            supports_presence_grid := st.supports_presence_grid } with
      | none => simp only [hw] at h; cases h
      | some ps =>
        simp only [hw, Option.some.injEq] at h
        subst h
        exact probe_all_records env params layer_z island.external_lines grid0
          island.external_lines _ ps hinv hw

theorem island_all_records (env : Env) (params : Params) (layer_z : Flt)
    (grid0 : SupportGridFilter) (islands : List Island) :
    ∀ (island_idx : Nat) (st st2 : GlobalState),
      grid0.Records st.supports_presence_grid st.issues.support_points →
      check_global_stability_island_all env params layer_z islands island_idx st = some st2 →
      grid0.Records st2.supports_presence_grid st2.issues.support_points := by
  induction islands with
  | nil =>
    intro island_idx st st2 hinv h
    simp only [check_global_stability_island_all, Option.some.injEq] at h
    subst h
    exact hinv
  | cons island rest ih =>
    intro island_idx st st2 hinv h
    rw [check_global_stability_island_all] at h
    cases hi : check_global_stability_island env params layer_z st island_idx island with
    | none => simp only [hi] at h; cases h
    | some st1 =>
      simp only [hi] at h
      exact ih _ st1 st2 (island_records env params layer_z grid0 st st1 island_idx island hinv hi) h

/-- The first island loop touches neither the issues nor the presence grid. -/
theorem connect_keeps_issues (env : Env) (set_order : List Nat → List Nat) (layer_z : Flt)
    (st st2 : GlobalState) (island_idx : Nat) (island : Island)
    (h : check_global_stability_connect env set_order layer_z st island_idx island = some st2) :
    st2.issues = st.issues ∧ st2.supports_presence_grid = st.supports_presence_grid := by
  unfold check_global_stability_connect at h
  split_ifs at h with hempty
  · simp only [Option.some.injEq] at h
    subst h
    exact ⟨rfl, rfl⟩
  · cases hg : check_global_stability_gather st.prev_island_to_object_part_mapping
        st.prev_island_weakest_connection island.connected_islands
        { active_object_parts := st.active_object_parts } with
    | none => simp only [hg] at h; cases h
    | some g =>
      simp only [hg] at h
      cases ho : set_order g.parts_ids with
      | nil => simp only [ho] at h; cases h
      | cons final_part_id parts_rest =>
        simp only [ho] at h
        cases hm : check_global_stability_merge final_part_id (final_part_id :: parts_rest)
            g.active_object_parts with
        | none => simp only [hm] at h; cases h
        | some tracker =>
          simp only [hm] at h
          cases hf : tracker.get_flat_id final_part_id with
          | none => simp only [hf] at h; cases h
          | some r =>
            obtain ⟨flat, tracker2⟩ := r
            simp only [hf] at h
            cases hp : tracker2.active_object_parts flat with
            | none => simp only [hp] at h; cases h
            | some part =>
              simp only [hp, Option.some.injEq] at h
              subst h
              exact ⟨rfl, rfl⟩

theorem connect_all_keeps_issues (env : Env) (set_order : List Nat → List Nat) (layer_z : Flt)
    (islands : List Island) :
    ∀ (island_idx : Nat) (st st2 : GlobalState),
      check_global_stability_connect_all env set_order layer_z islands island_idx st = some st2 →
      st2.issues = st.issues ∧ st2.supports_presence_grid = st.supports_presence_grid := by
  induction islands with
  | nil =>
    intro island_idx st st2 h
    simp only [check_global_stability_connect_all, Option.some.injEq] at h
    subst h
    exact ⟨rfl, rfl⟩
  | cons island rest ih =>
    intro island_idx st st2 h
    rw [check_global_stability_connect_all] at h
    cases hc : check_global_stability_connect env set_order layer_z st island_idx island with
    | none => simp only [hc] at h; cases h
    | some st1 =>
      simp only [hc] at h
      obtain ⟨h1, h2⟩ := connect_keeps_issues env set_order layer_z st st1 island_idx island hc
      obtain ⟨h3, h4⟩ := ih _ st1 st2 h
      exact ⟨h3.trans h1, h4.trans h2⟩

theorem layers_records (env : Env) (set_order : List Nat → List Nat) (params : Params)
    (grid0 : SupportGridFilter) (layers : List LayerIslands) :
    ∀ (st st2 : GlobalState),
      grid0.Records st.supports_presence_grid st.issues.support_points →
      check_global_stability_layers env set_order params layers st = some st2 →
      grid0.Records st2.supports_presence_grid st2.issues.support_points := by
  induction layers with
  | nil =>
    intro st st2 hinv h
    simp only [check_global_stability_layers, Option.some.injEq] at h
    subst h
    exact hinv
  | cons layer rest ih =>
    intro st st2 hinv h
    rw [check_global_stability_layers] at h
    cases hl : check_global_stability_layer env set_order params st layer with
    | none => simp only [hl] at h; cases h
    | some st1 =>
      simp only [hl] at h
      refine ih st1 st2 ?_ h
      unfold check_global_stability_layer at hl
      cases hc : check_global_stability_connect_all env set_order layer.layer_z layer.islands 0
          st with
      | none => simp only [hc] at hl; cases hl
      | some stc =>
        simp only [hc] at hl
        obtain ⟨h1, h2⟩ := connect_all_keeps_issues env set_order layer.layer_z layer.islands 0
          st stc hc
        refine island_all_records env params layer.layer_z grid0 layer.islands 0 _ st1 ?_ hl
        simp only [h1, h2]
        exact hinv

/-- The cells of the support points that `check_global_stability` emits from an empty
presence grid are defined and pairwise different. -/
theorem emitted_cells_nodup (env : Env) (set_order : List Nat → List Nat)
    (grid : SupportGridFilter) (islands_graph : List LayerIslands) (params : Params)
    (issues : Issues) (hempty : grid.taken_cells = [])
    (h : check_global_stability env set_order grid islands_graph params = some issues) :
    ∃ cells : List Nat, cells.Nodup ∧
      issues.support_points.map (fun p => grid.cell_index_at p.position) = cells.map some := by
  unfold check_global_stability at h
  cases hl : check_global_stability_layers env set_order params islands_graph
      { supports_presence_grid := grid } with
  | none => simp only [hl] at h; cases h
  | some st =>
    simp only [hl, Option.some.injEq] at h
    subst h
    obtain ⟨-, -, -, hmap, hnd⟩ := layers_records env set_order params grid islands_graph _ st
      ⟨rfl, rfl, rfl, by simp [hempty], by simp [hempty]⟩ hl
    exact ⟨_, hnd, hmap⟩

/-- C14 (one anchor per voxel).  In a run of `check_global_stability` started with an empty
presence grid, every emitted support point falls in a voxel cell of the grid and no two
emitted support points fall in the same cell: their cell coordinates differ, and so do their
cell indices; and a probe whose candidate cell is already taken emits nothing and leaves the
grid as it is. -/
theorem one_anchor_per_voxel (env : Env) (set_order : List Nat → List Nat)
    (grid : SupportGridFilter) (islands_graph : List LayerIslands) (params : Params)
    (issues : Issues) (hempty : grid.taken_cells = [])
    (h : check_global_stability env set_order grid islands_graph params = some issues) :
    issues.support_points.Pairwise (fun p q =>
      ∃ cp cq, grid.to_cell_coords p.position = some cp ∧
        grid.to_cell_coords q.position = some cq ∧ cp ≠ cq ∧
        grid.to_cell_index cp ≠ grid.to_cell_index cq) ∧
    (∀ (layer_z : Flt) (external_lines : List ExtrusionLine) (st st2 : ProbeState)
        (line : ExtrusionLine),
      check_global_stability_probe env params layer_z external_lines st line = some st2 →
      st.supports_presence_grid.position_taken
        (check_global_stability_support_point env layer_z external_lines line) = some true →
      st2.issues = st.issues ∧ st2.supports_presence_grid = st.supports_presence_grid) := by
  constructor
  · obtain ⟨cells, hnd, hmap⟩ := emitted_cells_nodup env set_order grid islands_graph params
      issues hempty h
    have hnd2 : (issues.support_points.map
        (fun p => grid.cell_index_at p.position)).Nodup := by
      rw [hmap]
      exact hnd.map (Option.some_injective _)
    have hpw := List.pairwise_map.1 hnd2
    refine List.Pairwise.imp_of_mem ?_ hpw
    intro p q hp hq hne
    have hsome : ∀ r ∈ issues.support_points, ∃ c, grid.to_cell_coords r.position = some c := by
      intro r hr
      have hm : grid.cell_index_at r.position ∈ issues.support_points.map
          (fun p => grid.cell_index_at p.position) := List.mem_map_of_mem _ hr
      rw [hmap] at hm
      obtain ⟨k, -, hk⟩ := List.mem_map.1 hm
      cases hc : grid.to_cell_coords r.position with
      | none => simp [SupportGridFilter.cell_index_at, hc] at hk
      | some c => exact ⟨c, rfl⟩
    obtain ⟨cp, hcp⟩ := hsome p hp
    obtain ⟨cq, hcq⟩ := hsome q hq
    have hidx : grid.to_cell_index cp ≠ grid.to_cell_index cq := by
      intro he
      apply hne
      simp only [SupportGridFilter.cell_index_at, hcp, hcq, Option.map_some', he]
    exact ⟨cp, cq, hcp, hcq, fun he => hidx (by rw [he]), hidx⟩
  · intro layer_z external_lines st st2 line hp ht
    unfold check_global_stability_probe at hp
    by_cases hskip : (st.unchecked_dist + line.len < params.min_distance_between_support_points
          ∧ line.malformation < fin (3 / 10)) ∨ Flt.feq line.len (fin 0) = true
    · rw [if_pos hskip] at hp
      simp only [Option.some.injEq] at hp
      subst hp
      exact ⟨rfl, rfl⟩
    · rw [if_neg hskip] at hp
      by_cases hpos : fin 0 < st.part.is_stable_while_extruding env st.weakest_conn line
          (check_global_stability_support_point env layer_z external_lines line) layer_z params
      · simp only [hpos, if_true, ht, Option.some.injEq] at hp
        subst hp
        exact ⟨rfl, rfl⟩
      · simp only [hpos, if_false, Option.some.injEq] at hp
        subst hp
        exact ⟨rfl, rfl⟩

/-- Witness of C14: above a base island two islands start in mid-air; each gets one anchor,
at (1.9, 0, 0.4) and at (2.1, 0, 0.4), in the cells (34, 34, 1) and (35, 34, 1). -/
theorem one_anchor_per_voxel_witness :
    ∃ issues, check_global_stability env_exact id grid0 graph_two_floating params0 = some issues ∧
      issues.support_points.map (fun p => grid0.to_cell_coords p.position)
        = [some (34, 34, 1), some (35, 34, 1)] ∧
      issues.support_points.Pairwise (fun p q =>
        ∃ cp cq, grid0.to_cell_coords p.position = some cp ∧
          grid0.to_cell_coords q.position = some cq ∧ cp ≠ cq ∧
          grid0.to_cell_index cp ≠ grid0.to_cell_index cq) := by
  obtain ⟨issues, hs⟩ := Option.isSome_iff_exists.1
    (by decide! : (check_global_stability env_exact id grid0 graph_two_floating
      params0).isSome = true)
  have hcells : (check_global_stability env_exact id grid0 graph_two_floating params0).map
      (fun issues => issues.support_points.map fun p => grid0.to_cell_coords p.position)
      = some [some (34, 34, 1), some (35, 34, 1)] := by decide!
  rw [hs] at hcells
  exact ⟨issues, hs, by simpa using hcells,
    (one_anchor_per_voxel env_exact id grid0 graph_two_floating params0 issues rfl hs).1⟩


/-! ### C18: the result of `full_search` -/

/-- A run of `full_search` that returns has run its two passes and built the presence
grid. -/
theorem full_search_passes (env : Env) (set_order : List Nat → List Nat) (po : PrintObject)
    (params : Params) (result : Issues × Malformations)
    (h : full_search env set_order po params = some result) :
    ∃ local_issues graph supports_presence_grid global_issues,
      check_extrusions_and_build_graph env po params = some (local_issues, result.2, graph) ∧
      SupportGridFilter.make env po params.min_distance_between_support_points
        = some supports_presence_grid ∧
      check_global_stability env set_order supports_presence_grid graph params
        = some global_issues := by
  unfold full_search at h
  cases hb : check_extrusions_and_build_graph env po params with
  | none => simp only [hb] at h; cases h
  | some r =>
    obtain ⟨local_issues, malformations, graph⟩ := r
    simp only [hb] at h
    cases hg : SupportGridFilter.make env po params.min_distance_between_support_points with
    | none => simp only [hg] at h; cases h
    | some grid =>
      simp only [hg] at h
      cases hs : check_global_stability env set_order grid graph params with
      | none => simp only [hs] at h; cases h
      | some global_issues =>
        simp only [hs, Option.some.injEq] at h
        subst h
        exact ⟨local_issues, graph, grid, global_issues, rfl, rfl, hs⟩

/-- C18 (result merge).  When the local pass `check_extrusions_and_build_graph` returns the
issues `local_issues` and the graph, the presence grid is built with the voxel size
`min_distance_between_support_points`, and `check_global_stability` returns `global_issues`
on it, then `full_search` returns, with the malformations of the local pass, the support
points of `global_issues` in order followed by the support points of `local_issues` in
order: the length is the sum of both lengths, the point at an index below the number of global
points is the global point at that index, and the point at a later index is the local point
at the index less the number of global points. -/
theorem full_search_merges_issues (env : Env) (set_order : List Nat → List Nat)
    (po : PrintObject) (params : Params) (local_issues global_issues : Issues)
    (malformations : Malformations) (graph : List LayerIslands)
    (supports_presence_grid : SupportGridFilter)
    (hlocal : check_extrusions_and_build_graph env po params
      = some (local_issues, malformations, graph))
    (hgrid : SupportGridFilter.make env po params.min_distance_between_support_points
      = some supports_presence_grid)
    (hglobal : check_global_stability env set_order supports_presence_grid graph params
      = some global_issues) :
    ∃ issues, full_search env set_order po params = some (issues, malformations) ∧
      issues.support_points = global_issues.support_points ++ local_issues.support_points ∧
      issues.support_points.length
        = global_issues.support_points.length + local_issues.support_points.length ∧
      (∀ i, i < global_issues.support_points.length →
        issues.support_points.get? i = global_issues.support_points.get? i) ∧
      (∀ j, issues.support_points.get? (global_issues.support_points.length + j)
        = local_issues.support_points.get? j) := by
  refine ⟨{ support_points := global_issues.support_points ++ local_issues.support_points },
    ?_, rfl, ?_, ?_, ?_⟩
  · unfold full_search
    simp only [hlocal, hgrid, hglobal]
  · simp only [List.length_append]
  · intro i hi
    simp only [List.get?_eq_getElem?]
    exact List.getElem?_append_left hi
  · intro j
    simp only [List.get?_eq_getElem?]
    rw [List.getElem?_append_right (Nat.le_add_right _ _)]
    simp

/-- Witness of C18: the object `po_overhang`, whose global pass and local pass each find one
support point. -/
theorem full_search_merges_issues_witness :
    ∃ local_issues global_issues malformations graph supports_presence_grid issues,
      check_extrusions_and_build_graph env_exact po_overhang params0
        = some (local_issues, malformations, graph) ∧
      check_global_stability env_exact id supports_presence_grid graph params0
        = some global_issues ∧
      full_search env_exact id po_overhang params0 = some (issues, malformations) ∧
      issues.support_points = global_issues.support_points ++ local_issues.support_points ∧
      issues.support_points.length = 2 ∧ local_issues.support_points.length = 1 := by
  obtain ⟨r, hr⟩ := Option.isSome_iff_exists.1
    (by decide! : (full_search env_exact id po_overhang params0).isSome = true)
  have hlen : (full_search env_exact id po_overhang params0).map
      (fun r => r.1.support_points.length) = some 2 := by decide!
  have hloc : (check_extrusions_and_build_graph env_exact po_overhang params0).map
      (fun r => r.1.support_points.length) = some 1 := by decide!
  obtain ⟨local_issues, graph, grid, global_issues, hb, hg, hs⟩ :=
    full_search_passes env_exact id po_overhang params0 r hr
  obtain ⟨issues, hf, happ, -, -, -⟩ := full_search_merges_issues env_exact id po_overhang
    params0 local_issues global_issues r.2 graph grid hb hg hs
  refine ⟨local_issues, global_issues, r.2, graph, grid, issues, hb, hs, hf, happ, ?_, ?_⟩
  · rw [hf] at hlen
    simpa using hlen
  · rw [hb] at hloc
    simpa using hloc


/-! ### C15: anchors in neighbouring voxels -/

/-- The presence grid that the constructor builds is empty and has cubic cells of the voxel
size. -/
theorem make_grid_shape (env : Env) (po : PrintObject) (voxel_size : Flt)
    (grid : SupportGridFilter) (h : SupportGridFilter.make env po voxel_size = some grid) :
    grid.cell_size = ⟨voxel_size, voxel_size, voxel_size⟩ ∧ grid.taken_cells = [] := by
  unfold SupportGridFilter.make at h
  simp only [] at h
  split at h
  · simp only [Option.some.injEq] at h
    subst h
    exact ⟨rfl, rfl⟩
  · cases h

/-- C15 (minimum anchor spacing) fails on the code.  With the presence grid that `full_search`
builds for an object of 200 mm by 200 mm by 100 mm and the default minimum distance of 3 mm,
`check_global_stability` emits for two islands that start in mid-air the anchors
(1.9, 0, 0.4) and (2.1, 0, 0.4): they fall in the neighbouring cells 34 and 35 along x and are
0.2 mm apart, less than the voxel edge of 3 mm. -/
theorem anchors_closer_than_one_voxel :
    params0.min_distance_between_support_points = fin 3 ∧
    SupportGridFilter.make env_exact po_wide params0.min_distance_between_support_points
      = some grid0 ∧
    ((check_global_stability env_exact id grid0 graph_two_floating params0).map fun issues =>
      issues.support_points.map fun p => p.position)
      = some [⟨fin (19 / 10), fin 0, fin (2 / 5)⟩, ⟨fin (21 / 10), fin 0, fin (2 / 5)⟩] ∧
    Vec3f.squaredNorm ((⟨fin (21 / 10), fin 0, fin (2 / 5)⟩ : Vec3f)
        - ⟨fin (19 / 10), fin 0, fin (2 / 5)⟩) = fin (1 / 5) * fin (1 / 5) ∧
    fin (1 / 5) < params0.min_distance_between_support_points := by
  decide!

/-- C15, amended.  With the presence grid that `full_search` builds (cubic cells whose edge
is `min_distance_between_support_points`, no cell taken), any two support points emitted by one
run of `check_global_stability` lie in different voxel cells: their cell coordinates, the
quotients of position minus grid origin by the edge truncated to integers, are at least 1
apart along some axis. -/
theorem anchors_in_distinct_voxels (env : Env) (set_order : List Nat → List Nat)
    (po : PrintObject) (params : Params) (grid : SupportGridFilter)
    (islands_graph : List LayerIslands) (issues : Issues)
    (hgrid : SupportGridFilter.make env po params.min_distance_between_support_points
      = some grid)
    (h : check_global_stability env set_order grid islands_graph params = some issues) :
    issues.support_points.Pairwise (fun p q =>
      ∃ px py pz qx qy qz : Int,
        ((p.position.x - grid.origin.x) / params.min_distance_between_support_points).toInt
          = some px ∧
        ((p.position.y - grid.origin.y) / params.min_distance_between_support_points).toInt
          = some py ∧
        ((p.position.z - grid.origin.z) / params.min_distance_between_support_points).toInt
          = some pz ∧
        ((q.position.x - grid.origin.x) / params.min_distance_between_support_points).toInt
          = some qx ∧
        ((q.position.y - grid.origin.y) / params.min_distance_between_support_points).toInt
          = some qy ∧
        ((q.position.z - grid.origin.z) / params.min_distance_between_support_points).toInt
          = some qz ∧
        (1 ≤ |px - qx| ∨ 1 ≤ |py - qy| ∨ 1 ≤ |pz - qz|)) := by
  obtain ⟨hsize, hempty⟩ := make_grid_shape env po _ grid hgrid
  obtain ⟨cells, hnd, hmap⟩ := emitted_cells_nodup env set_order grid islands_graph params
    issues hempty h
  have hnd2 : (issues.support_points.map
      (fun p => grid.cell_index_at p.position)).Nodup := by
    rw [hmap]
    exact hnd.map (Option.some_injective _)
  have hpw := List.pairwise_map.1 hnd2
  refine List.Pairwise.imp_of_mem ?_ hpw
  intro p q hp hq hne
  have hsome : ∀ r ∈ issues.support_points, ∃ x y z : Int,
      ((r.position.x - grid.origin.x) / params.min_distance_between_support_points).toInt
        = some x ∧
      ((r.position.y - grid.origin.y) / params.min_distance_between_support_points).toInt
        = some y ∧
      ((r.position.z - grid.origin.z) / params.min_distance_between_support_points).toInt
        = some z ∧
      grid.cell_index_at r.position = some (grid.to_cell_index (x, y, z)) := by
    intro r hr
    have hm : grid.cell_index_at r.position ∈ issues.support_points.map
        (fun p => grid.cell_index_at p.position) := List.mem_map_of_mem _ hr
    rw [hmap] at hm
    obtain ⟨k, -, hk⟩ := List.mem_map.1 hm
    simp only [SupportGridFilter.cell_index_at, SupportGridFilter.to_cell_coords, hsize] at hk ⊢
    cases hx : ((r.position.x - grid.origin.x)
        / params.min_distance_between_support_points).toInt with
    | none => simp [hx] at hk
    | some x =>
      cases hy : ((r.position.y - grid.origin.y)
          / params.min_distance_between_support_points).toInt with
      | none => simp [hx, hy] at hk
      | some y =>
        cases hz : ((r.position.z - grid.origin.z)
            / params.min_distance_between_support_points).toInt with
        | none => simp [hx, hy, hz] at hk
        | some z => exact ⟨x, y, z, rfl, rfl, rfl, rfl⟩
  obtain ⟨px, py, pz, hpx, hpy, hpz, hpi⟩ := hsome p hp
  obtain ⟨qx, qy, qz, hqx, hqy, hqz, hqi⟩ := hsome q hq
  refine ⟨px, py, pz, qx, qy, qz, hpx, hpy, hpz, hqx, hqy, hqz, ?_⟩
  by_contra hcon
  push_neg at hcon
  obtain ⟨h1, h2, h3⟩ := hcon
  have e1 : px = qx := by
    have := Int.abs_lt_one_iff.1 h1
    omega
  have e2 : py = qy := by
    have := Int.abs_lt_one_iff.1 h2
    omega
  have e3 : pz = qz := by
    have := Int.abs_lt_one_iff.1 h3
    omega
  apply hne
  rw [hpi, hqi, e1, e2, e3]

/-- Witness of the amended C15: the two anchors of `graph_two_floating` in the grid built for
`po_wide`. -/
theorem anchors_in_distinct_voxels_witness :
    ∃ issues, check_global_stability env_exact id grid0 graph_two_floating params0 = some issues ∧
      issues.support_points.length = 2 ∧
      issues.support_points.Pairwise (fun p q =>
        ∃ px py pz qx qy qz : Int,
          ((p.position.x - grid0.origin.x) / params0.min_distance_between_support_points).toInt
            = some px ∧
          ((p.position.y - grid0.origin.y) / params0.min_distance_between_support_points).toInt
            = some py ∧
          ((p.position.z - grid0.origin.z) / params0.min_distance_between_support_points).toInt
            = some pz ∧
          ((q.position.x - grid0.origin.x) / params0.min_distance_between_support_points).toInt
            = some qx ∧
          ((q.position.y - grid0.origin.y) / params0.min_distance_between_support_points).toInt
            = some qy ∧
          ((q.position.z - grid0.origin.z) / params0.min_distance_between_support_points).toInt
            = some qz ∧
          (1 ≤ |px - qx| ∨ 1 ≤ |py - qy| ∨ 1 ≤ |pz - qz|)) := by
  obtain ⟨issues, hs⟩ := Option.isSome_iff_exists.1
    (by decide! : (check_global_stability env_exact id grid0 graph_two_floating
      params0).isSome = true)
  have hlen : (check_global_stability env_exact id grid0 graph_two_floating params0).map
      (fun issues => issues.support_points.length) = some 2 := by decide!
  rw [hs] at hlen
  exact ⟨issues, hs, by simpa using hlen,
    anchors_in_distinct_voxels env_exact id po_wide params0 grid0 graph_two_floating issues
      (by decide!) hs⟩


/-! ## Theorems: the pixel loops of `reckon_islands` -/

theorem connect_pixel_cases (current_layer_grid prev_layer_grid : PixelGrid) (layer_z : Flt)
    (islands islands2 : List Island) (x y : Nat)
    (h : reckon_islands_connect_pixel current_layer_grid prev_layer_grid layer_z islands x y
      = some islands2) :
    (current_layer_grid.overlap prev_layer_grid (x, y) = false ∧ islands2 = islands) ∨
    (current_layer_grid.overlap prev_layer_grid (x, y) = true ∧
      (∃ current, current_layer_grid.get_pixel (x, y) = some current ∧
        current < islands.length) ∧
      islands2 = connect_step current_layer_grid prev_layer_grid layer_z islands (x, y)) := by
  unfold reckon_islands_connect_pixel at h
  simp only [] at h
  cases hc : current_layer_grid.get_pixel ((x : Int), (y : Int)) with
  | none => simp only [hc] at h; cases h
  | some current =>
    simp only [hc] at h
    by_cases hcn : current = NULL_ISLAND
    · simp only [hcn, ne_eq, not_true_eq_false, if_false, Option.some.injEq] at h
      left
      refine ⟨?_, h.symm⟩
      simp only [PixelGrid.overlap, hc, hcn]
      cases prev_layer_grid.get_pixel ((x : Int), (y : Int)) <;> simp
    · simp only [ne_eq, hcn, not_false_eq_true, if_true] at h
      cases hp : prev_layer_grid.get_pixel ((x : Int), (y : Int)) with
      | none => simp only [hp] at h; cases h
      | some previous =>
        simp only [hp] at h
        by_cases hpn : previous = NULL_ISLAND
        · simp only [hpn, not_true_eq_false, if_false, Option.some.injEq] at h
          left
          refine ⟨?_, h.symm⟩
          simp only [PixelGrid.overlap, hc, hp, hpn]
          simp
        · simp only [hpn, not_false_eq_true, if_true] at h
          cases hi : islands.get? current with
          | none => simp only [hi] at h; cases h
          | some island =>
            simp only [hi, Option.some.injEq] at h
            right
            refine ⟨?_, ⟨current, rfl, ?_⟩, ?_⟩
            · simp only [PixelGrid.overlap, hc, hp]
              simp [hcn, hpn]
            · exact (List.get?_eq_some.1 hi).1
            · simp only [connect_step, hc, hp, Option.getD_some, hi]
              exact h.symm

theorem connect_step_length (current_layer_grid prev_layer_grid : PixelGrid) (layer_z : Flt)
    (islands : List Island) (c : Nat × Nat) :
    (connect_step current_layer_grid prev_layer_grid layer_z islands c).length
      = islands.length := by
  unfold connect_step
  split <;> simp

theorem foldl_connect_step_length (current_layer_grid prev_layer_grid : PixelGrid)
    (layer_z : Flt) (cs : List (Nat × Nat)) :
    ∀ islands : List Island,
      (cs.foldl (connect_step current_layer_grid prev_layer_grid layer_z) islands).length
        = islands.length := by
  induction cs with
  | nil => intro islands; rfl
  | cons c rest ih =>
    intro islands
    rw [List.foldl_cons, ih, connect_step_length]

/-- The inner pixel loop as a fold over the pixels of the column that are non-empty in both
grids. -/
theorem connect_column_fold (current_layer_grid prev_layer_grid : PixelGrid) (layer_z : Flt)
    (x : Nat) (ys : List Nat) :
    ∀ (islands islands2 : List Island),
      reckon_islands_connect_column current_layer_grid prev_layer_grid layer_z x ys islands
        = some islands2 →
      islands2 = ((ys.map fun y => (x, y)).filter
          (current_layer_grid.overlap prev_layer_grid)).foldl
        (connect_step current_layer_grid prev_layer_grid layer_z) islands ∧
      ∀ c ∈ (ys.map fun y => (x, y)).filter (current_layer_grid.overlap prev_layer_grid),
        ∃ current, current_layer_grid.get_pixel (c.1, c.2) = some current ∧
          current < islands.length := by
  induction ys with
  | nil =>
    intro islands islands2 h
    simp only [reckon_islands_connect_column, Option.some.injEq] at h
    subst h
    exact ⟨rfl, by simp⟩
  | cons y rest ih =>
    intro islands islands2 h
    rw [reckon_islands_connect_column] at h
    cases hp : reckon_islands_connect_pixel current_layer_grid prev_layer_grid layer_z islands
        x y with
    | none => simp only [hp] at h; cases h
    | some islands1 =>
      simp only [hp] at h
      obtain ⟨hfold, hvalid⟩ := ih islands1 islands2 h
      rcases connect_pixel_cases current_layer_grid prev_layer_grid layer_z islands islands1
        x y hp with ⟨hov, he⟩ | ⟨hov, hcur, he⟩
      · subst he
        simp only [List.map_cons, List.filter_cons, hov, Bool.false_eq_true, if_false]
        exact ⟨hfold, hvalid⟩
      · have hlen : islands1.length = islands.length := by
          rw [he, connect_step_length]
        simp only [List.map_cons, List.filter_cons, hov, if_true, List.foldl_cons]
        refine ⟨by rw [← he]; exact hfold, ?_⟩
        intro c hc
        rcases List.mem_cons.1 hc with rfl | hc
        · exact hcur
        · obtain ⟨current, h1, h2⟩ := hvalid c hc
          exact ⟨current, h1, hlen ▸ h2⟩

/-- The pixel loops as a fold over the pixels that are non-empty in both grids. -/
theorem connect_columns_fold (current_layer_grid prev_layer_grid : PixelGrid) (layer_z : Flt)
    (ys : List Nat) (xs : List Nat) :
    ∀ (islands islands2 : List Island),
      reckon_islands_connect_columns current_layer_grid prev_layer_grid layer_z ys xs islands
        = some islands2 →
      islands2 = ((pixel_coords xs ys).filter
          (current_layer_grid.overlap prev_layer_grid)).foldl
        (connect_step current_layer_grid prev_layer_grid layer_z) islands ∧
      ∀ c ∈ (pixel_coords xs ys).filter (current_layer_grid.overlap prev_layer_grid),
        ∃ current, current_layer_grid.get_pixel (c.1, c.2) = some current ∧
          current < islands.length := by
  induction xs with
  | nil =>
    intro islands islands2 h
    simp only [reckon_islands_connect_columns, Option.some.injEq] at h
    subst h
    exact ⟨rfl, by simp [pixel_coords]⟩
  | cons x rest ih =>
    intro islands islands2 h
    rw [reckon_islands_connect_columns] at h
    cases hc : reckon_islands_connect_column current_layer_grid prev_layer_grid layer_z x ys
        islands with
    | none => simp only [hc] at h; cases h
    | some islands1 =>
      simp only [hc] at h
      obtain ⟨hfold1, hvalid1⟩ := connect_column_fold current_layer_grid prev_layer_grid
        layer_z x ys islands islands1 hc
      obtain ⟨hfold2, hvalid2⟩ := ih islands1 islands2 h
      have hlen : islands1.length = islands.length := by
        rw [hfold1, foldl_connect_step_length]
      have hsplit : pixel_coords (x :: rest) ys
          = (ys.map fun y => (x, y)) ++ pixel_coords rest ys := by
        simp [pixel_coords]
      rw [hsplit, List.filter_append, List.foldl_append]
      refine ⟨by rw [← hfold1]; exact hfold2, ?_⟩
      intro c hc2
      rcases List.mem_append.1 hc2 with hc2 | hc2
      · exact hvalid1 c hc2
      · obtain ⟨current, h1, h2⟩ := hvalid2 c hc2
        exact ⟨current, h1, hlen ▸ h2⟩

/-! ### The islands before the pixel loops have no connection -/

theorem segments_connections (line : ExtrusionLine) (flow_width : Flt) (dir : Vec2f)
    (fuel : Nat) :
    ∀ (d : Flt) (island island2 : Island),
      reckon_islands_segments line flow_width dir fuel d island = some island2 →
      island2.connected_islands = island.connected_islands := by
  induction fuel with
  | zero =>
    intro d island island2 h
    rw [reckon_islands_segments] at h
    split_ifs at h
    obtain rfl := Option.some.inj h
    rfl
  | succ n ih =>
    intro d island island2 h
    rw [reckon_islands_segments] at h
    split_ifs at h
    · simp only [] at h
      have h2 := ih _ _ _ h
      exact h2
    · obtain rfl := Option.some.inj h
      rfl

theorem add_line_connections (env : Env) (layer : Layer) (first_layer : Bool)
    (flow_width : Flt) (island island2 : Island) (line : ExtrusionLine)
    (h : reckon_islands_add_line env layer first_layer flow_width island line = some island2) :
    island2.connected_islands = island.connected_islands := by
  unfold reckon_islands_add_line at h
  simp only [] at h
  split_ifs at h
  · have h2 := segments_connections _ _ _ _ _ _ _ h
    exact h2
  · obtain rfl := Option.some.inj h
    rfl
  · obtain rfl := Option.some.inj h
    rfl

theorem add_lines_connections (env : Env) (layer : Layer) (first_layer : Bool)
    (flow_width : Flt) (layer_lines : List ExtrusionLine) (island_number : Nat)
    (lidxs : List Nat) :
    ∀ (island island2 : Island) (mapping mapping2 : List Nat),
      reckon_islands_add_lines env layer first_layer flow_width layer_lines island_number lidxs
        island mapping = some (island2, mapping2) →
      island2.connected_islands = island.connected_islands := by
  induction lidxs with
  | nil =>
    intro island island2 mapping mapping2 h
    simp only [reckon_islands_add_lines, Option.some.injEq, Prod.mk.injEq] at h
    rw [← h.1]
  | cons lidx rest ih =>
    intro island island2 mapping mapping2 h
    rw [reckon_islands_add_lines] at h
    split_ifs at h
    · cases hl : layer_lines.get? lidx with
      | none => simp only [hl] at h; cases h
      | some line =>
        simp only [hl] at h
        cases ha : reckon_islands_add_line env layer first_layer flow_width island line with
        | none => simp only [ha] at h; cases h
        | some island1 =>
          simp only [ha] at h
          rw [ih _ _ _ _ h, add_line_connections env layer first_layer flow_width island island1
            line ha]

theorem add_extrusions_connections (env : Env) (layer : Layer) (first_layer : Bool)
    (flow_width : Flt) (layer_lines : List ExtrusionLine) (extrusions : List (Nat × Nat))
    (island_number : Nat) (island_ex : List Nat) :
    ∀ (island island2 : Island) (mapping mapping2 : List Nat),
      reckon_islands_add_extrusions env layer first_layer flow_width layer_lines extrusions
        island_number island_ex island mapping = some (island2, mapping2) →
      island2.connected_islands = island.connected_islands := by
  induction island_ex with
  | nil =>
    intro island island2 mapping mapping2 h
    simp only [reckon_islands_add_extrusions, Option.some.injEq, Prod.mk.injEq] at h
    rw [← h.1]
  | cons extrusion_idx rest ih =>
    intro island island2 mapping mapping2 h
    rw [reckon_islands_add_extrusions] at h
    cases he : extrusions.get? extrusion_idx with
    | none => simp only [he] at h; cases h
    | some extrusion =>
      simp only [he] at h
      cases hl : layer_lines.get? extrusion.1 with
      | none => simp only [hl] at h; cases h
      | some first_line =>
        simp only [hl] at h
        cases ho : first_line.origin_entity with
        | none => simp only [ho] at h; cases h
        | some origin_entity =>
          simp only [ho] at h
          split at h
          · cases h
          · rename_i island1 mapping1 hadd
            rw [ih _ _ _ _ h, add_lines_connections _ _ _ _ _ _ _ _ _ _ _ hadd]
            split_ifs <;> rfl

theorem build_connections (env : Env) (layer : Layer) (first_layer : Bool) (flow_width : Flt)
    (layer_lines : List ExtrusionLine) (extrusions : List (Nat × Nat))
    (island_extrusions : List (List Nat)) :
    ∀ (islands islands2 : List Island) (mapping mapping2 : List Nat),
      (∀ island ∈ islands, island.connected_islands = []) →
      reckon_islands_build env layer first_layer flow_width layer_lines extrusions
        island_extrusions islands mapping = some (islands2, mapping2) →
      ∀ island ∈ islands2, island.connected_islands = [] := by
  induction island_extrusions with
  | nil =>
    intro islands islands2 mapping mapping2 h0 h
    simp only [reckon_islands_build, Option.some.injEq, Prod.mk.injEq] at h
    rw [← h.1]
    exact h0
  | cons island_ex rest ih =>
    intro islands islands2 mapping mapping2 h0 h
    rw [reckon_islands_build] at h
    split_ifs at h
    · exact ih _ _ _ _ h0 h
    · cases ha : reckon_islands_add_extrusions env layer first_layer flow_width layer_lines
          extrusions islands.length island_ex {} mapping with
      | none => simp only [ha] at h; cases h
      | some r =>
        obtain ⟨island1, mapping1⟩ := r
        simp only [ha] at h
        refine ih _ _ _ _ ?_ h
        intro island hi
        rcases List.mem_append.1 hi with hi | hi
        · exact h0 island hi
        · rw [List.mem_singleton] at hi
          subst hi
          exact add_extrusions_connections _ _ _ _ _ _ _ _ _ _ _ _ ha

/-- The islands that `reckon_islands` has built before the pixel loops have no connection. -/
theorem islands_connections (env : Env) (layer : Layer) (first_layer : Bool)
    (layer_lines : List ExtrusionLine) (islands : List Island) (mapping : List Nat)
    (h : reckon_islands_islands env layer first_layer layer_lines = some (islands, mapping)) :
    ∀ island ∈ islands, island.connected_islands = [] := by
  unfold reckon_islands_islands at h
  cases he : reckon_islands_extrusions layer_lines 0 none [] with
  | none => simp only [he] at h; cases h
  | some extrusions =>
    simp only [he] at h
    cases ha : reckon_islands_assign env layer_lines layer.lslices extrusions 0
        (layer.lslices.map fun _ => []) with
    | none => simp only [ha] at h; cases h
    | some island_extrusions =>
      simp only [ha] at h
      cases hr : layer.regions with
      | nil => simp only [hr] at h; cases h
      | cons region rest =>
        simp only [hr] at h
        exact build_connections _ _ _ _ _ _ _ _ _ _ _ (by simp) h

/-! ### Invariants of the connection maps -/

theorem mem_connection_update (f : IslandConnection → IslandConnection) (key : Nat)
    (m : List (Nat × IslandConnection)) (e : Nat × IslandConnection)
    (h : e ∈ connection_update f key m) :
    e ∈ m ∨ ∃ c, (c = {} ∨ (key, c) ∈ m) ∧ e = (key, f c) := by
  induction m with
  | nil =>
    simp only [connection_update, List.mem_singleton] at h
    exact Or.inr ⟨{}, Or.inl rfl, h⟩
  | cons entry rest ih =>
    rw [connection_update] at h
    split_ifs at h with hk
    · rcases List.mem_cons.1 h with h | h
      · refine Or.inr ⟨entry.2, Or.inr ?_, by rw [h, hk]⟩
        rw [← hk]
        exact List.mem_cons_self _ _
      · exact Or.inl (List.mem_cons_of_mem _ h)
    · rcases List.mem_cons.1 h with h | h
      · exact Or.inl (h ▸ List.mem_cons_self _ _)
      · rcases ih h with h | ⟨c, hc, he⟩
        · exact Or.inl (List.mem_cons_of_mem _ h)
        · refine Or.inr ⟨c, ?_, he⟩
          rcases hc with hc | hc
          · exact Or.inl hc
          · exact Or.inr (List.mem_cons_of_mem _ hc)

theorem connection_update_keys (f : IslandConnection → IslandConnection) (key : Nat)
    (m : List (Nat × IslandConnection)) :
    (connection_update f key m).map (fun e => e.1)
      = if key ∈ m.map (fun e => e.1) then m.map (fun e => e.1)
        else m.map (fun e => e.1) ++ [key] := by
  induction m with
  | nil => simp [connection_update]
  | cons entry rest ih =>
    rw [connection_update]
    by_cases hk : entry.1 = key
    · simp [hk]
    · have hk2 : ¬ key = entry.1 := fun h => hk h.symm
      simp only [hk, if_false, List.map_cons, ih, List.mem_cons, hk2, false_or]
      split_ifs <;> simp

theorem connection_update_nodup (f : IslandConnection → IslandConnection) (key : Nat)
    (m : List (Nat × IslandConnection)) (h : (m.map fun e => e.1).Nodup) :
    ((connection_update f key m).map fun e => e.1).Nodup := by
  rw [connection_update_keys]
  split_ifs with hk
  · exact h
  · exact List.Nodup.append h (List.nodup_singleton _) (by
      intro a ha hb
      rw [List.mem_singleton] at hb
      subst hb
      exact hk ha)

/-- A property of islands that every update of a connection keeps is kept by the step of the
pixel loops. -/
theorem connect_step_invariant (P : Island → Prop) (current_layer_grid prev_layer_grid : PixelGrid)
    (layer_z : Flt)
    (hupd : ∀ (island : Island) (key : Nat) (cc : Vec2f), P island →
      P { island with
          connected_islands :=
            connection_update (add_pixel cc layer_z current_layer_grid.pixel_area) key
              island.connected_islands })
    (islands : List Island) (c : Nat × Nat) (h : ∀ island ∈ islands, P island) :
    ∀ island ∈ connect_step current_layer_grid prev_layer_grid layer_z islands c, P island := by
  unfold connect_step
  split
  · rename_i current previous island0 hc hp hi
    intro island hmem
    rcases List.mem_or_eq_of_mem_set hmem with hmem | hmem
    · exact h island hmem
    · rw [hmem]
      exact hupd island0 _ _ (h island0 (List.get?_mem hi))
  · exact h

theorem foldl_connect_step_invariant (P : Island → Prop)
    (current_layer_grid prev_layer_grid : PixelGrid) (layer_z : Flt)
    (hupd : ∀ (island : Island) (key : Nat) (cc : Vec2f), P island →
      P { island with
          connected_islands :=
            connection_update (add_pixel cc layer_z current_layer_grid.pixel_area) key
              island.connected_islands })
    (cs : List (Nat × Nat)) :
    ∀ islands : List Island, (∀ island ∈ islands, P island) →
      ∀ island ∈ cs.foldl (connect_step current_layer_grid prev_layer_grid layer_z) islands,
        P island := by
  induction cs with
  | nil => intro islands h; exact h
  | cons c rest ih =>
    intro islands h
    rw [List.foldl_cons]
    exact ih _ (connect_step_invariant P current_layer_grid prev_layer_grid layer_z hupd
      islands c h)

theorem foldl_erase (ks : List Nat) :
    ∀ m : List (Nat × IslandConnection),
      ks.foldl (fun connected_islands conn => connection_erase conn connected_islands) m
        = m.filter fun e => decide (e.1 ∉ ks) := by
  induction ks with
  | nil => intro m; simp
  | cons k rest ih =>
    intro m
    rw [List.foldl_cons, ih, connection_erase, List.filter_filter]
    congr 1
    funext e
    simp only [List.mem_cons, not_or, ne_eq, decide_not, Bool.decide_and, Bool.and_comm]

/-- With unique keys, the last loop of `reckon_islands` keeps exactly the connections whose
area is not below the threshold. -/
theorem filter_connections (params : Params) (island : Island)
    (hnd : (island.connected_islands.map fun e => e.1).Nodup) :
    (reckon_islands_filter params island).connected_islands
      = island.connected_islands.filter fun e =>
          !decide (e.2.area < params.connections_min_considerable_area) := by
  unfold reckon_islands_filter
  simp only []
  rw [foldl_erase]
  apply List.filter_congr
  intro e he
  have hiff : e.1 ∈ (island.connected_islands.filter fun conn =>
      decide (conn.2.area < params.connections_min_considerable_area)).map (fun conn => conn.1)
      ↔ e.2.area < params.connections_min_considerable_area := by
    constructor
    · intro hm
      obtain ⟨e2, he2, hk⟩ := List.mem_map.1 hm
      obtain ⟨hmem2, harea⟩ := List.mem_filter.1 he2
      have : e2 = e := by
        have hinj := List.inj_on_of_nodup_map hnd hmem2 he hk
        exact hinj
      rw [← this]
      simpa using harea
    · intro harea
      exact List.mem_map.2 ⟨e, List.mem_filter.2 ⟨he, by simpa using harea⟩, rfl⟩
  by_cases harea : e.2.area < params.connections_min_considerable_area
  · simp [hiff.2 harea, harea]
  · have : e.1 ∉ (island.connected_islands.filter fun conn =>
        decide (conn.2.area < params.connections_min_considerable_area)).map
        (fun conn => conn.1) := fun hm => harea (hiff.1 hm)
    simp [this, harea]

/-- The parts of a run of `reckon_islands` up to its last loop. -/
theorem accumulated_parts (env : Env) (layer : Layer) (first_layer : Bool)
    (prev_layer_grid : PixelGrid) (layer_lines : List ExtrusionLine) (islands : List Island)
    (grid : PixelGrid)
    (h : reckon_islands_accumulated env layer first_layer prev_layer_grid layer_lines
      = some (islands, grid)) :
    ∃ islands0 mapping,
      reckon_islands_islands env layer first_layer layer_lines = some (islands0, mapping) ∧
      reckon_islands_rasterize env layer_lines mapping prev_layer_grid.clear = some grid ∧
      reckon_islands_connect grid prev_layer_grid layer.slice_z islands0 = some islands := by
  unfold reckon_islands_accumulated at h
  cases hi : reckon_islands_islands env layer first_layer layer_lines with
  | none => simp only [hi] at h; cases h
  | some r =>
    obtain ⟨islands0, mapping⟩ := r
    simp only [hi] at h
    cases hr : reckon_islands_rasterize env layer_lines mapping prev_layer_grid.clear with
    | none => simp only [hr] at h; cases h
    | some current_layer_grid =>
      simp only [hr] at h
      cases hc : reckon_islands_connect current_layer_grid prev_layer_grid layer.slice_z
          islands0 with
      | none => simp only [hc] at h; cases h
      | some islands1 =>
        simp only [hc, Option.some.injEq, Prod.mk.injEq] at h
        obtain ⟨h1, h2⟩ := h
        subst h1; subst h2
        exact ⟨islands0, mapping, rfl, hr, hc⟩

/-- The accumulated islands are the fold of the step of the pixel loops over the pixels that
are non-empty in both grids, starting from islands without connections. -/
theorem accumulated_fold (env : Env) (layer : Layer) (first_layer : Bool)
    (prev_layer_grid : PixelGrid) (layer_lines : List ExtrusionLine) (islands : List Island)
    (grid : PixelGrid)
    (h : reckon_islands_accumulated env layer first_layer prev_layer_grid layer_lines
      = some (islands, grid)) :
    ∃ islands0 : List Island, (∀ island ∈ islands0, island.connected_islands = []) ∧
      islands = (grid.coords.filter (grid.overlap prev_layer_grid)).foldl
        (connect_step grid prev_layer_grid layer.slice_z) islands0 ∧
      ∀ c ∈ grid.coords.filter (grid.overlap prev_layer_grid),
        ∃ current, grid.get_pixel (c.1, c.2) = some current ∧ current < islands0.length := by
  obtain ⟨islands0, mapping, hi, -, hc⟩ := accumulated_parts env layer first_layer
    prev_layer_grid layer_lines islands grid h
  obtain ⟨hfold, hvalid⟩ := connect_columns_fold grid prev_layer_grid layer.slice_z _ _ _ _ hc
  exact ⟨islands0, islands_connections env layer first_layer layer_lines islands0 mapping hi,
    hfold, hvalid⟩

/-- The keys of every accumulated connection map are pairwise different. -/
theorem accumulated_keys_nodup (env : Env) (layer : Layer) (first_layer : Bool)
    (prev_layer_grid : PixelGrid) (layer_lines : List ExtrusionLine) (islands : List Island)
    (grid : PixelGrid)
    (h : reckon_islands_accumulated env layer first_layer prev_layer_grid layer_lines
      = some (islands, grid)) :
    ∀ island ∈ islands, (island.connected_islands.map fun e => e.1).Nodup := by
  obtain ⟨islands0, h0, hfold, -⟩ := accumulated_fold env layer first_layer prev_layer_grid
    layer_lines islands grid h
  rw [hfold]
  refine foldl_connect_step_invariant (fun island =>
    (island.connected_islands.map fun e => e.1).Nodup) grid prev_layer_grid layer.slice_z ?_ _
    islands0 ?_
  · intro island key cc hP
    exact connection_update_nodup _ _ _ hP
  · intro island hi
    simp [h0 island hi]

/-- With a finite pixel area, every accumulated connection has a finite area. -/
theorem accumulated_areas_finite (env : Env) (layer : Layer) (first_layer : Bool)
    (prev_layer_grid : PixelGrid) (layer_lines : List ExtrusionLine) (islands : List Island)
    (grid : PixelGrid) (a : ℚ)
    (h : reckon_islands_accumulated env layer first_layer prev_layer_grid layer_lines
      = some (islands, grid))
    (hpa : grid.pixel_area = fin a) :
    ∀ island ∈ islands, ∀ e ∈ island.connected_islands, ∃ q, e.2.area = fin q := by
  obtain ⟨islands0, h0, hfold, -⟩ := accumulated_fold env layer first_layer prev_layer_grid
    layer_lines islands grid h
  rw [hfold]
  refine foldl_connect_step_invariant (fun island =>
    ∀ e ∈ island.connected_islands, ∃ q, e.2.area = fin q) grid prev_layer_grid
    layer.slice_z ?_ _ islands0 ?_
  · intro island key cc hP e he
    rcases mem_connection_update _ _ _ _ he with he | ⟨c, hc, he⟩
    · exact hP e he
    · rw [he]
      rcases hc with hc | hc
      · exact ⟨0 + a, by rw [hc]; simp only [add_pixel, hpa]; rfl⟩
      · obtain ⟨q, hq⟩ := hP _ hc
        exact ⟨q + a, by simp only [add_pixel, hpa]; simp only [] at hq; rw [hq]; rfl⟩
  · intro island hi e he
    rw [h0 island hi] at he
    cases he

/-- C17 (connection pruning).  From the state of `reckon_islands` before its last loop, with
a finite pixel area and a finite threshold `params.connections_min_considerable_area`, the
function returns the same islands in the same order with the same accumulators, whose
connection maps hold exactly the accumulated connections of area at least the threshold:
every connection that remains is an accumulated connection, unchanged, of area at least the
threshold, and every accumulated connection of area at least the threshold remains,
unchanged. -/
theorem connection_pruning (env : Env) (layer : Layer) (first_layer : Bool)
    (prev_layer_grid : PixelGrid) (layer_lines : List ExtrusionLine) (params : Params)
    (islands : List Island) (grid : PixelGrid) (a m : ℚ)
    (hacc : reckon_islands_accumulated env layer first_layer prev_layer_grid layer_lines
      = some (islands, grid))
    (hpa : grid.pixel_area = fin a)
    (hmin : params.connections_min_considerable_area = fin m) :
    ∃ result, reckon_islands env layer first_layer prev_layer_grid layer_lines params
        = some (result, grid) ∧
      result.layer_z = layer.slice_z ∧
      result.islands.length = islands.length ∧
      ∀ i island, islands.get? i = some island →
        ∃ island2, result.islands.get? i = some island2 ∧
          island2 = { island with connected_islands := island2.connected_islands } ∧
          (∀ e ∈ island2.connected_islands, e ∈ island.connected_islands ∧
            params.connections_min_considerable_area ≤ e.2.area) ∧
          (∀ e ∈ island.connected_islands,
            params.connections_min_considerable_area ≤ e.2.area →
            e ∈ island2.connected_islands) := by
  refine ⟨{ islands := islands.map (reckon_islands_filter params), layer_z := layer.slice_z },
    ?_, rfl, by simp, ?_⟩
  · unfold reckon_islands
    simp only [hacc]
  · intro i island hi
    have hmem : island ∈ islands := List.get?_mem hi
    have hnd := accumulated_keys_nodup env layer first_layer prev_layer_grid layer_lines
      islands grid hacc island hmem
    have hfin := accumulated_areas_finite env layer first_layer prev_layer_grid layer_lines
      islands grid a hacc hpa island hmem
    refine ⟨reckon_islands_filter params island, ?_, rfl, ?_, ?_⟩
    · simp only [List.get?_eq_getElem?, List.getElem?_map] at hi ⊢
      rw [hi]
      rfl
    · intro e he
      rw [filter_connections params island hnd] at he
      obtain ⟨he1, he2⟩ := List.mem_filter.1 he
      refine ⟨he1, ?_⟩
      obtain ⟨q, hq⟩ := hfin e he1
      simp only [hq, hmin, Flt.lt_fin, Bool.not_eq_true', decide_eq_false_iff_not, not_lt] at he2
      rw [hq, hmin, Flt.le_fin]
      exact he2
    · intro e he hle
      rw [filter_connections params island hnd]
      refine List.mem_filter.2 ⟨he, ?_⟩
      obtain ⟨q, hq⟩ := hfin e he
      rw [hq, hmin, Flt.le_fin] at hle
      simp only [hq, hmin, Flt.lt_fin, Bool.not_eq_true', decide_eq_false_iff_not, not_lt]
      exact hle

/-- Witness of C17: one line over three pixels of the previous layer, two of its island 0
and one of its island 1; the connection of area 2 remains, the connection of area 1, which is
below the threshold 1.5, is erased. -/
theorem connection_pruning_witness :
    ∃ islands grid result,
      reckon_islands_accumulated env0 layer_strip false grid_two_islands lines_strip
        = some (islands, grid) ∧
      islands.map (fun island => island.connected_islands.map fun e => (e.1, e.2.area))
        = [[(0, fin 2), (1, fin 1)]] ∧
      reckon_islands env0 layer_strip false grid_two_islands lines_strip params0
        = some (result, grid) ∧
      result.islands.map (fun island => island.connected_islands.map fun e => (e.1, e.2.area))
        = [[(0, fin 2)]] := by
  obtain ⟨r, hr⟩ := Option.isSome_iff_exists.1
    (by decide! : (reckon_islands_accumulated env0 layer_strip false grid_two_islands
      lines_strip).isSome = true)
  have h1 : (reckon_islands_accumulated env0 layer_strip false grid_two_islands
      lines_strip).map (fun r => (r.2.pixel_area,
        r.1.map fun island => island.connected_islands.map fun e => (e.1, e.2.area)))
      = some (fin 1, [[(0, fin 2), (1, fin 1)]]) := by decide!
  have h2 : (reckon_islands env0 layer_strip false grid_two_islands lines_strip params0).map
      (fun r => r.1.islands.map fun island => island.connected_islands.map fun e =>
        (e.1, e.2.area)) = some [[(0, fin 2)]] := by decide!
  rw [hr] at h1
  simp only [Option.map_some', Option.some.injEq, Prod.mk.injEq] at h1
  obtain ⟨result, hres, -⟩ := connection_pruning env0 layer_strip false grid_two_islands
    lines_strip params0 r.1 r.2 1 (3 / 2) hr h1.1 rfl
  rw [hres] at h2
  simp only [Option.map_some', Option.some.injEq] at h2
  exact ⟨r.1, r.2, result, hr, h1.2, hres, h2⟩

/-! ### C12: conservation of the connection area -/

theorem connections_area_update (cc : Vec2f) (layer_z pixel_area : Flt) (key : Nat)
    (m : List (Nat × IslandConnection)) :
    connections_area (connection_update (add_pixel cc layer_z pixel_area) key m)
      = connections_area m + pixel_area := by
  induction m with
  | nil =>
    simp only [connection_update, connections_area, List.map_cons, List.map_nil, List.sum_cons,
      List.sum_nil, add_zero, zero_add]
    show (0 : Flt) + pixel_area = pixel_area
    exact zero_add _
  | cons entry rest ih =>
    rw [connection_update]
    split_ifs with hk
    · simp only [connections_area, List.map_cons, List.sum_cons]
      show entry.2.area + pixel_area + _ = entry.2.area + _ + pixel_area
      exact add_right_comm _ _ _
    · simp only [connections_area, List.map_cons, List.sum_cons] at ih ⊢
      rw [ih, add_assoc]

theorem sum_map_set (g : Island → Flt) (d : Flt) (island island2 : Island)
    (hg : g island2 = g island + d) :
    ∀ (islands : List Island) (i : Nat), islands.get? i = some island →
      ((islands.set i island2).map g).sum = (islands.map g).sum + d := by
  intro islands
  induction islands with
  | nil => intro i hi; cases hi
  | cons first rest ih =>
    intro i hi
    cases i with
    | zero =>
      simp only [List.get?_cons_zero, Option.some.injEq] at hi
      subst hi
      simp only [List.set_cons_zero, List.map_cons, List.sum_cons, hg]
      exact add_right_comm _ _ _
    | succ n =>
      simp only [List.get?_cons_succ] at hi
      simp only [List.set_cons_succ, List.map_cons, List.sum_cons, ih n hi, add_assoc]

theorem connect_step_area (current_layer_grid prev_layer_grid : PixelGrid) (layer_z : Flt)
    (islands : List Island) (c : Nat × Nat)
    (hov : current_layer_grid.overlap prev_layer_grid c = true)
    (hvalid : ∃ current, current_layer_grid.get_pixel (c.1, c.2) = some current ∧
      current < islands.length) :
    islands_area (connect_step current_layer_grid prev_layer_grid layer_z islands c)
      = islands_area islands + current_layer_grid.pixel_area := by
  obtain ⟨current, hc, hlt⟩ := hvalid
  unfold PixelGrid.overlap at hov
  rw [hc] at hov
  cases hp : prev_layer_grid.get_pixel ((c.1 : Int), (c.2 : Int)) with
  | none => rw [hp] at hov; simp at hov
  | some previous =>
    obtain ⟨island, hi⟩ : ∃ island, islands.get? current = some island :=
      ⟨islands.get ⟨current, hlt⟩, List.get?_eq_get hlt⟩
    simp only [connect_step, hc, hp, Option.getD_some, hi, islands_area]
    exact sum_map_set _ _ island _ (connections_area_update _ _ _ _ _) islands current hi

theorem foldl_connect_step_area (current_layer_grid prev_layer_grid : PixelGrid)
    (layer_z : Flt) (cs : List (Nat × Nat)) :
    ∀ islands : List Island,
      (∀ c ∈ cs, current_layer_grid.overlap prev_layer_grid c = true ∧
        ∃ current, current_layer_grid.get_pixel (c.1, c.2) = some current ∧
          current < islands.length) →
      islands_area (cs.foldl (connect_step current_layer_grid prev_layer_grid layer_z) islands)
        = islands_area islands + cs.length • current_layer_grid.pixel_area := by
  induction cs with
  | nil =>
    intro islands _
    simp only [List.foldl_nil, List.length_nil, zero_smul, add_zero]
  | cons c rest ih =>
    intro islands h
    rw [List.foldl_cons, ih, connect_step_area _ _ _ _ _ (h c (List.mem_cons_self _ _)).1
      (h c (List.mem_cons_self _ _)).2, List.length_cons, succ_nsmul, add_assoc,
      add_comm (current_layer_grid.pixel_area)]
    intro c2 hc2
    obtain ⟨h1, current, h2, h3⟩ := h c2 (List.mem_cons_of_mem _ hc2)
    exact ⟨h1, current, h2, by rw [connect_step_length]; exact h3⟩

theorem nsmul_fin (n : Nat) (a : ℚ) : n • (fin a) = fin (n * a) := by
  induction n with
  | zero => simp only [zero_smul, Nat.cast_zero, zero_mul]; rfl
  | succ n ih =>
    rw [succ_nsmul, ih]
    show fin (n * a + a) = _
    push_cast
    ring_nf

theorem islands_area_empty (islands : List Island)
    (h : ∀ island ∈ islands, island.connected_islands = []) : islands_area islands = 0 := by
  induction islands with
  | nil => rfl
  | cons first rest ih =>
    simp only [islands_area, List.map_cons, List.sum_cons] at ih ⊢
    rw [ih (fun island hi => h island (List.mem_cons_of_mem _ hi)),
      h first (List.mem_cons_self _ _)]
    simp [connections_area]

/-- C12 (connectivity conservation).  In the state of `reckon_islands` before its last loop,
the sum of the areas of all connections of all islands is the pixel area added once for every
pixel that is non-empty in both grids; the number of those pixels is at most the number of
non-empty pixels of the grid of the current layer; so, for a finite non-negative pixel area,
the total connection area is the pixel area times the number of pixels non-empty in both grids
and is at most the pixel area times the number of non-empty pixels of the current grid. -/
theorem connectivity_conservation (env : Env) (layer : Layer) (first_layer : Bool)
    (prev_layer_grid : PixelGrid) (layer_lines : List ExtrusionLine) (islands : List Island)
    (grid : PixelGrid)
    (hacc : reckon_islands_accumulated env layer first_layer prev_layer_grid layer_lines
      = some (islands, grid)) :
    islands_area islands
      = (grid.coords.filter (grid.overlap prev_layer_grid)).length • grid.pixel_area ∧
    (grid.coords.filter (grid.overlap prev_layer_grid)).length
      ≤ (grid.coords.filter grid.covered).length ∧
    ∀ a : ℚ, grid.pixel_area = fin a → 0 ≤ a →
      islands_area islands
        = grid.pixel_area * fin (grid.coords.filter (grid.overlap prev_layer_grid)).length ∧
      islands_area islands ≤ grid.pixel_area * fin (grid.coords.filter grid.covered).length := by
  obtain ⟨islands0, h0, hfold, hvalid⟩ := accumulated_fold env layer first_layer
    prev_layer_grid layer_lines islands grid hacc
  have harea : islands_area islands
      = (grid.coords.filter (grid.overlap prev_layer_grid)).length • grid.pixel_area := by
    rw [hfold, foldl_connect_step_area grid prev_layer_grid layer.slice_z _ islands0
      (fun c hc => ⟨by simpa using (List.mem_filter.1 hc).2, hvalid c hc⟩),
      islands_area_empty islands0 h0, zero_add]
  have hle : (grid.coords.filter (grid.overlap prev_layer_grid)).length
      ≤ (grid.coords.filter grid.covered).length := by
    apply List.Sublist.length_le
    apply List.monotone_filter_right
    intro c hc
    unfold PixelGrid.overlap at hc
    unfold PixelGrid.covered
    cases hg : grid.get_pixel ((c.1 : Int), (c.2 : Int)) with
    | none => rw [hg] at hc; simp at hc
    | some value =>
      rw [hg] at hc
      cases hp : prev_layer_grid.get_pixel ((c.1 : Int), (c.2 : Int)) with
      | none => rw [hp] at hc; simp at hc
      | some previous =>
        rw [hp] at hc
        simp only [Bool.and_eq_true] at hc
        exact hc.1
  refine ⟨harea, hle, ?_⟩
  intro a hpa ha
  rw [harea, hpa, nsmul_fin, Flt.mul_fin, Flt.mul_fin, Flt.le_fin]
  refine ⟨by rw [mul_comm], ?_⟩
  rw [mul_comm]
  exact mul_le_mul_of_nonneg_left (by exact_mod_cast hle) ha

/-- Witness of C12: one line over three pixels, two of which are non-empty in the previous
layer: the total connection area is 2 of the covered area 3. -/
theorem connectivity_conservation_witness :
    ∃ islands grid,
      reckon_islands_accumulated env0 layer_strip false grid_partial lines_strip
        = some (islands, grid) ∧
      (grid.coords.filter (grid.overlap grid_partial)).length = 2 ∧
      (grid.coords.filter grid.covered).length = 3 ∧
      islands_area islands = fin 2 ∧
      islands_area islands ≤ grid.pixel_area * fin (grid.coords.filter grid.covered).length := by
  obtain ⟨r, hr⟩ := Option.isSome_iff_exists.1
    (by decide! : (reckon_islands_accumulated env0 layer_strip false grid_partial
      lines_strip).isSome = true)
  have h1 : (reckon_islands_accumulated env0 layer_strip false grid_partial lines_strip).map
      (fun r => (r.2.pixel_area, (r.2.coords.filter (r.2.overlap grid_partial)).length,
        (r.2.coords.filter r.2.covered).length)) = some (fin 1, 2, 3) := by decide!
  rw [hr] at h1
  simp only [Option.map_some', Option.some.injEq, Prod.mk.injEq] at h1
  obtain ⟨hpa, hn, hk⟩ := h1
  obtain ⟨-, -, hfin⟩ := connectivity_conservation env0 layer_strip false grid_partial
    lines_strip r.1 r.2 hr
  obtain ⟨heq, hle⟩ := hfin 1 hpa (by norm_num)
  refine ⟨r.1, r.2, hr, hn, hk, ?_, hle⟩
  rw [heq, hpa, hn]
  decide!

/-! ### C11: stacked identical footprints -/

theorem connect_pixel_length (current_layer_grid prev_layer_grid : PixelGrid) (layer_z : Flt)
    (islands islands2 : List Island) (x y : Nat)
    (h : reckon_islands_connect_pixel current_layer_grid prev_layer_grid layer_z islands x y
      = some islands2) : islands2.length = islands.length := by
  rcases connect_pixel_cases current_layer_grid prev_layer_grid layer_z islands islands2 x y h
    with ⟨-, he⟩ | ⟨-, -, he⟩
  · rw [he]
  · rw [he, connect_step_length]

/-- The pixel body returns when both pixels are defined and a pixel non-empty in both grids
names an island of the list. -/
theorem connect_pixel_total (current_layer_grid prev_layer_grid : PixelGrid) (layer_z : Flt)
    (islands : List Island) (x y : Nat)
    (h : ∃ a b, current_layer_grid.get_pixel ((x : Int), (y : Int)) = some a ∧
      prev_layer_grid.get_pixel ((x : Int), (y : Int)) = some b ∧
      (a ≠ NULL_ISLAND → b ≠ NULL_ISLAND → a < islands.length)) :
    ∃ islands2, reckon_islands_connect_pixel current_layer_grid prev_layer_grid layer_z
      islands x y = some islands2 := by
  obtain ⟨a, b, ha, hb, hv⟩ := h
  unfold reckon_islands_connect_pixel
  simp only [ha, hb]
  by_cases h1 : a = NULL_ISLAND
  · simp [h1]
  · by_cases h2 : b = NULL_ISLAND
    · simp [h1, h2]
    · obtain ⟨island, hi⟩ : ∃ island, islands.get? a = some island :=
        ⟨islands.get ⟨a, hv h1 h2⟩, List.get?_eq_get _⟩
      simp only [ne_eq, h1, not_false_eq_true, if_true, h2, hi]
      exact ⟨_, rfl⟩

theorem connect_column_total (current_layer_grid prev_layer_grid : PixelGrid) (layer_z : Flt)
    (x : Nat) (ys : List Nat) :
    ∀ islands : List Island,
      (∀ y ∈ ys, ∃ a b, current_layer_grid.get_pixel ((x : Int), (y : Int)) = some a ∧
        prev_layer_grid.get_pixel ((x : Int), (y : Int)) = some b ∧
        (a ≠ NULL_ISLAND → b ≠ NULL_ISLAND → a < islands.length)) →
      ∃ islands2, reckon_islands_connect_column current_layer_grid prev_layer_grid layer_z x
        ys islands = some islands2 ∧ islands2.length = islands.length := by
  induction ys with
  | nil => intro islands _; exact ⟨islands, rfl, rfl⟩
  | cons y rest ih =>
    intro islands h
    obtain ⟨islands1, h1⟩ := connect_pixel_total current_layer_grid prev_layer_grid layer_z
      islands x y (h y (List.mem_cons_self _ _))
    have hlen := connect_pixel_length _ _ _ _ _ _ _ h1
    obtain ⟨islands2, h2, hlen2⟩ := ih islands1 (fun y2 hy2 => by
      obtain ⟨a, b, ha, hb, hv⟩ := h y2 (List.mem_cons_of_mem _ hy2)
      exact ⟨a, b, ha, hb, fun p q => hlen ▸ hv p q⟩)
    refine ⟨islands2, ?_, hlen2.trans hlen⟩
    rw [reckon_islands_connect_column]
    simp only [h1, h2]

theorem connect_columns_total (current_layer_grid prev_layer_grid : PixelGrid) (layer_z : Flt)
    (ys : List Nat) (xs : List Nat) :
    ∀ islands : List Island,
      (∀ x ∈ xs, ∀ y ∈ ys, ∃ a b,
        current_layer_grid.get_pixel ((x : Int), (y : Int)) = some a ∧
        prev_layer_grid.get_pixel ((x : Int), (y : Int)) = some b ∧
        (a ≠ NULL_ISLAND → b ≠ NULL_ISLAND → a < islands.length)) →
      ∃ islands2, reckon_islands_connect_columns current_layer_grid prev_layer_grid layer_z
        ys xs islands = some islands2 ∧ islands2.length = islands.length := by
  induction xs with
  | nil => intro islands _; exact ⟨islands, rfl, rfl⟩
  | cons x rest ih =>
    intro islands h
    obtain ⟨islands1, h1, hlen⟩ := connect_column_total current_layer_grid prev_layer_grid
      layer_z x ys islands (h x (List.mem_cons_self _ _))
    obtain ⟨islands2, h2, hlen2⟩ := ih islands1 (fun x2 hx2 y hy => by
      obtain ⟨a, b, ha, hb, hv⟩ := h x2 (List.mem_cons_of_mem _ hx2) y hy
      exact ⟨a, b, ha, hb, fun p q => hlen ▸ hv p q⟩)
    refine ⟨islands2, ?_, hlen2.trans hlen⟩
    rw [reckon_islands_connect_columns]
    simp only [h1, h2]

theorem mem_pixel_coords (xs ys : List Nat) (x y : Nat) :
    (x, y) ∈ pixel_coords xs ys ↔ x ∈ xs ∧ y ∈ ys := by
  simp only [pixel_coords, List.mem_flatMap, List.mem_map, Prod.mk.injEq]
  constructor
  · rintro ⟨x2, hx2, y2, hy2, rfl, rfl⟩
    exact ⟨hx2, hy2⟩
  · rintro ⟨hx, hy⟩
    exact ⟨x, hx, y, hy, rfl, rfl⟩

/-- Updates of one key of an empty connection map make a map with that key only. -/
theorem foldl_update_single {α : Type} (f : α → IslandConnection → IslandConnection)
    (key : Nat) (cs : List α) :
    ∀ conn : IslandConnection,
      cs.foldl (fun m c => connection_update (f c) key m) [(key, conn)]
        = [(key, cs.foldl (fun conn c => f c conn) conn)] := by
  induction cs with
  | nil => intro conn; rfl
  | cons c rest ih =>
    intro conn
    simp only [List.foldl_cons, connection_update, if_true]
    exact ih _

theorem foldl_update_empty {α : Type} (f : α → IslandConnection → IslandConnection)
    (key : Nat) (cs : List α) (hne : cs ≠ []) :
    cs.foldl (fun m c => connection_update (f c) key m) []
      = [(key, cs.foldl (fun conn c => f c conn) {})] := by
  cases cs with
  | nil => exact absurd rfl hne
  | cons c rest =>
    simp only [List.foldl_cons, connection_update]
    exact foldl_update_single f key rest _

/-- The pixel loops over pixels that all belong to island 0 of the current layer and to the
island `previous` of the previous layer, for a layer of one island. -/
theorem foldl_connect_step_single (current_layer_grid prev_layer_grid : PixelGrid)
    (layer_z : Flt) (previous : Nat) (cs : List (Nat × Nat)) :
    ∀ island : Island,
      (∀ c ∈ cs, current_layer_grid.get_pixel (c.1, c.2) = some 0 ∧
        prev_layer_grid.get_pixel (c.1, c.2) = some previous) →
      cs.foldl (connect_step current_layer_grid prev_layer_grid layer_z) [island]
        = [{ island with
             connected_islands :=
               cs.foldl (fun m c => connection_update
                 (add_pixel (current_layer_grid.get_pixel_center (c.1, c.2)) layer_z
                   current_layer_grid.pixel_area) previous m) island.connected_islands }] := by
  induction cs with
  | nil => intro island _; rfl
  | cons c rest ih =>
    intro island h
    obtain ⟨hc, hp⟩ := h c (List.mem_cons_self _ _)
    rw [List.foldl_cons, List.foldl_cons]
    have hstep : connect_step current_layer_grid prev_layer_grid layer_z [island] c
        = [{ island with
             connected_islands := connection_update
               (add_pixel (current_layer_grid.get_pixel_center (c.1, c.2)) layer_z
                 current_layer_grid.pixel_area) previous island.connected_islands }] := by
      simp only [connect_step, hc, hp, Option.getD_some, List.get?_cons_zero, List.set_cons_zero]
    rw [hstep, ih _ (fun c2 hc2 => h c2 (List.mem_cons_of_mem _ hc2))]

theorem foldl_add_pixel {α : Type} (g : α → Vec2f) (layer_z pixel_area : Flt) (cs : List α) :
    ∀ conn : IslandConnection,
      (cs.foldl (fun conn c => add_pixel (g c) layer_z pixel_area conn) conn).area
        = conn.area + cs.length • pixel_area ∧
      (cs.foldl (fun conn c => add_pixel (g c) layer_z pixel_area conn) conn).centroid_accumulator
        = conn.centroid_accumulator
          + (cs.map fun c => (to_3d (g c) layer_z).scale pixel_area).sum := by
  induction cs with
  | nil =>
    intro conn
    constructor <;>
      simp only [List.foldl_nil, List.length_nil, zero_smul, add_zero, List.map_nil,
        List.sum_nil]
  | cons c rest ih =>
    intro conn
    obtain ⟨h1, h2⟩ := ih (add_pixel (g c) layer_z pixel_area conn)
    rw [List.foldl_cons, h1, h2]
    constructor
    · simp only [add_pixel, List.length_cons, succ_nsmul, add_assoc,
        add_comm pixel_area]
    · simp only [add_pixel, List.map_cons, List.sum_cons, add_assoc]

theorem sum_fin3 (l : List (ℚ × ℚ × ℚ)) :
    (l.map fun t => (⟨fin t.1, fin t.2.1, fin t.2.2⟩ : Vec3f)).sum
      = ⟨fin (l.map fun t => t.1).sum, fin (l.map fun t => t.2.1).sum,
         fin (l.map fun t => t.2.2).sum⟩ := by
  induction l with
  | nil => rfl
  | cons t rest ih =>
    simp only [List.map_cons, List.sum_cons, ih]
    rfl

theorem get_pixel_center_fin (grid : PixelGrid) (ox oy sx sy : ℚ)
    (horigin : grid.origin = ⟨fin ox, fin oy⟩) (hsize : grid.pixel_size = ⟨fin sx, fin sy⟩)
    (x y : Nat) :
    grid.get_pixel_center ((x : Int), (y : Int))
      = ⟨fin (ox + x * sx + sx / 2), fin (oy + y * sy + sy / 2)⟩ := by
  simp only [PixelGrid.get_pixel_center, horigin, hsize, Vec2f.cwiseProduct, Flt.ofInt,
    Vec2f.mk_add_mk, Flt.mul_fin, Flt.add_fin, Flt.div_fin, Int.cast_natCast]
  norm_num

theorem le_not_lt {a b : Flt} (h : a ≤ b) : ¬ b < a := by
  intro hlt
  rcases h with h | h
  · exact Flt.lt_asymm h hlt
  · have h2 : Flt.feq a b = true := h
    have h3 : Flt.lt b a = true := hlt
    cases a <;> cases b <;> simp [Flt.feq, Flt.lt] at h2 h3
    rw [h2] at h3
    exact lt_irrefl _ h3

theorem divs_fin3 (a b c d : ℚ) (hd : d ≠ 0) :
    (⟨fin a, fin b, fin c⟩ : Vec3f).divs (fin d) = ⟨fin (a / d), fin (b / d), fin (c / d)⟩ := by
  simp only [Vec3f.divs, Flt.div_fin, hd, if_false]

/-- C11 (stacked identical footprints).  Let the layer have a single island and let every
pixel of the grid be either non-empty in both grids (island 0 of the current layer, the island
`previous` of the previous layer) or empty in both, with at least one non-empty pixel; let
the grid geometry and the layer height be finite with a non-zero pixel area.  If the covered
area, the pixel area times the number of non-empty pixels, is at least
`connections_min_considerable_area`, then `reckon_islands` returns the island with exactly one
connection, keyed by `previous`, whose area is the covered area and whose centroid
(`centroid_accumulator / area`) is the mean of the centers of the non-empty pixels at the
height `slice_z` of the layer. -/
theorem stacked_footprints (env : Env) (layer : Layer) (first_layer : Bool)
    (prev_layer_grid : PixelGrid) (layer_lines : List ExtrusionLine) (params : Params)
    (island : Island) (mapping : List Nat) (grid : PixelGrid) (previous : Nat)
    (ox oy sx sy z : ℚ)
    (hislands : reckon_islands_islands env layer first_layer layer_lines
      = some ([island], mapping))
    (hraster : reckon_islands_rasterize env layer_lines mapping prev_layer_grid.clear
      = some grid)
    (hprevious : previous ≠ NULL_ISLAND)
    (hsame : ∀ c ∈ grid.coords,
      (grid.get_pixel (c.1, c.2) = some 0 ∧
        prev_layer_grid.get_pixel (c.1, c.2) = some previous) ∨
      (grid.get_pixel (c.1, c.2) = some NULL_ISLAND ∧
        prev_layer_grid.get_pixel (c.1, c.2) = some NULL_ISLAND))
    (hne : grid.coords.filter grid.covered ≠ [])
    (horigin : grid.origin = ⟨fin ox, fin oy⟩) (hsize : grid.pixel_size = ⟨fin sx, fin sy⟩)
    (hpos : sx * sy ≠ 0) (hz : layer.slice_z = fin z)
    (hmin : params.connections_min_considerable_area
      ≤ grid.pixel_area * fin (grid.coords.filter grid.covered).length) :
    ∃ conn : IslandConnection,
      reckon_islands env layer first_layer prev_layer_grid layer_lines params
        = some ({ islands := [{ island with connected_islands := [(previous, conn)] }]
                  layer_z := layer.slice_z }, grid) ∧
      conn.area = grid.pixel_area * fin (grid.coords.filter grid.covered).length ∧
      conn.centroid_accumulator.divs conn.area
        = ((grid.coords.filter grid.covered).map fun c =>
            to_3d (grid.get_pixel_center (c.1, c.2)) layer.slice_z).sum.divs
          (fin (grid.coords.filter grid.covered).length) := by
  have hnull : (0 : Nat) ≠ NULL_ISLAND := by decide
  -- the pixels non-empty in both grids are the non-empty pixels
  have hov : grid.coords.filter (grid.overlap prev_layer_grid)
      = grid.coords.filter grid.covered := by
    apply List.filter_congr
    intro c hc
    rcases hsame c hc with ⟨h1, h2⟩ | ⟨h1, h2⟩
    · simp [PixelGrid.overlap, PixelGrid.covered, h1, h2, hprevious, hnull]
    · simp [PixelGrid.overlap, PixelGrid.covered, h1, h2]
  have hP : ∀ c ∈ grid.coords.filter grid.covered,
      grid.get_pixel (c.1, c.2) = some 0 ∧
        prev_layer_grid.get_pixel (c.1, c.2) = some previous := by
    intro c hc
    obtain ⟨hc1, hc2⟩ := List.mem_filter.1 hc
    rcases hsame c hc1 with h | ⟨h1, -⟩
    · exact h
    · simp [PixelGrid.covered, h1] at hc2
  -- the pixel loops return
  obtain ⟨islands2, hconn, -⟩ := connect_columns_total grid prev_layer_grid layer.slice_z
    (List.range (size_t_of_int grid.get_pixel_count.2))
    (List.range (size_t_of_int grid.get_pixel_count.1)) [island] (by
      intro x hx y hy
      have hmem : (x, y) ∈ grid.coords := (mem_pixel_coords _ _ x y).2 ⟨hx, hy⟩
      rcases hsame (x, y) hmem with ⟨h1, h2⟩ | ⟨h1, h2⟩
      · exact ⟨0, previous, h1, h2, fun _ _ => by simp⟩
      · exact ⟨NULL_ISLAND, NULL_ISLAND, h1, h2, fun h _ => absurd rfl h⟩)
  obtain ⟨hfold, -⟩ := connect_columns_fold grid prev_layer_grid layer.slice_z _ _ _ _ hconn
  have hcoords : pixel_coords (List.range (size_t_of_int grid.get_pixel_count.1))
      (List.range (size_t_of_int grid.get_pixel_count.2)) = grid.coords := rfl
  have h0 : island.connected_islands = [] :=
    islands_connections env layer first_layer layer_lines [island] mapping hislands island
      (List.mem_singleton.2 rfl)
  rw [hcoords, hov, foldl_connect_step_single grid prev_layer_grid layer.slice_z previous _
    island hP, h0, foldl_update_empty _ previous _ hne] at hfold
  obtain ⟨harea, hcentroid⟩ := foldl_add_pixel
    (fun c : Nat × Nat => grid.get_pixel_center (c.1, c.2)) layer.slice_z grid.pixel_area
    (grid.coords.filter grid.covered) {}
  have hpa : grid.pixel_area = fin (sx * sy) := by
    simp only [PixelGrid.pixel_area, hsize, Flt.mul_fin]
  have harea2 : ((grid.coords.filter grid.covered).foldl
      (fun conn c => add_pixel (grid.get_pixel_center (c.1, c.2)) layer.slice_z
        grid.pixel_area conn) {}).area
      = grid.pixel_area * fin (grid.coords.filter grid.covered).length := by
    rw [harea, hpa, nsmul_fin, Flt.mul_fin, mul_comm]
    show (0 : Flt) + _ = _
    exact zero_add _
  refine ⟨_, ?_, harea2, ?_⟩
  · -- the last loop erases nothing
    unfold reckon_islands reckon_islands_accumulated
    simp only [hislands, hraster, reckon_islands_connect, hconn, hfold, List.map_cons,
      List.map_nil]
    have hkeep : ¬ (((grid.coords.filter grid.covered).foldl
        (fun conn c => add_pixel (grid.get_pixel_center (c.1, c.2)) layer.slice_z
          grid.pixel_area conn) {}).area < params.connections_min_considerable_area) := by
      rw [harea2]
      exact le_not_lt hmin
    simp only [reckon_islands_filter, List.filter_cons, hkeep, decide_False,
      Bool.false_eq_true, if_false, List.filter_nil, List.map_nil, List.foldl_nil]
  · -- the centroid
    have hn : ((grid.coords.filter grid.covered).length : ℚ) ≠ 0 := by
      have : (grid.coords.filter grid.covered).length ≠ 0 := by
        intro h
        exact hne (List.length_eq_zero.1 h)
      exact_mod_cast this
    have hvec : ∀ c : Nat × Nat,
        to_3d (grid.get_pixel_center (c.1, c.2)) layer.slice_z
          = ⟨fin (ox + c.1 * sx + sx / 2), fin (oy + c.2 * sy + sy / 2), fin z⟩ := by
      intro c
      rw [get_pixel_center_fin grid ox oy sx sy horigin hsize, hz]
      rfl
    have hleft : ((grid.coords.filter grid.covered).map fun c =>
        (to_3d (grid.get_pixel_center (c.1, c.2)) layer.slice_z).scale grid.pixel_area)
        = ((grid.coords.filter grid.covered).map fun c : Nat × Nat =>
            (((ox + c.1 * sx + sx / 2) * (sx * sy), (oy + c.2 * sy + sy / 2) * (sx * sy),
              z * (sx * sy)) : ℚ × ℚ × ℚ)).map
          fun t => (⟨fin t.1, fin t.2.1, fin t.2.2⟩ : Vec3f) := by
      rw [List.map_map]
      apply List.map_congr_left
      intro c _
      simp only [hvec, hpa, Vec3f.scale, Flt.mul_fin, Function.comp]
    have hright : ((grid.coords.filter grid.covered).map fun c =>
        to_3d (grid.get_pixel_center (c.1, c.2)) layer.slice_z)
        = ((grid.coords.filter grid.covered).map fun c : Nat × Nat =>
            ((ox + c.1 * sx + sx / 2, oy + c.2 * sy + sy / 2, z) : ℚ × ℚ × ℚ)).map
          fun t => (⟨fin t.1, fin t.2.1, fin t.2.2⟩ : Vec3f) := by
      rw [List.map_map]
      apply List.map_congr_left
      intro c _
      simp only [hvec, Function.comp]
    have hz0 : ∀ v : Vec3f, ({} : IslandConnection).centroid_accumulator + v = v :=
      fun v => zero_add v
    have hna : (sx * sy) * ((grid.coords.filter grid.covered).length : ℚ) ≠ 0 :=
      mul_ne_zero hpos hn
    rw [hcentroid, hz0, harea2, hleft, hright, sum_fin3, sum_fin3, hpa, Flt.mul_fin,
      divs_fin3 _ _ _ _ hna, divs_fin3 _ _ _ _ hn]
    simp only [List.map_map, Function.comp_def]
    congr 1 <;>
      (congr 1
       rw [List.sum_map_mul_right]
       field_simp
       ring)

/-- Witness of C11: the line of `lines_strip` printed right above a previous layer with the
same footprint of three pixels: one connection of area 3 with centroid (2.5, 0.5) at the
height 0.4 of the layer. -/
theorem stacked_footprints_witness :
    ∃ (island : Island) (conn : IslandConnection),
      reckon_islands env0 layer_strip false grid_stacked lines_strip params0
        = some ({ islands := [{ island with connected_islands := [(0, conn)] }]
                  layer_z := layer_strip.slice_z }, grid_stacked) ∧
      conn.area = fin 3 ∧
      conn.centroid_accumulator.divs conn.area = ⟨fin (5 / 2), fin (1 / 2), fin (2 / 5)⟩ := by
  obtain ⟨r, hr⟩ := Option.isSome_iff_exists.1
    (by decide! : (reckon_islands_islands env0 layer_strip false lines_strip).isSome = true)
  have hshape : (reckon_islands_islands env0 layer_strip false lines_strip).map
      (fun r => (r.1.length, r.2)) = some (1, [0]) := by decide!
  rw [hr] at hshape
  simp only [Option.map_some', Option.some.injEq, Prod.mk.injEq] at hshape
  obtain ⟨island, hisland⟩ := List.length_eq_one.1 hshape.1
  have hislands : reckon_islands_islands env0 layer_strip false lines_strip
      = some ([island], [0]) := by
    rw [hr, ← hisland, ← hshape.2]
  obtain ⟨conn, hres, harea, hcentroid⟩ := stacked_footprints env0 layer_strip false
    grid_stacked lines_strip params0 island [0] grid_stacked 0 0 0 1 1 (2 / 5) hislands
    (by decide!) (by decide) (by decide!) (by decide!) rfl rfl (by norm_num) rfl (by decide!)
  refine ⟨island, conn, hres, ?_, ?_⟩
  · rw [harea]
    decide!
  · rw [hcentroid]
    decide!


/-! ### C13: extrusions, islands and their lines -/

/-- The extrusions found by the first loop of `reckon_islands` are non-empty ranges that
follow one another. -/
theorem extrusions_ordered (layer_lines : List ExtrusionLine) :
    ∀ (lidx : Nat) (current_ex : Option EntityRef) (extrusions result : List (Nat × Nat)),
      extrusions.Pairwise (fun p q => p.2 ≤ q.1) →
      (∀ p ∈ extrusions, p.1 < p.2 ∧ p.2 ≤ lidx) →
      reckon_islands_extrusions layer_lines lidx current_ex extrusions = some result →
      result.Pairwise (fun p q => p.2 ≤ q.1) ∧ ∀ p ∈ result, p.1 < p.2 := by
  induction layer_lines with
  | nil =>
    intro lidx current_ex extrusions result hpw hb h
    simp only [reckon_islands_extrusions, Option.some.injEq] at h
    subst h
    exact ⟨hpw, fun p hp => (hb p hp).1⟩
  | cons line rest ih =>
    intro lidx current_ex extrusions result hpw hb h
    rw [reckon_islands_extrusions] at h
    split_ifs at h with heq
    · cases hlast : extrusions.getLast? with
      | none => simp only [hlast] at h; cases h
      | some back =>
        simp only [hlast] at h
        have hsplit : extrusions = extrusions.dropLast ++ [back] := by
          have := List.dropLast_append_getLast? back hlast
          exact this.symm
        have hpw2 := hpw
        rw [hsplit, List.pairwise_append] at hpw2
        obtain ⟨hpwd, -, hcross⟩ := hpw2
        have hback : back ∈ extrusions := by
          rw [hsplit]; simp
        refine ih (lidx + 1) current_ex _ result ?_ ?_ h
        · rw [List.pairwise_append]
          refine ⟨hpwd, List.pairwise_singleton _ _, ?_⟩
          intro p hp q hq
          rw [List.mem_singleton] at hq
          subst hq
          exact hcross p hp back (List.mem_singleton.2 rfl)
        · intro p hp
          rcases List.mem_append.1 hp with hp | hp
          · have hp2 : p ∈ extrusions := by
              rw [hsplit]; exact List.mem_append_left _ hp
            exact ⟨(hb p hp2).1, Nat.le_succ_of_le (hb p hp2).2⟩
          · rw [List.mem_singleton] at hp
            subst hp
            have := hb back hback
            exact ⟨by simp only; omega, le_refl _⟩
    · refine ih (lidx + 1) line.origin_entity _ result ?_ ?_ h
      · rw [List.pairwise_append]
        refine ⟨hpw, List.pairwise_singleton _ _, ?_⟩
        intro p hp q hq
        rw [List.mem_singleton] at hq
        subst hq
        exact (hb p hp).2
      · intro p hp
        rcases List.mem_append.1 hp with hp | hp
        · exact ⟨(hb p hp).1, Nat.le_succ_of_le (hb p hp).2⟩
        · rw [List.mem_singleton] at hp
          subst hp
          exact ⟨Nat.lt_succ_self _, le_refl _⟩

/-- A line index lies in the range of at most one extrusion. -/
theorem extrusion_of_line_unique (extrusions : List (Nat × Nat))
    (hpw : extrusions.Pairwise (fun p q => p.2 ≤ q.1))
    (lidx i j : Nat) (p q : Nat × Nat) (hi : extrusions.get? i = some p)
    (hj : extrusions.get? j = some q) (hp : p.1 ≤ lidx ∧ lidx < p.2)
    (hq : q.1 ≤ lidx ∧ lidx < q.2) : i = j := by
  by_contra hij
  rcases Nat.lt_or_gt_of_ne hij with hlt | hlt
  · have := List.pairwise_iff_get.1 hpw ⟨i, (List.get?_eq_some.1 hi).1⟩
      ⟨j, (List.get?_eq_some.1 hj).1⟩ hlt
    rw [(List.get?_eq_some.1 hi).2, (List.get?_eq_some.1 hj).2] at this
    omega
  · have := List.pairwise_iff_get.1 hpw ⟨j, (List.get?_eq_some.1 hj).1⟩
      ⟨i, (List.get?_eq_some.1 hi).1⟩ hlt
    rw [(List.get?_eq_some.1 hi).2, (List.get?_eq_some.1 hj).2] at this
    omega

theorem countP_zipWith_other {α : Type} (pred : α → Bool) (idx e : Nat) (hne : e ≠ idx) :
    ∀ (islands : List α) (ie : List (List Nat)),
      (List.zipWith (fun island island_ex => if pred island = true then island_ex ++ [idx]
          else island_ex) islands ie).countP (fun ex => decide (e ∈ ex))
        ≤ ie.countP (fun ex => decide (e ∈ ex)) := by
  intro islands
  induction islands with
  | nil => intro ie; simp
  | cons island rest ih =>
    intro ie
    cases ie with
    | nil => simp
    | cons ex ie_rest =>
      simp only [List.zipWith_cons_cons, List.countP_cons]
      have hmem : decide (e ∈ (if pred island = true then ex ++ [idx] else ex))
          = decide (e ∈ ex) := by
        split_ifs
        · simp [hne]
        · rfl
      rw [hmem]
      exact Nat.add_le_add_right (ih ie_rest) _

theorem countP_zipWith_new {α : Type} (pred : α → Bool) (idx : Nat) :
    ∀ (islands : List α) (ie : List (List Nat)), (∀ ex ∈ ie, idx ∉ ex) →
      (List.zipWith (fun island island_ex => if pred island = true then island_ex ++ [idx]
          else island_ex) islands ie).countP (fun ex => decide (idx ∈ ex))
        ≤ islands.countP pred := by
  intro islands
  induction islands with
  | nil => intro ie _; simp
  | cons island rest ih =>
    intro ie h
    cases ie with
    | nil => simp
    | cons ex ie_rest =>
      simp only [List.zipWith_cons_cons, List.countP_cons]
      have hrest := ih ie_rest (fun ex2 h2 => h ex2 (List.mem_cons_of_mem _ h2))
      have hex : idx ∉ ex := h ex (List.mem_cons_self _ _)
      cases hp : pred island with
      | true => simp only [if_true]; simp; exact hrest
      | false => simp [hex]; exact hrest

theorem zipWith_bound {α : Type} (pred : α → Bool) (idx : Nat) :
    ∀ (islands : List α) (ie : List (List Nat)), (∀ ex ∈ ie, ∀ e ∈ ex, e < idx) →
      ∀ ex ∈ List.zipWith (fun island island_ex => if pred island = true then island_ex ++ [idx]
          else island_ex) islands ie, ∀ e ∈ ex, e < idx + 1 := by
  intro islands
  induction islands with
  | nil => intro ie _ ex hex; simp at hex
  | cons island rest ih =>
    intro ie h ex hex
    cases ie with
    | nil => simp at hex
    | cons ex0 ie_rest =>
      simp only [List.zipWith_cons_cons, List.mem_cons] at hex
      rcases hex with rfl | hex
      · intro e he
        split_ifs at he
        · rcases List.mem_append.1 he with he | he
          · exact Nat.lt_succ_of_lt (h ex0 (List.mem_cons_self _ _) e he)
          · rw [List.mem_singleton] at he
            omega
        · exact Nat.lt_succ_of_lt (h ex0 (List.mem_cons_self _ _) e he)
      · exact ih ie_rest (fun ex2 h2 => h ex2 (List.mem_cons_of_mem _ h2)) ex hex

/-- When the second point of every extrusion is at signed distance `<= 0` from at most one
island, the assignment loop puts every extrusion into at most one island. -/
theorem assign_unique (env : Env) (layer_lines : List ExtrusionLine)
    (islands : List (List Line)) (extrusions : List (Nat × Nat)) :
    ∀ (extrusion_idx : Nat) (ie result : List (List Nat)),
      (∀ extrusion ∈ extrusions, ∀ line, layer_lines.get? extrusion.1 = some line →
        islands.countP (fun island =>
          decide (env.signed_distance_from_lines island (env.new_scale line.b) ≤ fin 0)) ≤ 1) →
      (∀ ex ∈ ie, ∀ e ∈ ex, e < extrusion_idx) →
      (∀ e, ie.countP (fun ex => decide (e ∈ ex)) ≤ 1) →
      reckon_islands_assign env layer_lines islands extrusions extrusion_idx ie = some result →
      ∀ e, result.countP (fun ex => decide (e ∈ ex)) ≤ 1 := by
  induction extrusions with
  | nil =>
    intro extrusion_idx ie result _ _ hc h
    simp only [reckon_islands_assign, Option.some.injEq] at h
    subst h
    exact hc
  | cons extrusion rest ih =>
    intro extrusion_idx ie result hexcl hb hc h
    rw [reckon_islands_assign] at h
    cases hl : layer_lines.get? extrusion.1 with
    | none => simp only [hl] at h; cases h
    | some line =>
      simp only [hl] at h
      have hzip : List.zipWith (fun island island_ex =>
            if env.signed_distance_from_lines island (env.new_scale line.b) ≤ fin 0 then
              island_ex ++ [extrusion_idx] else island_ex) islands ie
          = List.zipWith (fun island island_ex =>
            if (fun island => decide (env.signed_distance_from_lines island
                (env.new_scale line.b) ≤ fin 0)) island = true then
              island_ex ++ [extrusion_idx] else island_ex) islands ie := by
        congr 1
        funext island island_ex
        simp only [decide_eq_true_eq]
      rw [hzip] at h
      refine ih (extrusion_idx + 1) _ result
        (fun ex hex => hexcl ex (List.mem_cons_of_mem _ hex))
        (zipWith_bound _ extrusion_idx islands ie hb) ?_ h
      intro e
      by_cases he : e = extrusion_idx
      · subst he
        exact le_trans (countP_zipWith_new _ e islands ie
          (fun ex hex hmem => Nat.lt_irrefl _ (hb ex hex e hmem)))
          (hexcl extrusion (List.mem_cons_self _ _) line hl)
      · exact le_trans (countP_zipWith_other _ extrusion_idx e he islands ie) (hc e)

theorem segments_volume (line : ExtrusionLine) (flow_width : Flt) (dir : Vec2f) (fuel : Nat) :
    ∀ (d : Flt) (island island2 : Island),
      reckon_islands_segments line flow_width dir fuel d island = some island2 →
      island2.volume = island.volume ∧ island2.sticking_area = island.sticking_area := by
  induction fuel with
  | zero =>
    intro d island island2 h
    rw [reckon_islands_segments] at h
    split_ifs at h
    obtain rfl := Option.some.inj h
    exact ⟨rfl, rfl⟩
  | succ n ih =>
    intro d island island2 h
    rw [reckon_islands_segments] at h
    split_ifs at h
    · simp only [] at h
      have h2 := ih _ _ _ h
      exact h2
    · obtain rfl := Option.some.inj h
      exact ⟨rfl, rfl⟩

theorem add_line_volume (env : Env) (layer : Layer) (first_layer : Bool) (flow_width : Flt)
    (island island2 : Island) (line : ExtrusionLine)
    (h : reckon_islands_add_line env layer first_layer flow_width island line = some island2) :
    island2.volume = island.volume + line_volume env layer flow_width line ∧
    island2.sticking_area
      = island.sticking_area + line_sticking_area first_layer flow_width line := by
  unfold reckon_islands_add_line at h
  simp only [] at h
  unfold line_sticking_area
  split_ifs at h with h1 h2
  · have h3 := segments_volume _ _ _ _ _ _ _ h
    rw [if_pos (by simp [h1])]
    exact h3
  · obtain rfl := Option.some.inj h
    rw [if_pos (by simp [h2])]
    exact ⟨rfl, rfl⟩
  · obtain rfl := Option.some.inj h
    rw [if_neg (by simp [h1, h2])]
    exact ⟨rfl, (add_zero _).symm⟩

theorem add_lines_volume (env : Env) (layer : Layer) (first_layer : Bool) (flow_width : Flt)
    (layer_lines : List ExtrusionLine) (island_number : Nat) (lidxs : List Nat) :
    ∀ (island island2 : Island) (mapping mapping2 : List Nat),
      reckon_islands_add_lines env layer first_layer flow_width layer_lines island_number lidxs
        island mapping = some (island2, mapping2) →
      island2.volume = island.volume + lines_volume env layer flow_width layer_lines lidxs ∧
      island2.sticking_area = island.sticking_area
        + lines_sticking_area first_layer flow_width layer_lines lidxs := by
  induction lidxs with
  | nil =>
    intro island island2 mapping mapping2 h
    simp only [reckon_islands_add_lines, Option.some.injEq, Prod.mk.injEq] at h
    rw [← h.1]
    exact ⟨(add_zero _).symm, (add_zero _).symm⟩
  | cons lidx rest ih =>
    intro island island2 mapping mapping2 h
    rw [reckon_islands_add_lines] at h
    split_ifs at h
    cases hl : layer_lines.get? lidx with
    | none => simp only [hl] at h; cases h
    | some line =>
      simp only [hl] at h
      cases ha : reckon_islands_add_line env layer first_layer flow_width island line with
      | none => simp only [ha] at h; cases h
      | some island1 =>
        simp only [ha] at h
        obtain ⟨h1, h2⟩ := ih _ _ _ _ h
        obtain ⟨h3, h4⟩ := add_line_volume env layer first_layer flow_width island island1 line ha
        simp only [lines_volume, lines_sticking_area, List.map_cons, List.sum_cons, hl,
          Option.map_some', Option.getD_some] at h1 h2 ⊢
        rw [h1, h2, h3, h4, add_assoc, add_assoc]
        exact ⟨rfl, rfl⟩

theorem lines_volume_append (env : Env) (layer : Layer) (flow_width : Flt)
    (layer_lines : List ExtrusionLine) (a b : List Nat) :
    lines_volume env layer flow_width layer_lines (a ++ b)
      = lines_volume env layer flow_width layer_lines a
        + lines_volume env layer flow_width layer_lines b := by
  simp only [lines_volume, List.map_append, List.sum_append]

theorem lines_sticking_area_append (first_layer : Bool) (flow_width : Flt)
    (layer_lines : List ExtrusionLine) (a b : List Nat) :
    lines_sticking_area first_layer flow_width layer_lines (a ++ b)
      = lines_sticking_area first_layer flow_width layer_lines a
        + lines_sticking_area first_layer flow_width layer_lines b := by
  simp only [lines_sticking_area, List.map_append, List.sum_append]

theorem add_extrusions_volume (env : Env) (layer : Layer) (first_layer : Bool)
    (flow_width : Flt) (layer_lines : List ExtrusionLine) (extrusions : List (Nat × Nat))
    (island_number : Nat) (island_ex : List Nat) :
    ∀ (island island2 : Island) (mapping mapping2 : List Nat),
      reckon_islands_add_extrusions env layer first_layer flow_width layer_lines extrusions
        island_number island_ex island mapping = some (island2, mapping2) →
      island2.volume = island.volume + lines_volume env layer flow_width layer_lines
        (island_line_indices extrusions island_ex) ∧
      island2.sticking_area = island.sticking_area
        + lines_sticking_area first_layer flow_width layer_lines
          (island_line_indices extrusions island_ex) := by
  induction island_ex with
  | nil =>
    intro island island2 mapping mapping2 h
    simp only [reckon_islands_add_extrusions, Option.some.injEq, Prod.mk.injEq] at h
    rw [← h.1]
    exact ⟨(add_zero _).symm, (add_zero _).symm⟩
  | cons extrusion_idx rest ih =>
    intro island island2 mapping mapping2 h
    rw [reckon_islands_add_extrusions] at h
    cases he : extrusions.get? extrusion_idx with
    | none => simp only [he] at h; cases h
    | some extrusion =>
      simp only [he] at h
      cases hl : layer_lines.get? extrusion.1 with
      | none => simp only [hl] at h; cases h
      | some first_line =>
        simp only [hl] at h
        cases ho : first_line.origin_entity with
        | none => simp only [ho] at h; cases h
        | some origin_entity =>
          simp only [ho] at h
          split at h
          · cases h
          · rename_i island1 mapping1 hadd
            obtain ⟨h1, h2⟩ := ih _ _ _ _ h
            obtain ⟨h3, h4⟩ := add_lines_volume _ _ _ _ _ _ _ _ _ _ _ hadd
            have hsplit : island_line_indices extrusions (extrusion_idx :: rest)
                = List.range' extrusion.1 (extrusion.2 - extrusion.1)
                  ++ island_line_indices extrusions rest := by
              simp only [island_line_indices, List.flatMap_cons, he]
            rw [hsplit, lines_volume_append, lines_sticking_area_append, h1, h2, h3, h4,
              add_assoc, add_assoc]
            constructor
            · congr 1
              split_ifs <;> rfl
            · congr 1
              split_ifs <;> rfl

/-- The islands that the build loop appends are, in order, those of the non-empty lists of
extrusions; each has accumulated the volume and the sticking area of its own lines. -/
theorem build_volumes (env : Env) (layer : Layer) (first_layer : Bool) (flow_width : Flt)
    (layer_lines : List ExtrusionLine) (extrusions : List (Nat × Nat))
    (island_extrusions : List (List Nat)) :
    ∀ (islands islands2 : List Island) (mapping mapping2 : List Nat),
      reckon_islands_build env layer first_layer flow_width layer_lines extrusions
        island_extrusions islands mapping = some (islands2, mapping2) →
      ∃ new_islands, islands2 = islands ++ new_islands ∧
        List.Forall₂ (fun island_ex island =>
          island.volume = lines_volume env layer flow_width layer_lines
            (island_line_indices extrusions island_ex) ∧
          island.sticking_area = lines_sticking_area first_layer flow_width layer_lines
            (island_line_indices extrusions island_ex))
          (island_extrusions.filter fun island_ex => !island_ex.isEmpty) new_islands := by
  induction island_extrusions with
  | nil =>
    intro islands islands2 mapping mapping2 h
    simp only [reckon_islands_build, Option.some.injEq, Prod.mk.injEq] at h
    exact ⟨[], by simp [h.1], by simp⟩
  | cons island_ex rest ih =>
    intro islands islands2 mapping mapping2 h
    rw [reckon_islands_build] at h
    split_ifs at h with hempty
    · obtain ⟨new_islands, h1, h2⟩ := ih _ _ _ _ h
      exact ⟨new_islands, h1, by simpa [List.filter_cons, hempty] using h2⟩
    · cases ha : reckon_islands_add_extrusions env layer first_layer flow_width layer_lines
          extrusions islands.length island_ex {} mapping with
      | none => simp only [ha] at h; cases h
      | some r =>
        obtain ⟨island1, mapping1⟩ := r
        simp only [ha] at h
        obtain ⟨new_islands, h1, h2⟩ := ih _ _ _ _ h
        obtain ⟨h3, h4⟩ := add_extrusions_volume _ _ _ _ _ _ _ _ _ _ _ _ ha
        refine ⟨island1 :: new_islands, by rw [h1, List.append_assoc]; rfl, ?_⟩
        simp only [List.filter_cons, hempty, Bool.not_false, if_true]
        refine List.Forall₂.cons ⟨?_, ?_⟩ h2
        · rw [h3]
          exact zero_add _
        · rw [h4]
          exact zero_add _

/-- C13 (segment-to-island uniqueness) fails on the code.  For two slices that touch in the
corner (2, 2) and one extrusion run whose second point is that corner, the signed distance is
0 for both slices: the run is assigned to both islands, and both islands of the result
accumulate the volume of its line. -/
theorem run_assigned_to_two_islands :
    reckon_islands_extrusions lines_corner 0 none [] = some [(0, 1)] ∧
    reckon_islands_assign env0 lines_corner layer_touching.lslices [(0, 1)] 0
      (layer_touching.lslices.map fun _ => []) = some [[0], [0]] ∧
    ((reckon_islands_islands env0 layer_touching false lines_corner).map fun r =>
      r.1.map fun island => island.volume) = some [fin (639 / 9040), fin (639 / 9040)] ∧
    lines_corner.map (line_volume env0 layer_touching
      (get_flow_width region0 .erExternalPerimeter)) = [fin (639 / 9040)] := by
  decide!

/-- C13, amended.  When the second point of every extrusion run has a signed distance `<= 0`
from the boundary of at most one slice of the layer, `reckon_islands` assigns every extrusion
run to at most one island, every layer line belongs to the lines of at most one island, and the
islands of the result are, in order, those of the non-empty assignment lists, each having
accumulated as volume and as sticking area the sums over its own lines only. -/
theorem segment_island_uniqueness (env : Env) (layer : Layer) (first_layer : Bool)
    (layer_lines : List ExtrusionLine) (islands : List Island) (mapping : List Nat)
    (extrusions : List (Nat × Nat)) (island_extrusions : List (List Nat))
    (region : LayerRegion) (regions : List LayerRegion)
    (hislands : reckon_islands_islands env layer first_layer layer_lines
      = some (islands, mapping))
    (hext : reckon_islands_extrusions layer_lines 0 none [] = some extrusions)
    (hassign : reckon_islands_assign env layer_lines layer.lslices extrusions 0
      (layer.lslices.map fun _ => []) = some island_extrusions)
    (hregion : layer.regions = region :: regions)
    (hexcl : ∀ extrusion ∈ extrusions, ∀ line, layer_lines.get? extrusion.1 = some line →
      (layer.lslices.filter fun island =>
        env.signed_distance_from_lines island (env.new_scale line.b) ≤ fin 0).length ≤ 1) :
    (∀ extrusion_idx,
      island_extrusions.countP (fun island_ex => decide (extrusion_idx ∈ island_ex)) ≤ 1) ∧
    (∀ lidx, island_extrusions.countP (fun island_ex =>
      decide (lidx ∈ island_line_indices extrusions island_ex)) ≤ 1) ∧
    List.Forall₂ (fun island_ex island =>
      island.volume = lines_volume env layer (get_flow_width region .erExternalPerimeter)
        layer_lines (island_line_indices extrusions island_ex) ∧
      island.sticking_area = lines_sticking_area first_layer
        (get_flow_width region .erExternalPerimeter) layer_lines
        (island_line_indices extrusions island_ex))
      (island_extrusions.filter fun island_ex => !island_ex.isEmpty) islands := by
  have hruns : ∀ extrusion_idx,
      island_extrusions.countP (fun island_ex => decide (extrusion_idx ∈ island_ex)) ≤ 1 := by
    refine assign_unique env layer_lines layer.lslices extrusions 0 _ island_extrusions ?_ ?_ ?_
      hassign
    · intro extrusion hex line hl
      rw [List.countP_eq_length_filter]
      exact hexcl extrusion hex line hl
    · intro ex hex e he
      obtain ⟨_, _, rfl⟩ := List.mem_map.1 hex
      cases he
    · intro e
      have : (layer.lslices.map fun _ => ([] : List Nat)).countP
          (fun ex => decide (e ∈ ex)) = 0 := by
        rw [List.countP_eq_zero]
        intro ex hex
        obtain ⟨_, _, rfl⟩ := List.mem_map.1 hex
        simp
      omega
  obtain ⟨hpw, -⟩ := extrusions_ordered layer_lines 0 none [] extrusions List.Pairwise.nil
    (by simp) hext
  refine ⟨hruns, ?_, ?_⟩
  · intro lidx
    by_cases hany : ∃ ex ∈ island_extrusions, lidx ∈ island_line_indices extrusions ex
    · obtain ⟨ex0, -, hmem0⟩ := hany
      simp only [island_line_indices, List.mem_flatMap] at hmem0
      obtain ⟨e0, -, hl0⟩ := hmem0
      cases hg0 : extrusions.get? e0 with
      | none => simp only [hg0, List.not_mem_nil] at hl0
      | some p =>
        simp only [hg0, List.mem_range'_1] at hl0
        refine le_trans (List.countP_mono_left ?_) (hruns e0)
        intro ex _ hmem
        simp only [decide_eq_true_eq, island_line_indices, List.mem_flatMap] at hmem ⊢
        obtain ⟨e, he, hl⟩ := hmem
        cases hg : extrusions.get? e with
        | none => simp only [hg, List.not_mem_nil] at hl
        | some q =>
          simp only [hg, List.mem_range'_1] at hl
          have := extrusion_of_line_unique extrusions hpw lidx e e0 q p hg hg0
            ⟨hl.1, by omega⟩ ⟨hl0.1, by omega⟩
          rw [← this]
          exact he
    · have : island_extrusions.countP (fun island_ex =>
          decide (lidx ∈ island_line_indices extrusions island_ex)) = 0 := by
        rw [List.countP_eq_zero]
        intro ex hex
        simp only [decide_eq_true_eq]
        exact fun h => hany ⟨ex, hex, h⟩
      omega
  · unfold reckon_islands_islands at hislands
    simp only [hext, hassign, hregion] at hislands
    obtain ⟨new_islands, h1, h2⟩ := build_volumes _ _ _ _ _ _ _ _ _ _ _ hislands
    rw [List.nil_append] at h1
    rw [h1]
    exact h2

/-- Witness of the amended C13: two slices that lie apart, with one run each. -/
theorem segment_island_uniqueness_witness :
    ∃ islands mapping,
      reckon_islands_islands env0 layer_apart false lines_apart = some (islands, mapping) ∧
      islands.length = 2 ∧
      (∀ lidx, [[0], [1]].countP (fun island_ex =>
        decide (lidx ∈ island_line_indices [(0, 1), (1, 2)] island_ex)) ≤ 1) ∧
      List.Forall₂ (fun island_ex island =>
        island.volume = lines_volume env0 layer_apart
          (get_flow_width region0 .erExternalPerimeter) lines_apart
          (island_line_indices [(0, 1), (1, 2)] island_ex) ∧
        island.sticking_area = lines_sticking_area false
          (get_flow_width region0 .erExternalPerimeter) lines_apart
          (island_line_indices [(0, 1), (1, 2)] island_ex))
        ([[0], [1]].filter fun island_ex => !island_ex.isEmpty) islands := by
  obtain ⟨r, hr⟩ := Option.isSome_iff_exists.1
    (by decide! : (reckon_islands_islands env0 layer_apart false lines_apart).isSome = true)
  have hlen : (reckon_islands_islands env0 layer_apart false lines_apart).map
      (fun r => r.1.length) = some 2 := by decide!
  rw [hr] at hlen
  obtain ⟨-, h2, h3⟩ := segment_island_uniqueness env0 layer_apart false lines_apart r.1 r.2
    [(0, 1), (1, 2)] [[0], [1]] region0 [] hr (by decide!) (by decide!) rfl (by decide!)
  exact ⟨r.1, r.2, hr, by simpa using hlen, h2, h3⟩

/-! ## Theorems: the first island loop of `check_global_stability` -/

theorem gather_connections (prev_map : Nat → Option Nat)
    (prev_weak : Nat → Option IslandConnection) :
    ∀ (conns : List (Nat × IslandConnection)) (g g2 : MergeGathered),
      check_global_stability_gather prev_map prev_weak conns g = some g2 →
      g2.transfered_weakest_connection = g.transfered_weakest_connection
        + (conns.map fun connection => (prev_weak connection.1).getD 0).sum ∧
      g2.new_weakest_connection = g.new_weakest_connection
        + (conns.map fun connection => connection.2).sum := by
  intro conns
  induction conns with
  | nil =>
    intro g g2 h
    obtain rfl := Option.some.inj h
    exact ⟨(add_zero _).symm, (add_zero _).symm⟩
  | cons kc rest ih =>
    intro g g2 h
    unfold check_global_stability_gather at h
    cases hp : prev_map kc.1 with
    | none => simp [hp] at h
    | some pid =>
      simp only [hp] at h
      cases hf : g.active_object_parts.get_flat_id pid with
      | none => simp [hf] at h
      | some r =>
        obtain ⟨part_id, tracker⟩ := r
        simp only [hf] at h
        cases hw : prev_weak kc.1 with
        | none => simp [hw] at h
        | some w =>
          simp only [hw] at h
          obtain ⟨h1, h2⟩ := ih _ _ h
          refine ⟨?_, ?_⟩
          · rw [h1]
            simp only [List.map_cons, List.sum_cons, hw, Option.getD_some]
            rw [← add_assoc]
            rfl
          · rw [h2]
            simp only [List.map_cons, List.sum_cons]
            rw [← add_assoc]
            rfl

theorem connect_spec (env : Env) (set_order : List Nat → List Nat)
    (layer_z : Flt) (st : GlobalState) (island_idx : Nat) (island : Island)
    (hwf : st.active_object_parts.WF) (hne : island.connected_islands ≠ [])
    (horder : ∀ l, (set_order l).Perm l)
    (hprev : ∀ kc ∈ island.connected_islands, ∃ pid w,
      st.prev_island_to_object_part_mapping kc.1 = some pid ∧
      pid < st.active_object_parts.next_part_idx ∧
      st.prev_island_weakest_connection kc.1 = some w) :
    ∃ (st2 : GlobalState) (final : Nat) (ids : List Nat),
      check_global_stability_connect env set_order layer_z st island_idx island = some st2 ∧
      st2.active_object_parts.WF ∧
      st2.active_object_parts.next_part_idx = st.active_object_parts.next_part_idx ∧
      ids.Nodup ∧ final ∈ ids ∧
      (∀ r, r ∈ ids ↔ ∃ kc ∈ island.connected_islands, ∃ pid k,
        st.prev_island_to_object_part_mapping kc.1 = some pid ∧
        ActiveObjectParts.Chain st.active_object_parts.active_object_parts_id_mapping pid r k) ∧
      (∀ i x k,
        ActiveObjectParts.Chain st.active_object_parts.active_object_parts_id_mapping i x k →
        ∃ k2, ActiveObjectParts.Chain st2.active_object_parts.active_object_parts_id_mapping i
          (if x ∈ ids then final else x) k2) ∧
      st2.active_object_parts.active_object_parts final
        = some ((ids.map fun r => (st.active_object_parts.active_object_parts r).getD 0).sum
            + ObjectPart.ofIsland island) ∧
      (∀ r, r ≠ final → st2.active_object_parts.active_object_parts r
        = if r ∈ ids then none else st.active_object_parts.active_object_parts r) ∧
      st2.next_island_to_object_part_mapping
        = emplace st.next_island_to_object_part_mapping island_idx final ∧
      st2.next_island_weakest_connection
        = emplace st.next_island_weakest_connection island_idx
            (if estimate_conn_strength env layer_z (new_connection island)
                < estimate_conn_strength env layer_z
                    (transfered_connection st.prev_island_weakest_connection island) then
              new_connection island
            else transfered_connection st.prev_island_weakest_connection island) ∧
      st2.prev_island_to_object_part_mapping = st.prev_island_to_object_part_mapping ∧
      st2.prev_island_weakest_connection = st.prev_island_weakest_connection ∧
      st2.issues = st.issues ∧ st2.supports_presence_grid = st.supports_presence_grid := by
  -- the gather loop
  obtain ⟨g, hg, hgwf, hgparts, hgnext, hgnd, hgroots, hgchain, hgmem⟩ :=
    ActiveObjectParts.gather_spec st.prev_island_to_object_part_mapping
      st.prev_island_weakest_connection island.connected_islands
      { active_object_parts := st.active_object_parts } hwf List.nodup_nil
      (fun x hx => absurd hx (List.not_mem_nil x)) hprev
  obtain ⟨hgT, hgN⟩ := gather_connections _ _ _ _ _ hg
  have hT : g.transfered_weakest_connection
      = transfered_connection st.prev_island_weakest_connection island := by
    rw [hgT]
    exact zero_add _
  have hN : g.new_weakest_connection = new_connection island := by
    rw [hgN]
    exact zero_add _
  have hgmem2 : ∀ x, x ∈ g.parts_ids ↔ ∃ kc ∈ island.connected_islands, ∃ pid k,
      st.prev_island_to_object_part_mapping kc.1 = some pid ∧
      ActiveObjectParts.Chain st.active_object_parts.active_object_parts_id_mapping pid x k := by
    intro x
    rw [hgmem x]
    simp
  -- the iteration order of the set
  have hperm := horder g.parts_ids
  have hLnd : (set_order g.parts_ids).Nodup := hperm.nodup_iff.2 hgnd
  have hLmem : ∀ x, x ∈ set_order g.parts_ids ↔ x ∈ g.parts_ids := fun x => hperm.mem_iff
  have hex : ∃ x, x ∈ g.parts_ids := by
    obtain ⟨kc, rest, hkc⟩ := List.exists_cons_of_ne_nil hne
    have hmem : kc ∈ island.connected_islands := by rw [hkc]; exact List.mem_cons_self _ _
    obtain ⟨pid, w, e1, e2, _⟩ := hprev kc hmem
    obtain ⟨x, k, hc⟩ := hwf.total pid e2
    exact ⟨x, (hgmem2 x).2 ⟨kc, hmem, pid, k, e1, hc⟩⟩
  obtain ⟨final, rest, hL⟩ : ∃ final rest, set_order g.parts_ids = final :: rest := by
    cases hcases : set_order g.parts_ids with
    | nil =>
      obtain ⟨x, hx⟩ := hex
      have := (hLmem x).2 hx
      rw [hcases] at this
      exact absurd this (List.not_mem_nil x)
    | cons a l => exact ⟨a, l, rfl⟩
  have hfinL : final ∈ set_order g.parts_ids := by rw [hL]; exact List.mem_cons_self _ _
  have hLroots : ∀ y ∈ set_order g.parts_ids,
      g.active_object_parts.active_object_parts_id_mapping y = some y :=
    fun y hy => hgroots y ((hLmem y).1 hy)
  have hfinroot := hLroots final hfinL
  -- the merge loop
  obtain ⟨s2, hs2, hs2wf, hs2next, hs2map, hs2parts, hs2fin⟩ :=
    ActiveObjectParts.merge_loop_spec final (set_order g.parts_ids) g.active_object_parts hgwf
      hfinroot hLnd hLroots
  have hfinroot2 : s2.active_object_parts_id_mapping final = some final := by
    rw [hs2map]
    simp [hfinroot]
  have hpos : 0 < s2.next_part_idx := by
    have := hs2wf.root_lt hfinroot2
    omega
  have hwf3 := hs2wf.set_part hfinroot2
    ((((g.active_object_parts.active_object_parts final).getD 0
      + (((set_order g.parts_ids).filter (· ≠ final)).map fun x =>
          (g.active_object_parts.active_object_parts x).getD 0).sum)).add
      (ObjectPart.ofIsland island)) hs2fin
  have hempty : island.connected_islands.isEmpty = false := by
    cases hci : island.connected_islands with
    | nil => exact absurd hci hne
    | cons _ _ => rfl
  have hconn : check_global_stability_connect env set_order layer_z st island_idx island
      = some { st with
          active_object_parts :=
            { s2 with
              active_object_parts :=
                Function.update s2.active_object_parts final
                  (some ((((g.active_object_parts.active_object_parts final).getD 0
                    + (((set_order g.parts_ids).filter (· ≠ final)).map fun x =>
                        (g.active_object_parts.active_object_parts x).getD 0).sum)).add
                    (ObjectPart.ofIsland island))) }
          next_island_weakest_connection :=
            emplace st.next_island_weakest_connection island_idx
              (if estimate_conn_strength env layer_z g.new_weakest_connection
                  < estimate_conn_strength env layer_z g.transfered_weakest_connection then
                g.new_weakest_connection
              else g.transfered_weakest_connection)
          next_island_to_object_part_mapping :=
            emplace st.next_island_to_object_part_mapping island_idx final } := by
    simp only [check_global_stability_connect, hempty, Bool.false_eq_true, if_false, hg]
    rw [hL] at hs2
    simp only [hL, hs2, ActiveObjectParts.get_flat_id_of_root hfinroot2 hpos, hs2fin]
  refine ⟨_, final, set_order g.parts_ids, hconn, hwf3, ?_, hLnd, hfinL, ?_, ?_, ?_, ?_,
    rfl, ?_, rfl, rfl, rfl, rfl⟩
  · show s2.next_part_idx = _
    rw [hs2next, hgnext]
  · intro r
    rw [hLmem r, hgmem2 r]
  · intro i x k hc
    obtain ⟨k2, hc2⟩ := hgchain i x k hc
    exact ActiveObjectParts.chain_after_merges hs2map hLroots hfinroot hc2
  · show Function.update s2.active_object_parts final _ final = _
    simp only [Function.update_same]
    congr 1
    show _ + ObjectPart.ofIsland island = _
    congr 1
    rw [hgparts]
    have hfilter : (set_order g.parts_ids).filter (· ≠ final) = rest := by
      rw [hL] at hLnd ⊢
      obtain ⟨hnot, _⟩ := List.nodup_cons.1 hLnd
      simp only [List.filter_cons, ne_eq, not_true_eq_false, decide_False, Bool.false_eq_true,
        if_false]
      apply List.filter_eq_self.2
      intro a ha
      have : a ≠ final := fun e => hnot (e ▸ ha)
      simpa using this
    rw [hfilter, hL]
    simp
  · intro r hr
    show Function.update s2.active_object_parts final _ r = _
    rw [Function.update_noteq hr, hs2parts r hr, hgparts]
  · show emplace _ _ _ = emplace _ _ _
    rw [hT, hN]

/-! ### C21: the weakest connection rule -/

theorem Flt.le_of_lt_flt {a b : Flt} (h : a < b) : a ≤ b := Or.inl h

theorem Flt.le_refl_flt {a : Flt} (h : a ≠ nan) : a ≤ a := by
  cases a with
  | fin q => exact (Flt.le_fin q q).2 le_rfl
  | pinf => exact Or.inr rfl
  | ninf => exact Or.inr rfl
  | nan => exact absurd rfl h

theorem Flt.le_of_not_lt_flt {a b : Flt} (ha : a ≠ nan) (hb : b ≠ nan) (h : ¬ b < a) :
    a ≤ b := by
  cases a with
  | fin p =>
    cases b with
    | fin q => exact (Flt.le_fin p q).2 (not_lt.1 fun e => h ((Flt.lt_fin q p).2 e))
    | pinf => exact Or.inl rfl
    | ninf => exact absurd (show (ninf : Flt) < fin p from rfl) h
    | nan => exact absurd rfl hb
  | pinf =>
    cases b with
    | fin q => exact absurd (show (fin q : Flt) < pinf from rfl) h
    | pinf => exact Or.inr rfl
    | ninf => exact absurd (show (ninf : Flt) < pinf from rfl) h
    | nan => exact absurd rfl hb
  | ninf =>
    cases b with
    | fin q => exact Or.inl rfl
    | pinf => exact Or.inl rfl
    | ninf => exact Or.inr rfl
    | nan => exact absurd rfl hb
  | nan => exact absurd rfl ha

/-- C21 (weakest connection rule).  For an island with predecessors on a well-formed tracker,
let `T = transfered_connection` be the element-wise sum of the weakest connections recorded
for its predecessors and `N = new_connection` the element-wise sum of its own connections to
the previous layer, the strength of a connection being `estimate_conn_strength`.  The first
island loop of `check_global_stability` succeeds and records for the island the connection
`N` when `strength T > strength N` and the connection `T` otherwise.  The strength of the
recorded connection is `std::min (strength T) (strength N)`; when neither strength is `NaN` it
is at most the strength of `T` and at most the strength of `N`. -/
theorem weakest_connection_rule (env : Env) (set_order : List Nat → List Nat)
    (layer_z : Flt) (st : GlobalState) (island_idx : Nat) (island : Island)
    (hwf : st.active_object_parts.WF) (hne : island.connected_islands ≠ [])
    (horder : ∀ l, (set_order l).Perm l)
    (hprev : ∀ kc ∈ island.connected_islands, ∃ pid w,
      st.prev_island_to_object_part_mapping kc.1 = some pid ∧
      pid < st.active_object_parts.next_part_idx ∧
      st.prev_island_weakest_connection kc.1 = some w)
    (hnext : st.next_island_weakest_connection island_idx = none) :
    ∃ (st2 : GlobalState) (recorded : IslandConnection),
      check_global_stability_connect env set_order layer_z st island_idx island = some st2 ∧
      st2.next_island_weakest_connection island_idx = some recorded ∧
      recorded
        = (if estimate_conn_strength env layer_z
              (transfered_connection st.prev_island_weakest_connection island)
            > estimate_conn_strength env layer_z (new_connection island) then
            new_connection island
          else transfered_connection st.prev_island_weakest_connection island) ∧
      estimate_conn_strength env layer_z recorded
        = Flt.min
            (estimate_conn_strength env layer_z
              (transfered_connection st.prev_island_weakest_connection island))
            (estimate_conn_strength env layer_z (new_connection island)) ∧
      (estimate_conn_strength env layer_z
            (transfered_connection st.prev_island_weakest_connection island) ≠ nan →
        estimate_conn_strength env layer_z (new_connection island) ≠ nan →
        estimate_conn_strength env layer_z recorded
            ≤ estimate_conn_strength env layer_z
                (transfered_connection st.prev_island_weakest_connection island) ∧
          estimate_conn_strength env layer_z recorded
            ≤ estimate_conn_strength env layer_z (new_connection island)) := by
  obtain ⟨st2, final, ids, hconn, _, _, _, _, _, _, _, _, _, hweak, _⟩ :=
    connect_spec env set_order layer_z st island_idx island hwf hne horder hprev
  refine ⟨st2, _, hconn, ?_, rfl, ?_, ?_⟩
  · rw [hweak]
    simp only [emplace, hnext, Option.isSome_none, Bool.false_eq_true, if_false,
      Function.update_same]
  · unfold Flt.min
    by_cases hlt : estimate_conn_strength env layer_z (new_connection island)
        < estimate_conn_strength env layer_z
            (transfered_connection st.prev_island_weakest_connection island)
    · rw [if_pos hlt, if_pos hlt]
    · rw [if_neg hlt, if_neg hlt]
  · intro hT hN
    by_cases hlt : estimate_conn_strength env layer_z (new_connection island)
        < estimate_conn_strength env layer_z
            (transfered_connection st.prev_island_weakest_connection island)
    · rw [if_pos hlt]
      exact ⟨Flt.le_of_lt_flt hlt, Flt.le_refl_flt hN⟩
    · rw [if_neg hlt]
      exact ⟨Flt.le_refl_flt hT, Flt.le_of_not_lt_flt hT hN hlt⟩

/-- Witness of C21: an island resting on two islands that each started a part. -/
theorem weakest_connection_rule_witness :
    ∃ (st2 : GlobalState) (recorded : IslandConnection),
      check_global_stability_connect env0 id (fin 1) state_three_parts 0 island_bridge
        = some st2 ∧
      st2.next_island_weakest_connection 0 = some recorded ∧
      estimate_conn_strength env0 (fin 1) recorded
        = Flt.min
            (estimate_conn_strength env0 (fin 1)
              (transfered_connection state_three_parts.prev_island_weakest_connection
                island_bridge))
            (estimate_conn_strength env0 (fin 1) (new_connection island_bridge)) := by
  obtain ⟨st2, recorded, h1, h2, _, h4, _⟩ :=
    weakest_connection_rule env0 id (fin 1) state_three_parts 0 island_bridge tracker3_wf
      (by decide) (fun l => List.Perm.refl l)
      (by
        intro kc hkc
        have hk : kc.1 < 3 := by
          simp only [island_bridge, List.mem_cons, List.mem_singleton, List.not_mem_nil,
            or_false] at hkc
          rcases hkc with e | e <;> rw [e] <;> decide
        exact ⟨kc.1, sentinel_connection, by simp [state_three_parts, hk],
          by simpa [state_three_parts, tracker3, ActiveObjectParts.insert] using hk,
          by simp [state_three_parts, hk]⟩)
      rfl
  exact ⟨st2, recorded, h1, h2, h4⟩

/-! ### C22: a fresh connection is skipped -/

/-- C22 (fresh connection is skipped).  Whenever the part's sticking area is at least
`EPSILON`, the total torque around the bed pivot is not positive, the area of the weakest
connection is at least `EPSILON` and the centroid of the connection lies less than 3 mm below
the current layer, `is_stable_while_extruding` returns -1, a negative value, and the body of
the boundary walk of `check_global_stability` ends without an anchor: the support points, the
presence grid, the part and the weakest connection are left as they were. -/
theorem fresh_connection_is_skipped (env : Env) (params : Params) (layer_z : Flt)
    (external_lines : List ExtrusionLine) (st : ProbeState) (line : ExtrusionLine)
    (hstick : env.EPSILON ≤ st.part.sticking_area)
    (hbed : st.part.bed_total_torque env line
      (check_global_stability_support_point env layer_z external_lines line) layer_z params
      ≤ fin 0)
    (hconn : env.EPSILON ≤ st.weakest_conn.area)
    (hfresh : layer_z - (st.weakest_conn.centroid_accumulator.divs st.weakest_conn.area).z
      < fin 3) :
    st.part.is_stable_while_extruding env st.weakest_conn line
      (check_global_stability_support_point env layer_z external_lines line) layer_z params
      = fin (-1) ∧
    st.part.is_stable_while_extruding env st.weakest_conn line
      (check_global_stability_support_point env layer_z external_lines line) layer_z params
      < fin 0 ∧
    ∃ st2, check_global_stability_probe env params layer_z external_lines st line = some st2 ∧
      st2.issues = st.issues ∧ st2.supports_presence_grid = st.supports_presence_grid ∧
      st2.part = st.part ∧ st2.weakest_conn = st.weakest_conn := by
  have hforce : st.part.is_stable_while_extruding env st.weakest_conn line
      (check_global_stability_support_point env layer_z external_lines line) layer_z params
      = fin (-1) := by
    unfold ObjectPart.is_stable_while_extruding
    rw [if_neg (le_not_lt hstick), if_neg (le_not_lt hbed), if_neg (le_not_lt hconn)]
    exact if_pos hfresh
  refine ⟨hforce, by rw [hforce]; decide, ?_⟩
  unfold check_global_stability_probe
  by_cases hskip : (st.unchecked_dist + line.len < params.min_distance_between_support_points
      ∧ line.malformation < fin (3 / 10)) ∨ Flt.feq line.len (fin 0) = true
  · rw [if_pos hskip]
    exact ⟨_, rfl, rfl, rfl, rfl, rfl⟩
  · rw [if_neg hskip]
    have hneg : ¬ (fin 0 < st.part.is_stable_while_extruding env st.weakest_conn line
        (check_global_stability_support_point env layer_z external_lines line) layer_z
        params) := by
      rw [hforce]
      decide
    simp only [hneg, if_false]
    exact ⟨_, rfl, rfl, rfl, rfl, rfl⟩

/-- Witness of C22: a probe of `part_bedded`, held at the layer of height 0.2 mm by a
connection whose centroid is at height 0. -/
theorem fresh_connection_is_skipped_witness :
    (env0.EPSILON ≤ probe_state_fresh.part.sticking_area ∧
      env0.EPSILON ≤ probe_state_fresh.weakest_conn.area) ∧
    probe_state_fresh.part.is_stable_while_extruding env0 probe_state_fresh.weakest_conn line0
      (check_global_stability_support_point env0 (fin (1 / 5)) [line0] line0) (fin (1 / 5))
      params0 = fin (-1) :=
  ⟨⟨by decide!, by decide!⟩,
   (fresh_connection_is_skipped env0 params0 (fin (1 / 5)) [line0] probe_state_fresh line0
      (by decide!) (by decide!) (by decide!) (by decide!)).1⟩

/-! ### C24: the contribution of an anchor -/

theorem Flt.mul_comm_flt (a b : Flt) : a * b = b * a := by
  cases a <;> cases b <;> first | rfl | exact congrArg fin (mul_comm _ _)

theorem take_position_taken {grid grid2 : SupportGridFilter} {p : Vec3f}
    (h : grid.take_position p = some grid2) : grid2.position_taken p = some true := by
  unfold SupportGridFilter.take_position at h
  cases hc : grid.to_cell_coords p with
  | none => simp [hc] at h
  | some c =>
    simp only [hc] at h
    by_cases hmem : grid.to_cell_index c ∈ grid.taken_cells
    · rw [if_pos hmem] at h
      obtain rfl := Option.some.inj h
      simp [SupportGridFilter.position_taken, hc, hmem]
    · rw [if_neg hmem] at h
      obtain rfl := Option.some.inj h
      have hc2 : SupportGridFilter.to_cell_coords
          { grid with taken_cells := grid.taken_cells ++ [grid.to_cell_index c] } p = some c := hc
      have hi2 : SupportGridFilter.to_cell_index
          { grid with taken_cells := grid.taken_cells ++ [grid.to_cell_index c] } c
          = grid.to_cell_index c := rfl
      simp [SupportGridFilter.position_taken, hc2, hi2]

/-- C24 (anchor contribution).  When the body of the boundary walk of `check_global_stability`
adds a support point, the point is at the position `p` that the walk probed, and with
`a = support_point_area env params` (the area `radius * radius * PI` times the adhesion
strength of a support spot, divided by the yield strength of the bed adhesion): the weakest
connection of the island and the sticking accumulators of the part both grow by the same
contribution (area by `a`, centroid accumulator by `a * p`, second moments by
`a * (p.x * p.x, p.y * p.y)`, covariance by `a * p.x * p.y`), the voxel of `p` is taken
afterwards, and the volume and the volume centroid accumulator of the part are unchanged. -/
theorem anchor_contribution (env : Env) (params : Params) (layer_z : Flt)
    (external_lines : List ExtrusionLine) (st st2 : ProbeState) (line : ExtrusionLine)
    (hrun : check_global_stability_probe env params layer_z external_lines st line = some st2)
    (hplaced : st2.issues ≠ st.issues) :
    ∃ anchor : SupportPoint,
      st2.issues.support_points = st.issues.support_points ++ [anchor] ∧
      anchor.position = check_global_stability_support_point env layer_z external_lines line ∧
      st2.weakest_conn.area = st.weakest_conn.area + support_point_area env params ∧
      st2.weakest_conn.centroid_accumulator = st.weakest_conn.centroid_accumulator
        + Vec3f.smul (support_point_area env params) anchor.position ∧
      st2.weakest_conn.second_moment_of_area_accumulator
        = st.weakest_conn.second_moment_of_area_accumulator
          + Vec2f.smul (support_point_area env params)
              ⟨anchor.position.x * anchor.position.x, anchor.position.y * anchor.position.y⟩ ∧
      st2.weakest_conn.second_moment_of_area_covariance_accumulator
        = st.weakest_conn.second_moment_of_area_covariance_accumulator
          + support_point_area env params * anchor.position.x * anchor.position.y ∧
      st2.part.sticking_area = st.part.sticking_area + support_point_area env params ∧
      st2.part.sticking_centroid_accumulator = st.part.sticking_centroid_accumulator
        + Vec3f.smul (support_point_area env params) anchor.position ∧
      st2.part.sticking_second_moment_of_area_accumulator
        = st.part.sticking_second_moment_of_area_accumulator
          + Vec2f.smul (support_point_area env params)
              ⟨anchor.position.x * anchor.position.x, anchor.position.y * anchor.position.y⟩ ∧
      st2.part.sticking_second_moment_of_area_covariance_accumulator
        = st.part.sticking_second_moment_of_area_covariance_accumulator
          + support_point_area env params * anchor.position.x * anchor.position.y ∧
      st2.supports_presence_grid.position_taken anchor.position = some true ∧
      st2.part.volume = st.part.volume ∧
      st2.part.volume_centroid_accumulator = st.part.volume_centroid_accumulator := by
  unfold check_global_stability_probe at hrun
  by_cases hskip : (st.unchecked_dist + line.len < params.min_distance_between_support_points
      ∧ line.malformation < fin (3 / 10)) ∨ Flt.feq line.len (fin 0) = true
  · rw [if_pos hskip] at hrun
    obtain rfl := Option.some.inj hrun
    exact absurd rfl hplaced
  · rw [if_neg hskip] at hrun
    by_cases hpos : fin 0 < st.part.is_stable_while_extruding env st.weakest_conn line
        (check_global_stability_support_point env layer_z external_lines line) layer_z params
    · simp only [hpos, if_true] at hrun
      cases ht : st.supports_presence_grid.position_taken
          (check_global_stability_support_point env layer_z external_lines line) with
      | none => simp [ht] at hrun
      | some taken =>
        cases taken with
        | true =>
          simp only [ht] at hrun
          obtain rfl := Option.some.inj hrun
          exact absurd rfl hplaced
        | false =>
          simp only [ht] at hrun
          cases hg : st.supports_presence_grid.take_position
              (check_global_stability_support_point env layer_z external_lines line) with
          | none => simp [hg] at hrun
          | some grid =>
            simp only [hg] at hrun
            obtain rfl := Option.some.inj hrun
            refine ⟨_, rfl, rfl, rfl, ?_, rfl, rfl, rfl, rfl, rfl, rfl,
              take_position_taken hg, rfl, rfl⟩
            show _ + Vec3f.scale _ _ = _ + Vec3f.smul _ _
            congr 1
            show Vec3f.mk _ _ _ = Vec3f.mk _ _ _
            congr 1 <;> exact Flt.mul_comm_flt _ _
    · simp only [hpos, if_false] at hrun
      obtain rfl := Option.some.inj hrun
      exact absurd rfl hplaced

/-- Witness of C24: the first probe of the boundary of `island_floating` places an anchor. -/
theorem anchor_contribution_witness :
    ∃ st2 : ProbeState,
      check_global_stability_probe env0 params0 (fin (1 / 5)) [line0] probe_state_floating line0
        = some st2 ∧
      st2.part.sticking_area = probe_state_floating.part.sticking_area
        + support_point_area env0 params0 ∧
      support_point_area env0 params0 = fin (6390 / 1130) := by
  obtain ⟨st2, hst2⟩ := Option.isSome_iff_exists.1
    (by decide! : (check_global_stability_probe env0 params0 (fin (1 / 5)) [line0]
      probe_state_floating line0).isSome = true)
  have hissues : (check_global_stability_probe env0 params0 (fin (1 / 5)) [line0]
      probe_state_floating line0).map (fun s => s.issues.support_points.length) = some 1 := by
    decide!
  rw [hst2] at hissues
  have hne : st2.issues ≠ probe_state_floating.issues := by
    intro e
    have h1 : st2.issues.support_points.length = 1 := Option.some.inj hissues
    rw [e] at h1
    exact absurd h1 (by decide)
  obtain ⟨anchor, _, _, _, _, _, _, h7, _⟩ :=
    anchor_contribution env0 params0 (fin (1 / 5)) [line0] probe_state_floating st2 line0 hst2 hne
  exact ⟨st2, hst2, h7, by decide!⟩

/-! ### C28: the divisors of the torque test -/

/-- Counterexample to C28.  The part `part_anchored` has positive volume and a sticking area of
1, above `EPSILON`, and `layer_z = 0.4` is positive; its sticking area lies at the height of the
layer, as that of an anchor placed on the current layer does.  The total torque around the bed
pivot is positive and the bed arm `layer_z - bed_centroid.z` is 0: `is_stable_while_extruding`
returns the quotient by 0, which is `+inf`.  The run of `check_global_stability` on an island
that starts in mid-air with two boundary lines meets this: its second anchor has the force
`+inf`. -/
theorem bed_quotient_divides_by_zero :
    fin 0 < part_anchored.volume ∧ env0.EPSILON ≤ part_anchored.sticking_area ∧
    (fin 0 : Flt) < fin (2 / 5) ∧
    fin 0 < part_anchored.bed_total_torque env0 line0 ⟨fin 0, fin 0, fin (2 / 5)⟩ (fin (2 / 5))
      params0 ∧
    part_anchored.bed_conflict_torque_arm (fin (2 / 5)) = fin 0 ∧
    part_anchored.is_stable_while_extruding env0 sentinel_connection line0
      ⟨fin 0, fin 0, fin (2 / 5)⟩ (fin (2 / 5)) params0
      = part_anchored.bed_total_torque env0 line0 ⟨fin 0, fin 0, fin (2 / 5)⟩ (fin (2 / 5))
          params0 / fin 0 ∧
    part_anchored.is_stable_while_extruding env0 sentinel_connection line0
      ⟨fin 0, fin 0, fin (2 / 5)⟩ (fin (2 / 5)) params0 = pinf ∧
    ((check_global_stability env_exact id grid0 graph_two_lines params0).map fun issues =>
      issues.support_points.map fun p => (p.position, p.force))
      = some [(⟨fin 10, fin 0, fin (2 / 5)⟩, fin 1), (⟨fin 10, fin 2, fin (2 / 5)⟩, pinf)] := by
  decide!

/-- C28, amended.  For finite heights and areas and a positive `EPSILON`: whenever
`is_stable_while_extruding` returns the quotient of the bed section (sticking area at least
`EPSILON`, positive total torque around the bed pivot), its divisor is the bed arm
`layer_z - bed_centroid.z`, which is non-zero exactly when the height of the sticking centroid
differs from `layer_z`; whenever it returns the quotient of the connection section, the divisor
is the connection arm `layer_z - conn_centroid.z`, which is at least 3 and so non-zero. -/
theorem torque_test_divisors (env : Env) (params : Params) (part : ObjectPart)
    (connection : IslandConnection) (extruded_line : ExtrusionLine) (extreme_point : Vec3f)
    (z e s c a k : ℚ) (hE : env.EPSILON = fin e) (he : 0 < e)
    (hs : part.sticking_area = fin s) (hc : part.sticking_centroid_accumulator.z = fin c)
    (ha : connection.area = fin a) (hk : connection.centroid_accumulator.z = fin k) :
    (e ≤ s → fin 0 < part.bed_total_torque env extruded_line extreme_point (fin z) params →
      part.is_stable_while_extruding env connection extruded_line extreme_point (fin z) params
        = part.bed_total_torque env extruded_line extreme_point (fin z) params
            / part.bed_conflict_torque_arm (fin z) ∧
      part.bed_conflict_torque_arm (fin z) = fin (z - c / s) ∧
      (part.bed_conflict_torque_arm (fin z) ≠ fin 0 ↔ c / s ≠ z)) ∧
    (e ≤ s → ¬ (fin 0 < part.bed_total_torque env extruded_line extreme_point (fin z) params) →
      e ≤ a → ¬ (ObjectPart.conn_conflict_torque_arm connection (fin z) < fin 3) →
      part.is_stable_while_extruding env connection extruded_line extreme_point (fin z) params
        = part.conn_total_torque env connection extruded_line extreme_point (fin z) params
            / ObjectPart.conn_conflict_torque_arm connection (fin z) ∧
      ObjectPart.conn_conflict_torque_arm connection (fin z) = fin (z - k / a) ∧
      fin 3 ≤ ObjectPart.conn_conflict_torque_arm connection (fin z) ∧
      ObjectPart.conn_conflict_torque_arm connection (fin z) ≠ fin 0) := by
  have hstick : e ≤ s → ¬ (part.sticking_area < env.EPSILON) := by
    intro h
    rw [hs, hE, Flt.lt_fin]
    exact not_lt.2 h
  refine ⟨fun hes hpos => ?_, fun hes hbed hea hfar => ?_⟩
  · have hs0 : s ≠ 0 := by
      intro e0
      rw [e0] at hes
      exact absurd he (not_lt.2 hes)
    have harm : part.bed_conflict_torque_arm (fin z) = fin (z - c / s) := by
      simp only [ObjectPart.bed_conflict_torque_arm, Vec3f.divs, hs, hc, Flt.div_fin, hs0,
        if_false, Flt.sub_fin]
    refine ⟨?_, harm, ?_⟩
    · unfold ObjectPart.is_stable_while_extruding
      rw [if_neg (hstick hes), if_pos hpos]
    · rw [harm]
      constructor
      · intro h e0
        apply h
        rw [e0, sub_self]
      · intro h e0
        apply h
        have h0 := Flt.fin.inj e0
        linarith only [h0]
  · have ha0 : a ≠ 0 := by
      intro e0
      rw [e0] at hea
      exact absurd he (not_lt.2 hea)
    have harm : ObjectPart.conn_conflict_torque_arm connection (fin z) = fin (z - k / a) := by
      simp only [ObjectPart.conn_conflict_torque_arm, Vec3f.divs, ha, hk, Flt.div_fin, ha0,
        if_false, Flt.sub_fin]
    have hconn : ¬ (connection.area < env.EPSILON) := by
      rw [ha, hE, Flt.lt_fin]
      exact not_lt.2 hea
    have h3 : (3 : ℚ) ≤ z - k / a := by
      rw [harm, Flt.lt_fin] at hfar
      exact not_lt.1 hfar
    refine ⟨?_, harm, ?_, ?_⟩
    · unfold ObjectPart.is_stable_while_extruding
      rw [if_neg (hstick hes), if_neg hbed, if_neg hconn, if_neg hfar]
    · rw [harm]
      exact (Flt.le_fin _ _).2 h3
    · rw [harm]
      intro e0
      have h0 := Flt.fin.inj e0
      rw [h0] at h3
      norm_num at h3

/-- Witness of the amended C28: the bed quotient of `part_offset`, whose sticking centroid
lies 0.2 mm below the layer, and the connection quotient of `part_on_bed` held by
`connection_low`, 4 mm below the layer. -/
theorem torque_test_divisors_witness :
    part_offset.bed_conflict_torque_arm (fin (2 / 5)) = fin (2 / 5 - 1 / 5 / 1) ∧
    fin 3 ≤ ObjectPart.conn_conflict_torque_arm connection_low (fin 5) :=
  ⟨((torque_test_divisors env0 params0 part_offset sentinel_connection line0
      ⟨fin 0, fin 0, fin (2 / 5)⟩ (2 / 5) (1 / 10000) 1 (1 / 5) 1 0 rfl (by norm_num) rfl rfl
      rfl rfl).1 (by norm_num) (by decide!)).2.1,
   ((torque_test_divisors env0 params0 part_on_bed connection_low line0
      ⟨fin 0, fin 0, fin 5⟩ 5 (1 / 10000) 100 20 1 1 rfl (by norm_num) rfl rfl
      rfl rfl).2 (by norm_num) (by decide!) (by norm_num) (by decide!)).2.2.1⟩

/-! ### C23: the spacing of the probes along a boundary -/

theorem probe_of_skipped (env : Env) (params : Params) (layer_z : Flt)
    (external_lines : List ExtrusionLine) (st : ProbeState) (line : ExtrusionLine)
    (h : probe_skipped params st.unchecked_dist line) :
    check_global_stability_probe env params layer_z external_lines st line
      = some { st with unchecked_dist := st.unchecked_dist + line.len } := by
  unfold check_global_stability_probe
  exact if_pos h

theorem probe_unchecked_dist (env : Env) (params : Params) (layer_z : Flt)
    (external_lines : List ExtrusionLine) (st st2 : ProbeState) (line : ExtrusionLine)
    (h : check_global_stability_probe env params layer_z external_lines st line = some st2) :
    st2.unchecked_dist
      = if probe_skipped params st.unchecked_dist line then st.unchecked_dist + line.len
        else line.len := by
  by_cases hskip : probe_skipped params st.unchecked_dist line
  · rw [probe_of_skipped env params layer_z external_lines st line hskip] at h
    obtain rfl := Option.some.inj h
    rw [if_pos hskip]
  · rw [if_neg hskip]
    unfold check_global_stability_probe at h
    have hskip2 : ¬ ((st.unchecked_dist + line.len < params.min_distance_between_support_points
        ∧ line.malformation < fin (3 / 10)) ∨ Flt.feq line.len (fin 0) = true) := hskip
    rw [if_neg hskip2] at h
    by_cases hpos : fin 0 < st.part.is_stable_while_extruding env st.weakest_conn line
        (check_global_stability_support_point env layer_z external_lines line) layer_z params
    · simp only [hpos, if_true] at h
      cases ht : st.supports_presence_grid.position_taken
          (check_global_stability_support_point env layer_z external_lines line) with
      | none => simp [ht] at h
      | some taken =>
        cases taken with
        | true =>
          simp only [ht] at h
          obtain rfl := Option.some.inj h
          rfl
        | false =>
          simp only [ht] at h
          cases hg : st.supports_presence_grid.take_position
              (check_global_stability_support_point env layer_z external_lines line) with
          | none => simp [hg] at h
          | some grid =>
            simp only [hg] at h
            obtain rfl := Option.some.inj h
            rfl
    · simp only [hpos, if_false] at h
      obtain rfl := Option.some.inj h
      rfl

theorem probe_all_append (env : Env) (params : Params) (layer_z : Flt)
    (external_lines : List ExtrusionLine) (l1 l2 : List ExtrusionLine) :
    ∀ st : ProbeState,
      check_global_stability_probe_all env params layer_z external_lines (l1 ++ l2) st
        = (check_global_stability_probe_all env params layer_z external_lines l1 st).bind
            (check_global_stability_probe_all env params layer_z external_lines l2) := by
  induction l1 with
  | nil => intro st; rfl
  | cons line rest ih =>
    intro st
    simp only [List.cons_append, check_global_stability_probe_all]
    cases check_global_stability_probe env params layer_z external_lines st line with
    | none => rfl
    | some st2 => exact ih st2

theorem all_skipped_append (params : Params) (l1 : List ExtrusionLine) (line : ExtrusionLine) :
    ∀ u : Flt, all_skipped params u l1 →
      probe_skipped params (u + lines_length l1) line → all_skipped params u (l1 ++ [line]) := by
  induction l1 with
  | nil =>
    intro u _ h
    have e : u + lines_length [] = u := add_zero u
    rw [e] at h
    exact ⟨h, trivial⟩
  | cons l rest ih =>
    intro u h1 h2
    refine ⟨h1.1, ih (u + l.len) h1.2 ?_⟩
    have e : u + lines_length (l :: rest) = u + l.len + lines_length rest := by
      show u + (l.len + lines_length rest) = _
      rw [add_assoc]
    rw [e] at h2
    exact h2

theorem lines_length_concat (l1 : List ExtrusionLine) (line : ExtrusionLine) :
    lines_length (l1 ++ [line]) = lines_length l1 + line.len := by
  unfold lines_length
  rw [List.map_append, List.sum_append, List.map_singleton, List.sum_singleton]

theorem first_probe (params : Params) (m q : ℚ) (line : ExtrusionLine)
    (hm : params.min_distance_between_support_points = fin m) (hq : 0 ≤ q)
    (hlen : line.len = fin q) :
    probe_skipped params (params.min_distance_between_support_points + fin 1) line
      ↔ line.len = fin 0 := by
  unfold probe_skipped
  rw [hm, hlen]
  simp only [Flt.add_fin, Flt.lt_fin, Flt.feq_fin, decide_eq_true_eq]
  constructor
  · rintro (⟨h, _⟩ | h)
    · linarith
    · rw [h]
  · intro h
    exact Or.inr (Flt.fin.inj h)

theorem walk_invariant (env : Env) (params : Params) (layer_z : Flt)
    (external_lines : List ExtrusionLine) (m : ℚ)
    (hm : params.min_distance_between_support_points = fin m) (st0 : ProbeState)
    (hstart : st0.unchecked_dist = params.min_distance_between_support_points + fin 1)
    (pre : List ExtrusionLine) :
    ∀ st1 : ProbeState, (∀ l ∈ pre, ∃ q : ℚ, 0 ≤ q ∧ l.len = fin q) →
      check_global_stability_probe_all env params layer_z external_lines pre st0 = some st1 →
      ((∀ l ∈ pre, l.len = fin 0) ∧ st1.unchecked_dist = st0.unchecked_dist) ∨
      ∃ (pre1 : List ExtrusionLine) (probed : ExtrusionLine) (mid : List ExtrusionLine)
        (s : ProbeState),
        pre = pre1 ++ probed :: mid ∧
        check_global_stability_probe_all env params layer_z external_lines pre1 st0 = some s ∧
        ¬ probe_skipped params s.unchecked_dist probed ∧
        all_skipped params probed.len mid ∧
        st1.unchecked_dist = probed.len + lines_length mid := by
  induction pre using List.reverseRecOn with
  | nil =>
    intro st1 _ hrun
    obtain rfl := Option.some.inj hrun
    exact Or.inl ⟨fun l hl => absurd hl (List.not_mem_nil l), rfl⟩
  | append_singleton pre line ih =>
    intro st1 hlen hrun
    rw [probe_all_append] at hrun
    cases hpre : check_global_stability_probe_all env params layer_z external_lines pre st0 with
    | none => simp [hpre] at hrun
    | some s1 =>
      simp only [hpre, Option.some_bind, check_global_stability_probe_all] at hrun
      cases hp : check_global_stability_probe env params layer_z external_lines s1 line with
      | none => simp [hp] at hrun
      | some s2 =>
        simp only [hp] at hrun
        obtain rfl := Option.some.inj hrun
        have hu := probe_unchecked_dist env params layer_z external_lines s1 s2 line hp
        have hinv := ih s1 (fun l hl => hlen l (List.mem_append_left _ hl)) hpre
        obtain ⟨q, hq, hlq⟩ := hlen line (List.mem_append_right _ (List.mem_singleton_self _))
        by_cases hskip : probe_skipped params s1.unchecked_dist line
        · rw [if_pos hskip] at hu
          rcases hinv with ⟨hzero, hs1⟩ | ⟨pre1, probed, mid, s, e1, e2, e3, e4, e5⟩
          · left
            rw [hs1, hstart] at hskip
            have hl0 := (first_probe params m q line hm hq hlq).1 hskip
            refine ⟨?_, ?_⟩
            · intro l hl
              rcases List.mem_append.1 hl with h | h
              · exact hzero l h
              · rw [List.mem_singleton.1 h]
                exact hl0
            · rw [hu, hl0, hs1]
              exact add_zero _
          · right
            refine ⟨pre1, probed, mid ++ [line], s, ?_, e2, e3, ?_, ?_⟩
            · rw [e1]
              simp
            · apply all_skipped_append params mid line probed.len e4
              rw [← e5]
              exact hskip
            · rw [hu, e5, lines_length_concat, add_assoc]
        · rw [if_neg hskip] at hu
          right
          refine ⟨pre, line, [], s1, rfl, hpre, hskip, trivial, ?_⟩
          rw [hu]
          exact (add_zero _).symm

/-- C23 (probe spacing along a boundary) fails on the code.  On the boundary `lines_walk`
(2 mm, 0.5 mm and 2 mm along the x axis, none of the lines malformed) with the default minimum
distance of 3 mm, the walk probes the first line, whose end point is (2, 0), passes over the
second line and probes the third line: the boundary walked since the end point of the
previously probed line is 2.5 mm up to the end of the third line (0.5 mm up to its start),
less than the minimum distance.  A probe sets the unchecked distance to the length of the
probed line (2 mm here), not to 0, so the probed line is counted again. -/
theorem probe_before_minimum_spacing :
    params0.min_distance_between_support_points = fin 3 ∧
    ¬ probe_skipped params0 probe_state_floating.unchecked_dist
        { a := ⟨fin 0, fin 0⟩, b := ⟨fin 2, fin 0⟩, len := fin 2, origin_entity := none } ∧
    (check_global_stability_probe_all env0 params0 (fin (2 / 5)) lines_walk
        (lines_walk.take 1) probe_state_floating).map (fun s => s.unchecked_dist)
      = some (fin 2) ∧
    probe_skipped params0 (fin 2)
        { a := ⟨fin 2, fin 0⟩, b := ⟨fin (5 / 2), fin 0⟩, len := fin (1 / 2)
          origin_entity := none } ∧
    (check_global_stability_probe_all env0 params0 (fin (2 / 5)) lines_walk
        (lines_walk.take 2) probe_state_floating).map (fun s => s.unchecked_dist)
      = some (fin (5 / 2)) ∧
    ¬ probe_skipped params0 (fin (5 / 2))
        { a := ⟨fin (5 / 2), fin 0⟩, b := ⟨fin (9 / 2), fin 0⟩, len := fin 2
          origin_entity := none } ∧
    (check_global_stability_probe_all env0 params0 (fin (2 / 5)) lines_walk
        lines_walk probe_state_floating).map (fun s => s.unchecked_dist)
      = some (fin 2) ∧
    lines_walk.map (fun l => decide (l.malformation < fin (3 / 10))) = [true, true, true] ∧
    lines_length (lines_walk.drop 1) = fin (5 / 2) ∧
    lines_length (lines_walk.drop 1) < params0.min_distance_between_support_points := by
  decide!

/-- C23, amended (probe spacing along a boundary).  A boundary walk of
`check_global_stability` starts with the unchecked distance
`min_distance_between_support_points + 1` and has walked the lines `pre`, of finite
non-negative length, when it reaches `line`; `probe_skipped` is the test of the walk that
passes over a line.  Then: a line that is passed over is not probed (nothing but the unchecked
distance changes); a line of length 0 is always passed over; when all the lines before have
length 0 and `line` has not, `line` is probed; and when `line` is probed and not malformed
(`malformation < 0.3`), either no line before has a length, or there is a last probed line
`probed` before it, every line of `mid` between the two was passed over, and the length walked
from the start point of `probed` (not from its end point) to the end point of `line`, that is
the lengths of `probed`, of the lines of `mid` and of `line`, is at least
`min_distance_between_support_points`. -/
theorem probe_spacing (env : Env) (params : Params) (layer_z : Flt)
    (external_lines : List ExtrusionLine) (m : ℚ)
    (hm : params.min_distance_between_support_points = fin m) (st0 : ProbeState)
    (hstart : st0.unchecked_dist = params.min_distance_between_support_points + fin 1)
    (pre : List ExtrusionLine) (line : ExtrusionLine) (st1 : ProbeState)
    (hlen : ∀ l ∈ pre ++ [line], ∃ q : ℚ, 0 ≤ q ∧ l.len = fin q)
    (hrun : check_global_stability_probe_all env params layer_z external_lines pre st0
      = some st1) :
    (probe_skipped params st1.unchecked_dist line →
      check_global_stability_probe env params layer_z external_lines st1 line
        = some { st1 with unchecked_dist := st1.unchecked_dist + line.len }) ∧
    (line.len = fin 0 → probe_skipped params st1.unchecked_dist line) ∧
    ((∀ l ∈ pre, l.len = fin 0) → line.len ≠ fin 0 →
      ¬ probe_skipped params st1.unchecked_dist line) ∧
    (¬ probe_skipped params st1.unchecked_dist line → line.malformation < fin (3 / 10) →
      (∀ l ∈ pre, l.len = fin 0) ∨
      ∃ (pre1 : List ExtrusionLine) (probed : ExtrusionLine) (mid : List ExtrusionLine)
        (s : ProbeState),
        pre = pre1 ++ probed :: mid ∧
        check_global_stability_probe_all env params layer_z external_lines pre1 st0 = some s ∧
        ¬ probe_skipped params s.unchecked_dist probed ∧
        all_skipped params probed.len mid ∧
        params.min_distance_between_support_points
          ≤ probed.len + lines_length mid + line.len) := by
  have hinv := walk_invariant env params layer_z external_lines m hm st0 hstart pre st1
    (fun l hl => hlen l (List.mem_append_left _ hl)) hrun
  obtain ⟨q, hq, hlq⟩ := hlen line (List.mem_append_right _ (List.mem_singleton_self _))
  refine ⟨probe_of_skipped env params layer_z external_lines st1 line, ?_, ?_, ?_⟩
  · intro h0
    right
    rw [h0]
    rfl
  · intro hzero hne hskip
    rcases hinv with ⟨_, hs1⟩ | ⟨pre1, probed, mid, s, e1, _, _, _, _⟩
    · rw [hs1, hstart] at hskip
      exact hne ((first_probe params m q line hm hq hlq).1 hskip)
    · have hp0 : probed.len = fin 0 := hzero probed (by rw [e1]; simp)
      rename_i e3 _ _
      apply e3
      right
      rw [hp0]
      rfl
  · intro hprobed hmal
    rcases hinv with ⟨hzero, _⟩ | ⟨pre1, probed, mid, s, e1, e2, e3, e4, e5⟩
    · exact Or.inl hzero
    · right
      refine ⟨pre1, probed, mid, s, e1, e2, e3, e4, ?_⟩
      rw [← e5]
      have hno : ¬ (st1.unchecked_dist + line.len
          < params.min_distance_between_support_points) := by
        intro hlt
        exact hprobed (Or.inl ⟨hlt, hmal⟩)
      have hfin : ∃ u : ℚ, st1.unchecked_dist = fin u := by
        rw [e5]
        have hmidfin : ∀ (l : List ExtrusionLine), (∀ x ∈ l, ∃ q : ℚ, 0 ≤ q ∧ x.len = fin q) →
            ∃ t : ℚ, lines_length l = fin t := by
          intro l
          induction l with
          | nil => intro _; exact ⟨0, rfl⟩
          | cons x rest ih =>
            intro hx
            obtain ⟨t, ht⟩ := ih (fun y hy => hx y (List.mem_cons_of_mem _ hy))
            obtain ⟨qx, _, hqx⟩ := hx x (List.mem_cons_self _ _)
            refine ⟨qx + t, ?_⟩
            show x.len + lines_length rest = _
            rw [hqx, ht]
            rfl
        obtain ⟨t, ht⟩ := hmidfin mid (fun x hx => hlen x (by rw [e1]; simp [hx]))
        obtain ⟨qp, _, hqp⟩ := hlen probed (by rw [e1]; simp)
        exact ⟨qp + t, by rw [hqp, ht]; rfl⟩
      obtain ⟨u, hu⟩ := hfin
      rw [hu, hlq, hm, Flt.add_fin, Flt.lt_fin] at hno
      rw [hu, hlq, hm, Flt.add_fin, Flt.le_fin]
      exact not_lt.1 hno

/-- Witness of the amended C23: on the boundary `lines_walk` the first line is probed, the second line is
passed over and the third line is probed again, 4.5 mm after the start of the first. -/
theorem probe_spacing_witness :
    ∃ st1 : ProbeState,
      check_global_stability_probe_all env0 params0 (fin (2 / 5)) lines_walk
        (lines_walk.take 2) probe_state_floating = some st1 ∧
      ¬ probe_skipped params0 st1.unchecked_dist
        { a := ⟨fin (5 / 2), fin 0⟩, b := ⟨fin (9 / 2), fin 0⟩, len := fin 2
          origin_entity := none } ∧
      ((∀ l ∈ lines_walk.take 2, l.len = fin 0) ∨
        ∃ (pre1 : List ExtrusionLine) (probed : ExtrusionLine) (mid : List ExtrusionLine)
          (s : ProbeState),
          lines_walk.take 2 = pre1 ++ probed :: mid ∧
          check_global_stability_probe_all env0 params0 (fin (2 / 5)) lines_walk pre1
            probe_state_floating = some s ∧
          ¬ probe_skipped params0 s.unchecked_dist probed ∧
          all_skipped params0 probed.len mid ∧
          params0.min_distance_between_support_points
            ≤ probed.len + lines_length mid + fin 2) := by
  obtain ⟨st1, hst1⟩ := Option.isSome_iff_exists.1
    (by decide! : (check_global_stability_probe_all env0 params0 (fin (2 / 5)) lines_walk
      (lines_walk.take 2) probe_state_floating).isSome = true)
  have hflag : (check_global_stability_probe_all env0 params0 (fin (2 / 5)) lines_walk
      (lines_walk.take 2) probe_state_floating).map (fun s => s.unchecked_dist)
      = some (fin (5 / 2)) := by
    decide!
  rw [hst1] at hflag
  have hu : st1.unchecked_dist = fin (5 / 2) := Option.some.inj hflag
  have hprobed : ¬ probe_skipped params0 st1.unchecked_dist
      { a := ⟨fin (5 / 2), fin 0⟩, b := ⟨fin (9 / 2), fin 0⟩, len := fin 2
        origin_entity := none } := by
    rw [hu]
    decide!
  refine ⟨st1, hst1, hprobed, ?_⟩
  exact (probe_spacing env0 params0 (fin (2 / 5)) lines_walk 3 rfl probe_state_floating
    (by decide!) (lines_walk.take 2) _ st1
    (by
      intro l hl
      simp only [lines_walk, List.take, List.cons_append, List.nil_append, List.mem_cons,
        List.mem_singleton, List.not_mem_nil, or_false] at hl
      rcases hl with e | e | e
      · exact ⟨2, by norm_num, by rw [e]⟩
      · exact ⟨1 / 2, by norm_num, by rw [e]⟩
      · exact ⟨2, by norm_num, by rw [e]⟩)
    hst1).2.2.2 hprobed (by decide!)

/-! ### C25: the source of the sticking area -/

theorem connect_step_map {α : Type} (f : Island → α)
    (hf : ∀ (island : Island) (ci : List (Nat × IslandConnection)),
      f { island with connected_islands := ci } = f island)
    (current_layer_grid prev_layer_grid : PixelGrid) (layer_z : Flt) (islands : List Island)
    (c : Nat × Nat) :
    (connect_step current_layer_grid prev_layer_grid layer_z islands c).map f
      = islands.map f := by
  unfold connect_step
  split
  · rename_i current previous island hc hp hi
    rw [hc, Option.getD_some] at hi
    rw [List.map_set, hf]
    apply List.ext_getElem?
    intro n
    rw [List.getElem?_set]
    by_cases hn : current = n
    · subst hn
      rw [if_pos rfl]
      have hlt : current < islands.length := by
        rw [List.get?_eq_getElem?] at hi
        exact (List.getElem?_eq_some_iff.1 hi).1
      simp only [List.length_map, hlt, if_true, List.getElem?_map]
      rw [List.get?_eq_getElem?] at hi
      rw [hi]
      rfl
    · rw [if_neg hn]
  · rfl

theorem foldl_connect_step_map {α : Type} (f : Island → α)
    (hf : ∀ (island : Island) (ci : List (Nat × IslandConnection)),
      f { island with connected_islands := ci } = f island)
    (current_layer_grid prev_layer_grid : PixelGrid) (layer_z : Flt) (cs : List (Nat × Nat)) :
    ∀ islands : List Island,
      (cs.foldl (connect_step current_layer_grid prev_layer_grid layer_z) islands).map f
        = islands.map f := by
  induction cs with
  | nil => intro islands; rfl
  | cons c rest ih =>
    intro islands
    rw [List.foldl_cons, ih,
      connect_step_map f hf current_layer_grid prev_layer_grid layer_z islands c]

theorem reckon_islands_map {α : Type} (f : Island → α)
    (hf : ∀ (island : Island) (ci : List (Nat × IslandConnection)),
      f { island with connected_islands := ci } = f island)
    (env : Env) (layer : Layer) (first_layer : Bool) (prev_layer_grid : PixelGrid)
    (layer_lines : List ExtrusionLine) (params : Params) (result : LayerIslands)
    (grid : PixelGrid)
    (h : reckon_islands env layer first_layer prev_layer_grid layer_lines params
      = some (result, grid)) :
    ∃ islands0 mapping,
      reckon_islands_islands env layer first_layer layer_lines = some (islands0, mapping) ∧
      reckon_islands_rasterize env layer_lines mapping prev_layer_grid.clear = some grid ∧
      result.islands.map f = islands0.map f ∧ result.layer_z = layer.slice_z := by
  unfold reckon_islands at h
  cases hacc : reckon_islands_accumulated env layer first_layer prev_layer_grid layer_lines with
  | none => simp [hacc] at h
  | some r =>
    obtain ⟨islands, grid2⟩ := r
    simp only [hacc, Option.some.injEq, Prod.mk.injEq] at h
    obtain ⟨h1, h2⟩ := h
    subst h1; subst h2
    obtain ⟨islands0, mapping, hi, hr, hc⟩ := accumulated_parts env layer first_layer
      prev_layer_grid layer_lines islands grid2 hacc
    obtain ⟨hfold, -⟩ := connect_columns_fold grid2 prev_layer_grid layer.slice_z _ _ _ _ hc
    refine ⟨islands0, mapping, hi, hr, ?_, rfl⟩
    show (islands.map (reckon_islands_filter params)).map f = _
    rw [List.map_map]
    have hcomp : f ∘ reckon_islands_filter params = f := by
      funext island
      exact hf island _
    rw [hcomp, hfold]
    exact foldl_connect_step_map f hf grid2 prev_layer_grid layer.slice_z _ islands0

theorem lines_sticking_area_lines (first_layer : Bool) (flow_width : Flt)
    (layer_lines : List ExtrusionLine) (idxs : List Nat) :
    lines_sticking_area first_layer flow_width layer_lines idxs
      = ((idxs.filterMap layer_lines.get?).map
          (line_sticking_area first_layer flow_width)).sum := by
  unfold lines_sticking_area
  induction idxs with
  | nil => rfl
  | cons i rest ih =>
    rw [List.map_cons, List.sum_cons, ih]
    cases hg : layer_lines.get? i with
    | none =>
      rw [List.filterMap_cons_none hg]
      exact zero_add _
    | some line =>
      rw [List.filterMap_cons_some hg, List.map_cons, List.sum_cons]
      rfl

theorem sticking_sum_zero (flow_width : Flt) (lines : List ExtrusionLine)
    (h : ∀ l ∈ lines, l.support_point_generated = false) :
    (lines.map (line_sticking_area false flow_width)).sum = 0 := by
  induction lines with
  | nil => rfl
  | cons l rest ih =>
    rw [List.map_cons, List.sum_cons, ih (fun x hx => h x (List.mem_cons_of_mem _ hx))]
    have hl := h l (List.mem_cons_self _ _)
    simp only [line_sticking_area, hl, Bool.or_self, Bool.false_eq_true, if_false]
    exact add_zero _

theorem lines_length_finite (lines : List ExtrusionLine)
    (h : ∀ l ∈ lines, ∃ q : ℚ, l.len = fin q) : ∃ t : ℚ, lines_length lines = fin t := by
  induction lines with
  | nil => exact ⟨0, rfl⟩
  | cons x rest ih =>
    obtain ⟨t, ht⟩ := ih (fun y hy => h y (List.mem_cons_of_mem _ hy))
    obtain ⟨qx, hqx⟩ := h x (List.mem_cons_self _ _)
    refine ⟨qx + t, ?_⟩
    show x.len + lines_length rest = _
    rw [hqx, ht]
    rfl

theorem sticking_sum_finite (first_layer : Bool) (w : ℚ) (lines : List ExtrusionLine)
    (h : ∀ l ∈ lines, ∃ q : ℚ, l.len = fin q) :
    (lines.map (line_sticking_area first_layer (fin w))).sum
      = fin w * lines_length
          (if first_layer then lines else lines.filter fun l => l.support_point_generated) := by
  induction lines with
  | nil =>
    cases first_layer
    · show (0 : Flt) = fin w * fin 0
      rw [Flt.mul_fin, mul_zero]
      rfl
    · show (0 : Flt) = fin w * fin 0
      rw [Flt.mul_fin, mul_zero]
      rfl
  | cons l rest ih =>
    have ih2 := ih (fun y hy => h y (List.mem_cons_of_mem _ hy))
    obtain ⟨q, hq⟩ := h l (List.mem_cons_self _ _)
    rw [List.map_cons, List.sum_cons, ih2]
    cases first_layer with
    | true =>
      simp only [if_true]
      obtain ⟨t, ht⟩ := lines_length_finite rest (fun y hy => h y (List.mem_cons_of_mem _ hy))
      have e : lines_length (l :: rest) = fin (q + t) := by
        show l.len + lines_length rest = _
        rw [hq, ht]
        rfl
      rw [e, ht]
      simp only [line_sticking_area, Bool.true_or, if_true, hq, Flt.mul_fin, Flt.add_fin]
      congr 1
      ring
    | false =>
      simp only [Bool.false_eq_true, if_false]
      obtain ⟨t, ht⟩ := lines_length_finite (rest.filter fun l => l.support_point_generated)
        (fun y hy => h y (List.mem_cons_of_mem _ (List.mem_filter.1 hy).1))
      by_cases hflag : l.support_point_generated = true
      · have e : lines_length ((l :: rest).filter fun l => l.support_point_generated)
            = fin (q + t) := by
          rw [List.filter_cons_of_pos hflag]
          show l.len + lines_length _ = _
          rw [hq, ht]
          rfl
        rw [e, ht]
        simp only [line_sticking_area, hflag, Bool.or_true, if_true, hq, Flt.mul_fin,
          Flt.add_fin]
        congr 1
        ring
      · have e : lines_length ((l :: rest).filter fun l => l.support_point_generated)
            = fin t := by
          rw [List.filter_cons_of_neg hflag]
          exact ht
        rw [e, ht]
        have hflag2 : l.support_point_generated = false := by
          simpa using hflag
        simp only [line_sticking_area, hflag2, Bool.or_self, Bool.false_eq_true, if_false]
        exact zero_add _

/-- C25 (sticking area source).  For every island of the result of `reckon_islands`, with
`island_lines` the lines of the extrusions assigned to it: when the width of the flow and the
lengths of the lines are finite, the sticking area of the island is the width of the flow
times the summed length of all its lines on the first layer, and times the summed length of
its lines flagged `support_point_generated` on a later layer; and on a later layer an island
without a flagged line has the sticking area 0 exactly. -/
theorem sticking_area_source (env : Env) (layer : Layer) (first_layer : Bool)
    (prev_layer_grid : PixelGrid) (layer_lines : List ExtrusionLine) (params : Params)
    (result : LayerIslands) (grid : PixelGrid)
    (hrun : reckon_islands env layer first_layer prev_layer_grid layer_lines params
      = some (result, grid)) :
    ∃ (extrusions : List (Nat × Nat)) (island_extrusions : List (List Nat))
      (region : LayerRegion),
      reckon_islands_extrusions layer_lines 0 none [] = some extrusions ∧
      reckon_islands_assign env layer_lines layer.lslices extrusions 0
        (layer.lslices.map fun _ => []) = some island_extrusions ∧
      layer.regions.head? = some region ∧
      List.Forall₂ (fun island_ex island =>
        (first_layer = false →
          (∀ l ∈ island_lines layer_lines extrusions island_ex,
            l.support_point_generated = false) →
          island.sticking_area = 0) ∧
        (∀ w : ℚ, get_flow_width region .erExternalPerimeter = fin w →
          (∀ l ∈ island_lines layer_lines extrusions island_ex, ∃ q : ℚ, l.len = fin q) →
          island.sticking_area
            = fin w * lines_length
                (if first_layer then island_lines layer_lines extrusions island_ex
                 else (island_lines layer_lines extrusions island_ex).filter
                   fun l => l.support_point_generated)))
        (island_extrusions.filter fun island_ex => !island_ex.isEmpty) result.islands := by
  obtain ⟨islands0, mapping, hislands, -, hmap, -⟩ :=
    reckon_islands_map (fun island => island.sticking_area) (fun _ _ => rfl) env layer
      first_layer prev_layer_grid layer_lines params result grid hrun
  unfold reckon_islands_islands at hislands
  cases hext : reckon_islands_extrusions layer_lines 0 none [] with
  | none => rw [hext] at hislands; cases hislands
  | some extrusions =>
    rw [hext] at hislands
    dsimp only at hislands
    cases hassign : reckon_islands_assign env layer_lines layer.lslices extrusions 0
        (layer.lslices.map fun _ => []) with
    | none => rw [hassign] at hislands; cases hislands
    | some island_extrusions =>
      rw [hassign] at hislands
      dsimp only at hislands
      cases hregions : layer.regions with
      | nil => rw [hregions] at hislands; cases hislands
      | cons region regions =>
        rw [hregions] at hislands
        dsimp only at hislands
        refine ⟨extrusions, island_extrusions, region, rfl, hassign, ?_, ?_⟩
        · rfl
        obtain ⟨new_islands, hnew, hforall⟩ := build_volumes env layer first_layer
          (get_flow_width region .erExternalPerimeter) layer_lines extrusions island_extrusions
          [] islands0 _ mapping hislands
        rw [List.nil_append] at hnew
        subst hnew
        have hkey : List.Forall₂ (fun island_ex (area : Flt) =>
            (first_layer = false →
              (∀ l ∈ island_lines layer_lines extrusions island_ex,
                l.support_point_generated = false) →
              area = 0) ∧
            (∀ w : ℚ, get_flow_width region .erExternalPerimeter = fin w →
              (∀ l ∈ island_lines layer_lines extrusions island_ex, ∃ q : ℚ, l.len = fin q) →
              area = fin w * lines_length
                (if first_layer then island_lines layer_lines extrusions island_ex
                 else (island_lines layer_lines extrusions island_ex).filter
                   fun l => l.support_point_generated)))
            (island_extrusions.filter fun island_ex => !island_ex.isEmpty)
            (result.islands.map fun island => island.sticking_area) := by
          rw [hmap, List.forall₂_map_right_iff]
          refine List.Forall₂.imp ?_ hforall
          intro island_ex island hvs
          obtain ⟨-, hs⟩ := hvs
          rw [hs, lines_sticking_area_lines]
          refine ⟨?_, ?_⟩
          · intro hfl hflags
            rw [hfl]
            exact sticking_sum_zero _ _ hflags
          · intro w hw hfin
            rw [hw]
            exact sticking_sum_finite first_layer w _ hfin
        exact List.forall₂_map_right_iff.1 hkey

/-- Witness of C25: on a later layer, the island of one flagged line of 3 mm has the sticking
area 3 mm times the width of the flow. -/
theorem sticking_area_source_witness :
    ∃ (result : LayerIslands) (grid : PixelGrid),
      reckon_islands env0 layer_strip false grid_two_islands lines_strip_flagged params0
        = some (result, grid) ∧
      result.islands.map (fun island => island.sticking_area) = [fin (45 / 100) * fin 3] ∧
      ∃ (extrusions : List (Nat × Nat)) (island_extrusions : List (List Nat))
        (region : LayerRegion),
        List.Forall₂ (fun island_ex island =>
          ∀ w : ℚ, get_flow_width region .erExternalPerimeter = fin w →
            (∀ l ∈ island_lines lines_strip_flagged extrusions island_ex,
              ∃ q : ℚ, l.len = fin q) →
            island.sticking_area
              = fin w * lines_length
                  (if false then island_lines lines_strip_flagged extrusions island_ex
                   else (island_lines lines_strip_flagged extrusions island_ex).filter
                     fun l => l.support_point_generated))
          (island_extrusions.filter fun island_ex => !island_ex.isEmpty) result.islands := by
  obtain ⟨r, hr⟩ := Option.isSome_iff_exists.1
    (by decide! : (reckon_islands env0 layer_strip false grid_two_islands lines_strip_flagged
      params0).isSome = true)
  have h1 : (reckon_islands env0 layer_strip false grid_two_islands lines_strip_flagged
      params0).map (fun r => r.1.islands.map fun island => island.sticking_area)
      = some [fin (45 / 100) * fin 3] := by decide!
  rw [hr] at h1
  obtain ⟨extrusions, island_extrusions, region, -, -, -, hforall⟩ :=
    sticking_area_source env0 layer_strip false grid_two_islands lines_strip_flagged params0
      r.1 r.2 hr
  exact ⟨r.1, r.2, hr, Option.some.inj h1, extrusions, island_extrusions, region,
    List.Forall₂.imp (fun _ _ h => h.2) hforall⟩

/-! ### C27: path compression is transparent -/

namespace ActiveObjectParts

theorem ancestor_root {m : Nat → Option Nat} {r : Nat} (hr : m r = some r) :
    ∀ d, ancestor m d r = some r := by
  intro d
  induction d with
  | zero => rfl
  | succ d ih =>
    simp only [ancestor, hr, Option.some_bind]
    exact ih

theorem ancestor_chain {m : Nat → Option Nat} {r : Nat} :
    ∀ (d p k j : Nat), Chain m p r k → ancestor m d p = some j →
      ∃ k2, k2 ≤ k ∧ Chain m j r k2 := by
  intro d
  induction d with
  | zero =>
    intro p k j hc ha
    simp only [ancestor, Option.some.injEq] at ha
    subst ha
    exact ⟨k, le_rfl, hc⟩
  | succ d ih =>
    intro p k j hc ha
    cases hc with
    | root hr =>
      simp only [ancestor, hr, Option.some_bind] at ha
      exact ih _ _ _ (Chain.root hr) ha
    | @step _ q _ k2 hq hne hc2 =>
      simp only [ancestor, hq, Option.some_bind] at ha
      obtain ⟨k3, hk3, hc3⟩ := ih _ _ _ hc2 ha
      exact ⟨k3, by omega, hc3⟩

theorem chain_loop2_direct {m : Nat → Option Nat} {i r k : Nat} (h : Chain m i r k) :
    ∀ (mc : Nat → Option Nat) (fuel : Nat),
      (∀ j d, Chain m j r d → d ≤ k → mc j = m j) → k ≤ fuel → 1 ≤ fuel →
      ∃ m2, get_flat_id_loop2 r fuel i mc = some m2 ∧
        (∀ d j, ancestor m d i = some j → m2 j = some r) ∧
        (∀ j, (∀ d, ancestor m d i ≠ some j) → m2 j = mc j) := by
  induction h with
  | @root r0 h =>
    intro mc fuel hinv _ hf1
    obtain ⟨f, rfl⟩ : ∃ f, fuel = f + 1 := ⟨fuel - 1, by omega⟩
    have hmc : mc r0 = some r0 := (hinv _ 0 (Chain.root h) le_rfl).trans h
    refine ⟨mc, by simp [get_flat_id_loop2, hmc], ?_, fun j _ => rfl⟩
    intro d j ha
    rw [ancestor_root h d] at ha
    cases Option.some.inj ha
    exact hmc
  | @step i p r k h hne hc ih =>
    intro mc fuel hinv hf hf1
    obtain ⟨f, rfl⟩ : ∃ f, fuel = f + 1 := ⟨fuel - 1, by omega⟩
    have hi : mc i = some p := (hinv i (k + 1) (Chain.step h hne hc) le_rfl).trans h
    have hroot : m r = some r := hc.root_self
    have hmcr : mc r = some r := (hinv r 0 (Chain.root hroot) (by omega)).trans hroot
    by_cases hrp : r = p
    · subst hrp
      refine ⟨mc, by simp [get_flat_id_loop2, hi], ?_, fun j _ => rfl⟩
      intro d j ha
      cases d with
      | zero =>
        simp only [ancestor, Option.some.injEq] at ha
        subst ha
        exact hi
      | succ d =>
        simp only [ancestor, h, Option.some_bind] at ha
        rw [ancestor_root hroot d] at ha
        cases Option.some.inj ha
        exact hmcr
    · have hnot : ∀ d, ancestor m d p ≠ some i := by
        intro d ha
        obtain ⟨k2, hk2, hc2⟩ := ancestor_chain d p k i hc ha
        have := (Chain.unique hc2 (Chain.step h hne hc)).2
        omega
      obtain ⟨m2, hm2, hdir, hframe⟩ := ih (Function.update mc i (some r)) f
        (by
          intro j d hj hd
          have hji : j ≠ i := by
            intro e
            subst e
            have := (Chain.unique hj (Chain.step h hne hc)).2
            omega
          simp only [Function.update, hji, dite_false]
          exact hinv j d hj (by omega))
        (by omega)
        (by
          rcases Nat.eq_zero_or_pos k with h0 | h0
          · subst h0
            cases hc with
            | root _ => exact absurd rfl hrp
          · omega)
      refine ⟨m2, ?_, ?_, ?_⟩
      · simp only [get_flat_id_loop2, hi, ne_eq, hrp, not_false_eq_true, if_true]
        exact hm2
      · intro d j ha
        cases d with
        | zero =>
          simp only [ancestor, Option.some.injEq] at ha
          subst ha
          rw [hframe _ hnot]
          simp [Function.update]
        | succ d =>
          simp only [ancestor, h, Option.some_bind] at ha
          exact hdir d j ha
      · intro j hj
        have hji : j ≠ i := fun e => hj 0 (by rw [e]; rfl)
        rw [hframe j (fun d ha => hj (d + 1) (by simp only [ancestor, h, Option.some_bind]; exact ha))]
        simp [Function.update, hji]

theorem MapOK.flat_id_direct {s : ActiveObjectParts} (h : s.MapOK) {i : Nat}
    (hi : i < s.next_part_idx) :
    ∃ r s1 k, s.get_flat_id i = some (r, s1) ∧
      Chain s.active_object_parts_id_mapping i r k ∧
      ∀ d j, ancestor s.active_object_parts_id_mapping d i = some j →
        s1.active_object_parts_id_mapping j = some r := by
  obtain ⟨r, k, hc⟩ := h.total i hi
  have hk : k < s.next_part_idx := hc.length_lt h.lt
  obtain ⟨m2, hm2, hdir, -⟩ := chain_loop2_direct hc s.active_object_parts_id_mapping
    s.next_part_idx (fun _ _ _ _ => rfl) hk.le (by omega)
  have hget : s.get_flat_id i = some (r, { s with active_object_parts_id_mapping := m2 }) := by
    cases hc with
    | root hr =>
      simp only [ActiveObjectParts.get_flat_id, hr]
      rw [chain_loop1 (Chain.root hr) _ hk]
      simp only [hm2]
    | step hi2 hne hc2 =>
      simp only [ActiveObjectParts.get_flat_id, hi2]
      rw [chain_loop1 hc2 _ (by omega)]
      simp only [hm2]
  exact ⟨r, _, k, hget, hc, hdir⟩

theorem replay_mapOK (calls : List TrackerCall) :
    ∀ (s s2 : ActiveObjectParts), s.MapOK → replay s calls = some s2 → s2.MapOK := by
  induction calls with
  | nil =>
    intro s s2 h hr
    simp only [replay, Option.some.injEq] at hr
    exact hr ▸ h
  | cons c cs ih =>
    intro s s2 h hr
    cases c with
    | insert island =>
      simp only [replay] at hr
      exact ih _ _ (h.after_insert island) hr
    | merge from_id to_id =>
      simp only [replay] at hr
      cases hm : s.merge from_id to_id with
      | none => simp [hm] at hr
      | some sm =>
        simp only [hm] at hr
        exact ih _ _ (h.after_merge hm) hr

theorem mapOK_empty : ({} : ActiveObjectParts).MapOK :=
  ⟨fun _ _ h => absurd h (by simp), fun _ h => absurd h (by simp [Nat.not_lt_zero])⟩

end ActiveObjectParts

/-- C27 (path compression is transparent).  On every tracker `s` that a sequence of `insert`
and `merge` calls reaches, and for every id of the tracker (`id < next_part_idx`):
`get_flat_id id` returns the id `r` at the end of the chain of parents of `id`, which is mapped
to itself; after the call every id on that chain (every `ancestor` of `id`, `id` included) is
mapped to `r` directly; the parts and `next_part_idx` are untouched; for every id `j` of the
tracker `get_flat_id j` returns after the call what it returns before it; and the repeated call
`get_flat_id id` returns `r` again. -/
theorem path_compression_transparent (calls : List TrackerCall) (s : ActiveObjectParts)
    (hreach : replay {} calls = some s) (id : Nat) (hid : id < s.next_part_idx) :
    ∃ (r : Nat) (s1 : ActiveObjectParts) (k : Nat),
      s.get_flat_id id = some (r, s1) ∧
      ActiveObjectParts.Chain s.active_object_parts_id_mapping id r k ∧
      s.active_object_parts_id_mapping r = some r ∧
      (∀ d j, ActiveObjectParts.ancestor s.active_object_parts_id_mapping d id = some j →
        s1.active_object_parts_id_mapping j = some r) ∧
      s1.active_object_parts = s.active_object_parts ∧
      s1.next_part_idx = s.next_part_idx ∧
      (∀ j, j < s.next_part_idx →
        (s1.get_flat_id j).map Prod.fst = (s.get_flat_id j).map Prod.fst) ∧
      (s1.get_flat_id id).map Prod.fst = some r := by
  have hok : s.MapOK := ActiveObjectParts.replay_mapOK calls _ _ ActiveObjectParts.mapOK_empty
    hreach
  obtain ⟨r, s1, k, hget, hc, hdir⟩ := hok.flat_id_direct hid
  obtain ⟨r2, s2, hget2, hok1, -, hparts, hnext⟩ := hok.flat_id_resolves hid
  rw [hget] at hget2
  simp only [Option.some.injEq, Prod.mk.injEq] at hget2
  obtain ⟨e1, e2⟩ := hget2
  subst e1; subst e2
  obtain ⟨-, hcomp, -⟩ := ActiveObjectParts.get_flat_id_spec hget
  have hroot : s.active_object_parts_id_mapping r = some r := hc.root_self
  have hsame : ∀ j, j < s.next_part_idx →
      (s1.get_flat_id j).map Prod.fst = (s.get_flat_id j).map Prod.fst := by
    intro j hj
    obtain ⟨x, sa, hx, -⟩ := hok.flat_id_resolves hj
    obtain ⟨y, sb, hy, -⟩ := hok1.flat_id_resolves (i := j) (by rw [hnext]; exact hj)
    obtain ⟨⟨kx, -, hcx⟩, -, -⟩ := ActiveObjectParts.get_flat_id_spec hx
    obtain ⟨⟨ky, -, hcy⟩, -, -⟩ := ActiveObjectParts.get_flat_id_spec hy
    obtain ⟨kx2, -, hcx2⟩ := hcomp.chain hroot hcx
    have := (ActiveObjectParts.Chain.unique hcx2 hcy).1
    rw [hx, hy, this]
    rfl
  refine ⟨r, s1, k, hget, hc, hroot, hdir, hparts, hnext, hsame, ?_⟩
  rw [hsame id hid, hget]
  rfl

/-- Witness of C27: `get_flat_id 0` on the tracker reached by `calls_chain`, on which the
parents of the id 0 are 1, 2 and 3. -/
theorem path_compression_transparent_witness :
    ∃ (s : ActiveObjectParts) (s1 : ActiveObjectParts),
      replay {} calls_chain = some s ∧
      (List.range 4).map s.active_object_parts_id_mapping = [some 1, some 2, some 3, some 3] ∧
      s.get_flat_id 0 = some (3, s1) ∧
      (List.range 4).map s1.active_object_parts_id_mapping
        = [some 3, some 3, some 3, some 3] := by
  obtain ⟨s, hs⟩ := Option.isSome_iff_exists.1
    (by decide : (replay {} calls_chain).isSome = true)
  have hmap : (replay {} calls_chain).map
      (fun s => ((List.range 4).map s.active_object_parts_id_mapping, s.next_part_idx))
      = some ([some 1, some 2, some 3, some 3], 4) := by decide
  rw [hs] at hmap
  simp only [Option.map_some', Option.some.injEq, Prod.mk.injEq] at hmap
  obtain ⟨r, s1, k, hget, -, -, -, -, -, -, -⟩ :=
    path_compression_transparent calls_chain s hs 0 (by rw [hmap.2]; decide)
  have hres : ((replay {} calls_chain).bind fun s => s.get_flat_id 0).map
      (fun p => (p.1, (List.range 4).map p.2.active_object_parts_id_mapping))
      = some (3, [some 3, some 3, some 3, some 3]) := by decide
  rw [hs, Option.some_bind, hget] at hres
  simp only [Option.map_some', Option.some.injEq, Prod.mk.injEq] at hres
  obtain ⟨hr3, hm1⟩ := hres
  subst hr3
  exact ⟨s, s1, hs, hmap.1, hget, hm1⟩

/-! ### C30: the order of the merges -/

/-- C30 (merge-order independence).  On a well-formed tracker, take an island with
predecessors and two iteration orders `order1` and `order2` of the set of the part ids of its
predecessors (each a permutation of the set, so that also the merge target, the first element,
may differ).  The first island loop of `check_global_stability` succeeds with both orders, with
the part ids `final1` and `final2` assigned to the island, and: the part stored for the island
is the same (all its accumulators are equal); and two ids of the tracker have the same
canonical id (`get_flat_id`) after the run with `order1` exactly when they have the same
canonical id after the run with `order2`. -/
theorem merge_order_independence (env : Env) (order1 order2 : List Nat → List Nat)
    (layer_z : Flt) (st : GlobalState) (island_idx : Nat) (island : Island)
    (hwf : st.active_object_parts.WF) (hne : island.connected_islands ≠ [])
    (horder1 : ∀ l, (order1 l).Perm l) (horder2 : ∀ l, (order2 l).Perm l)
    (hprev : ∀ kc ∈ island.connected_islands, ∃ pid w,
      st.prev_island_to_object_part_mapping kc.1 = some pid ∧
      pid < st.active_object_parts.next_part_idx ∧
      st.prev_island_weakest_connection kc.1 = some w) :
    ∃ (st1 st2 : GlobalState) (final1 final2 : Nat) (part : ObjectPart),
      check_global_stability_connect env order1 layer_z st island_idx island = some st1 ∧
      check_global_stability_connect env order2 layer_z st island_idx island = some st2 ∧
      st1.next_island_to_object_part_mapping
        = emplace st.next_island_to_object_part_mapping island_idx final1 ∧
      st2.next_island_to_object_part_mapping
        = emplace st.next_island_to_object_part_mapping island_idx final2 ∧
      st1.active_object_parts.active_object_parts final1 = some part ∧
      st2.active_object_parts.active_object_parts final2 = some part ∧
      ∀ i j, i < st.active_object_parts.next_part_idx →
        j < st.active_object_parts.next_part_idx →
        ((st1.active_object_parts.get_flat_id i).map Prod.fst
            = (st1.active_object_parts.get_flat_id j).map Prod.fst ↔
          (st2.active_object_parts.get_flat_id i).map Prod.fst
            = (st2.active_object_parts.get_flat_id j).map Prod.fst) := by
  obtain ⟨st1, final1, ids1, hc1, hwf1, -, hnd1, hf1, hmem1, hchain1, hpart1, -, hnext1, -⟩ :=
    connect_spec env order1 layer_z st island_idx island hwf hne horder1 hprev
  obtain ⟨st2, final2, ids2, hc2, hwf2, -, hnd2, hf2, hmem2, hchain2, hpart2, -, hnext2, -⟩ :=
    connect_spec env order2 layer_z st island_idx island hwf hne horder2 hprev
  have hmem : ∀ r, r ∈ ids1 ↔ r ∈ ids2 := fun r => (hmem1 r).trans (hmem2 r).symm
  have hperm : ids1.Perm ids2 := (List.perm_ext_iff_of_nodup hnd1 hnd2).2 hmem
  have hsum : (ids1.map fun r => (st.active_object_parts.active_object_parts r).getD 0).sum
      = (ids2.map fun r => (st.active_object_parts.active_object_parts r).getD 0).sum :=
    (hperm.map _).sum_eq
  have hcanon1 : ∀ i x k,
      ActiveObjectParts.Chain st.active_object_parts.active_object_parts_id_mapping i x k →
      (st1.active_object_parts.get_flat_id i).map Prod.fst
        = some (if x ∈ ids1 then final1 else x) := by
    intro i x k hc
    obtain ⟨k2, hk2⟩ := hchain1 i x k hc
    obtain ⟨s, hs, -⟩ := hwf1.get_flat_id hk2
    rw [hs]
    rfl
  have hcanon2 : ∀ i x k,
      ActiveObjectParts.Chain st.active_object_parts.active_object_parts_id_mapping i x k →
      (st2.active_object_parts.get_flat_id i).map Prod.fst
        = some (if x ∈ ids2 then final2 else x) := by
    intro i x k hc
    obtain ⟨k2, hk2⟩ := hchain2 i x k hc
    obtain ⟨s, hs, -⟩ := hwf2.get_flat_id hk2
    rw [hs]
    rfl
  refine ⟨st1, st2, final1, final2, _, hc1, hc2, hnext1, hnext2, hpart1, ?_, ?_⟩
  · rw [hpart2, hsum]
  · intro i j hi hj
    obtain ⟨x, kx, hx⟩ := hwf.total i hi
    obtain ⟨y, ky, hy⟩ := hwf.total j hj
    rw [hcanon1 i x kx hx, hcanon1 j y ky hy, hcanon2 i x kx hx, hcanon2 j y ky hy]
    simp only [Option.some.injEq]
    by_cases hxm : x ∈ ids1
    · have hxm2 := (hmem x).1 hxm
      by_cases hym : y ∈ ids1
      · have hym2 := (hmem y).1 hym
        simp only [hxm, hym, hxm2, hym2, if_true]
      · have hym2 : y ∉ ids2 := fun h => hym ((hmem y).2 h)
        simp only [hxm, hym, hxm2, hym2, if_true, if_false]
        constructor
        · intro e
          exact absurd (e ▸ hf1) hym
        · intro e
          exact absurd (e ▸ hf2) hym2
    · have hxm2 : x ∉ ids2 := fun h => hxm ((hmem x).2 h)
      by_cases hym : y ∈ ids1
      · have hym2 := (hmem y).1 hym
        simp only [hxm, hym, hxm2, hym2, if_true, if_false]
        constructor
        · intro e
          exact absurd (e ▸ hf1) hxm
        · intro e
          exact absurd (e ▸ hf2) hxm2
      · have hym2 : y ∉ ids2 := fun h => hym ((hmem y).2 h)
        simp only [hxm, hym, hxm2, hym2, if_false]

/-- Witness of C30: the island `island_bridge`, which rests on the parts 0 and 1, with the
set of part ids iterated in the order of insertion (merge target 0) and in the reverse order
(merge target 1). -/
theorem merge_order_independence_witness :
    ∃ (st1 st2 : GlobalState) (part : ObjectPart),
      check_global_stability_connect env0 id (fin 1) state_three_parts 0 island_bridge
        = some st1 ∧
      check_global_stability_connect env0 List.reverse (fin 1) state_three_parts 0 island_bridge
        = some st2 ∧
      st1.next_island_to_object_part_mapping 0 = some 0 ∧
      st2.next_island_to_object_part_mapping 0 = some 1 ∧
      st1.active_object_parts.active_object_parts 0 = some part ∧
      st2.active_object_parts.active_object_parts 1 = some part := by
  obtain ⟨st1, st2, final1, final2, part, h1, h2, h3, h4, h5, h6, -⟩ :=
    merge_order_independence env0 id List.reverse (fin 1) state_three_parts 0 island_bridge
      tracker3_wf (by decide) (fun l => List.Perm.refl l) (fun l => List.reverse_perm l)
      (by
        intro kc hkc
        have hk : kc.1 < 3 := by
          simp only [island_bridge, List.mem_cons, List.mem_singleton, List.not_mem_nil,
            or_false] at hkc
          rcases hkc with e | e <;> rw [e] <;> decide
        exact ⟨kc.1, sentinel_connection, by simp [state_three_parts, hk],
          by simpa [state_three_parts, tracker3, ActiveObjectParts.insert] using hk,
          by simp [state_three_parts, hk]⟩)
  have e1 : (check_global_stability_connect env0 id (fin 1) state_three_parts 0
      island_bridge).map (fun s => s.next_island_to_object_part_mapping 0) = some (some 0) := by
    decide!
  have e2 : (check_global_stability_connect env0 List.reverse (fin 1) state_three_parts 0
      island_bridge).map (fun s => s.next_island_to_object_part_mapping 0) = some (some 1) := by
    decide!
  rw [h1] at e1
  rw [h2] at e2
  have f1 : st1.next_island_to_object_part_mapping 0 = some 0 := Option.some.inj e1
  have f2 : st2.next_island_to_object_part_mapping 0 = some 1 := Option.some.inj e2
  have g1 : final1 = 0 := by
    rw [h3] at f1
    simpa [emplace, state_three_parts] using f1
  have g2 : final2 = 1 := by
    rw [h4] at f2
    simpa [emplace, state_three_parts] using f2
  subst g1; subst g2
  exact ⟨st1, st2, part, h1, h2, f1, f2, h5, h6⟩

/-! ### C26: the resampling of a polyline -/

theorem runs_append (q m : Vec2f) (l1 l2 : List ExtrusionLine) :
    ∀ p : Vec2f, runs_from_to m p l1 → runs_from_to q m l2 → runs_from_to q p (l1 ++ l2) := by
  induction l1 with
  | nil =>
    intro p h1 h2
    have e : p = m := h1
    rw [e]
    exact h2
  | cons l rest ih =>
    intro p h1 h2
    exact ⟨h1.1, ih l.b h1.2 h2⟩

theorem lines_length_append (l1 l2 : List ExtrusionLine) :
    lines_length (l1 ++ l2) = lines_length l1 + lines_length l2 := by
  unfold lines_length
  rw [List.map_append, List.sum_append]

theorem dvd_of_sq_dvd_sq_mul {a b t : Nat} (ha : Squarefree a) (hb : 0 < b)
    (h : t * t ∣ b * b * a) : t ∣ b := by
  have hg : 0 < Nat.gcd t b := Nat.gcd_pos_of_pos_right t hb
  obtain ⟨t2, b2, hco, ht, hb2⟩ := Nat.exists_coprime t b
  have h2 : (Nat.gcd t b * Nat.gcd t b) * (t2 * t2) ∣ (Nat.gcd t b * Nat.gcd t b) * (b2 * b2 * a) := by
    have e1 : (Nat.gcd t b * Nat.gcd t b) * (t2 * t2) = t * t := by
      nth_rewrite 3 [ht]
      nth_rewrite 4 [ht]
      ring
    have e2 : (Nat.gcd t b * Nat.gcd t b) * (b2 * b2 * a) = b * b * a := by
      nth_rewrite 3 [hb2]
      nth_rewrite 4 [hb2]
      ring
    rw [e1, e2]
    exact h
  have h3 : t2 * t2 ∣ b2 * b2 * a := Nat.dvd_of_mul_dvd_mul_left (Nat.mul_pos hg hg) h2
  have hco2 : Nat.Coprime (t2 * t2) (b2 * b2) :=
    Nat.Coprime.mul (Nat.Coprime.mul_right hco hco) (Nat.Coprime.mul_right hco hco)
  have h4 : t2 * t2 ∣ a := hco2.dvd_of_dvd_mul_left h3
  have h5 : t2 = 1 := Nat.isUnit_iff.1 (ha t2 h4)
  rw [ht, h5, one_mul]
  exact Nat.gcd_dvd_right t b

theorem square_part_sq_mul {a b : Nat} (ha : Squarefree a) (hb : 0 < b) :
    square_part (b * b * a) = b := by
  have ha0 : 0 < a := Nat.pos_of_ne_zero ha.ne_zero
  have hle : b ≤ b * b * a := by
    calc b = b * 1 := (mul_one b).symm
      _ ≤ b * (b * a) := Nat.mul_le_mul_left b (Nat.mul_pos hb ha0)
      _ = b * b * a := (mul_assoc b b a).symm
  have hP : b * b ∣ b * b * a := Dvd.intro _ rfl
  have h1 : b ≤ square_part (b * b * a) := Nat.le_findGreatest hle hP
  have h2 : square_part (b * b * a) * square_part (b * b * a) ∣ b * b * a :=
    Nat.findGreatest_spec (P := fun t => t * t ∣ b * b * a) hle hP
  have h3 : square_part (b * b * a) ≤ b := Nat.le_of_dvd hb (dvd_of_sq_dvd_sq_mul ha hb h2)
  exact le_antisymm h3 h1

theorem root_thousandths_pos {s : Nat} (hs : 0 < s) : 0 < root_thousandths s := by
  have h1 : 1000 ≤ s * 1000 := Nat.le_mul_of_pos_left 1000 hs
  have h2 : 1000 * 1000 ≤ s * 1000000 := by omega
  have h3 : 1000 ≤ root_thousandths s :=
    Nat.le_findGreatest (P := fun r => r * r ≤ s * 1000000) h1 h2
  omega

theorem root_thousandths_one : root_thousandths 1 = 1000 :=
  Nat.findGreatest_eq (P := fun r => r * r ≤ 1 * 1000000) (by norm_num)

theorem sqrt_homogeneous_of_parts {x : ℚ} (hx : 0 < x) {a b : Nat} (ha : Squarefree a)
    (hb : 0 < b) (h : x.num.natAbs * x.den = b * b * a) :
    sqrt_homogeneous x = (b : ℚ) / x.den * ((root_thousandths a : ℚ) / 1000) := by
  have hbb : 0 < b * b := Nat.mul_pos hb hb
  simp only [sqrt_homogeneous, if_neg (not_le.2 hx), h, square_part_sq_mul ha hb,
    Nat.mul_div_cancel_left a hbb]

theorem sqrt_homogeneous_of_reduced {g p2 q2 a b : Nat} (hg : 0 < g) (hco : Nat.Coprime p2 q2)
    (hp20 : 0 < p2) (hq20 : 0 < q2) (ha : Squarefree a) (hb : 0 < b)
    (h : (p2 * g) * (q2 * g) = b * b * a) :
    sqrt_homogeneous (((p2 * g : Nat) : ℚ) / ((q2 * g : Nat) : ℚ))
      = (b : ℚ) / ((q2 * g : Nat) : ℚ) * ((root_thousandths a : ℚ) / 1000) := by
  have hgq : ((g : Nat) : ℚ) ≠ 0 := by exact_mod_cast hg.ne'
  have hq2q : ((q2 : Nat) : ℚ) ≠ 0 := by exact_mod_cast hq20.ne'
  have hx : ((p2 * g : Nat) : ℚ) / ((q2 * g : Nat) : ℚ) = ((p2 : Int) : ℚ) / ((q2 : Int) : ℚ) := by
    push_cast
    field_simp
    ring
  have hnum : (((p2 : Int) : ℚ) / ((q2 : Int) : ℚ)).num = (p2 : Int) :=
    Rat.num_div_eq_of_coprime (by exact_mod_cast hq20) (by simpa using hco)
  have hden : ((((p2 : Int) : ℚ) / ((q2 : Int) : ℚ)).den : Int) = (q2 : Int) :=
    Rat.den_div_eq_of_coprime (by exact_mod_cast hq20) (by simpa using hco)
  have hden2 : (((p2 : Int) : ℚ) / ((q2 : Int) : ℚ)).den = q2 := by exact_mod_cast hden
  have hpos : (0 : ℚ) < ((p2 : Int) : ℚ) / ((q2 : Int) : ℚ) :=
    div_pos (by exact_mod_cast hp20) (by exact_mod_cast hq20)
  have hsq : g * g * (p2 * q2) = b * b * a := by
    rw [← h]
    ring
  obtain ⟨b2, hb2⟩ : g ∣ b := dvd_of_sq_dvd_sq_mul ha hb (Dvd.intro _ hsq)
  have hb20 : 0 < b2 := by
    rcases Nat.eq_zero_or_pos b2 with e | e
    · rw [e, mul_zero] at hb2
      omega
    · exact e
  have hparts : p2 * q2 = b2 * b2 * a := by
    have e : g * g * (p2 * q2) = g * g * (b2 * b2 * a) := by
      rw [hsq, hb2]
      ring
    exact Nat.eq_of_mul_eq_mul_left (Nat.mul_pos hg hg) e
  have hnat : (((p2 : Int) : ℚ) / ((q2 : Int) : ℚ)).num.natAbs
      * (((p2 : Int) : ℚ) / ((q2 : Int) : ℚ)).den = b2 * b2 * a := by
    rw [hnum, hden2, Int.natAbs_ofNat]
    exact hparts
  rw [hx, sqrt_homogeneous_of_parts hpos ha hb20 hnat, hden2, hb2]
  congr 1
  push_cast
  field_simp
  ring

theorem sqrt_homogeneous_of_div {p q a b : Nat} (hp : 0 < p) (hq : 0 < q) (ha : Squarefree a)
    (hb : 0 < b) (h : p * q = b * b * a) :
    sqrt_homogeneous ((p : ℚ) / q) = (b : ℚ) / q * ((root_thousandths a : ℚ) / 1000) := by
  have hg : 0 < Nat.gcd p q := Nat.gcd_pos_of_pos_right p hq
  obtain ⟨p2, q2, hco, hp2, hq2⟩ := Nat.exists_coprime p q
  generalize Nat.gcd p q = g at hg hp2 hq2
  subst hp2
  subst hq2
  have hp20 : 0 < p2 := Nat.pos_of_mul_pos_right hp
  have hq20 : 0 < q2 := Nat.pos_of_mul_pos_right hq
  exact sqrt_homogeneous_of_reduced hg hco hp20 hq20 ha hb h

theorem sqrt_homogeneous_zero : sqrt_homogeneous 0 = 0 := by
  simp [sqrt_homogeneous]

theorem sqrt_homogeneous_pos (x : ℚ) (hx : 0 < x) : 0 < sqrt_homogeneous x := by
  have hnum : 0 < x.num := Rat.num_pos.2 hx
  have hm : 0 < x.num.natAbs * x.den :=
    Nat.mul_pos (Int.natAbs_pos.2 hnum.ne') x.den_pos
  obtain ⟨a, b, ha0, hb0, hab, hsf⟩ := Nat.sq_mul_squarefree_of_pos hm
  rw [sqrt_homogeneous_of_parts hx hsf hb0 (by rw [← hab]; ring)]
  have hk : 0 < root_thousandths a := root_thousandths_pos ha0
  have hden : (0 : ℚ) < x.den := by exact_mod_cast x.den_pos
  have hbq : (0 : ℚ) < b := by exact_mod_cast hb0
  have hkq : (0 : ℚ) < root_thousandths a := by exact_mod_cast hk
  positivity

theorem natAbs_num_cast {x : ℚ} (hx : 0 < x) : ((x.num.natAbs : Nat) : ℚ) = x.num := by
  rw [← Int.cast_natCast, Int.natAbs_of_nonneg (Rat.num_pos.2 hx).le]

theorem sqrt_homogeneous_scale (x : ℚ) (n : Nat) (hx : 0 < x) (hn : 0 < n) :
    sqrt_homogeneous (x / (n * n)) = sqrt_homogeneous x / n := by
  have hnum : 0 < x.num := Rat.num_pos.2 hx
  have hp : 0 < x.num.natAbs := Int.natAbs_pos.2 hnum.ne'
  have hm : 0 < x.num.natAbs * x.den := Nat.mul_pos hp x.den_pos
  obtain ⟨a, b, ha0, hb0, hab, hsf⟩ := Nat.sq_mul_squarefree_of_pos hm
  have hparts : x.num.natAbs * x.den = b * b * a := by rw [← hab]; ring
  rw [sqrt_homogeneous_of_parts hx hsf hb0 hparts]
  have hnq : ((n : Nat) : ℚ) ≠ 0 := by exact_mod_cast hn.ne'
  have hdq : ((x.den : Nat) : ℚ) ≠ 0 := by exact_mod_cast x.den_pos.ne'
  have hxe : x / (n * n) = ((x.num.natAbs : Nat) : ℚ) / ((x.den * n * n : Nat) : ℚ) := by
    have hnd : (x.num : ℚ) = x * x.den := (Rat.mul_den_eq_num x).symm
    rw [natAbs_num_cast hx]
    push_cast
    field_simp
    rw [hnd]
    ring
  have hparts2 : x.num.natAbs * (x.den * n * n) = (b * n) * (b * n) * a := by
    calc x.num.natAbs * (x.den * n * n) = (x.num.natAbs * x.den) * (n * n) := by ring
      _ = b * b * a * (n * n) := by rw [hparts]
      _ = (b * n) * (b * n) * a := by ring
  rw [hxe, sqrt_homogeneous_of_div hp (Nat.mul_pos (Nat.mul_pos x.den_pos hn) hn) hsf
    (Nat.mul_pos hb0 hn) hparts2]
  push_cast
  field_simp
  ring

theorem sqrt_homogeneous_abs (r : ℚ) (hr : 0 < r) : sqrt_homogeneous (r * r) = r := by
  have hnum : 0 < r.num := Rat.num_pos.2 hr
  have hp : 0 < r.num.natAbs := Int.natAbs_pos.2 hnum.ne'
  have hdq : ((r.den : Nat) : ℚ) ≠ 0 := by exact_mod_cast r.den_pos.ne'
  have hnd : (r.num : ℚ) = r * r.den := (Rat.mul_den_eq_num r).symm
  have hxe : r * r = ((r.num.natAbs * r.num.natAbs : Nat) : ℚ)
      / ((r.den * r.den : Nat) : ℚ) := by
    push_cast
    rw [natAbs_num_cast hr]
    field_simp
    rw [hnd]
    ring
  rw [hxe, sqrt_homogeneous_of_div (a := 1) (b := r.num.natAbs * r.den)
    (Nat.mul_pos hp hp) (Nat.mul_pos r.den_pos r.den_pos) squarefree_one
    (Nat.mul_pos hp r.den_pos) (by ring)]
  rw [root_thousandths_one]
  push_cast
  rw [natAbs_num_cast hr]
  field_simp
  rw [hnd]
  ring

theorem sqrt_homogeneous_sq (q : ℚ) : sqrt_homogeneous (q * q) = |q| := by
  rcases eq_or_ne q 0 with e | e
  · rw [e]
    simp [sqrt_homogeneous]
  · rw [← abs_mul_abs_self q]
    exact sqrt_homogeneous_abs |q| (abs_pos.2 e)

theorem norm_value (env : Env) (a b : ℚ) :
    Vec2f.norm env.sqrtf ⟨fin a, fin b⟩ = fin (env.sqrtf (a * a + b * b)) := by
  simp only [Vec2f.norm, Vec2f.squaredNorm, Flt.mul_fin, Flt.add_fin, Flt.sqrt_fin]
  rw [if_neg (not_lt.2 (add_nonneg (mul_self_nonneg a) (mul_self_nonneg b)))]

theorem make_value (env : Env) {ax ay bx by_ X L : ℚ}
    (hX : (ax - bx) * (ax - bx) + (ay - by_) * (ay - by_) = X) (hL : env.sqrtf X = L)
    (e : Option EntityRef) :
    ExtrusionLine.make env ⟨fin ax, fin ay⟩ ⟨fin bx, fin by_⟩ e
      = { a := ⟨fin ax, fin ay⟩, b := ⟨fin bx, fin by_⟩, len := fin L, origin_entity := e } := by
  simp only [ExtrusionLine.make, Vec2f.mk_sub_mk, Flt.sub_fin, norm_value, hX, hL]

theorem segment_run (env : Env) (e : Option EntityRef) (sx sy ux uy t : ℚ)
    (hpiece : env.sqrtf (ux * t * (ux * t) + uy * t * (uy * t)) = t) :
    ∀ (n : Nat) (i : Int),
      runs_from_to ⟨fin (sx + ux * ((i + n) * t)), fin (sy + uy * ((i + n) * t))⟩
        ⟨fin (sx + ux * (i * t)), fin (sy + uy * (i * t))⟩
        (to_short_lines_segment env e ⟨fin sx, fin sy⟩ ⟨fin ux, fin uy⟩ (fin t) n i) ∧
      (∀ l ∈ to_short_lines_segment env e ⟨fin sx, fin sy⟩ ⟨fin ux, fin uy⟩ (fin t) n i,
        l.len = fin t) ∧
      lines_length (to_short_lines_segment env e ⟨fin sx, fin sy⟩ ⟨fin ux, fin uy⟩ (fin t) n i)
        = fin (n * t) := by
  intro n
  induction n with
  | zero =>
    intro i
    refine ⟨?_, fun l hl => absurd hl (List.not_mem_nil l), ?_⟩
    · show Vec2f.mk _ _ = Vec2f.mk _ _
      simp
    · show (0 : Flt) = _
      simp
  | succ n ih =>
    intro i
    obtain ⟨h1, h2, h3⟩ := ih (i + 1)
    have hline : ExtrusionLine.make env
        ((⟨fin sx, fin sy⟩ : Vec2f) + (⟨fin ux, fin uy⟩ : Vec2f).scale (Flt.ofInt i * fin t))
        ((⟨fin sx, fin sy⟩ : Vec2f)
          + (⟨fin ux, fin uy⟩ : Vec2f).scale (Flt.ofInt (i + 1) * fin t)) e
        = { a := ⟨fin (sx + ux * (i * t)), fin (sy + uy * (i * t))⟩
            b := ⟨fin (sx + ux * (((i + 1 : Int) : ℚ) * t)),
              fin (sy + uy * (((i + 1 : Int) : ℚ) * t))⟩
            len := fin t, origin_entity := e } := by
      simp only [Vec2f.scale, Flt.ofInt, Flt.mul_fin, Vec2f.mk_add_mk, Flt.add_fin]
      exact make_value env (by push_cast; ring) hpiece e
    simp only [to_short_lines_segment, hline]
    refine ⟨⟨rfl, ?_⟩, ?_, ?_⟩
    · have e1 : (((i + 1 : Int) : ℚ) + (n : ℚ)) = (i : ℚ) + ((n + 1 : Nat) : ℚ) := by
        push_cast; ring
      rw [e1] at h1
      exact h1
    · intro l hl
      rcases List.mem_cons.1 hl with h | h
      · rw [h]
      · exact h2 l h
    · show fin t + lines_length _ = _
      rw [h3, Flt.add_fin]
      congr 1
      push_cast
      ring

theorem edge_run (env : Env) (hzero : env.sqrtf 0 = 0)
    (hpos : ∀ x, 0 < x → 0 < env.sqrtf x)
    (hscale : ∀ (x : ℚ) (n : Nat), 0 < x → 0 < n → env.sqrtf (x / (n * n)) = env.sqrtf x / n)
    (e : Option EntityRef) (L : ℚ) (hL : 0 < L) (p q : ℚ × ℚ)
    (hcount : ⌈env.sqrtf ((q.1 - p.1) * (q.1 - p.1) + (q.2 - p.2) * (q.2 - p.2)) / L⌉
      ≤ 2147483647) :
    ∃ segs : List ExtrusionLine,
      (∀ rest : List Vec2f,
        to_short_lines_loop env e (fin L) (vec p :: vec q :: rest)
          = (to_short_lines_loop env e (fin L) (vec q :: rest)).map fun tail => segs ++ tail) ∧
      runs_from_to (vec q) (vec p) segs ∧
      (∀ l ∈ segs, l.len ≤ fin L) ∧
      lines_length segs
        = fin (env.sqrtf ((q.1 - p.1) * (q.1 - p.1) + (q.2 - p.2) * (q.2 - p.2))) ∧
      (vec q - vec p).norm env.sqrtf
        = fin (env.sqrtf ((q.1 - p.1) * (q.1 - p.1) + (q.2 - p.2) * (q.2 - p.2))) := by
  have hL0 : L ≠ 0 := hL.ne'
  generalize hD : (q.1 - p.1) * (q.1 - p.1) + (q.2 - p.2) * (q.2 - p.2) = D at hcount
  generalize hd : env.sqrtf D = d at hcount
  have hD0 : 0 ≤ D := by
    rw [← hD]
    exact add_nonneg (mul_self_nonneg _) (mul_self_nonneg _)
  have hnorm : (vec q - vec p).norm env.sqrtf = fin d := by
    simp only [vec, Vec2f.mk_sub_mk, Flt.sub_fin, norm_value, hD, hd]
  rcases hD0.eq_or_lt with hD1 | hDpos
  · -- an edge without length
    have hd0 : d = 0 := by rw [← hd, ← hD1, hzero]
    subst hd0
    obtain ⟨hx, hy⟩ := mul_self_add_mul_self_eq_zero.1 (hD.trans hD1.symm)
    have hqp : vec q = vec p := by
      simp only [vec]
      have e1 : q.1 = p.1 := by linarith
      have e2 : q.2 = p.2 := by linarith
      rw [e1, e2]
    have hc : (Flt.ceil (fin (0 / L))).toInt = some 0 :=
      ceil_toInt _ 0 (by rw [zero_div]; exact Int.ceil_zero) (by decide)
    refine ⟨[], ?_, hqp.symm, fun l hl => absurd hl (List.not_mem_nil l), rfl, hnorm⟩
    intro rest
    rw [to_short_lines_loop]
    simp only [hnorm, Flt.div_fin, hL0, if_false, hc, Int.toNat_zero, to_short_lines_segment,
      List.nil_append]
    cases to_short_lines_loop env e (fin L) (vec q :: rest) <;> rfl
  · -- an edge of positive length
    have hdpos : 0 < d := by
      rw [← hd]
      exact hpos D hDpos
    have hd0 : d ≠ 0 := hdpos.ne'
    have hnpos : 0 < ⌈d / L⌉ := Int.ceil_pos.2 (div_pos hdpos hL)
    have hc : (Flt.ceil (fin (d / L))).toInt = some ⌈d / L⌉ :=
      ceil_toInt _ _ rfl ⟨by omega, hcount⟩
    have hnq : (0 : ℚ) < (⌈d / L⌉ : ℚ) := by exact_mod_cast hnpos
    have hnq0 : ((⌈d / L⌉ : Int) : ℚ) ≠ 0 := hnq.ne'
    have hcast : ((⌈d / L⌉.toNat : Nat) : ℚ) = ((⌈d / L⌉ : Int) : ℚ) := by
      have : ((⌈d / L⌉.toNat : Nat) : Int) = ⌈d / L⌉ := Int.toNat_of_nonneg hnpos.le
      exact_mod_cast this
    have hnat : 0 < ⌈d / L⌉.toNat := by
      have : ((⌈d / L⌉.toNat : Nat) : Int) = ⌈d / L⌉ := Int.toNat_of_nonneg hnpos.le
      omega
    have hsqpos : vec q - vec p = ⟨fin (q.1 - p.1), fin (q.2 - p.2)⟩ := by
      simp only [vec, Vec2f.mk_sub_mk, Flt.sub_fin]
    have hnormalized : (vec q - vec p).normalized env.sqrtf
        = ⟨fin ((q.1 - p.1) / d), fin ((q.2 - p.2) / d)⟩ := by
      rw [hsqpos]
      simp only [Vec2f.normalized, Vec2f.squaredNorm, Vec2f.divs, Flt.mul_fin, Flt.add_fin,
        Flt.sqrt_fin, hD, hd, Flt.zero_def, Flt.lt_fin, hDpos, if_true, not_lt.2 hDpos.le,
        if_false, Flt.div_fin, hd0]
    have hpiece : env.sqrtf ((q.1 - p.1) / d * (d / ⌈d / L⌉) * ((q.1 - p.1) / d * (d / ⌈d / L⌉))
        + (q.2 - p.2) / d * (d / ⌈d / L⌉) * ((q.2 - p.2) / d * (d / ⌈d / L⌉)))
        = d / ⌈d / L⌉ := by
      have earg : (q.1 - p.1) / d * (d / ⌈d / L⌉) * ((q.1 - p.1) / d * (d / ⌈d / L⌉))
          + (q.2 - p.2) / d * (d / ⌈d / L⌉) * ((q.2 - p.2) / d * (d / ⌈d / L⌉))
          = D / (((⌈d / L⌉.toNat : Nat) : ℚ) * ((⌈d / L⌉.toNat : Nat) : ℚ)) := by
        rw [hcast, ← hD]
        field_simp
      rw [earg, hscale D _ hDpos hnat, hd, hcast]
    obtain ⟨h1, h2, h3⟩ := segment_run env e p.1 p.2 ((q.1 - p.1) / d) ((q.2 - p.2) / d)
      (d / ⌈d / L⌉) hpiece ⌈d / L⌉.toNat 0
    refine ⟨to_short_lines_segment env e ⟨fin p.1, fin p.2⟩
      ⟨fin ((q.1 - p.1) / d), fin ((q.2 - p.2) / d)⟩ (fin (d / ⌈d / L⌉)) ⌈d / L⌉.toNat 0,
      ?_, ?_, ?_, ?_, hnorm⟩
    · intro rest
      rw [to_short_lines_loop]
      simp only [hnorm, hnormalized, Flt.div_fin, hL0, if_false, hc, Flt.ofInt, hnq0]
      cases to_short_lines_loop env e (fin L) (vec q :: rest) <;> rfl
    · have ea : (⟨fin (p.1 + (q.1 - p.1) / d * (((0 : Int) : ℚ) * (d / ⌈d / L⌉))),
          fin (p.2 + (q.2 - p.2) / d * (((0 : Int) : ℚ) * (d / ⌈d / L⌉)))⟩ : Vec2f) = vec p := by
        simp [vec]
      have eb : (⟨fin (p.1 + (q.1 - p.1) / d
            * ((((0 : Int) : ℚ) + ((⌈d / L⌉.toNat : Nat) : ℚ)) * (d / ⌈d / L⌉))),
          fin (p.2 + (q.2 - p.2) / d
            * ((((0 : Int) : ℚ) + ((⌈d / L⌉.toNat : Nat) : ℚ)) * (d / ⌈d / L⌉)))⟩ : Vec2f)
          = vec q := by
        rw [hcast]
        simp only [vec, Int.cast_zero, zero_add]
        congr 2
        · field_simp
        · field_simp
      rw [ea, eb] at h1
      exact h1
    · intro l hl
      rw [h2 l hl, Flt.le_fin]
      have hle : d / L ≤ (⌈d / L⌉ : ℚ) := Int.le_ceil _
      rw [div_le_iff₀ hnq]
      rw [div_le_iff₀ hL] at hle
      linarith
    · rw [h3, hcast]
      congr 1
      field_simp

theorem loop_run (env : Env) (hzero : env.sqrtf 0 = 0)
    (hpos : ∀ x, 0 < x → 0 < env.sqrtf x)
    (hscale : ∀ (x : ℚ) (n : Nat), 0 < x → 0 < n → env.sqrtf (x / (n * n)) = env.sqrtf x / n)
    (e : Option EntityRef) (L : ℚ) (hL : 0 < L) :
    ∀ (pts : List (ℚ × ℚ)) (p : ℚ × ℚ), counts_fit env L (p :: pts) →
      ∃ (lines : List ExtrusionLine) (total : ℚ),
        to_short_lines_loop env e (fin L) ((p :: pts).map vec) = some lines ∧
        runs_from_to (vec (pts.getLastD p)) (vec p) lines ∧
        (∀ l ∈ lines, l.len ≤ fin L) ∧
        lines_length lines = fin total ∧
        polyline_length env ((p :: pts).map vec) = fin total := by
  intro pts
  induction pts with
  | nil =>
    intro p _
    exact ⟨[], 0, rfl, rfl, fun l hl => absurd hl (List.not_mem_nil l), rfl, rfl⟩
  | cons q rest ih =>
    intro p hcounts
    obtain ⟨hcount, hrest⟩ := hcounts
    obtain ⟨tail, total, ht1, ht2, ht3, ht4, ht5⟩ := ih q hrest
    obtain ⟨segs, hs1, hs2, hs3, hs4, hs5⟩ := edge_run env hzero hpos hscale e L hL p q hcount
    refine ⟨segs ++ tail,
      env.sqrtf ((q.1 - p.1) * (q.1 - p.1) + (q.2 - p.2) * (q.2 - p.2)) + total,
      ?_, ?_, ?_, ?_, ?_⟩
    · simp only [List.map_cons] at ht1 ⊢
      rw [hs1, ht1]
      rfl
    · rw [List.getLastD_cons]
      exact runs_append _ _ _ _ _ hs2 ht2
    · intro l hl
      rcases List.mem_append.1 hl with h | h
      · exact hs3 l h
      · exact ht3 l h
    · rw [lines_length_append, hs4, ht4]
      rfl
    · simp only [List.map_cons] at ht5 ⊢
      rw [polyline_length, hs5, ht5]
      rfl

theorem runs_chain (q : Vec2f) (rest : List ExtrusionLine) :
    ∀ (l : ExtrusionLine) (p : Vec2f), runs_from_to q p (l :: rest) →
      List.Chain' (fun l1 l2 : ExtrusionLine => l2.a = l1.b) (l :: rest) ∧ l.a = p ∧
      (l :: rest).getLast?.map (fun l => l.b) = some q := by
  induction rest with
  | nil =>
    intro l p h
    obtain ⟨h1, h2⟩ := h
    have h3 : l.b = q := h2
    exact ⟨List.chain'_singleton l, h1, by rw [← h3]; rfl⟩
  | cons l2 rest2 ih =>
    intro l p h
    obtain ⟨h1, h2⟩ := h
    obtain ⟨c1, c2, c3⟩ := ih l2 l.b h2
    exact ⟨List.chain'_cons.2 ⟨c2, c1⟩, h1, by rw [List.getLast?_cons_cons]; exact c3⟩

/-- C26 (resampling).  Arithmetic is taken as exact: the points of the polyline have finite
coordinates, sums, products and quotients are exact, and the square root `env.sqrtf` obeys the
laws of the square root: it is 0 at 0, positive on positive values, and
`sqrt (x / (n * n)) = sqrt x / n` for every positive `x` and every positive whole number `n`.
For every polyline with at least one point and every `length_limit > 0`, no condition being
put on the lengths of its edges beyond a number of pieces per edge that fits an `int`
(`counts_fit`), `to_short_lines` returns lines such that: every line has a length of at most
`length_limit`; every line starts where the line before it ends; the first line starts at the
first point of the polyline and the last line ends at its last point; and the lengths of the
lines sum to the length of the polyline. -/
theorem resampling (env : Env) (hzero : env.sqrtf 0 = 0)
    (hpos : ∀ x, 0 < x → 0 < env.sqrtf x)
    (hscale : ∀ (x : ℚ) (n : Nat), 0 < x → 0 < n → env.sqrtf (x / (n * n)) = env.sqrtf x / n)
    (e : Option EntityRef) (length_limit : ℚ) (hlimit : 0 < length_limit) (p : ℚ × ℚ)
    (pts : List (ℚ × ℚ)) (hcounts : counts_fit env length_limit (p :: pts)) :
    ∃ (lines : List ExtrusionLine) (total : ℚ),
      to_short_lines env e ((p :: pts).map vec) (fin length_limit) = some lines ∧
      (∀ l ∈ lines, l.len ≤ fin length_limit) ∧
      List.Chain' (fun l1 l2 : ExtrusionLine => l2.a = l1.b) lines ∧
      lines.head?.map (fun l => l.a) = some (vec p) ∧
      lines.getLast?.map (fun l => l.b) = some (vec (pts.getLastD p)) ∧
      lines_length lines = fin total ∧
      polyline_length env ((p :: pts).map vec) = fin total := by
  obtain ⟨lines, total, h1, h2, h3, h4, h5⟩ := loop_run env hzero hpos hscale e length_limit
    hlimit pts p hcounts
  have hfirst : ExtrusionLine.make env (vec p) (vec p) e
      = { a := vec p, b := vec p, len := fin 0, origin_entity := e } :=
    make_value env (by ring) hzero e
  have hrun : to_short_lines env e ((p :: pts).map vec) (fin length_limit)
      = some ({ a := vec p, b := vec p, len := fin 0, origin_entity := e } :: lines) := by
    simp only [List.map_cons] at h1 ⊢
    simp only [to_short_lines, h1, hfirst]
  obtain ⟨c1, c2, c3⟩ := runs_chain (vec (pts.getLastD p)) lines
    { a := vec p, b := vec p, len := fin 0, origin_entity := e } (vec p) ⟨rfl, h2⟩
  refine ⟨_, total, hrun, ?_, c1, rfl, c3, ?_, h5⟩
  · intro l hl
    rcases List.mem_cons.1 hl with h | h
    · rw [h, Flt.le_fin]
      exact hlimit.le
    · exact h3 l h
  · show fin 0 + lines_length lines = _
    rw [h4, Flt.add_fin, zero_add]

/-- Witness of C26: the polyline `polyline_diagonal`, whose first edge has the irrational
length `12 * sqrt 2`, resampled with the limit of 16 mm under the square root
`sqrt_homogeneous`: both edges are cut into two lines. -/
theorem resampling_witness :
    counts_fit env_homogeneous 16 polyline_diagonal ∧
    ∃ lines : List ExtrusionLine,
      to_short_lines env_homogeneous none (polyline_diagonal.map vec) (fin 16) = some lines ∧
      (∀ l ∈ lines, l.len ≤ fin 16) ∧
      List.Chain' (fun l1 l2 : ExtrusionLine => l2.a = l1.b) lines ∧
      lines.map (fun l => l.b)
        = [vec (0, 0), vec (6, 6), vec (12, 12), vec (22, 12), vec (32, 12)] ∧
      lines.map (fun l => l.len)
        = [fin 0, fin (2121 / 250), fin (2121 / 250), fin 10, fin 10] ∧
      lines_length lines = fin (4621 / 125) ∧
      polyline_length env_homogeneous (polyline_diagonal.map vec) = fin (4621 / 125) := by
  have hcounts : counts_fit env_homogeneous 16 polyline_diagonal := by
    show _ ≤ _ ∧ _ ≤ _ ∧ True
    decide!
  obtain ⟨lines, total, h1, h2, h3, -, -, h6, h7⟩ :=
    resampling env_homogeneous sqrt_homogeneous_zero sqrt_homogeneous_pos
      sqrt_homogeneous_scale none 16 (by norm_num) (0, 0) [(12, 12), (32, 12)] hcounts
  have hlen : polyline_length env_homogeneous (polyline_diagonal.map vec)
      = fin (4621 / 125) := by decide!
  have htotal : total = 4621 / 125 := Flt.fin.inj (h7.symm.trans hlen)
  rw [htotal] at h6
  have hb : (to_short_lines env_homogeneous none (polyline_diagonal.map vec) (fin 16)).map
      (fun ls => (ls.map (fun l => l.b), ls.map (fun l => l.len)))
      = some ([vec (0, 0), vec (6, 6), vec (12, 12), vec (22, 12), vec (32, 12)],
          [fin 0, fin (2121 / 250), fin (2121 / 250), fin 10, fin 10]) := by
    decide!
  have h1b : to_short_lines env_homogeneous none (polyline_diagonal.map vec) (fin 16)
      = some lines := h1
  rw [h1b] at hb
  have hb2 := Option.some.inj hb
  exact ⟨hcounts, lines, h1, h2, h3, (Prod.mk.inj hb2).1, (Prod.mk.inj hb2).2, h6, hlen⟩

/-! ### C29: the indices of the island graph -/

theorem values_valid_mono {n k : Nat} (h : n ≤ k) {values : List Nat}
    (hv : values_valid n values) : values_valid k values := by
  intro v hmem
  rcases hv v hmem with e | e
  · exact Or.inl e
  · exact Or.inr (lt_of_lt_of_le e h)

theorem values_valid_set {n : Nat} {values : List Nat} (hv : values_valid n values)
    (i value : Nat) (hvalue : value = NULL_ISLAND ∨ value < n) :
    values_valid n (values.set i value) := by
  intro v hmem
  rcases List.mem_or_eq_of_mem_set hmem with h | h
  · exact hv v h
  · rw [h]
    exact hvalue

theorem add_lines_mapping (env : Env) (layer : Layer) (first_layer : Bool)
    (flow_width : Flt) (layer_lines : List ExtrusionLine) (island_number n : Nat)
    (hn : island_number < n) (lidxs : List Nat) :
    ∀ (island island2 : Island) (mapping mapping2 : List Nat),
      reckon_islands_add_lines env layer first_layer flow_width layer_lines island_number lidxs
        island mapping = some (island2, mapping2) →
      values_valid n mapping → values_valid n mapping2 := by
  induction lidxs with
  | nil =>
    intro island island2 mapping mapping2 h hv
    simp only [reckon_islands_add_lines, Option.some.injEq, Prod.mk.injEq] at h
    rw [← h.2]
    exact hv
  | cons lidx rest ih =>
    intro island island2 mapping mapping2 h hv
    rw [reckon_islands_add_lines] at h
    split_ifs at h
    · cases hl : layer_lines.get? lidx with
      | none => simp only [hl] at h; cases h
      | some line =>
        simp only [hl] at h
        cases ha : reckon_islands_add_line env layer first_layer flow_width island line with
        | none => simp only [ha] at h; cases h
        | some island1 =>
          simp only [ha] at h
          exact ih _ _ _ _ h (values_valid_set hv lidx island_number (Or.inr hn))

theorem add_extrusions_mapping (env : Env) (layer : Layer) (first_layer : Bool)
    (flow_width : Flt) (layer_lines : List ExtrusionLine) (extrusions : List (Nat × Nat))
    (island_number n : Nat) (hn : island_number < n) (island_ex : List Nat) :
    ∀ (island island2 : Island) (mapping mapping2 : List Nat),
      reckon_islands_add_extrusions env layer first_layer flow_width layer_lines extrusions
        island_number island_ex island mapping = some (island2, mapping2) →
      values_valid n mapping → values_valid n mapping2 := by
  induction island_ex with
  | nil =>
    intro island island2 mapping mapping2 h hv
    simp only [reckon_islands_add_extrusions, Option.some.injEq, Prod.mk.injEq] at h
    rw [← h.2]
    exact hv
  | cons extrusion_idx rest ih =>
    intro island island2 mapping mapping2 h hv
    rw [reckon_islands_add_extrusions] at h
    cases he : extrusions.get? extrusion_idx with
    | none => simp only [he] at h; cases h
    | some extrusion =>
      simp only [he] at h
      cases hl : layer_lines.get? extrusion.1 with
      | none => simp only [hl] at h; cases h
      | some first_line =>
        simp only [hl] at h
        cases ho : first_line.origin_entity with
        | none => simp only [ho] at h; cases h
        | some origin_entity =>
          simp only [ho] at h
          split at h
          · cases h
          · rename_i island1 mapping1 hadd
            exact ih _ _ _ _ h
              (add_lines_mapping env layer first_layer flow_width layer_lines island_number n hn
                _ _ _ _ _ hadd hv)

theorem build_mapping (env : Env) (layer : Layer) (first_layer : Bool) (flow_width : Flt)
    (layer_lines : List ExtrusionLine) (extrusions : List (Nat × Nat))
    (island_extrusions : List (List Nat)) :
    ∀ (islands islands2 : List Island) (mapping mapping2 : List Nat),
      reckon_islands_build env layer first_layer flow_width layer_lines extrusions
        island_extrusions islands mapping = some (islands2, mapping2) →
      values_valid islands.length mapping → values_valid islands2.length mapping2 := by
  induction island_extrusions with
  | nil =>
    intro islands islands2 mapping mapping2 h hv
    simp only [reckon_islands_build, Option.some.injEq, Prod.mk.injEq] at h
    rw [← h.1, ← h.2]
    exact hv
  | cons island_ex rest ih =>
    intro islands islands2 mapping mapping2 h hv
    rw [reckon_islands_build] at h
    split_ifs at h
    · exact ih _ _ _ _ h hv
    · cases ha : reckon_islands_add_extrusions env layer first_layer flow_width layer_lines
          extrusions islands.length island_ex {} mapping with
      | none => simp only [ha] at h; cases h
      | some r =>
        obtain ⟨island1, mapping1⟩ := r
        simp only [ha] at h
        refine ih _ _ _ _ h ?_
        rw [List.length_append, List.length_singleton]
        exact add_extrusions_mapping env layer first_layer flow_width layer_lines extrusions
          islands.length (islands.length + 1) (Nat.lt_succ_self _) island_ex _ _ _ _ ha
          (values_valid_mono (Nat.le_succ _) hv)

theorem islands_mapping (env : Env) (layer : Layer) (first_layer : Bool)
    (layer_lines : List ExtrusionLine) (islands : List Island) (mapping : List Nat)
    (h : reckon_islands_islands env layer first_layer layer_lines = some (islands, mapping)) :
    values_valid islands.length mapping := by
  unfold reckon_islands_islands at h
  cases hext : reckon_islands_extrusions layer_lines 0 none [] with
  | none => rw [hext] at h; cases h
  | some extrusions =>
    rw [hext] at h
    dsimp only at h
    cases hassign : reckon_islands_assign env layer_lines layer.lslices extrusions 0
        (layer.lslices.map fun _ => []) with
    | none => rw [hassign] at h; cases h
    | some island_extrusions =>
      rw [hassign] at h
      dsimp only at h
      cases hregions : layer.regions with
      | nil => rw [hregions] at h; cases h
      | cons region regions =>
        rw [hregions] at h
        dsimp only at h
        refine build_mapping env layer first_layer _ layer_lines extrusions island_extrusions
          [] islands _ mapping h ?_
        intro v hv
        obtain ⟨_, _, rfl⟩ := List.mem_map.1 hv
        exact Or.inl rfl

theorem set_pixel_valid {n : Nat} {grid grid2 : PixelGrid} {position : Vec2f} {value : Nat}
    (h : grid.set_pixel position value = some grid2) (hv : values_valid n grid.pixels)
    (hvalue : value = NULL_ISLAND ∨ value < n) : values_valid n grid2.pixels := by
  unfold PixelGrid.set_pixel at h
  cases hc : grid.to_pixel_coords position with
  | none => simp only [hc] at h; cases h
  | some c =>
    simp only [hc] at h
    split_ifs at h
    obtain rfl := Option.some.inj h
    exact values_valid_set hv _ _ hvalue

theorem distribute_edge_loop_valid {n : Nat} (p1 dir : Vec2f) (length step_size : Flt)
    (value : Nat) (hvalue : value = NULL_ISLAND ∨ value < n) (fuel : Nat) :
    ∀ (d : Flt) (grid grid2 : PixelGrid),
      PixelGrid.distribute_edge_loop p1 dir length step_size value fuel d grid = some grid2 →
      values_valid n grid.pixels → values_valid n grid2.pixels := by
  induction fuel with
  | zero =>
    intro d grid grid2 h hv
    rw [PixelGrid.distribute_edge_loop] at h
    split_ifs at h
    obtain rfl := Option.some.inj h
    exact hv
  | succ f ih =>
    intro d grid grid2 h hv
    rw [PixelGrid.distribute_edge_loop] at h
    split_ifs at h
    · simp only [] at h
      cases hs : grid.set_pixel
          (p1 + Vec2f.smul (Flt.min length (d + step_size) / length) dir) value with
      | none => simp only [hs] at h; cases h
      | some g1 =>
        simp only [hs] at h
        exact ih _ _ _ h (set_pixel_valid hs hv hvalue)
    · obtain rfl := Option.some.inj h
      exact hv

theorem distribute_edge_valid {n : Nat} (env : Env) {grid grid2 : PixelGrid} (p1 p2 : Vec2f)
    (value : Nat) (hvalue : value = NULL_ISLAND ∨ value < n)
    (h : grid.distribute_edge env p1 p2 value = some grid2)
    (hv : values_valid n grid.pixels) : values_valid n grid2.pixels := by
  unfold PixelGrid.distribute_edge at h
  simp only [] at h
  split_ifs at h
  · obtain rfl := Option.some.inj h
    exact hv
  · exact distribute_edge_loop_valid _ _ _ _ value hvalue _ _ _ _ h hv

theorem rasterize_valid {n : Nat} (env : Env) (lines : List ExtrusionLine) :
    ∀ (mapping : List Nat) (grid grid2 : PixelGrid),
      reckon_islands_rasterize env lines mapping grid = some grid2 →
      values_valid n mapping → values_valid n grid.pixels → values_valid n grid2.pixels := by
  induction lines with
  | nil =>
    intro mapping grid grid2 h _ hv
    simp only [reckon_islands_rasterize, Option.some.injEq] at h
    rw [← h]
    exact hv
  | cons line rest ih =>
    intro mapping grid grid2 h hm hv
    cases mapping with
    | nil => simp only [reckon_islands_rasterize] at h; cases h
    | cons island mapping_rest =>
      simp only [reckon_islands_rasterize] at h
      cases hd : grid.distribute_edge env line.a line.b island with
      | none => simp only [hd] at h; cases h
      | some g1 =>
        simp only [hd] at h
        exact ih _ _ _ h (fun v hmem => hm v (List.mem_cons_of_mem _ hmem))
          (distribute_edge_valid env _ _ island (hm island (List.mem_cons_self _ _)) hd hv)

theorem clear_valid (n : Nat) (grid : PixelGrid) : values_valid n grid.clear.pixels := by
  intro v hv
  obtain ⟨_, _, rfl⟩ := List.mem_map.1 hv
  exact Or.inl rfl

theorem connect_step_keys (current_layer_grid prev_layer_grid : PixelGrid) (layer_z : Flt)
    (islands : List Island) (c : Nat × Nat)
    (hc : current_layer_grid.overlap prev_layer_grid c = true)
    (h : ∀ island ∈ islands, ∀ e ∈ island.connected_islands,
      e.1 ≠ NULL_ISLAND ∧ e.1 ∈ prev_layer_grid.pixels) :
    ∀ island ∈ connect_step current_layer_grid prev_layer_grid layer_z islands c,
      ∀ e ∈ island.connected_islands, e.1 ≠ NULL_ISLAND ∧ e.1 ∈ prev_layer_grid.pixels := by
  unfold connect_step
  split
  · rename_i current previous island0 hcur hprev hi
    have hkey : previous ≠ NULL_ISLAND ∧ previous ∈ prev_layer_grid.pixels := by
      refine ⟨?_, List.get?_mem hprev⟩
      unfold PixelGrid.overlap at hc
      rw [hcur, hprev] at hc
      simp only [ne_eq, decide_not, Bool.and_eq_true, Bool.not_eq_eq_eq_not, Bool.not_true,
        decide_eq_false_iff_not] at hc
      exact hc.2
    intro island hmem e he
    rcases List.mem_or_eq_of_mem_set hmem with hmem | hmem
    · exact h island hmem e he
    · rw [hmem] at he
      rcases mem_connection_update _ _ _ _ he with he | ⟨_, _, he⟩
      · exact h island0 (List.get?_mem hi) e he
      · rw [he]
        exact hkey
  · exact h

theorem foldl_connect_step_keys (current_layer_grid prev_layer_grid : PixelGrid)
    (layer_z : Flt) (cs : List (Nat × Nat)) :
    ∀ islands : List Island,
      (∀ c ∈ cs, current_layer_grid.overlap prev_layer_grid c = true) →
      (∀ island ∈ islands, ∀ e ∈ island.connected_islands,
        e.1 ≠ NULL_ISLAND ∧ e.1 ∈ prev_layer_grid.pixels) →
      ∀ island ∈ cs.foldl (connect_step current_layer_grid prev_layer_grid layer_z) islands,
        ∀ e ∈ island.connected_islands, e.1 ≠ NULL_ISLAND ∧ e.1 ∈ prev_layer_grid.pixels := by
  induction cs with
  | nil => intro islands _ h; exact h
  | cons c rest ih =>
    intro islands hcs h
    rw [List.foldl_cons]
    exact ih _ (fun c2 hc2 => hcs c2 (List.mem_cons_of_mem _ hc2))
      (connect_step_keys current_layer_grid prev_layer_grid layer_z islands c
        (hcs c (List.mem_cons_self _ _)) h)

theorem filter_subset (params : Params) (island : Island) :
    ∀ e ∈ (reckon_islands_filter params island).connected_islands,
      e ∈ island.connected_islands := by
  intro e he
  unfold reckon_islands_filter at he
  simp only [] at he
  rw [foldl_erase] at he
  exact (List.mem_filter.1 he).1

theorem reckon_islands_valid (env : Env) (layer : Layer) (first_layer : Bool)
    (prev_layer_grid : PixelGrid) (layer_lines : List ExtrusionLine) (params : Params)
    (result : LayerIslands) (grid : PixelGrid)
    (h : reckon_islands env layer first_layer prev_layer_grid layer_lines params
      = some (result, grid)) :
    values_valid result.islands.length grid.pixels ∧
    ∀ island ∈ result.islands, ∀ e ∈ island.connected_islands,
      e.1 ≠ NULL_ISLAND ∧ e.1 ∈ prev_layer_grid.pixels := by
  unfold reckon_islands at h
  cases hacc : reckon_islands_accumulated env layer first_layer prev_layer_grid layer_lines with
  | none => simp [hacc] at h
  | some r =>
    obtain ⟨islands, grid2⟩ := r
    simp only [hacc, Option.some.injEq, Prod.mk.injEq] at h
    obtain ⟨h1, h2⟩ := h
    subst h1; subst h2
    obtain ⟨islands0, mapping, hi, hr, hc⟩ := accumulated_parts env layer first_layer
      prev_layer_grid layer_lines islands grid2 hacc
    obtain ⟨hfold, -⟩ := connect_columns_fold grid2 prev_layer_grid layer.slice_z _ _ _ _ hc
    have hlen : islands.length = islands0.length := by
      rw [hfold]
      exact foldl_connect_step_length grid2 prev_layer_grid layer.slice_z _ islands0
    refine ⟨?_, ?_⟩
    · show values_valid (islands.map (reckon_islands_filter params)).length grid2.pixels
      rw [List.length_map, hlen]
      exact rasterize_valid env layer_lines mapping _ _ hr
        (islands_mapping env layer first_layer layer_lines islands0 mapping hi)
        (clear_valid _ _)
    · intro island hmem e he
      obtain ⟨island1, hmem1, rfl⟩ := List.mem_map.1 hmem
      have he1 := filter_subset params island1 e he
      have hkeys := foldl_connect_step_keys grid2 prev_layer_grid layer.slice_z
        ((PixelGrid.coords grid2).filter (grid2.overlap prev_layer_grid)) islands0
        (fun c hc2 => (List.mem_filter.1 hc2).2)
        (fun island hi2 e he2 => by
          rw [islands_connections env layer first_layer layer_lines islands0 mapping hi island
            hi2] at he2
          exact absurd he2 (List.not_mem_nil e))
      rw [hfold] at hmem1
      exact hkeys island1 hmem1 e he1

theorem graph_keys_valid_concat (layer_islands : LayerIslands) :
    ∀ (pre : List LayerIslands) (last : LayerIslands) (n : Nat),
      graph_keys_valid n (pre ++ [last]) →
      (∀ island ∈ layer_islands.islands, ∀ connection ∈ island.connected_islands,
        connection.1 < last.islands.length ∧ connection.1 ≠ NULL_ISLAND) →
      graph_keys_valid n ((pre ++ [last]) ++ [layer_islands]) := by
  intro pre
  induction pre with
  | nil =>
    intro last n h hk
    exact ⟨h.1, hk, trivial⟩
  | cons x rest ih =>
    intro last n h hk
    exact ⟨h.1, ih last _ h.2 hk⟩

theorem build_graph_layer_valid (env : Env) (params : Params) (st st2 : BuildState)
    (layer : Layer) (h : build_graph_layer env params st layer = some st2)
    (hinv : ∃ pre last, st.islands_graph = pre ++ [last] ∧
      values_valid last.islands.length st.prev_layer_grid.pixels ∧
      graph_keys_valid 0 st.islands_graph) :
    ∃ pre last, st2.islands_graph = pre ++ [last] ∧
      values_valid last.islands.length st2.prev_layer_grid.pixels ∧
      graph_keys_valid 0 st2.islands_graph := by
  unfold build_graph_layer at h
  cases hr : build_graph_regions env layer st.external_lines params layer.regions []
      st.issues with
  | none => simp only [hr] at h; cases h
  | some r =>
    obtain ⟨layer_lines, issues⟩ := r
    simp only [hr] at h
    cases hi : reckon_islands env layer false st.prev_layer_grid layer_lines params with
    | none => simp only [hi] at h; cases h
    | some r2 =>
      obtain ⟨layer_islands, layer_grid⟩ := r2
      simp only [hi] at h
      obtain rfl := Option.some.inj h
      obtain ⟨pre, last, hg, hv, hk⟩ := hinv
      obtain ⟨hgrid, hkeys⟩ := reckon_islands_valid env layer false st.prev_layer_grid
        layer_lines params layer_islands layer_grid hi
      refine ⟨st.islands_graph, layer_islands, rfl, hgrid, ?_⟩
      show graph_keys_valid 0 (st.islands_graph ++ [layer_islands])
      rw [hg] at hk ⊢
      refine graph_keys_valid_concat layer_islands pre last 0 hk ?_
      intro island hmem e he
      obtain ⟨hne, hpix⟩ := hkeys island hmem e he
      rcases hv e.1 hpix with h0 | h0
      · exact absurd h0 hne
      · exact ⟨h0, hne⟩

theorem build_graph_layers_valid (env : Env) (params : Params) (layers : List Layer) :
    ∀ (st st2 : BuildState), build_graph_layers env params layers st = some st2 →
      (∃ pre last, st.islands_graph = pre ++ [last] ∧
        values_valid last.islands.length st.prev_layer_grid.pixels ∧
        graph_keys_valid 0 st.islands_graph) →
      graph_keys_valid 0 st2.islands_graph := by
  induction layers with
  | nil =>
    intro st st2 h hinv
    simp only [build_graph_layers, Option.some.injEq] at h
    rw [← h]
    obtain ⟨_, _, _, _, hk⟩ := hinv
    exact hk
  | cons layer rest ih =>
    intro st st2 h hinv
    rw [build_graph_layers] at h
    cases hl : build_graph_layer env params st layer with
    | none => simp only [hl] at h; cases h
    | some st1 =>
      simp only [hl] at h
      exact ih st1 st2 h (build_graph_layer_valid env params st st1 layer hl hinv)

theorem make_pixels (env : Env) (po : PrintObject) (resolution : Flt) (grid : PixelGrid)
    (h : PixelGrid.make env po resolution = some grid) : ∀ v ∈ grid.pixels, v = NULL_ISLAND := by
  unfold PixelGrid.make at h
  simp only [] at h
  split at h
  · split_ifs at h
    obtain rfl := Option.some.inj h
    intro v hv
    obtain ⟨_, _, rfl⟩ := List.mem_map.1 hv
    rfl
  · cases h

theorem build_graph_valid (env : Env) (po : PrintObject) (params : Params) (issues : Issues)
    (malformations : Malformations) (graph : List LayerIslands)
    (h : check_extrusions_and_build_graph env po params = some (issues, malformations, graph)) :
    graph_keys_valid 0 graph := by
  unfold check_extrusions_and_build_graph at h
  cases h1 : po.layers.getLast? with
  | none => simp only [h1] at h; cases h
  | some last_layer =>
    simp only [h1] at h
    cases h2 : last_layer.regions with
    | nil => simp only [h2] at h; cases h
    | cons last_region regions =>
      simp only [h2] at h
      cases h3 : PixelGrid.make env po
          (get_flow_width last_region .erExternalPerimeter * fin 2) with
      | none => simp only [h3] at h; cases h
      | some prev_layer_grid =>
        simp only [h3] at h
        cases h4 : po.layers with
        | nil => simp only [h4] at h; cases h
        | cons layer layers =>
          simp only [h4] at h
          cases h5 : build_graph_base_regions env layer.regions [] with
          | none => simp only [h5] at h; cases h
          | some layer_lines =>
            simp only [h5] at h
            cases h6 : reckon_islands env layer true prev_layer_grid layer_lines params with
            | none => simp only [h6] at h; cases h
            | some r =>
              obtain ⟨layer_islands, layer_grid⟩ := r
              simp only [h6] at h
              cases h7 : build_graph_layers env params layers
                  { malformations := { layers := [[]] }
                    islands_graph := [layer_islands]
                    external_lines := layer_lines
                    prev_layer_grid := layer_grid } with
              | none => simp only [h7] at h; cases h
              | some st =>
                simp only [h7, Option.some.injEq, Prod.mk.injEq] at h
                obtain ⟨-, -, rfl⟩ := h
                obtain ⟨hgrid, hkeys⟩ := reckon_islands_valid env layer true prev_layer_grid
                  layer_lines params layer_islands layer_grid h6
                refine build_graph_layers_valid env params layers _ st h7
                  ⟨[], layer_islands, rfl, hgrid, ?_, trivial⟩
                intro island hmem e he
                obtain ⟨hne, hpix⟩ := hkeys island hmem e he
                exact absurd (make_pixels env po _ prev_layer_grid h3 e.1 hpix) hne

theorem emplace_same {α : Type} {m : Nat → Option α} {k : Nat} (h : m k = none) (v : α) :
    emplace m k v k = some v := by
  simp [emplace, h]

theorem emplace_other {α : Type} {m : Nat → Option α} {k i : Nat} (h : m k = none) (v : α)
    (hi : i ≠ k) : emplace m k v i = m i := by
  simp [emplace, h, Function.update, hi]

theorem connect_ready (env : Env) (set_order : List Nat → List Nat)
    (horder : ∀ l, (set_order l).Perm l) (layer_z : Flt) (st : GlobalState)
    (count island_idx : Nat) (island : Island) (hready : lookups_ready st count island_idx)
    (hkeys : ∀ connection ∈ island.connected_islands, connection.1 < count) :
    ∃ st2, check_global_stability_connect env set_order layer_z st island_idx island = some st2 ∧
      lookups_ready st2 count (island_idx + 1) := by
  obtain ⟨hwf, hprev, hnext, hnone⟩ := hready
  have hn1 := (hnone island_idx le_rfl).1
  have hn2 := (hnone island_idx le_rfl).2
  by_cases hempty : island.connected_islands = []
  · -- a new object part
    have hconn : check_global_stability_connect env set_order layer_z st island_idx island
        = some { st with
            active_object_parts := (st.active_object_parts.insert island).2
            next_island_to_object_part_mapping :=
              emplace st.next_island_to_object_part_mapping island_idx
                st.active_object_parts.next_part_idx
            next_island_weakest_connection :=
              emplace st.next_island_weakest_connection island_idx sentinel_connection } := by
      simp only [check_global_stability_connect, hempty, List.isEmpty_nil, if_true]
      rfl
    refine ⟨_, hconn, hwf.insert island, ?_, ?_, ?_⟩
    · intro i hi
      obtain ⟨pid, w, e1, e2, e3⟩ := hprev i hi
      exact ⟨pid, w, e1, Nat.lt_succ_of_lt e2, e3⟩
    · intro i hi
      by_cases e : i = island_idx
      · subst e
        exact ⟨st.active_object_parts.next_part_idx, sentinel_connection,
          emplace_same hn1 _, Nat.lt_succ_self _, emplace_same hn2 _⟩
      · obtain ⟨pid, w, e1, e2, e3⟩ := hnext i (by omega)
        refine ⟨pid, w, ?_, Nat.lt_succ_of_lt e2, ?_⟩
        · exact (emplace_other hn1 _ e).trans e1
        · exact (emplace_other hn2 _ e).trans e3
    · intro i hi
      have e : i ≠ island_idx := by omega
      obtain ⟨e1, e2⟩ := hnone i (by omega)
      refine ⟨?_, ?_⟩
      · exact (emplace_other hn1 _ e).trans e1
      · exact (emplace_other hn2 _ e).trans e2
  · -- the merge of the parts below the island
    obtain ⟨st2, final, ids, hconn, hwf2, hidx, -, -, -, -, hpart, -, hmap, hweak, hpm, hpw,
      -, -⟩ := connect_spec env set_order layer_z st island_idx island hwf hempty horder
        (fun kc hkc => hprev kc.1 (hkeys kc hkc))
    have hfinal : final < st2.active_object_parts.next_part_idx := by
      apply hwf2.root_lt
      apply (hwf2.parts_iff final).1
      rw [hpart]
      rfl
    refine ⟨st2, hconn, hwf2, ?_, ?_, ?_⟩
    · intro i hi
      obtain ⟨pid, w, e1, e2, e3⟩ := hprev i hi
      exact ⟨pid, w, by rw [hpm]; exact e1, by rw [hidx]; exact e2, by rw [hpw]; exact e3⟩
    · intro i hi
      rw [hmap, hweak]
      by_cases e : i = island_idx
      · subst e
        exact ⟨final, _, emplace_same hn1 _, hfinal, emplace_same hn2 _⟩
      · obtain ⟨pid, w, e1, e2, e3⟩ := hnext i (by omega)
        refine ⟨pid, w, ?_, by rw [hidx]; exact e2, ?_⟩
        · exact (emplace_other hn1 _ e).trans e1
        · exact (emplace_other hn2 _ e).trans e3
    · intro i hi
      have e : i ≠ island_idx := by omega
      obtain ⟨e1, e2⟩ := hnone i (by omega)
      rw [hmap, hweak]
      refine ⟨?_, ?_⟩
      · exact (emplace_other hn1 _ e).trans e1
      · exact (emplace_other hn2 _ e).trans e2

theorem connect_all_ready (env : Env) (set_order : List Nat → List Nat)
    (horder : ∀ l, (set_order l).Perm l) (layer_z : Flt) (count : Nat) (islands : List Island) :
    ∀ (island_idx : Nat) (st : GlobalState), lookups_ready st count island_idx →
      (∀ island ∈ islands, ∀ connection ∈ island.connected_islands, connection.1 < count) →
      ∃ st2, check_global_stability_connect_all env set_order layer_z islands island_idx st
          = some st2 ∧
        lookups_ready st2 count (island_idx + islands.length) := by
  induction islands with
  | nil =>
    intro island_idx st hready _
    exact ⟨st, rfl, hready⟩
  | cons island rest ih =>
    intro island_idx st hready hkeys
    obtain ⟨st1, h1, hr1⟩ := connect_ready env set_order horder layer_z st count island_idx
      island hready (hkeys island (List.mem_cons_self _ _))
    obtain ⟨st2, h2, hr2⟩ := ih (island_idx + 1) st1 hr1
      (fun x hx => hkeys x (List.mem_cons_of_mem _ hx))
    refine ⟨st2, ?_, ?_⟩
    · simp only [check_global_stability_connect_all, h1]
      exact h2
    · rw [List.length_cons]
      have e : island_idx + (rest.length + 1) = island_idx + 1 + rest.length := by omega
      rw [e]
      exact hr2

theorem island_ready (env : Env) (params : Params) (layer_z : Flt) (st st2 : GlobalState)
    (count island_idx : Nat) (island : Island) (hidx : island_idx < count)
    (hready : lookups_ready st count 0)
    (h : check_global_stability_island env params layer_z st island_idx island = some st2) :
    lookups_ready st2 count 0 := by
  obtain ⟨hwf, hprev, -, hnone⟩ := hready
  obtain ⟨pid, w, hpid, hlt, hw⟩ := hprev island_idx hidx
  have hdef : index_or_default st.prev_island_to_object_part_mapping island_idx = pid := by
    simp [index_or_default, hpid]
  unfold check_global_stability_island at h
  rw [hdef] at h
  obtain ⟨r, k, hc⟩ := hwf.total pid hlt
  obtain ⟨s1, hget, hwf1, hparts1, hnext1, hcomp⟩ := hwf.get_flat_id hc
  have hroot1 : s1.active_object_parts_id_mapping r = some r :=
    (hcomp.root_iff r).2 hc.root_self
  simp only [hget] at h
  cases hp : s1.active_object_parts r with
  | none => simp only [hp] at h; cases h
  | some part =>
    simp only [hp] at h
    cases hrun : check_global_stability_probe_all env params layer_z island.external_lines
        island.external_lines
        { part := part
          weakest_conn := index_or_default st.prev_island_weakest_connection island_idx
          unchecked_dist := params.min_distance_between_support_points + fin 1
          issues := st.issues
          supports_presence_grid := st.supports_presence_grid } with
    | none => simp only [hrun] at h; cases h
    | some ps =>
      simp only [hrun, Option.some.injEq] at h
      subst h
      refine ⟨hwf1.set_part hroot1 ps.part hp, ?_, fun i hi => absurd hi (Nat.not_lt_zero i),
        hnone⟩
      intro i hi
      obtain ⟨pid2, w2, e1, e2, e3⟩ := hprev i hi
      by_cases e : i = island_idx
      · subst e
        refine ⟨pid, ps.weakest_conn, ?_, ?_, ?_⟩
        · show Function.update _ _ _ _ = _
          rw [Function.update_same]
        · show pid < s1.next_part_idx
          rw [hnext1]
          exact hlt
        · show Function.update _ _ _ _ = _
          rw [Function.update_same]
      · refine ⟨pid2, w2, ?_, ?_, ?_⟩
        · show Function.update _ _ _ _ = _
          rw [Function.update_noteq e]
          exact e1
        · show pid2 < s1.next_part_idx
          rw [hnext1]
          exact e2
        · show Function.update _ _ _ _ = _
          rw [Function.update_noteq e]
          exact e3

theorem island_all_ready (env : Env) (params : Params) (layer_z : Flt) (count : Nat)
    (islands : List Island) :
    ∀ (island_idx : Nat) (st st2 : GlobalState), island_idx + islands.length ≤ count →
      lookups_ready st count 0 →
      check_global_stability_island_all env params layer_z islands island_idx st = some st2 →
      lookups_ready st2 count 0 := by
  induction islands with
  | nil =>
    intro island_idx st st2 _ hready h
    simp only [check_global_stability_island_all, Option.some.injEq] at h
    rw [← h]
    exact hready
  | cons island rest ih =>
    intro island_idx st st2 hle hready h
    rw [List.length_cons] at hle
    rw [check_global_stability_island_all] at h
    cases h1 : check_global_stability_island env params layer_z st island_idx island with
    | none => simp only [h1] at h; cases h
    | some st1 =>
      simp only [h1] at h
      exact ih (island_idx + 1) st1 st2 (by omega)
        (island_ready env params layer_z st st1 count island_idx island (by omega) hready h1) h

theorem layer_ready (env : Env) (set_order : List Nat → List Nat)
    (horder : ∀ l, (set_order l).Perm l) (params : Params) (st : GlobalState) (count : Nat)
    (layer : LayerIslands) (hready : lookups_ready st count 0)
    (hkeys : ∀ island ∈ layer.islands, ∀ connection ∈ island.connected_islands,
      connection.1 < count) :
    (∃ st1, check_global_stability_connect_all env set_order layer.layer_z layer.islands 0 st
      = some st1) ∧
    ∀ st2, check_global_stability_layer env set_order params st layer = some st2 →
      lookups_ready st2 layer.islands.length 0 := by
  obtain ⟨st1, h1, hwf1, -, hnext1, -⟩ := connect_all_ready env set_order horder layer.layer_z
    count layer.islands 0 st hready hkeys
  refine ⟨⟨st1, h1⟩, ?_⟩
  intro st2 h
  unfold check_global_stability_layer at h
  simp only [h1] at h
  have h2 : check_global_stability_island_all env params layer.layer_z layer.islands 0
      { st1 with
        prev_island_to_object_part_mapping := st1.next_island_to_object_part_mapping
        next_island_to_object_part_mapping := fun _ => none
        prev_island_weakest_connection := st1.next_island_weakest_connection
        next_island_weakest_connection := fun _ => none } = some st2 := h
  have hready2 : lookups_ready
      { st1 with
        prev_island_to_object_part_mapping := st1.next_island_to_object_part_mapping
        next_island_to_object_part_mapping := fun _ => none
        prev_island_weakest_connection := st1.next_island_weakest_connection
        next_island_weakest_connection := fun _ => none } layer.islands.length 0 :=
    ⟨hwf1, fun i hi => hnext1 i (by omega), fun i hi => absurd hi (Nat.not_lt_zero i),
      fun i _ => ⟨rfl, rfl⟩⟩
  exact island_all_ready env params layer.layer_z layer.islands.length layer.islands 0 _ st2
    (by omega) hready2 h2

theorem layers_ready (env : Env) (set_order : List Nat → List Nat)
    (horder : ∀ l, (set_order l).Perm l) (params : Params) (pre : List LayerIslands) :
    ∀ (st st1 : GlobalState) (count : Nat) (layer : LayerIslands) (post : List LayerIslands),
      lookups_ready st count 0 → graph_keys_valid count (pre ++ layer :: post) →
      check_global_stability_layers env set_order params pre st = some st1 →
      ∃ n, lookups_ready st1 n 0 ∧
        ∀ island ∈ layer.islands, ∀ connection ∈ island.connected_islands,
          connection.1 < n := by
  induction pre with
  | nil =>
    intro st st1 count layer post hready hvalid h
    simp only [check_global_stability_layers, Option.some.injEq] at h
    subst h
    exact ⟨count, hready, fun island hi c hc => (hvalid.1 island hi c hc).1⟩
  | cons x rest ih =>
    intro st st1 count layer post hready hvalid h
    rw [check_global_stability_layers] at h
    cases hx : check_global_stability_layer env set_order params st x with
    | none => simp only [hx] at h; cases h
    | some sx =>
      simp only [hx] at h
      have hrx := (layer_ready env set_order horder params st count x hready
        (fun island hi c hc => (hvalid.1 island hi c hc).1)).2 sx hx
      exact ih sx st1 x.islands.length layer post hrx hvalid.2 h

/-- C29 (graph indices are valid).  In the island graph that `check_extrusions_and_build_graph`
returns, the keys of the connections of every island are island indices of the layer before:
they are below its number of islands and are not `NULL_ISLAND` (`graph_keys_valid`), and the
islands of the first layer have no connection.  Every non-empty pixel of the grid that
`reckon_islands` returns with a layer is the index of an island of that layer.  And on such a
graph, whenever `check_global_stability` has gone through the layers `pre` and reaches the next
layer, the part id and the weakest connection of every predecessor of every island of that
layer are recorded, and the first island loop of the layer, which makes the lookups
`prev_island_to_object_part_mapping.at` and `prev_island_weakest_connection.at`, runs to its
end. -/
theorem graph_indices_valid (env : Env) (po : PrintObject) (params : Params) (issues : Issues)
    (malformations : Malformations) (graph : List LayerIslands)
    (hbuild : check_extrusions_and_build_graph env po params
      = some (issues, malformations, graph)) :
    graph_keys_valid 0 graph ∧
    (∀ first, graph.head? = some first →
      ∀ island ∈ first.islands, island.connected_islands = []) ∧
    (∀ (layer : Layer) (first_layer : Bool) (prev_layer_grid : PixelGrid)
      (layer_lines : List ExtrusionLine) (layer_islands : LayerIslands) (grid : PixelGrid),
      reckon_islands env layer first_layer prev_layer_grid layer_lines params
        = some (layer_islands, grid) →
      ∀ v ∈ grid.pixels, v ≠ NULL_ISLAND → v < layer_islands.islands.length) ∧
    (∀ (set_order : List Nat → List Nat) (supports_presence_grid : SupportGridFilter)
      (pre : List LayerIslands) (layer : LayerIslands) (post : List LayerIslands)
      (st : GlobalState),
      (∀ l, (set_order l).Perm l) → graph = pre ++ layer :: post →
      check_global_stability_layers env set_order params pre
        { supports_presence_grid := supports_presence_grid } = some st →
      (∀ island ∈ layer.islands, ∀ connection ∈ island.connected_islands,
        ∃ pid w, st.prev_island_to_object_part_mapping connection.1 = some pid ∧
          st.prev_island_weakest_connection connection.1 = some w) ∧
      ∃ st2, check_global_stability_connect_all env set_order layer.layer_z layer.islands 0 st
        = some st2) := by
  have hvalid := build_graph_valid env po params issues malformations graph hbuild
  refine ⟨hvalid, ?_, ?_, ?_⟩
  · intro first hfirst island hmem
    cases graph with
    | nil => cases hfirst
    | cons x rest =>
      obtain rfl := Option.some.inj hfirst
      cases hc : island.connected_islands with
      | nil => rfl
      | cons c cs =>
        have := (hvalid.1 island hmem c (by rw [hc]; exact List.mem_cons_self _ _)).1
        exact absurd this (Nat.not_lt_zero _)
  · intro layer first_layer prev_layer_grid layer_lines layer_islands grid hrun v hv hne
    rcases (reckon_islands_valid env layer first_layer prev_layer_grid layer_lines params
      layer_islands grid hrun).1 v hv with h | h
    · exact absurd h hne
    · exact h
  · intro set_order supports_presence_grid pre layer post st horder hgraph hrun
    have hready0 : lookups_ready { supports_presence_grid := supports_presence_grid } 0 0 :=
      ⟨ActiveObjectParts.WF.empty, fun i hi => absurd hi (Nat.not_lt_zero i),
        fun i hi => absurd hi (Nat.not_lt_zero i), fun i _ => ⟨rfl, rfl⟩⟩
    rw [hgraph] at hvalid
    obtain ⟨n, hready, hkeys⟩ := layers_ready env set_order horder params pre _ st 0 layer post
      hready0 hvalid hrun
    refine ⟨?_, (layer_ready env set_order horder params st n layer hready hkeys).1⟩
    intro island hmem connection hc
    obtain ⟨pid, w, e1, -, e3⟩ := hready.2.1 connection.1 (hkeys island hmem connection hc)
    exact ⟨pid, w, e1, e3⟩

/-- Witness of C29: the graph of `po_overhang`, in which the first island of the second layer
rests on the island 0 of the first layer. -/
theorem graph_indices_valid_witness :
    ∃ (issues : Issues) (malformations : Malformations) (graph : List LayerIslands),
      check_extrusions_and_build_graph env_exact po_overhang params0
        = some (issues, malformations, graph) ∧
      graph.map (fun layer => layer.islands.map fun island =>
        island.connected_islands.map fun connection => connection.1) = [[[]], [[0], []]] ∧
      graph_keys_valid 0 graph := by
  obtain ⟨r, hr⟩ := Option.isSome_iff_exists.1
    (by decide! : (check_extrusions_and_build_graph env_exact po_overhang params0).isSome
      = true)
  have hkeys : (check_extrusions_and_build_graph env_exact po_overhang params0).map
      (fun r => r.2.2.map fun layer => layer.islands.map fun island =>
        island.connected_islands.map fun connection => connection.1)
      = some [[[]], [[0], []]] := by decide!
  rw [hr] at hkeys
  exact ⟨r.1, r.2.1, r.2.2, hr, Option.some.inj hkeys,
    (graph_indices_valid env_exact po_overhang params0 r.1 r.2.1 r.2.2 hr).1⟩

end SupportSpotsGenerator
